import Mathlib

/-!
# KallistiOS GD-ROM driver (`kernel/arch/dreamcast/hardware/cdrom.c`)

A shallow embedding of the driver's command channel, abort/recovery path,
sector transfer front end, table-of-contents accessor, status query,
re-initialisation, streaming interface and DMA completion handler, together
with theorems about them.

The driver talks to the hardware through BIOS system calls.  Every such call,
every lock operation and every scheduler interaction is recorded as an `Event`
in a chronological trace; the hardware itself is a `Stub`, whose answers may
depend on the whole history of events so far.

Conventions of the embedding:
* one thread runs one driver operation at a time; `mutex_lock` is recorded as an
  event and taken to succeed;
* the DMA interrupt is delivered only while the thread is suspended in
  `sem_wait`: the handler `g1_dma_irq_hnd` then runs on the world of the thread;
* the polling loops `do { ... } while(1)` take an iteration bound (fuel) and
  yield `none` when it is reached, so a result `some _` is a call that returns;
* `int` values are integers, the `uint64_t` timer arithmetic and the
  `unsigned` conversions are written out modulo `2^64` and `2^32`;
* the header `dc/cdrom.h` is not part of the sources: its constants carry the
  values of the KallistiOS header.
-/

namespace Cdrom

/-! ## Constants of `dc/cdrom.h` -/

/-- Modelled from the spec: the header `dc/cdrom.h` is not among the sources; the
error code `Ok` of the driver's result taxonomy. -/
def ERR_OK : Int := 0
/-- Modelled from the spec: error code `NoDisc` (header `dc/cdrom.h` missing). -/
def ERR_NO_DISC : Int := 1
/-- Modelled from the spec: error code `DiscChanged` (header `dc/cdrom.h` missing). -/
def ERR_DISC_CHG : Int := 2
/-- Modelled from the spec: error code `Sys` (header `dc/cdrom.h` missing). -/
def ERR_SYS : Int := 3
/-- Modelled from the spec: error code `NoActive` (header `dc/cdrom.h` missing). -/
def ERR_NO_ACTIVE : Int := 5
/-- Modelled from the spec: error code `Timeout` (header `dc/cdrom.h` missing). -/
def ERR_TIMEOUT : Int := 6

/-- Modelled from the spec: command state `NoActive` (header `dc/cdrom.h` missing). -/
def NO_ACTIVE : Int := 0
/-- Modelled from the spec: command state `Processing` (header `dc/cdrom.h` missing). -/
def PROCESSING : Int := 1
/-- Modelled from the spec: command state `Completed` (header `dc/cdrom.h` missing). -/
def COMPLETED : Int := 2
/-- Modelled from the spec: command state `Streaming` (header `dc/cdrom.h` missing). -/
def STREAMING : Int := 3
/-- Modelled from the spec: command state `Busy` (header `dc/cdrom.h` missing). -/
def BUSY : Int := 4

/-- Modelled from the spec: transfer mode `Pio` (header `dc/cdrom.h` missing). -/
def CDROM_READ_PIO : Int := 0
/-- Modelled from the spec: transfer mode `Dma` (header `dc/cdrom.h` missing). -/
def CDROM_READ_DMA : Int := 1

/-- Modelled from the spec: command code of the PIO sector read (header missing). -/
def CMD_PIOREAD : Int := 16
/-- Modelled from the spec: command code of the DMA sector read (header missing). -/
def CMD_DMAREAD : Int := 17

/-- Modelled from the spec: command code of the drive initialisation (header missing). -/
def CMD_INIT : Int := 24
/-- Modelled from the spec: command code of the DMA streaming read (header missing). -/
def CMD_DMAREAD_STREAM : Int := 28
/-- Modelled from the spec: command code of the PIO streaming read (header missing). -/
def CMD_PIOREAD_STREAM : Int := 37

/-- Modelled from the spec: sector part "whole sector" of `dc/cdrom.h` (missing). -/
def CDROM_READ_WHOLE_SECTOR : Int := 0x1000
/-- Modelled from the spec: sector part "data area" of `dc/cdrom.h` (missing). -/
def CDROM_READ_DATA_AREA : Int := 0x2000

/-- Modelled from the spec: `MEM_AREA_CACHE_MASK` of `arch/memory.h` (missing), the
mask that maps an address into the cacheable-alias range. -/
def MEM_AREA_CACHE_MASK : Nat := 0x1fffffff

/-! ## Table of contents -/

/-- Modelled from the spec: `TOC_TRACK` of `dc/cdrom.h` (missing), the track
number held in bits 16..23 of a TOC word. -/
def TOC_TRACK (n : Nat) : Nat := (n / 2 ^ 16) % 2 ^ 8

/-- Modelled from the spec: `TOC_CTRL` of `dc/cdrom.h` (missing), the control
nibble held in bits 28..31 of a TOC word. -/
def TOC_CTRL (n : Nat) : Nat := (n / 2 ^ 28) % 2 ^ 4

/-- Modelled from the spec: `TOC_LBA` of `dc/cdrom.h` (missing), the low 24 bits
of a TOC word. -/
def TOC_LBA (n : Nat) : Nat := n % 2 ^ 24

/-- Modelled from the spec: `CDROM_TOC` of `dc/cdrom.h` (missing): the packed
track entries (99 of them in a well-formed TOC) and the first/last markers. -/
structure CDROM_TOC where
  entry : List Nat
  first : Nat
  last : Nat
  deriving DecidableEq, Repr

/-- The loop `for(i = last; i >= first; i--)` of `cdrom_locate_data_track`.
The argument is the loop variable `i`; `none` is a read outside `entry`. -/
def locate_loop (toc : CDROM_TOC) (first : Nat) : Nat → Option Nat
  | 0 => if first ≤ 0 then none else some 0
  | i + 1 =>
    if first ≤ i + 1 then
      match toc.entry[i]? with
      | none => none
      | some e => if TOC_CTRL e = 4 then some (TOC_LBA e) else locate_loop toc first i
    else some 0

/-- `cdrom_locate_data_track`: the LBA of the data track, `none` when the
code would read outside the `entry` array. -/
def cdrom_locate_data_track (toc : CDROM_TOC) : Option Nat :=
  let first := TOC_TRACK toc.first
  let last := TOC_TRACK toc.last
  if first < 1 ∨ last > 99 ∨ first > last then some 0
  else locate_loop toc first last

/-- Reference definition of the data-track lookup, in the words of the
specification: 0 on an invalid track range, otherwise the LBA of `entry[i-1]`
for the largest `i` in `first..last` whose control is 4, and 0 when there is
none. -/
def locate_data_track_ref (toc : CDROM_TOC) : Nat :=
  let first := TOC_TRACK toc.first
  let last := TOC_TRACK toc.last
  if first < 1 ∨ last > 99 ∨ first > last then 0
  else
    let i := Nat.findGreatest
      (fun i => first ≤ i ∧ TOC_CTRL (toc.entry.getD (i - 1) 0) = 4) last
    if i = 0 then 0 else TOC_LBA (toc.entry.getD (i - 1) 0)

/-! ## Hardware interface and driver state -/

/-- Modelled from the spec: `CMD_MAX` of `dc/cdrom.h` (missing), the exclusive
upper bound of the valid command codes. -/
def CMD_MAX : Int := 47

/-- The array `int32_t status[4]` handed to `syscall_gdrom_check_command`. -/
structure Status where
  err1 : Int
  err2 : Int
  size : Int
  ata : Int
  deriving DecidableEq, Repr

/-- The initialiser `{0, 0, 0, 0}` of the status array. -/
def Status.zero : Status := ⟨0, 0, 0, 0⟩

/-- One interaction of the driver with its environment: the G1 ATA mutex,
the BIOS system calls, the scheduler, the millisecond timer and the data
cache.  Values returned by the environment are recorded in the event.
Diagnostic `dbglog` output is not an interaction and is left out. -/
inductive Event where
  | mutex_lock
  | mutex_unlock
  | send_command (cmd : Int) (param : List Int) (hnd : Int)
  | exec_server
  | check_command (hnd : Int) (rv : Int) (status : Status)
  | abort_command (hnd : Int)
  | reset
  | init
  | thd_pass
  | timer_ms_gettime64 (ms : Nat)
  | dcache_inval_range (start : Nat) (count : Nat)
  | mutex_trylock (rv : Int)
  | mutex_unlock_as_thread (thd : Nat)
  | check_drive (rv : Int) (status disc_type : Nat)
  | sector_mode (params : List Nat) (rv : Int)
  | dma_transfer (hnd : Int) (params : List Int) (rv : Int)
  | pio_transfer (hnd : Int) (params : List Int) (rv : Int)
  | dma_check (hnd : Int) (rv : Int) (size : Nat)
  | pio_check (hnd : Int) (rv : Int) (size : Nat)
  | dma_callback
  | sem_wait
  | sem_signal
  | thd_schedule
  deriving DecidableEq, Repr

/-- The environment of the driver.  Each answer may depend on every event that
happened before the call (the first argument).
* `send_command h cmd param` is the handle returned by
  `syscall_gdrom_send_command`;
* `check_command h hnd status` is the state returned by
  `syscall_gdrom_check_command` and the contents of the status array after it;
* `timer_ms h` is the millisecond clock behind `timer_ms_gettime64`;
* `check_drive h` is the result of `syscall_gdrom_check_drive` and the two
  words it leaves in `params[0]`, `params[1]`;
* `sector_mode h params` is the result of `syscall_gdrom_sector_mode`;
* `dma_transfer h hnd params`, `pio_transfer h hnd params` are the results of
  `syscall_gdrom_dma_transfer`, `syscall_gdrom_pio_transfer`;
* `dma_check h hnd size`, `pio_check h hnd size` are the results of
  `syscall_gdrom_dma_check`, `syscall_gdrom_pio_check` and the value they leave
  in `*size` (`size` being its value before the call);
* `irq_inside_int h` is the value of `irq_inside_int()`;
* `mutex_trylock h` is the result of `mutex_trylock` (0 when the lock was
  acquired);
* `thd_current h` identifies the running thread;
* `dma_irq h` tells whether the DMA interrupt is delivered while the thread
  is suspended in `sem_wait`. -/
structure Stub where
  send_command : List Event → Int → List Int → Int
  check_command : List Event → Int → Status → Int × Status
  timer_ms : List Event → Nat
  check_drive : List Event → Int × Nat × Nat
  sector_mode : List Event → List Nat → Int
  dma_transfer : List Event → Int → List Int → Int
  pio_transfer : List Event → Int → List Int → Int
  dma_check : List Event → Int → Nat → Int × Nat
  pio_check : List Event → Int → Nat → Int × Nat
  irq_inside_int : List Event → Int
  mutex_trylock : List Event → Int
  thd_current : List Event → Nat
  dma_irq : List Event → Bool

/-- The file-scope variables of `cdrom.c`; `dma_thd` is the identity of the
recorded thread (0 for `NULL`), `dma_done` the count of the semaphore. -/
structure Driver where
  cmd_hnd : Int
  stream_mode : Int
  dma_in_progress : Int
  dma_blocking : Int
  cur_sector_size : Int
  dma_thd : Nat
  dma_done : Nat
  deriving DecidableEq, Repr

/-- The static initialisers of the file-scope variables. -/
def Driver.initial : Driver :=
  { cmd_hnd := 0, stream_mode := 0, dma_in_progress := 0, dma_blocking := 0,
    cur_sector_size := 2048, dma_thd := 0, dma_done := 0 }

/-- Driver variables together with the chronological trace of events. -/
structure World where
  drv : Driver
  trace : List Event
  deriving DecidableEq, Repr

/-- Append one event to the trace. -/
def World.emit (w : World) (e : Event) : World :=
  { w with trace := w.trace ++ [e] }

/-- The assignment `cmd_hnd = h`. -/
def World.set_cmd_hnd (w : World) (h : Int) : World :=
  { w with drv := { w.drv with cmd_hnd := h } }

/-- Conversion of an `int` to `unsigned` / `uint32_t`. -/
def to_uint32 (x : Int) : Nat := (x % 2 ^ 32).toNat

/-- The `uint64_t` value read from the millisecond timer. -/
def read_timer (s : Stub) (w : World) : Nat := s.timer_ms w.trace % 2 ^ 64

/-- The `uint64_t` difference `now - begin`. -/
def elapsed (now begin : Nat) : Nat := (now + 2 ^ 64 - begin) % 2 ^ 64

/-! ## Abort / recovery -/

/-- The polling loop of `cdrom_abort_cmd`; the result is `rv`.  The fuel bounds
the number of iterations; `none` means the bound was reached. -/
def abort_poll (s : Stub) (timeout begin : Nat) : Nat → Status → World → Option (Int × World)
  | 0, _, _ => none
  | fuel + 1, status, w =>
    let w1 := w.emit .exec_server
    let r := s.check_command w1.trace w1.drv.cmd_hnd status
    let w2 := w1.emit (.check_command w1.drv.cmd_hnd r.1 r.2)
    if r.1 = NO_ACTIVE ∨ r.1 = COMPLETED then some (ERR_OK, w2)
    else if timeout ≠ 0 then
      let w3 := w2.emit (.timer_ms_gettime64 (read_timer s w2))
      if timeout ≤ elapsed (read_timer s w2) begin then
        some (ERR_TIMEOUT, (w3.emit .reset).emit .init)
      else abort_poll s timeout begin fuel r.2 (w3.emit .thd_pass)
    else abort_poll s timeout begin fuel r.2 (w2.emit .thd_pass)

/-- `cdrom_abort_cmd(timeout)`: the returned code and the world after the call;
`none` when the polling loop does not finish within `fuel` iterations. -/
def cdrom_abort_cmd (s : Stub) (fuel : Nat) (timeout : Nat) (w : World) : Option (Int × World) :=
  if w.drv.cmd_hnd ≤ 0 then some (ERR_NO_ACTIVE, w)
  else
    let w1 := (w.emit .mutex_lock).emit (.abort_command w.drv.cmd_hnd)
    let w2 := if timeout ≠ 0 then w1.emit (.timer_ms_gettime64 (read_timer s w1)) else w1
    let begin := if timeout ≠ 0 then read_timer s w1 else 0
    match abort_poll s timeout begin fuel Status.zero w2 with
    | none => none
    | some (rv, w3) => some (rv, (w3.set_cmd_hnd 0).emit .mutex_unlock)

/-! ## Command channel -/

/-- The submission loop `for(n = 0; n < 10; ++n)` of `cdrom_exec_cmd_timed`.
The first numeric argument is the number of attempts left, the second the
current value of `hnd`; the result is `hnd` after the loop. -/
def submit_loop (s : Stub) (cmd : Int) (param : List Int) : Nat → Int → World → Int × World
  | 0, hnd, w => (hnd, w)
  | k + 1, _, w =>
    let hnd := s.send_command w.trace cmd param
    let w1 := w.emit (.send_command cmd param hnd)
    if hnd ≠ 0 then (hnd, w1)
    else submit_loop s cmd param k hnd ((w1.emit .exec_server).emit .thd_pass)

/-- The polling loop of `cdrom_exec_cmd_timed`; the result is `(n, rv, status)`
and the world.  `fuelA` is the iteration bound given to the nested
`cdrom_abort_cmd`; `none` means an iteration bound was reached. -/
def exec_poll (s : Stub) (fuelA : Nat) (hnd : Int) (timeout : Int) (begin : Nat) :
    Nat → Status → World → Option (Int × Int × Status × World)
  | 0, _, _ => none
  | fuel + 1, status, w =>
    let w1 := w.emit .exec_server
    let r := s.check_command w1.trace hnd status
    let w2 := w1.emit (.check_command hnd r.1 r.2)
    if r.1 ≠ PROCESSING ∧ r.1 ≠ BUSY then some (r.1, ERR_OK, r.2, w2)
    else if timeout ≠ 0 then
      let w3 := w2.emit (.timer_ms_gettime64 (read_timer s w2))
      if to_uint32 timeout ≤ elapsed (read_timer s w2) begin then
        match cdrom_abort_cmd s fuelA (to_uint32 timeout) (w3.emit .mutex_unlock) with
        | none => none
        | some (_, w5) => some (r.1, ERR_TIMEOUT, r.2, w5)
      else exec_poll s fuelA hnd timeout begin fuel r.2 (w3.emit .thd_pass)
    else exec_poll s fuelA hnd timeout begin fuel r.2 (w2.emit .thd_pass)

/-- The final translation of `cdrom_exec_cmd_timed` (the `if`/`switch` cascade
after the lock has been released).  The test of `status[1]` that follows the
`switch` in the source cannot be reached, every case of the `switch`
returning. -/
def exec_result (rv n : Int) (status : Status) : Int :=
  if rv ≠ ERR_OK then rv
  else if n = COMPLETED ∨ n = STREAMING then ERR_OK
  else if n = NO_ACTIVE then ERR_NO_ACTIVE
  else if status.err1 = 2 then ERR_NO_DISC
  else if status.err1 = 6 then ERR_DISC_CHG
  else ERR_SYS

/-- `cdrom_exec_cmd_timed(cmd, param, timeout)`: the returned code and the world
after the call.  `none` when the call does not return: the assertion on `cmd`
fails, or a polling loop does not finish within `fuel` iterations. -/
def cdrom_exec_cmd_timed (s : Stub) (fuel : Nat) (cmd : Int) (param : List Int)
    (timeout : Int) (w : World) : Option (Int × World) :=
  if 0 < cmd ∧ cmd < CMD_MAX then
    let sub := submit_loop s cmd param 10 0 (w.emit .mutex_lock)
    if sub.1 ≤ 0 then some (ERR_SYS, sub.2.emit .mutex_unlock)
    else
      let w2 := if timeout ≠ 0 then sub.2.emit (.timer_ms_gettime64 (read_timer s sub.2))
        else sub.2
      let begin := if timeout ≠ 0 then read_timer s sub.2 else 0
      match exec_poll s fuel sub.1 timeout begin fuel Status.zero w2 with
      | none => none
      | some (n, rv, status, w3) =>
        let w4 := w3.set_cmd_hnd (if n = STREAMING then sub.1 else 0)
        some (exec_result rv n status,
          if rv ≠ ERR_TIMEOUT then w4.emit .mutex_unlock else w4)
  else none

/-- `cdrom_exec_cmd(cmd, param)`: the timed call with no timeout. -/
def cdrom_exec_cmd (s : Stub) (fuel : Nat) (cmd : Int) (param : List Int) (w : World) :
    Option (Int × World) :=
  cdrom_exec_cmd_timed s fuel cmd param 0 w

/-! ## Sector transfer -/

/-- `cdrom_read_sectors_ex(buffer, sector, cnt, mode)`; `buffer` is the address
held by the pointer.  The parameter block is `{sec, num, buffer, is_test}`. -/
def cdrom_read_sectors_ex (s : Stub) (fuel : Nat) (buffer : Nat) (sector cnt mode : Int)
    (w : World) : Option (Int × World) :=
  if mode = CDROM_READ_DMA then
    if buffer &&& 0x1f ≠ 0 then some (ERR_SYS, w)
    else
      let w1 := if buffer >>> 24 = 0x0c then
          w.emit (.dcache_inval_range (buffer &&& MEM_AREA_CACHE_MASK)
            (to_uint32 (cnt * w.drv.cur_sector_size)))
        else w
      cdrom_exec_cmd s fuel CMD_DMAREAD
        [sector, cnt, ((buffer &&& MEM_AREA_CACHE_MASK : Nat) : Int), 0] w1
  else if mode = CDROM_READ_PIO then
    if buffer &&& 0x01 ≠ 0 then some (ERR_SYS, w)
    else cdrom_exec_cmd s fuel CMD_PIOREAD [sector, cnt, (buffer : Int), 0] w
  else some (ERR_OK, w)

/-! ## Drive state query -/

/-- Conversion of a `uint32_t` or `size_t` to `int`. -/
def to_int32 (n : Nat) : Int :=
  if n % 2 ^ 32 < 2 ^ 31 then ((n % 2 ^ 32 : Nat) : Int)
  else ((n % 2 ^ 32 : Nat) : Int) - 2 ^ 32

/-- Replace the driver variables. -/
def World.set_drv (w : World) (d : Driver) : World := { w with drv := d }

/-- The polling loop of `cdrom_get_status`; the result is `rv`, `params[0]`,
`params[1]` and the world. -/
def status_poll (s : Stub) : Nat → World → Option (Int × Nat × Nat × World)
  | 0, _ => none
  | fuel + 1, w =>
    let r := s.check_drive w.trace
    let w1 := w.emit (.check_drive r.1 r.2.1 r.2.2)
    if r.1 ≠ BUSY then some (r.1, r.2.1, r.2.2, w1)
    else status_poll s fuel (w1.emit .thd_pass)

/-- The part of `cdrom_get_status` that runs once the lock is held. -/
def get_status_locked (s : Stub) (fuel : Nat) (w : World) :
    Option (Int × Option (Int × Int) × World) :=
  match status_poll s fuel w with
  | none => none
  | some r =>
    some (r.1,
      if 0 ≤ r.1 then some (to_int32 r.2.1, to_int32 r.2.2.1) else some (-1, -1),
      r.2.2.2.emit .mutex_unlock)

/-- `cdrom_get_status(status, disc_type)` with both pointers non-`NULL`: the
returned value, the pair stored through the pointers (`none` when nothing is
stored) and the world after the call. -/
def cdrom_get_status (s : Stub) (fuel : Nat) (w : World) :
    Option (Int × Option (Int × Int) × World) :=
  if s.irq_inside_int w.trace ≠ 0 then
    if s.mutex_trylock w.trace ≠ 0 then
      some (-1, none, w.emit (.mutex_trylock (s.mutex_trylock w.trace)))
    else get_status_locked s fuel (w.emit (.mutex_trylock (s.mutex_trylock w.trace)))
  else get_status_locked s fuel (w.emit .mutex_lock)

/-! ## Sector format and reinitialisation -/

/-- The tail of `cdrom_change_datatype`: fill `params`, remember the sector
size, call `syscall_gdrom_sector_mode`, unlock. -/
def datatype_finish (s : Stub) (sector_part cdxa sector_size : Int) (w : World) :
    Int × World :=
  let w1 := w.set_drv { w.drv with cur_sector_size := sector_size }
  let params := [0, to_uint32 sector_part, to_uint32 cdxa, to_uint32 sector_size]
  (s.sector_mode w1.trace params,
    (w1.emit (.sector_mode params (s.sector_mode w1.trace params))).emit .mutex_unlock)

/-- `cdrom_change_datatype(sector_part, cdxa, sector_size)`. -/
def cdrom_change_datatype (s : Stub) (sector_part cdxa sector_size : Int) (w : World) :
    Int × World :=
  let w0 := w.emit .mutex_lock
  if sector_size = 2352 then
    datatype_finish s
      (if sector_part = -1 then CDROM_READ_WHOLE_SECTOR else sector_part)
      (if cdxa = -1 then 0 else cdxa) sector_size w0
  else
    let r := s.check_drive w0.trace
    datatype_finish s
      (if sector_part = -1 then CDROM_READ_DATA_AREA else sector_part)
      (if cdxa = -1 then (if r.2.2 = 32 then 2048 else 1024) else cdxa)
      (if sector_size = -1 then 2048 else sector_size)
      (if cdxa = -1 then w0.emit (.check_drive r.1 r.2.1 r.2.2) else w0)

/-- The loop `do { r = cdrom_exec_cmd_timed(CMD_INIT, NULL, 10000); }
while(r == ERR_DISC_CHG)` of `cdrom_reinit_ex`.  `fuelE` bounds the loops of
each `cdrom_exec_cmd_timed`, the numeric argument the number of rounds. -/
def reinit_loop (s : Stub) (fuelE : Nat) : Nat → World → Option (Int × World)
  | 0, _ => none
  | fuel + 1, w =>
    match cdrom_exec_cmd_timed s fuelE CMD_INIT [] 10000 w with
    | none => none
    | some r => if r.1 = ERR_DISC_CHG then reinit_loop s fuelE fuel r.2 else some r

/-- `cdrom_reinit_ex(sector_part, cdxa, sector_size)`. -/
def cdrom_reinit_ex (s : Stub) (fuel : Nat) (sector_part cdxa sector_size : Int) (w : World) :
    Option (Int × World) :=
  match reinit_loop s fuel fuel w with
  | none => none
  | some r =>
    if r.1 = ERR_NO_DISC ∨ r.1 = ERR_SYS ∨ r.1 = ERR_TIMEOUT then some r
    else some (cdrom_change_datatype s sector_part cdxa sector_size r.2)

/-- `cdrom_reinit()`. -/
def cdrom_reinit (s : Stub) (fuel : Nat) (w : World) : Option (Int × World) :=
  cdrom_reinit_ex s fuel (-1) (-1) (-1) w

/-- `cdrom_set_sector_size(size)`. -/
def cdrom_set_sector_size (s : Stub) (fuel : Nat) (size : Int) (w : World) :
    Option (Int × World) :=
  cdrom_reinit_ex s fuel (-1) (-1) size w

/-! ## DMA completion handler and semaphore -/

/-- `sem_signal(&dma_done)`. -/
def World.sem_signal (w : World) : World :=
  (w.set_drv { w.drv with dma_done := w.drv.dma_done + 1 }).emit .sem_signal

/-- The interrupt handler `g1_dma_irq_hnd`. -/
def g1_dma_irq_hnd (w : World) : World :=
  if w.drv.dma_in_progress ≠ 0 then
    let w1 := (w.emit .dma_callback).set_drv { w.drv with dma_in_progress := 0 }
    if w.drv.dma_blocking ≠ 0 then
      (((w1.set_drv { w1.drv with dma_blocking := 0 }).emit
        (.mutex_unlock_as_thread w.drv.dma_thd)).sem_signal).emit .thd_schedule
    else w1
  else w

/-- `sem_wait(&dma_done)`.  The call returns at once when the semaphore has
been signalled already; otherwise the thread is suspended, and it resumes when
the DMA interrupt is delivered and its handler signals the semaphore.  `none`:
the thread stays suspended. -/
def sem_wait (s : Stub) (w : World) : Option World :=
  let w1 := w.emit .sem_wait
  if 0 < w1.drv.dma_done then
    some (w1.set_drv { w1.drv with dma_done := w1.drv.dma_done - 1 })
  else if s.dma_irq w1.trace then
    let w2 := g1_dma_irq_hnd w1
    if 0 < w2.drv.dma_done then
      some (w2.set_drv { w2.drv with dma_done := w2.drv.dma_done - 1 })
    else none
  else none

/-! ## Streaming -/

/-- `cdrom_stream_start(sector, cnt, mode)`. -/
def cdrom_stream_start (s : Stub) (fuel : Nat) (sector cnt mode : Int) (w : World) :
    Option (Int × World) :=
  match (if 0 < w.drv.cmd_hnd then (cdrom_abort_cmd s fuel 1000 w).map (fun r => r.2)
      else some w) with
  | none => none
  | some w1 =>
    match (if mode = CDROM_READ_DMA then
          cdrom_exec_cmd s fuel CMD_DMAREAD_STREAM [sector, cnt] w1
        else if mode = CDROM_READ_PIO then
          cdrom_exec_cmd s fuel CMD_PIOREAD_STREAM [sector, cnt] w1
        else some (ERR_SYS, w1)) with
    | none => none
    | some r =>
      some (r.1,
        if r.1 = ERR_OK then r.2.set_drv { r.2.drv with stream_mode := mode } else r.2)

/-- `cdrom_stream_progress(size)`: the returned value, the value stored in
`*size` (when `size` is not `NULL`) and the world after the call. -/
def cdrom_stream_progress (s : Stub) (w : World) : Int × Nat × World :=
  if w.drv.cmd_hnd ≤ 0 then (0, 0, w)
  else
    let w1 := w.emit .mutex_lock
    if w.drv.stream_mode = CDROM_READ_DMA then
      let r := s.dma_check w1.trace w.drv.cmd_hnd 0
      let w2 := w1.emit (.dma_check w.drv.cmd_hnd r.1 r.2)
      (r.1, r.2, (if r.1 = 0 then w2.emit .exec_server else w2).emit .mutex_unlock)
    else if w.drv.stream_mode = CDROM_READ_PIO then
      let r := s.pio_check w1.trace w.drv.cmd_hnd 0
      let w2 := w1.emit (.pio_check w.drv.cmd_hnd r.1 r.2)
      (r.1, r.2, (if r.1 = 0 then w2.emit .exec_server else w2).emit .mutex_unlock)
    else (0, 0, (w1.emit .exec_server).emit .mutex_unlock)

/-- The polling loop of `cdrom_stream_stop`; the result is `(rs, rv)` and the
world.  `fuelA` is the iteration bound given to the nested `cdrom_abort_cmd`. -/
def stop_poll (s : Stub) (fuelA : Nat) : Nat → Status → World → Option (Int × Int × World)
  | 0, _, _ => none
  | fuel + 1, status, w =>
    let w1 := w.emit .exec_server
    let r := s.check_command w1.trace w1.drv.cmd_hnd status
    let w2 := w1.emit (.check_command w1.drv.cmd_hnd r.1 r.2)
    if r.1 < 0 then some (r.1, ERR_SYS, w2)
    else if r.1 = COMPLETED ∨ r.1 = NO_ACTIVE then some (r.1, ERR_OK, w2)
    else if r.1 = STREAMING then
      match cdrom_abort_cmd s fuelA 1000 (w2.emit .mutex_unlock) with
      | none => none
      | some a => some (r.1, ERR_OK, a.2)
    else stop_poll s fuelA fuel r.2 (w2.emit .thd_pass)

/-- The end of `cdrom_stream_stop`: `if (dma_in_progress) { ... }`. -/
def stop_clear_dma (w : World) : World :=
  if w.drv.dma_in_progress ≠ 0 then
    if w.drv.dma_blocking ≠ 0 then
      (w.set_drv { w.drv with dma_in_progress := 0, dma_blocking := 0 }).sem_signal
    else w.set_drv { w.drv with dma_in_progress := 0 }
  else w

/-- `cdrom_stream_stop()`. -/
def cdrom_stream_stop (s : Stub) (fuel : Nat) (w : World) : Option (Int × World) :=
  if w.drv.cmd_hnd ≤ 0 then some (ERR_OK, w)
  else
    match stop_poll s fuel fuel Status.zero
      (if w.drv.stream_mode ≠ CDROM_READ_DMA then w.emit .mutex_lock
       else if (cdrom_stream_progress s w).1 = 0 then
         (cdrom_stream_progress s w).2.2.emit .mutex_lock
       else (cdrom_stream_progress s w).2.2) with
    | none => none
    | some r =>
      some (r.2.1, stop_clear_dma
        (if r.1 ≠ STREAMING then (r.2.2.set_cmd_hnd 0).emit .mutex_unlock
         else r.2.2.set_cmd_hnd 0))

/-- The polling loop that ends `cdrom_stream_request`, for DMA (`dma = true`,
progress read with `syscall_gdrom_dma_check`) and PIO.  The result is the value
the function returns after the final `mutex_unlock`, and the world before that
unlock. -/
def request_poll (s : Stub) (dma : Bool) : Nat → Status → Nat → World → Option (Int × World)
  | 0, _, _, _ => none
  | fuel + 1, status, check_size, w =>
    let w1 := w.emit .exec_server
    let r := s.check_command w1.trace w1.drv.cmd_hnd status
    let w2 := w1.emit (.check_command w1.drv.cmd_hnd r.1 r.2)
    if r.1 < 0 then some (ERR_SYS, w2)
    else if r.1 = COMPLETED ∨ r.1 = NO_ACTIVE then some (ERR_OK, w2.set_cmd_hnd 0)
    else
      let c := if dma then s.dma_check w2.trace w2.drv.cmd_hnd check_size
        else s.pio_check w2.trace w2.drv.cmd_hnd check_size
      let w3 := w2.emit (if dma then .dma_check w2.drv.cmd_hnd c.1 c.2
        else .pio_check w2.drv.cmd_hnd c.1 c.2)
      if c.1 = 0 then some (ERR_OK, w3)
      else request_poll s dma fuel r.2 c.2 (w3.emit .thd_pass)

/-- The DMA branch of `cdrom_stream_request` from `mutex_lock` on; `params0` is
`params[0]`. -/
def request_dma (s : Stub) (fuel : Nat) (params0 size : Nat) (block : Int) (w : World) :
    Option (Int × World) :=
  let w2 := w.emit .mutex_lock
  let w3 := w2.set_drv
    { w2.drv with
      dma_in_progress := 1
      dma_blocking := block
      dma_thd := s.thd_current w2.trace }
  let params := [(params0 : Int), to_int32 size]
  let rs := s.dma_transfer w3.trace w3.drv.cmd_hnd params
  let w4 := w3.emit (.dma_transfer w3.drv.cmd_hnd params rs)
  if rs < 0 then
    some (ERR_SYS,
      (w4.set_drv { w4.drv with dma_in_progress := 0, dma_blocking := 0 }).emit .mutex_unlock)
  else if block = 0 then some (ERR_OK, w4)
  else
    match sem_wait s w4 with
    | none => none
    | some w5 =>
      match request_poll s true fuel Status.zero (2 ^ 32 - 1) w5 with
      | none => none
      | some r => some (r.1, r.2.emit .mutex_unlock)

/-- The PIO branch of `cdrom_stream_request` from `mutex_lock` on. -/
def request_pio (s : Stub) (fuel : Nat) (buffer size : Nat) (w : World) :
    Option (Int × World) :=
  let w2 := w.emit .mutex_lock
  let params := [to_int32 buffer, to_int32 size]
  let rs := s.pio_transfer w2.trace w2.drv.cmd_hnd params
  let w4 := w2.emit (.pio_transfer w2.drv.cmd_hnd params rs)
  if rs < 0 then some (ERR_SYS, w4.emit .mutex_unlock)
  else
    match request_poll s false fuel Status.zero (2 ^ 32 - 1) w4 with
    | none => none
    | some r => some (r.1, r.2.emit .mutex_unlock)

/-- `cdrom_stream_request(buffer, size, block)`; `buffer` is the address held
by the pointer. -/
def cdrom_stream_request (s : Stub) (fuel : Nat) (buffer size : Nat) (block : Int)
    (w : World) : Option (Int × World) :=
  if w.drv.cmd_hnd ≤ 0 then some (ERR_NO_ACTIVE, w)
  else if (cdrom_stream_progress s w).1 ≠ 0 then some (ERR_SYS, (cdrom_stream_progress s w).2.2)
  else
    let w0 := (cdrom_stream_progress s w).2.2
    if w0.drv.stream_mode = CDROM_READ_DMA then
      if (buffer &&& MEM_AREA_CACHE_MASK) &&& 0x1f ≠ 0 then some (ERR_SYS, w0)
      else
        request_dma s fuel (buffer &&& MEM_AREA_CACHE_MASK) size block
          (if (buffer &&& MEM_AREA_CACHE_MASK) >>> 24 = 0x0c then
            w0.emit (.dcache_inval_range buffer size) else w0)
    else if w0.drv.stream_mode = CDROM_READ_PIO then
      if buffer &&& 0x01 ≠ 0 then some (ERR_SYS, w0)
      else request_pio s fuel buffer size w0
    else some (ERR_OK, (w0.emit .mutex_lock).emit .mutex_unlock)

/-! ## Trace observations and sample environments -/

/-- The events of a trace that are `syscall_gdrom_abort_command` calls. -/
def abort_requests (t : List Event) : List Int :=
  t.filterMap fun e => match e with
    | .abort_command h => some h
    | _ => none

/-- The `syscall_gdrom_reset` / `syscall_gdrom_init` calls of a trace, in order. -/
def resets (t : List Event) : List Event :=
  t.filter fun e => match e with
    | .reset => true
    | .init => true
    | _ => false

/-- The states returned by the `syscall_gdrom_check_command` calls of a trace. -/
def polled (t : List Event) : List Int :=
  t.filterMap fun e => match e with
    | .check_command _ rv _ => some rv
    | _ => none

/-- The number of `syscall_gdrom_send_command` calls of a trace. -/
def sends (t : List Event) : Nat :=
  t.countP fun e => match e with
    | .send_command _ _ _ => true
    | _ => false

/-- The events of `k` refused submissions in a row: each attempt returns 0
and is followed by a command-server tick and a yield. -/
def failed_attempts (cmd : Int) (param : List Int) : Nat → List Event
  | 0 => []
  | k + 1 => [.send_command cmd param 0, .exec_server, .thd_pass] ++ failed_attempts cmd param k

/-- Reference translation of a terminal command state, in the words of the
specification: `Completed`/`Streaming` give `Ok`, `NoActive` gives `NoActive`,
otherwise the first status word decides: 2 (disc absent) gives `NoDisc`,
6 (disc changed) gives `DiscChanged`, anything else `Sys`. -/
def exec_code (n err1 : Int) : Int :=
  if n = COMPLETED ∨ n = STREAMING then ERR_OK
  else if n = NO_ACTIVE then ERR_NO_ACTIVE
  else if err1 = 2 then ERR_NO_DISC
  else if err1 = 6 then ERR_DISC_CHG
  else ERR_SYS

/-- The command codes of the `syscall_gdrom_send_command` calls of a trace. -/
def sent_cmds (t : List Event) : List Int :=
  t.filterMap fun e => match e with
    | .send_command cmd _ _ => some cmd
    | _ => none

/-- The `syscall_gdrom_sector_mode` calls of a trace: parameter block and result. -/
def sector_modes (t : List Event) : List (List Nat × Int) :=
  t.filterMap fun e => match e with
    | .sector_mode p rv => some (p, rv)
    | _ => none

/-- The number of `sem_signal` calls of a trace. -/
def signals (t : List Event) : Nat := t.count .sem_signal

/-- The `mutex_trylock` calls of a trace (their results). -/
def trylocks (t : List Event) : List Int :=
  t.filterMap fun e => match e with
    | .mutex_trylock rv => some rv
    | _ => none

/-- The `syscall_gdrom_dma_transfer` / `syscall_gdrom_pio_transfer` calls of a trace. -/
def transfers (t : List Event) : List Event :=
  t.filter fun e => match e with
    | .dma_transfer _ _ _ => true
    | .pio_transfer _ _ _ => true
    | _ => false

/-- The `dcache_inval_range` calls of a trace: start address and byte count. -/
def cache_invals (t : List Event) : List (Nat × Nat) :=
  t.filterMap fun e => match e with
    | .dcache_inval_range a n => some (a, n)
    | _ => none

/-- The hardware calls that submit, tick, poll, abort or transfer. -/
def Event.is_hw : Event → Bool
  | .send_command _ _ _ => true
  | .exec_server => true
  | .check_command _ _ _ => true
  | .abort_command _ => true
  | .dma_transfer _ _ _ => true
  | .pio_transfer _ _ _ => true
  | .dma_check _ _ _ => true
  | .pio_check _ _ _ => true
  | _ => false

/-- Whether the G1 ATA mutex is held after an event, given whether it was held
before. -/
def Event.lock_after (held : Bool) : Event → Bool
  | .mutex_lock => true
  | .mutex_trylock rv => held || decide (rv = 0)
  | .mutex_unlock => false
  | .mutex_unlock_as_thread _ => false
  | _ => held

/-- Whether the mutex is held after a sequence of events. -/
def held_after (held : Bool) : List Event → Bool
  | [] => held
  | e :: t => held_after (e.lock_after held) t

/-- The hardware calls of a sequence of events that are made while the mutex
is not held. -/
def unguarded (held : Bool) : List Event → List Event
  | [] => []
  | e :: t => (if e.is_hw && !held then [e] else []) ++ unguarded (e.lock_after held) t

/-- The events of a polling round: server tick, command or progress poll,
timer read, yield, and the reset/init pair of the abort recovery. -/
def Event.is_poll_step : Event → Bool
  | .exec_server => true
  | .check_command _ _ _ => true
  | .timer_ms_gettime64 _ => true
  | .thd_pass => true
  | .reset => true
  | .init => true
  | .dma_check _ _ _ => true
  | .pio_check _ _ _ => true
  | _ => false

/-- A sequence of events with no submission, no semaphore signal, no
sector-mode call, no transfer and no cache invalidation. -/
def Quiet (evs : List Event) : Prop :=
  sent_cmds evs = [] ∧ signals evs = 0 ∧ sector_modes evs = [] ∧ transfers evs = [] ∧
  cache_invals evs = []

/-- A sequence of events whose only submissions are of command `cmd`, with no
semaphore signal, no sector-mode call, no transfer and no cache invalidation. -/
def SendsOnly (cmd : Int) (evs : List Event) : Prop :=
  (∀ c ∈ sent_cmds evs, c = cmd) ∧ signals evs = 0 ∧ sector_modes evs = [] ∧
  transfers evs = [] ∧ cache_invals evs = []

/-- Started with the mutex in state `b`, the events make no hardware call
without the mutex and leave it in state `b'`. -/
def Guard (b : Bool) (evs : List Event) (b' : Bool) : Prop :=
  unguarded b evs = [] ∧ held_after b evs = b'

/-- Two values of the driver variables that differ at most in `cmd_hnd`. -/
def Driver.same_but_hnd (d d' : Driver) : Prop :=
  d' = { d with cmd_hnd := d'.cmd_hnd }

/-- A stub that accepts every submission at the first attempt. -/
def Accepts (s : Stub) : Prop := ∀ h cmd p, 0 < s.send_command h cmd p

/-- A stub whose polls, counted over the whole history, behave as follows: while
fewer than `p0 + k` polls have been made a poll ends the command in a state that
is translated to `ERR_DISC_CHG`; from then on a poll reports `COMPLETED`. -/
def DiscChangedTimes (s : Stub) (p0 k : Nat) : Prop :=
  ∀ h hnd st,
    ((polled h).length < p0 + k →
      (s.check_command h hnd st).1 ≠ PROCESSING ∧ (s.check_command h hnd st).1 ≠ BUSY ∧
      exec_code (s.check_command h hnd st).1 (s.check_command h hnd st).2.err1 = ERR_DISC_CHG) ∧
    (p0 + k ≤ (polled h).length → (s.check_command h hnd st).1 = COMPLETED)

/-- The number of `mutex_lock` calls of a trace. -/
def locks (t : List Event) : Nat := t.count .mutex_lock

/-- The number of `mutex_unlock` calls of a trace. -/
def unlocks (t : List Event) : Nat := t.count .mutex_unlock

/-- The clock behind `timer_ms_gettime64` advances: it never runs backwards,
every `thd_pass` lets at least one millisecond go by, and no single event
takes more than `2^32` ms. -/
def ClockAdvances (s : Stub) : Prop :=
  (∀ h e, s.timer_ms h ≤ s.timer_ms (h ++ [e])) ∧
  (∀ h, s.timer_ms h < s.timer_ms (h ++ [Event.thd_pass])) ∧
  (∀ h e, s.timer_ms (h ++ [e]) ≤ s.timer_ms h + 2 ^ 32)

/-- An environment that accepts every command with handle 7, reports every
command as completed at once, and whose clock counts the events so far.  The
drive holds a 2048-byte-sector disc of type 32, every transfer is accepted and
reported finished, the caller is thread 1 outside interrupt context, the lock
is free and the DMA interrupt arrives. -/
def Stub.prompt : Stub :=
  { send_command := fun _ _ _ => 7
    check_command := fun _ _ st => (COMPLETED, st)
    timer_ms := fun h => h.length
    check_drive := fun _ => (0, 2, 32)
    sector_mode := fun _ _ => 0
    dma_transfer := fun _ _ _ => 0
    pio_transfer := fun _ _ _ => 0
    dma_check := fun _ _ _ => (0, 0)
    pio_check := fun _ _ _ => (0, 0)
    irq_inside_int := fun _ => 0
    mutex_trylock := fun _ => 0
    thd_current := fun _ => 1
    dma_irq := fun _ => true }

/-- An environment that accepts every command with handle 7 and never leaves
`PROCESSING`; its clock counts the events so far. -/
def Stub.stuck : Stub :=
  { Stub.prompt with check_command := fun _ _ st => (PROCESSING, st) }

/-- An environment that accepts every command with handle 7 and reports it
failed (state -1) with first status word 6 (disc changed) and second 99. -/
def Stub.disc_changed : Stub :=
  { Stub.prompt with check_command := fun _ _ _ => (-1, ⟨6, 99, 0, 0⟩) }

/-- An environment that accepts every command with handle 7 and reports it
as streaming. -/
def Stub.streaming : Stub :=
  { Stub.prompt with check_command := fun _ _ st => (STREAMING, st) }

/-- An environment that refuses every submission. -/
def Stub.refusing : Stub :=
  { Stub.prompt with send_command := fun _ _ _ => 0 }

/-- The world at boot: initial driver variables, empty trace. -/
def World.boot : World := { drv := Driver.initial, trace := [] }

/-- An environment in which the first `k` polls report a failed command with
first status word 6 (disc changed) and every later poll reports `COMPLETED`. -/
def Stub.disc_changes (k : Nat) : Stub :=
  { Stub.prompt with
    check_command := fun h _ st =>
      if (polled h).length < k then (-1, ⟨6, 0, 0, 0⟩) else (COMPLETED, st) }

/-- An environment that accepts every command with handle 7 and reports it as
streaming until an abort has been requested, and as completed afterwards. -/
def Stub.abortable : Stub :=
  { Stub.prompt with
    check_command := fun h _ st =>
      if abort_requests h = [] then (STREAMING, st) else (COMPLETED, st) }

/-- An environment whose sector-mode call returns 2. -/
def Stub.mode_two : Stub :=
  { Stub.prompt with sector_mode := fun _ _ => 2 }

/-- An environment seen from interrupt context while the lock is taken:
`irq_inside_int()` is non-zero and `mutex_trylock` fails. -/
def Stub.irq_busy : Stub :=
  { Stub.prompt with
    irq_inside_int := fun _ => 1
    mutex_trylock := fun _ => -1
    dma_check := fun _ _ _ => (1, 512) }

/-- An environment whose drive query fails with -1. -/
def Stub.drive_fails : Stub :=
  { Stub.prompt with check_drive := fun _ => (-1, 0, 0) }

/-- An environment in which a DMA request is in flight (the progress probe
reports 1 with 512 bytes moved) and the command is reported completed. -/
def Stub.in_flight : Stub :=
  { Stub.prompt with dma_check := fun _ _ _ => (1, 512) }

/-- A world with the streaming handle 7 retained in DMA mode. -/
def World.streaming_dma : World :=
  World.boot.set_drv { Driver.initial with cmd_hnd := 7, stream_mode := CDROM_READ_DMA }

/-- An environment in which the first submission is given handle 7 and every
later one handle 8; handle 7 is reported streaming, every other handle
completed. -/
def Stub.second_handle : Stub :=
  { Stub.prompt with
    send_command := fun h _ _ => if sends h = 0 then 7 else 8
    check_command := fun _ hnd st => if hnd = 7 then (STREAMING, st) else (COMPLETED, st) }

/-- The `mutex_unlock_as_thread` calls of a trace (releases made by the
interrupt handler). -/
def handler_releases (t : List Event) : Nat :=
  t.countP fun e => match e with
    | .mutex_unlock_as_thread _ => true
    | _ => false

/-- Whether an event releases the mutex. -/
def Event.is_release : Event → Bool
  | .mutex_unlock => true
  | .mutex_unlock_as_thread _ => true
  | _ => false

/-- The number of releases of a sequence of events that are made while the
mutex is not held, given whether it is held at the start. -/
def stray_releases (held : Bool) : List Event → Nat
  | [] => 0
  | e :: t => (if e.is_release && !held then 1 else 0) + stray_releases (e.lock_after held) t

/-- The world after the timed call (10 ms) of command 24 at boot when the drive
reports the command failed with status words (6, 99) at the first poll. -/
def World.after_disc_changed : World :=
  ⟨Driver.initial,
    [.mutex_lock, .send_command 24 [] 7, .timer_ms_gettime64 2, .exec_server,
     .check_command 7 (-1) ⟨6, 99, 0, 0⟩, .mutex_unlock]⟩

/-- The world after the timed call (10 ms) of command 24 at boot when the drive
never leaves `PROCESSING`: three polls, the third one after the time is up. -/
def World.after_stuck : World :=
  ⟨Driver.initial,
    [.mutex_lock, .send_command 24 [] 7, .timer_ms_gettime64 2,
     .exec_server, .check_command 7 PROCESSING Status.zero, .timer_ms_gettime64 5,
     .thd_pass,
     .exec_server, .check_command 7 PROCESSING Status.zero, .timer_ms_gettime64 9,
     .thd_pass,
     .exec_server, .check_command 7 PROCESSING Status.zero, .timer_ms_gettime64 13,
     .mutex_unlock]⟩

/-- The world after the timed call (10 ms) of command 28 at boot when the drive
reports the command as streaming at the first poll: handle 7 is retained. -/
def World.after_streaming : World :=
  ⟨{ Driver.initial with cmd_hnd := 7 },
    [.mutex_lock, .send_command 28 [0, 4] 7, .timer_ms_gettime64 2, .exec_server,
     .check_command 7 STREAMING Status.zero, .mutex_unlock]⟩

/-- The two DMA flags agree: the blocking flag is set only while the
in-progress flag is.  The driver assigns `dma_blocking` a non-zero value only
together with `dma_in_progress = 1` (in `cdrom_stream_request`), and wherever it
clears `dma_in_progress` it clears `dma_blocking` or finds it clear. -/
def Driver.flags_consistent (d : Driver) : Prop :=
  d.dma_in_progress = 0 → d.dma_blocking = 0

/-- A world in which handle 7 is active and a blocking DMA request is pending. -/
def World.blocking_request : World :=
  World.boot.set_drv { Driver.initial with cmd_hnd := 7, dma_in_progress := 1, dma_blocking := 1 }

/-- The world after `cdrom_stream_stop` in `World.blocking_request`, when the
drive reports handle 7 as streaming until the abort is requested. -/
def World.after_stop : World :=
  ⟨{ Driver.initial with dma_done := 1 },
    [.mutex_lock, .exec_server, .check_command 7 STREAMING Status.zero, .mutex_unlock,
     .mutex_lock, .abort_command 7, .timer_ms_gettime64 6, .exec_server,
     .check_command 7 COMPLETED Status.zero, .mutex_unlock, .sem_signal]⟩

end Cdrom

/-! ## VMU package files (`kernel/arch/dreamcast/util/vmu_pkg.c`) -/

namespace VmuPkg

/-- Modelled from the spec: `VMUPKG_EC_NONE` of `dc/vmu_pkg.h`, which is not
among the sources: the eyecatch type "none". -/
def VMUPKG_EC_NONE : Int := 0
/-- Modelled from the spec: `VMUPKG_EC_16BIT` of `dc/vmu_pkg.h` (missing): the
16-bit eyecatch type. -/
def VMUPKG_EC_16BIT : Int := 1
/-- Modelled from the spec: `VMUPKG_EC_256COL` of `dc/vmu_pkg.h` (missing): the
256-colour eyecatch type. -/
def VMUPKG_EC_256COL : Int := 2
/-- Modelled from the spec: `VMUPKG_EC_16COL` of `dc/vmu_pkg.h` (missing): the
16-colour eyecatch type. -/
def VMUPKG_EC_16COL : Int := 3

/-- Modelled from the spec: `sizeof(vmu_hdr_t)`, the type `vmu_hdr_t` of
`dc/vmu_pkg.h` not being among the sources.  The header is 128 bytes:
`desc_short[16]` at 0, `desc_long[32]` at 16, `app_id[16]` at 48, the 16-bit
fields `icon_cnt`, `icon_anim_speed`, `eyecatch_type`, `crc` at 64, 66, 68, 70,
the 32-bit `data_len` at 72, 20 reserved bytes at 76 and the 16 palette entries
at 96, all little-endian. -/
def HDR_SIZE : Nat := 128

/-- Modelled from the spec: the type `vmu_pkg_t` of `dc/vmu_pkg.h` (missing).
The character arrays `desc_short[20]`, `desc_long[36]`, `app_id[20]` and the
palette `icon_pal` (the 32 bytes of its sixteen 16-bit entries) are held as
bytes; the three pointers are held as the bytes readable from them. -/
structure vmu_pkg_t where
  desc_short : List Nat
  desc_long : List Nat
  app_id : List Nat
  icon_cnt : Int
  icon_anim_speed : Int
  eyecatch_type : Int
  data_len : Int
  icon_pal : List Nat
  icon_data : List Nat
  eyecatch_data : List Nat
  data : List Nat
  deriving DecidableEq, Repr

/-- The body of the inner loop of `vmu_pkg_crc`, on the `uint16_t` value `n`. -/
def crc_bit (n : Nat) : Nat :=
  if n &&& 0x8000 ≠ 0 then ((n <<< 1) ^^^ 0x1021) % 2 ^ 16 else (n <<< 1) % 2 ^ 16

/-- The inner loop `for(c = 0; c < 8; c++)` of `vmu_pkg_crc`; the first
argument is the number of rounds left. -/
def crc_inner : Nat → Nat → Nat
  | 0, n => n
  | c + 1, n => crc_inner c (crc_bit n)

/-- The outer loop of `vmu_pkg_crc`; the arguments are the number of bytes
left, the index `i` and `n`.  `none` is a read outside `buf`. -/
def crc_loop (buf : List Nat) : Nat → Nat → Nat → Option Nat
  | 0, _, n => some n
  | k + 1, i, n =>
    match buf[i]? with
    | none => none
    | some b => crc_loop buf k (i + 1) (crc_inner 8 ((n ^^^ (b <<< 8)) % 2 ^ 16))

/-- `vmu_pkg_crc(buf, size)`. -/
def vmu_pkg_crc (buf : List Nat) (size : Nat) : Option Nat :=
  crc_loop buf size 0 0

/-- `vmu_eyecatch_size(eyecatch_type)`. -/
def vmu_eyecatch_size (eyecatch_type : Int) : Int :=
  if eyecatch_type = VMUPKG_EC_NONE then 0
  else if eyecatch_type = VMUPKG_EC_16BIT then 72 * 56 * 2
  else if eyecatch_type = VMUPKG_EC_256COL then 512 + 72 * 56
  else if eyecatch_type = VMUPKG_EC_16COL then 32 + 72 * 56 / 2
  else -1

/-- Conversion of an `int` to `size_t` / `uint32_t`. -/
def to_size_t (x : Int) : Nat := (x % 2 ^ 32).toNat

/-- Conversion of a `uint32_t` to `int`. -/
def to_int (n : Nat) : Int :=
  if n % 2 ^ 32 < 2 ^ 31 then ((n % 2 ^ 32 : Nat) : Int)
  else ((n % 2 ^ 32 : Nat) : Int) - 2 ^ 32

/-- Store the bytes `src` at offset `off` of `buf`; `none` when they do not
fit. -/
def write_at (buf : List Nat) (off : Nat) (src : List Nat) : Option (List Nat) :=
  if off + src.length ≤ buf.length then
    some (buf.take off ++ src ++ buf.drop (off + src.length))
  else none

/-- `memcpy(buf + off, src, n)`; `none` when `src` holds fewer than `n` bytes or
the bytes do not fit. -/
def memcpy_at (buf : List Nat) (off : Nat) (src : List Nat) (n : Nat) : Option (List Nat) :=
  if n ≤ src.length then write_at buf off (src.take n) else none

/-- `strlen(s)` for a character array `s`; `none` when the array holds no NUL. -/
def strlen (s : List Nat) : Option Nat :=
  if s.indexOf 0 < s.length then some (s.indexOf 0) else none

/-- The two bytes of a `uint16_t`, little-endian. -/
def le16 (x : Nat) : List Nat := [x % 256, x / 256 % 256]

/-- The four bytes of a `uint32_t`, little-endian. -/
def le32 (x : Nat) : List Nat :=
  [x % 256, x / 256 % 256, x / 65536 % 256, x / 16777216 % 256]

/-- The `uint16_t` stored at offset `off`. -/
def rd16 (buf : List Nat) (off : Nat) : Nat := buf.getD off 0 + 256 * buf.getD (off + 1) 0

/-- The `uint32_t` stored at offset `off`. -/
def rd32 (buf : List Nat) (off : Nat) : Nat :=
  buf.getD off 0 + 256 * buf.getD (off + 1) 0 + 65536 * buf.getD (off + 2) 0 +
    16777216 * buf.getD (off + 3) 0

/-- The start of `vmu_pkg_build` after `memset(out, 0, out_size)`: the two
description fields are filled with spaces, then the descriptions and the
application identifier are copied in (`memset`, `memset`, `memcpy`, `memcpy`,
`strcpy`). -/
def build_strings (src : vmu_pkg_t) (out0 : List Nat) : Option (List Nat) :=
  match strlen src.desc_short, strlen src.desc_long, strlen src.app_id with
  | some ls, some ll, some la =>
    ((((write_at out0 0 (List.replicate 16 32)).bind
      fun o => write_at o 16 (List.replicate 32 32)).bind
      fun o => memcpy_at o 0 src.desc_short ls).bind
      fun o => memcpy_at o 16 src.desc_long ll).bind
      fun o => memcpy_at o 48 src.app_id (la + 1)
  | _, _, _ => none

/-- The assignments to `hdr->icon_cnt`, `hdr->icon_anim_speed`,
`hdr->eyecatch_type`, `hdr->crc`, `hdr->data_len` and the copy of the palette. -/
def build_fields (src : vmu_pkg_t) (out : List Nat) : Option (List Nat) :=
  (((((write_at out 64 (le16 (src.icon_cnt % 2 ^ 16).toNat)).bind
    fun o => write_at o 66 (le16 (src.icon_anim_speed % 2 ^ 16).toNat)).bind
    fun o => write_at o 68 (le16 (src.eyecatch_type % 2 ^ 16).toNat)).bind
    fun o => write_at o 70 (le16 0)).bind
    fun o => write_at o 72 (le32 (to_size_t src.data_len))).bind
    fun o => memcpy_at o 96 src.icon_pal 32

/-- The three `memcpy` calls that copy the icon bitmaps, the eyecatch and the
payload behind the header. -/
def build_areas (src : vmu_pkg_t) (ec_size : Int) (out : List Nat) : Option (List Nat) :=
  ((memcpy_at out HDR_SIZE src.icon_data (to_size_t (512 * src.icon_cnt))).bind
    fun o => memcpy_at o (HDR_SIZE + to_size_t (512 * src.icon_cnt)) src.eyecatch_data
      (to_size_t ec_size)).bind
    fun o => memcpy_at o (HDR_SIZE + to_size_t (512 * src.icon_cnt) + to_size_t ec_size)
      src.data (to_size_t src.data_len)

/-- The buffer of `vmu_pkg_build` after the header and the three data areas
have been filled in and before the CRC is computed. -/
def build_fill (src : vmu_pkg_t) (ec_size : Int) (out0 : List Nat) : Option (List Nat) :=
  ((build_strings src out0).bind (build_fields src)).bind (build_areas src ec_size)

/-- `vmu_pkg_build(src, dst, dst_size)`: the value returned and the array
stored in `*dst` (its length is `*dst_size`), if any.  `alloc n` tells whether
`malloc(n)` succeeds.  `none`: the code reads or writes outside an object. -/
def vmu_pkg_build (alloc : Nat → Bool) (src : vmu_pkg_t) : Option (Int × Option (List Nat)) :=
  let ec_size := vmu_eyecatch_size src.eyecatch_type
  if ec_size < 0 then some (-1, none)
  else
    let out_size := (HDR_SIZE : Int) + 512 * src.icon_cnt + src.data_len + ec_size
    if ¬ alloc (to_size_t out_size) then some (-1, none)
    else
      match build_fill src ec_size (List.replicate (to_size_t out_size) 0) with
      | none => none
      | some out =>
        match vmu_pkg_crc out (to_size_t out_size) with
        | none => none
        | some crc =>
          match write_at out 70 (le16 crc) with
          | none => none
          | some out' => some (0, some out')

/-- `vmu_pkg_parse(data, data_size, pkg)`: the value returned, the array `data`
after the call and the structure `*pkg` after the call.  `none`: the code reads
outside `data`. -/
def vmu_pkg_parse (data : List Nat) (data_size : Nat) (pkg : vmu_pkg_t) :
    Option (Int × List Nat × vmu_pkg_t) :=
  if data.length < HDR_SIZE then none
  else
    let icon_size : Int := 512 * (rd16 data 64 : Int)
    let ec_size := vmu_eyecatch_size (rd16 data 68 : Int)
    let hdr_size : Int := (HDR_SIZE : Int) + icon_size + ec_size
    let total_size := to_int (rd32 data 72 + to_size_t hdr_size)
    if total_size < 0 ∨ to_size_t total_size > data_size then some (-1, data, pkg)
    else
      match write_at data 70 (le16 0) with
      | none => none
      | some data1 =>
        match vmu_pkg_crc data1 (to_size_t total_size) with
        | none => none
        | some crc =>
          match write_at data1 70 (le16 (rd16 data 70)) with
          | none => none
          | some data2 =>
            if rd16 data 70 ≠ crc then some (-1, data2, pkg)
            else
              some (0, data2,
                { icon_cnt := (rd16 data2 64 : Int)
                  icon_anim_speed := (rd16 data2 66 : Int)
                  eyecatch_type := (rd16 data2 68 : Int)
                  data_len := to_int (rd32 data2 72)
                  icon_pal := (data2.drop 96).take 32
                  icon_data := data2.drop HDR_SIZE
                  eyecatch_data := data2.drop (HDR_SIZE + icon_size.toNat)
                  data := data2.drop hdr_size.toNat
                  desc_short := data2.take 16 ++ [0] ++ pkg.desc_short.drop 17
                  desc_long := (data2.drop 16).take 32 ++ [0] ++ pkg.desc_long.drop 33
                  app_id := (data2.drop 48).take 16 ++ [0] ++ pkg.app_id.drop 17 })

/-- A package with empty descriptions, no icon, no eyecatch and no payload,
whose icon animation speed is `speed`. -/
def vmu_pkg_t.blank (speed : Int) : vmu_pkg_t :=
  { desc_short := List.replicate 20 0
    desc_long := List.replicate 36 0
    app_id := List.replicate 20 0
    icon_cnt := 0
    icon_anim_speed := speed
    eyecatch_type := VMUPKG_EC_NONE
    data_len := 0
    icon_pal := List.replicate 32 0
    icon_data := []
    eyecatch_data := []
    data := [] }

/-- A 128-byte file whose header carries the eyecatch type 4, no icon and no
payload; the stored CRC `0xb53a` is the CRC of its first 127 bytes. -/
def sample_unknown_eyecatch : List Nat :=
  List.replicate 68 0 ++ [4, 0, 0x3a, 0xb5] ++ List.replicate 56 0

/-- The 128 bytes that `vmu_pkg_build` produces for `vmu_pkg_t.blank`: the two
description fields hold spaces, every other field is zero, and the CRC field
holds `0x6012`. -/
def sample_blank_file : List Nat :=
  List.replicate 48 32 ++ List.replicate 22 0 ++ [0x12, 0x60] ++ List.replicate 56 0

/-- A small package: short description "Hi", long description "Long",
application identifier "A", no icon, no eyecatch, an animation speed of 3 and
a payload of four bytes. -/
def sample_pkg : vmu_pkg_t :=
  { desc_short := [72, 105] ++ List.replicate 18 0
    desc_long := [76, 111, 110, 103] ++ List.replicate 32 0
    app_id := [65] ++ List.replicate 19 0
    icon_cnt := 0
    icon_anim_speed := 3
    eyecatch_type := VMUPKG_EC_NONE
    data_len := 4
    icon_pal := List.replicate 32 1
    icon_data := []
    eyecatch_data := []
    data := [1, 2, 3, 4] }

/-- Reference CRC, in the words of the specification: one step of the CRC-16
register with polynomial `0x1021` (x^16 + x^12 + x^5 + 1), fed the message bit
`b`.  The register is shifted left by one bit; when the bit shifted out differs
from the message bit, the polynomial is added (exclusive or). -/
def crc16_step (crc : Nat) (b : Bool) : Nat :=
  if (crc.testBit 15 != b) then ((crc <<< 1) % 2 ^ 16) ^^^ 0x1021 else (crc <<< 1) % 2 ^ 16

/-- The `k` low bits of `x`, most significant bit first. -/
def bits_msb : Nat → Nat → List Bool
  | 0, _ => []
  | k + 1, x => x.testBit k :: bits_msb k x

/-- Reference CRC, in the words of the specification: the CRC-16 of a message
of bytes with polynomial `0x1021` and initial value 0, the bits of each byte
taken most significant bit first, with no final inversion. -/
def crc16_ref (msg : List Nat) : Nat :=
  msg.foldl (fun crc byte => (bits_msb 8 byte).foldl crc16_step crc) 0

/-- A 128-byte file with no icon and no eyecatch whose header declares a data
length of `0xffffffff` bytes; the stored CRC `0xe662` is the CRC of its first
127 bytes with the CRC field zeroed. -/
def sample_wrapping_len : List Nat :=
  List.replicate 70 0 ++ [0x62, 0xe6] ++ [255, 255, 255, 255] ++ List.replicate 52 0

end VmuPkg

/-! ## VMU framebuffer bit fields (`kernel/arch/dreamcast/util/vmu_fb.c`) -/

namespace VmuFb

/-- Modelled from the spec: the macro `GENMASK(h, l)` of `kos/regfield.h`, which
is not among the sources: the 32-bit word whose bits `l` to `h` are set. -/
def GENMASK (h l : Nat) : Nat :=
  ((0xffffffff <<< l) % 2 ^ 32) &&& (0xffffffff >>> (31 - h))

/-- The loop of `extract_bits`; the arguments are the iteration bound, `offt`,
`w` and `bits`.  `none` is a read outside `data` or an exhausted bound. -/
def extract_loop (data : List Nat) : Nat → Nat → Nat → Nat → Option Nat
  | 0, _, w, bits => if w = 0 then some bits else none
  | fuel + 1, offt, w, bits =>
    if w = 0 then some bits
    else
      match data[offt / 8]? with
      | none => none
      | some tmp =>
        let lsb := if 8 - (offt &&& 0x7) > w then 8 - (offt &&& 0x7) - w else 0
        let nb_bits := 8 - (offt &&& 0x7) - lsb
        extract_loop data fuel ((offt + nb_bits) % 2 ^ 32) (w - nb_bits)
          (((bits <<< nb_bits) % 2 ^ 64) ||| ((tmp &&& GENMASK (7 - (offt &&& 0x7)) lsb) >>> lsb))

/-- `extract_bits(data, offt, w)`, with a bound on the number of iterations. -/
def extract_bits (fuel : Nat) (data : List Nat) (offt w : Nat) : Option Nat :=
  extract_loop data fuel offt w 0

/-- The loop of `insert_bits`; the result is the array after the loop. -/
def insert_loop (bits : Nat) : Nat → List Nat → Nat → Nat → Option (List Nat)
  | 0, data, _, w => if w = 0 then some data else none
  | fuel + 1, data, offt, w =>
    if w = 0 then some data
    else
      match data[offt / 8]? with
      | none => none
      | some tmp =>
        let lsb := if 8 - (offt &&& 0x7) > w then 8 - (offt &&& 0x7) - w else 0
        let nb_bits := 8 - (offt &&& 0x7) - lsb
        let mask := GENMASK (7 - (offt &&& 0x7)) lsb
        let tmp1 := tmp &&& (mask ^^^ 0xffffffff)
        let tmp2 := (tmp1 ||| ((((bits >>> (w - nb_bits)) <<< lsb) % 2 ^ 64) &&& mask)) % 2 ^ 32
        insert_loop bits fuel (data.set (offt / 8) (tmp2 % 2 ^ 8)) ((offt + nb_bits) % 2 ^ 32)
          (w - nb_bits)

/-- `insert_bits(data, offt, w, bits)`, with a bound on the number of
iterations. -/
def insert_bits (fuel : Nat) (data : List Nat) (offt w bits : Nat) : Option (List Nat) :=
  insert_loop bits fuel data offt w

/-- Bit `j` of a byte array, counted from the most significant bit of byte 0:
bit `7 - j mod 8` of byte `j div 8`. -/
def bit_at (data : List Nat) (j : Nat) : Bool :=
  (data.getD (j / 8) 0).testBit (7 - j % 8)

/-- Reference definition, in the words of the specification: the `w` bits
starting at bit `offt`, most significant first, right-adjusted. -/
def bits_ref (data : List Nat) (offt : Nat) : Nat → Nat
  | 0 => 0
  | w + 1 => 2 * bits_ref data offt w + (bit_at data (offt + w)).toNat

end VmuFb

namespace Cdrom

/-! ## Theorems -/

/-! ### Basic facts about worlds and observations -/

@[simp] theorem World.emit_trace (w : World) (e : Event) :
    (w.emit e).trace = w.trace ++ [e] := rfl

@[simp] theorem World.emit_drv (w : World) (e : Event) : (w.emit e).drv = w.drv := rfl

@[simp] theorem World.set_cmd_hnd_trace (w : World) (h : Int) :
    (w.set_cmd_hnd h).trace = w.trace := rfl

@[simp] theorem World.set_cmd_hnd_cmd_hnd (w : World) (h : Int) :
    (w.set_cmd_hnd h).drv.cmd_hnd = h := rfl

theorem and_0x1f (x : Nat) : x &&& 0x1f = x % 32 :=
  Nat.and_pow_two_sub_one_eq_mod x 5

theorem sends_append (a b : List Event) : sends (a ++ b) = sends a + sends b := by
  simp [sends, List.countP_append]

theorem polled_append (a b : List Event) : polled (a ++ b) = polled a ++ polled b := by
  simp [polled, List.filterMap_append]

theorem sends_failed_attempts (cmd : Int) (param : List Int) (k : Nat) :
    sends (failed_attempts cmd param k) = k := by
  induction k with
  | zero => simp [failed_attempts, sends]
  | succ k ih =>
    simp only [sends] at ih
    simp [failed_attempts, sends, ih]

theorem polled_failed_attempts (cmd : Int) (param : List Int) (k : Nat) :
    polled (failed_attempts cmd param k) = [] := by
  induction k with
  | zero => simp [failed_attempts, polled]
  | succ k ih =>
    simp only [polled] at ih
    simp [failed_attempts, polled, ih]

theorem to_uint32_natCast (T : Nat) (h : T < 2 ^ 32) : to_uint32 (T : Int) = T := by
  unfold to_uint32
  have h1 : (T : Int) % 2 ^ 32 = (T : Int) := Int.emod_eq_of_lt (by omega) (by omega)
  rw [h1]
  exact Int.toNat_natCast T

theorem clock_mono_emit {s : Stub} (hclk : ClockAdvances s) (w : World) (e : Event) :
    s.timer_ms w.trace ≤ s.timer_ms (w.emit e).trace := hclk.1 _ _

theorem clock_pass_emit {s : Stub} (hclk : ClockAdvances s) (w : World) :
    s.timer_ms w.trace < s.timer_ms (w.emit .thd_pass).trace := hclk.2.1 _

theorem clock_step_emit {s : Stub} (hclk : ClockAdvances s) (w : World) (e : Event) :
    s.timer_ms (w.emit e).trace ≤ s.timer_ms w.trace + 2 ^ 32 := hclk.2.2 _ _

theorem clock_advances_length (s : Stub) (h : ∀ t, s.timer_ms t = t.length) :
    ClockAdvances s := by
  refine ⟨?_, ?_, ?_⟩
  · intro t e; simp [h]
  · intro t; simp [h]
  · intro t e; simp [h]

theorem elapsed_eq (a b : Nat) (h1 : a ≤ b) (h2 : b < a + 2 ^ 64) :
    elapsed (b % 2 ^ 64) (a % 2 ^ 64) = b - a := by
  unfold elapsed
  omega

/-! ### The abort loop -/

theorem abort_poll_spec (s : Stub) (T b : Nat) :
    ∀ (fuel : Nat) (st : Status) (w : World) (rv : Int) (w' : World),
    abort_poll s T b fuel st w = some (rv, w') →
    w'.drv = w.drv ∧ ∃ evs, w'.trace = w.trace ++ evs ∧
      locks evs = 0 ∧ unlocks evs = 0 ∧
      ((rv = ERR_OK ∧ resets evs = [] ∧ ∃ n ∈ polled evs, n = NO_ACTIVE ∨ n = COMPLETED) ∨
       (rv = ERR_TIMEOUT ∧ T ≠ 0 ∧ resets evs = [.reset, .init] ∧
          ∀ n ∈ polled evs, n ≠ NO_ACTIVE ∧ n ≠ COMPLETED)) := by
  intro fuel
  induction fuel with
  | zero => intro st w rv w' h; simp [abort_poll] at h
  | succ fuel ih =>
    intro st w rv w' h
    simp only [abort_poll] at h
    generalize s.check_command (w.emit .exec_server).trace (w.emit .exec_server).drv.cmd_hnd st
      = r at h
    by_cases hc : r.1 = NO_ACTIVE ∨ r.1 = COMPLETED
    · simp only [hc, if_true, Option.some.injEq, Prod.mk.injEq] at h
      obtain ⟨h1, h2⟩ := h
      subst h1 h2
      refine ⟨rfl, [.exec_server, .check_command w.drv.cmd_hnd r.1 r.2], by simp,
        by simp [locks], by simp [unlocks], ?_⟩
      left
      refine ⟨rfl, by simp [resets], ?_⟩
      simpa [polled] using hc
    · simp only [hc, if_false] at h
      have hc' : r.1 ≠ NO_ACTIVE ∧ r.1 ≠ COMPLETED := by
        constructor <;> (intro h0; exact hc (by simp [h0]))
      by_cases hT : T = 0
      · have hT' : ¬ (T ≠ 0) := fun h0 => h0 hT
        rw [if_neg hT'] at h
        obtain ⟨hd, evs, ht, hl, hu, hcase⟩ := ih _ _ _ _ h
        refine ⟨hd, [.exec_server, .check_command w.drv.cmd_hnd r.1 r.2, .thd_pass] ++ evs,
          by simp [ht], by simpa [locks] using hl, by simpa [unlocks] using hu, ?_⟩
        rcases hcase with ⟨h1, h2, n, hn, hn'⟩ | ⟨h1, h2, h3, h4⟩
        · left
          refine ⟨h1, by simpa [resets] using h2, n, ?_, hn'⟩
          simp only [polled] at hn ⊢
          simp [hn]
        · exact absurd hT h2
      · rw [if_pos hT] at h
        by_cases hto : T ≤ elapsed
            (read_timer s ((w.emit .exec_server).emit (.check_command w.drv.cmd_hnd r.1 r.2))) b
        · simp only [World.emit_drv] at h
          simp only [hto, if_true, Option.some.injEq, Prod.mk.injEq] at h
          obtain ⟨h1, h2⟩ := h
          subst h1 h2
          refine ⟨rfl, [.exec_server, .check_command w.drv.cmd_hnd r.1 r.2,
            .timer_ms_gettime64 (read_timer s
              ((w.emit .exec_server).emit (.check_command w.drv.cmd_hnd r.1 r.2))),
            .reset, .init], by simp, by simp [locks], by simp [unlocks], ?_⟩
          right
          refine ⟨rfl, hT, by simp [resets], ?_⟩
          intro n hn
          simp [polled] at hn
          subst hn
          exact hc'
        · simp only [World.emit_drv] at h
          simp only [hto, if_false] at h
          obtain ⟨hd, evs, ht, hl, hu, hcase⟩ := ih _ _ _ _ h
          refine ⟨hd, [.exec_server, .check_command w.drv.cmd_hnd r.1 r.2,
            .timer_ms_gettime64 (read_timer s
              ((w.emit .exec_server).emit (.check_command w.drv.cmd_hnd r.1 r.2))),
            .thd_pass] ++ evs,
            by simp [ht], by simpa [locks] using hl, by simpa [unlocks] using hu, ?_⟩
          rcases hcase with ⟨h1, h2, n, hn, hn'⟩ | ⟨h1, h2, h3, h4⟩
          · left
            refine ⟨h1, by simpa [resets] using h2, n, ?_, hn'⟩
            simp only [polled] at hn ⊢
            simp [hn]
          · right
            refine ⟨h1, h2, by simpa [resets] using h3, ?_⟩
            intro n hn
            simp only [polled, List.filterMap_append, List.mem_append] at hn
            rcases hn with hn | hn
            · simp at hn
              subst hn
              exact hc'
            · exact h4 n (by simpa [polled] using hn)

theorem abort_poll_sends (s : Stub) (T b : Nat) :
    ∀ (fuel : Nat) (st : Status) (w : World) (rv : Int) (w' : World),
    abort_poll s T b fuel st w = some (rv, w') →
    ∃ evs, w'.trace = w.trace ++ evs ∧ sends evs = 0 := by
  intro fuel
  induction fuel with
  | zero => intro st w rv w' h; simp [abort_poll] at h
  | succ fuel ih =>
    intro st w rv w' h
    simp only [abort_poll] at h
    generalize s.check_command (w.emit .exec_server).trace (w.emit .exec_server).drv.cmd_hnd st
      = r at h
    split_ifs at h with h1 h2 h3
    · simp only [Option.some.injEq, Prod.mk.injEq] at h
      obtain ⟨_, h⟩ := h
      subst h
      exact ⟨[.exec_server, .check_command w.drv.cmd_hnd r.1 r.2], by simp, by simp [sends]⟩
    · simp only [Option.some.injEq, Prod.mk.injEq] at h
      obtain ⟨_, h⟩ := h
      subst h
      exact ⟨[.exec_server, .check_command w.drv.cmd_hnd r.1 r.2,
        .timer_ms_gettime64 (read_timer s
          ((w.emit .exec_server).emit (.check_command w.drv.cmd_hnd r.1 r.2))),
        .reset, .init], by simp, by simp [sends]⟩
    · obtain ⟨evs, ht, hs⟩ := ih _ _ _ _ h
      exact ⟨[.exec_server, .check_command w.drv.cmd_hnd r.1 r.2,
        .timer_ms_gettime64 (read_timer s
          ((w.emit .exec_server).emit (.check_command w.drv.cmd_hnd r.1 r.2))),
        .thd_pass] ++ evs, by simp [ht], by simpa [sends] using hs⟩
    · obtain ⟨evs, ht, hs⟩ := ih _ _ _ _ h
      exact ⟨[.exec_server, .check_command w.drv.cmd_hnd r.1 r.2, .thd_pass] ++ evs,
        by simp [ht], by simpa [sends] using hs⟩

theorem abort_poll_terminates (s : Stub) (T tb : Nat) (hclk : ClockAdvances s)
    (hT : 0 < T) (hT32 : T < 2 ^ 32) :
    ∀ (fuel : Nat) (st : Status) (w : World),
    tb ≤ s.timer_ms w.trace → s.timer_ms w.trace < tb + T + 2 ^ 33 →
    T - (s.timer_ms w.trace - tb) + 1 ≤ fuel →
    ∃ r, abort_poll s T (tb % 2 ^ 64) fuel st w = some r := by
  intro fuel
  induction fuel with
  | zero => intro st w _ _ h; omega
  | succ fuel ih =>
    intro st w hlo hhi hfuel
    simp only [abort_poll]
    generalize s.check_command (w.emit .exec_server).trace (w.emit .exec_server).drv.cmd_hnd st
      = r
    by_cases hc : r.1 = NO_ACTIVE ∨ r.1 = COMPLETED
    · exact ⟨_, if_pos hc⟩
    · rw [if_neg hc, if_pos (Nat.pos_iff_ne_zero.mp hT)]
      generalize hw2 : (w.emit .exec_server).emit
        (.check_command (w.emit .exec_server).drv.cmd_hnd r.1 r.2) = w2
      have h1 := clock_mono_emit hclk w .exec_server
      have h2 := clock_mono_emit hclk (w.emit .exec_server)
        (.check_command (w.emit .exec_server).drv.cmd_hnd r.1 r.2)
      have h3 := clock_step_emit hclk w .exec_server
      have h4 := clock_step_emit hclk (w.emit .exec_server)
        (.check_command (w.emit .exec_server).drv.cmd_hnd r.1 r.2)
      rw [hw2] at h2 h4
      have hel : elapsed (read_timer s w2) (tb % 2 ^ 64) = s.timer_ms w2.trace - tb := by
        unfold read_timer
        exact elapsed_eq _ _ (by omega) (by omega)
      by_cases hto : T ≤ elapsed (read_timer s w2) (tb % 2 ^ 64)
      · exact ⟨_, if_pos hto⟩
      · rw [if_neg hto]
        rw [hel] at hto
        have h5 := clock_mono_emit hclk w2 (.timer_ms_gettime64 (read_timer s w2))
        have h6 := clock_step_emit hclk w2 (.timer_ms_gettime64 (read_timer s w2))
        have h7 := clock_pass_emit hclk (w2.emit (.timer_ms_gettime64 (read_timer s w2)))
        have h8 := clock_step_emit hclk (w2.emit (.timer_ms_gettime64 (read_timer s w2)))
          .thd_pass
        exact ih _ _ (by omega) (by omega) (by omega)

theorem cdrom_abort_cmd_spec (s : Stub) (fuel T : Nat) (w : World) (rv : Int) (w' : World)
    (hact : 0 < w.drv.cmd_hnd) (hret : cdrom_abort_cmd s fuel T w = some (rv, w')) :
    w'.drv.cmd_hnd = 0 ∧ ∃ evs,
      w'.trace = w.trace ++ Event.mutex_lock :: evs ++ [Event.mutex_unlock] ∧
      locks evs = 0 ∧ unlocks evs = 0 ∧
      ((rv = ERR_OK ∧ resets evs = [] ∧ ∃ n ∈ polled evs, n = NO_ACTIVE ∨ n = COMPLETED) ∨
       (rv = ERR_TIMEOUT ∧ T ≠ 0 ∧ resets evs = [.reset, .init] ∧
          ∀ n ∈ polled evs, n ≠ NO_ACTIVE ∧ n ≠ COMPLETED)) := by
  have hna : ¬ w.drv.cmd_hnd ≤ 0 := not_le.mpr hact
  simp only [cdrom_abort_cmd, hna, if_false] at hret
  split at hret
  · exact absurd hret (by simp)
  · rename_i rv0 w3 hp
    simp only [Option.some.injEq, Prod.mk.injEq] at hret
    obtain ⟨h1, h2⟩ := hret
    subst h1 h2
    obtain ⟨_, evs, ht, hl, hu, hcase⟩ := abort_poll_spec s _ _ _ _ _ _ _ hp
    refine ⟨rfl, ?_⟩
    by_cases hT : T = 0
    · have hT' : ¬ (T ≠ 0) := fun h0 => h0 hT
      rw [if_neg hT'] at ht
      refine ⟨Event.abort_command w.drv.cmd_hnd :: evs, by simp [ht],
        by simpa [locks] using hl, by simpa [unlocks] using hu, ?_⟩
      rcases hcase with ⟨h1, h2, h3⟩ | ⟨h1, h2, h3, h4⟩
      · left; exact ⟨h1, by simpa [resets] using h2, by simpa [polled] using h3⟩
      · right; exact ⟨h1, h2, by simpa [resets] using h3, by simpa [polled] using h4⟩
    · rw [if_pos hT] at ht
      refine ⟨Event.abort_command w.drv.cmd_hnd ::
        Event.timer_ms_gettime64 (read_timer s
          ((w.emit .mutex_lock).emit (.abort_command w.drv.cmd_hnd))) :: evs, by simp [ht],
        by simpa [locks] using hl, by simpa [unlocks] using hu, ?_⟩
      rcases hcase with ⟨h1, h2, h3⟩ | ⟨h1, h2, h3, h4⟩
      · left; exact ⟨h1, by simpa [resets] using h2, by simpa [polled] using h3⟩
      · right; exact ⟨h1, h2, by simpa [resets] using h3, by simpa [polled] using h4⟩

theorem cdrom_abort_cmd_sends (s : Stub) (fuel T : Nat) (w : World) (rv : Int) (w' : World)
    (hret : cdrom_abort_cmd s fuel T w = some (rv, w')) :
    ∃ evs, w'.trace = w.trace ++ evs ∧ sends evs = 0 := by
  by_cases h1 : w.drv.cmd_hnd ≤ 0
  · simp only [cdrom_abort_cmd, h1, if_true, Option.some.injEq, Prod.mk.injEq] at hret
    obtain ⟨_, h⟩ := hret
    subst h
    exact ⟨[], by simp, by simp [sends]⟩
  · simp only [cdrom_abort_cmd, h1, if_false] at hret
    split at hret
    · exact absurd hret (by simp)
    · rename_i rv0 w3 hp
      simp only [Option.some.injEq, Prod.mk.injEq] at hret
      obtain ⟨_, h⟩ := hret
      subst h
      obtain ⟨evs, ht, hs⟩ := abort_poll_sends s _ _ _ _ _ _ _ hp
      by_cases hT : T = 0
      · have hT' : ¬ (T ≠ 0) := fun h0 => h0 hT
        rw [if_neg hT'] at ht
        exact ⟨[.mutex_lock, .abort_command w.drv.cmd_hnd] ++ evs ++ [.mutex_unlock],
          by simp [ht], by simpa [sends] using hs⟩
      · rw [if_pos hT] at ht
        exact ⟨[.mutex_lock, .abort_command w.drv.cmd_hnd,
          .timer_ms_gettime64 (read_timer s
            ((w.emit .mutex_lock).emit (.abort_command w.drv.cmd_hnd)))] ++ evs ++
            [.mutex_unlock],
          by simp [ht], by simpa [sends] using hs⟩

theorem cdrom_abort_cmd_terminates (s : Stub) (fuel T : Nat) (w : World)
    (hclk : ClockAdvances s) (hT : 0 < T) (hT32 : T < 2 ^ 32) (hfuel : T + 1 ≤ fuel) :
    ∃ r, cdrom_abort_cmd s fuel T w = some r := by
  unfold cdrom_abort_cmd
  by_cases hna : w.drv.cmd_hnd ≤ 0
  · exact ⟨_, if_pos hna⟩
  · rw [if_neg hna]
    have hT0 : T ≠ 0 := Nat.pos_iff_ne_zero.mp hT
    simp only [hT0, ne_eq, not_false_eq_true, if_true]
    generalize (w.emit .mutex_lock).emit (.abort_command w.drv.cmd_hnd) = w1
    have h1 := clock_mono_emit hclk w1 (.timer_ms_gettime64 (read_timer s w1))
    have h2 := clock_step_emit hclk w1 (.timer_ms_gettime64 (read_timer s w1))
    obtain ⟨r, hr⟩ := abort_poll_terminates s T (s.timer_ms w1.trace) hclk hT hT32 fuel
      Status.zero (w1.emit (.timer_ms_gettime64 (read_timer s w1))) h1 (by omega) (by omega)
    unfold read_timer at hr ⊢
    rw [hr]
    exact ⟨_, rfl⟩

/-! ### The command channel -/

theorem submit_loop_spec (s : Stub) (cmd : Int) (param : List Int) :
    ∀ (k : Nat) (hnd0 : Int) (w : World),
    (submit_loop s cmd param k hnd0 w).2.drv = w.drv ∧
    ∃ j tail, j ≤ k ∧
      (submit_loop s cmd param k hnd0 w).2.trace =
        w.trace ++ (failed_attempts cmd param j ++ tail) ∧
      ((tail = [] ∧ j = k ∧ ((submit_loop s cmd param k hnd0 w).1 = hnd0 ∨
          (submit_loop s cmd param k hnd0 w).1 = 0)) ∨
       (tail = [.send_command cmd param (submit_loop s cmd param k hnd0 w).1] ∧
          (submit_loop s cmd param k hnd0 w).1 ≠ 0 ∧ j < k)) := by
  intro k
  induction k with
  | zero =>
    intro hnd0 w
    exact ⟨rfl, 0, [], le_refl _, by simp [submit_loop, failed_attempts],
      Or.inl ⟨rfl, rfl, Or.inl rfl⟩⟩
  | succ k ih =>
    intro hnd0 w
    simp only [submit_loop]
    by_cases h : s.send_command w.trace cmd param ≠ 0
    · rw [if_pos h]
      exact ⟨rfl, 0, [.send_command cmd param (s.send_command w.trace cmd param)],
        Nat.zero_le _, by simp [failed_attempts], Or.inr ⟨rfl, h, Nat.succ_pos _⟩⟩
    · rw [if_neg h]
      have h0 : s.send_command w.trace cmd param = 0 := not_not.mp h
      rw [h0]
      obtain ⟨hd, j, tail, hj, ht, hcase⟩ := ih 0
        (((w.emit (.send_command cmd param 0)).emit .exec_server).emit .thd_pass)
      refine ⟨hd, j + 1, tail, by omega, ?_, ?_⟩
      · rw [ht]
        simp [failed_attempts]
      · rcases hcase with ⟨h1, h2, h3⟩ | ⟨h1, h2, h3⟩
        · left
          refine ⟨h1, by omega, Or.inr ?_⟩
          rcases h3 with h3 | h3 <;> exact h3
        · right
          exact ⟨h1, h2, by omega⟩

theorem exec_poll_spec (s : Stub) (fuelA : Nat) (hnd T : Int) (b : Nat) :
    ∀ (fuel : Nat) (st : Status) (w : World) (n rv : Int) (st' : Status) (w' : World),
    exec_poll s fuelA hnd T b fuel st w = some (n, rv, st', w') →
    ∃ evs, w'.trace = w.trace ++ evs ∧ sends evs = 0 ∧
      ((rv = ERR_OK ∧ n ≠ PROCESSING ∧ n ≠ BUSY ∧ w'.drv = w.drv ∧
          ∃ pre, evs = pre ++ [.check_command hnd n st']) ∨
       (rv = ERR_TIMEOUT ∧ T ≠ 0 ∧ (n = PROCESSING ∨ n = BUSY))) := by
  intro fuel
  induction fuel with
  | zero => intro st w n rv st' w' h; simp [exec_poll] at h
  | succ fuel ih =>
    intro st w n rv st' w' h
    simp only [exec_poll] at h
    generalize s.check_command (w.emit .exec_server).trace hnd st = r at h
    split_ifs at h with h1 h2 h3
    · simp only [Option.some.injEq, Prod.mk.injEq] at h
      obtain ⟨hn, hrv, hst, hw⟩ := h
      subst hn hrv hst hw
      exact ⟨[.exec_server, .check_command hnd r.1 r.2], by simp, by simp [sends],
        Or.inl ⟨rfl, h1.1, h1.2, rfl, [.exec_server], rfl⟩⟩
    · have hpb : r.1 = PROCESSING ∨ r.1 = BUSY := by
        by_contra hcon
        exact h1 ⟨fun h => hcon (Or.inl h), fun h => hcon (Or.inr h)⟩
      split at h
      · exact absurd h (by simp)
      · rename_i rv0 w5 ha
        simp only [Option.some.injEq, Prod.mk.injEq] at h
        obtain ⟨hn, hrv, hst, hw⟩ := h
        subst hn hrv hst hw
        obtain ⟨evs, ht, hs⟩ := cdrom_abort_cmd_sends s _ _ _ _ _ ha
        exact ⟨[.exec_server, .check_command hnd r.1 r.2,
          .timer_ms_gettime64 (read_timer s
            ((w.emit .exec_server).emit (.check_command hnd r.1 r.2))),
          .mutex_unlock] ++ evs, by simp [ht], by simpa [sends] using hs,
          Or.inr ⟨rfl, h2, hpb⟩⟩
    · obtain ⟨evs, ht, hs, hcase⟩ := ih _ _ _ _ _ _ h
      refine ⟨[.exec_server, .check_command hnd r.1 r.2,
          .timer_ms_gettime64 (read_timer s
            ((w.emit .exec_server).emit (.check_command hnd r.1 r.2))),
          .thd_pass] ++ evs, by simp [ht], by simpa [sends] using hs, ?_⟩
      rcases hcase with ⟨c1, c2, c3, c4, pre, c5⟩ | hc
      · exact Or.inl ⟨c1, c2, c3, c4, [.exec_server, .check_command hnd r.1 r.2,
          .timer_ms_gettime64 (read_timer s
            ((w.emit .exec_server).emit (.check_command hnd r.1 r.2))),
          .thd_pass] ++ pre, by simp [c5]⟩
      · exact Or.inr hc
    · obtain ⟨evs, ht, hs, hcase⟩ := ih _ _ _ _ _ _ h
      refine ⟨[.exec_server, .check_command hnd r.1 r.2, .thd_pass] ++ evs,
        by simp [ht], by simpa [sends] using hs, ?_⟩
      rcases hcase with ⟨c1, c2, c3, c4, pre, c5⟩ | hc
      · exact Or.inl ⟨c1, c2, c3, c4,
          [.exec_server, .check_command hnd r.1 r.2, .thd_pass] ++ pre, by simp [c5]⟩
      · exact Or.inr hc

/-- The shape of every returning run of `cdrom_exec_cmd_timed`. -/
theorem cdrom_exec_cmd_timed_run (s : Stub) (fuel : Nat) (cmd : Int) (param : List Int)
    (T : Int) (w : World) (rv : Int) (w' : World)
    (hret : cdrom_exec_cmd_timed s fuel cmd param T w = some (rv, w')) :
    (0 < cmd ∧ cmd < CMD_MAX) ∧
    (((submit_loop s cmd param 10 0 (w.emit .mutex_lock)).1 ≤ 0 ∧ rv = ERR_SYS ∧
        w' = (submit_loop s cmd param 10 0 (w.emit .mutex_lock)).2.emit .mutex_unlock) ∨
     (0 < (submit_loop s cmd param 10 0 (w.emit .mutex_lock)).1 ∧
       ∃ (n rv0 : Int) (st : Status) (w3 : World) (evs : List Event),
        w3.trace = (submit_loop s cmd param 10 0 (w.emit .mutex_lock)).2.trace ++ evs ∧
        sends evs = 0 ∧
        rv = exec_result rv0 n st ∧
        w' = (if rv0 ≠ ERR_TIMEOUT then
            (w3.set_cmd_hnd (if n = STREAMING then
              (submit_loop s cmd param 10 0 (w.emit .mutex_lock)).1 else 0)).emit .mutex_unlock
          else w3.set_cmd_hnd (if n = STREAMING then
              (submit_loop s cmd param 10 0 (w.emit .mutex_lock)).1 else 0)) ∧
        ((rv0 = ERR_OK ∧ n ≠ PROCESSING ∧ n ≠ BUSY ∧
            ∃ pre, w3.trace = pre ++ [.check_command
              (submit_loop s cmd param 10 0 (w.emit .mutex_lock)).1 n st]) ∨
         (rv0 = ERR_TIMEOUT ∧ T ≠ 0 ∧ (n = PROCESSING ∨ n = BUSY))))) := by
  unfold cdrom_exec_cmd_timed at hret
  by_cases hcmd : 0 < cmd ∧ cmd < CMD_MAX
  · rw [if_pos hcmd] at hret
    refine ⟨hcmd, ?_⟩
    generalize submit_loop s cmd param 10 0 (w.emit .mutex_lock) = sub at hret ⊢
    by_cases hh : sub.1 ≤ 0
    · simp only [hh, if_true, Option.some.injEq, Prod.mk.injEq] at hret
      exact Or.inl ⟨hh, hret.1.symm, hret.2.symm⟩
    · simp only [hh, if_false] at hret
      right
      refine ⟨not_le.mp hh, ?_⟩
      generalize hp : exec_poll s fuel sub.1 T (if T ≠ 0 then read_timer s sub.2 else 0) fuel
        Status.zero (if T ≠ 0 then sub.2.emit (.timer_ms_gettime64 (read_timer s sub.2))
          else sub.2) = res at hret
      cases res with
      | none => exact absurd hret (by simp)
      | some q =>
        obtain ⟨n, rv0, st, w3⟩ := q
        simp only [Option.some.injEq, Prod.mk.injEq] at hret
        obtain ⟨evs, ht, hs, hcase⟩ := exec_poll_spec s _ _ _ _ _ _ _ _ _ _ _ hp
        by_cases hT : T = 0
        · have hT' : ¬ (T ≠ 0) := fun h0 => h0 hT
          rw [if_neg hT'] at ht
          refine ⟨n, rv0, st, w3, evs, ht, hs, hret.1.symm, hret.2.symm, ?_⟩
          rcases hcase with ⟨c1, c2, c3, _, pre, c5⟩ | hc
          · exact Or.inl ⟨c1, c2, c3, sub.2.trace ++ pre, by simp [ht, c5]⟩
          · exact Or.inr hc
        · rw [if_pos hT] at ht
          refine ⟨n, rv0, st, w3, [.timer_ms_gettime64 (read_timer s sub.2)] ++ evs,
            by simp [ht], by simpa [sends] using hs, hret.1.symm, hret.2.symm, ?_⟩
          rcases hcase with ⟨c1, c2, c3, _, pre, c5⟩ | hc
          · exact Or.inl ⟨c1, c2, c3,
              sub.2.trace ++ [.timer_ms_gettime64 (read_timer s sub.2)] ++ pre,
              by simp [ht, c5]⟩
          · exact Or.inr hc
  · rw [if_neg hcmd] at hret
    exact absurd hret (by simp)

theorem exec_poll_times_out (s : Stub) (fuelA : Nat) (hnd : Int) (T tb : Nat)
    (hclk : ClockAdvances s) (hT : 0 < T) (hT32 : T < 2 ^ 32)
    (hstuck : ∀ h hd st, (s.check_command h hd st).1 = BUSY ∨
      (s.check_command h hd st).1 = PROCESSING)
    (hA : T + 1 ≤ fuelA) :
    ∀ (fuel : Nat) (st : Status) (w : World),
    tb ≤ s.timer_ms w.trace → s.timer_ms w.trace < tb + T + 2 ^ 33 →
    T - (s.timer_ms w.trace - tb) + 1 ≤ fuel →
    ∃ (n : Int) (st' : Status) (w' : World) (mid rest : List Event),
      exec_poll s fuelA hnd (T : Int) (tb % 2 ^ 64) fuel st w = some (n, ERR_TIMEOUT, st', w') ∧
      (n = PROCESSING ∨ n = BUSY) ∧
      w'.trace = (w.trace ++ mid) ++
        Event.timer_ms_gettime64 (s.timer_ms (w.trace ++ mid) % 2 ^ 64) :: rest ∧
      tb + T ≤ s.timer_ms (w.trace ++ mid) := by
  have hTi : (T : Int) ≠ 0 := by omega
  intro fuel
  induction fuel with
  | zero => intro st w _ _ h; omega
  | succ fuel ih =>
    intro st w hlo hhi hfuel
    simp only [exec_poll]
    have hr := hstuck (w.emit .exec_server).trace hnd st
    generalize s.check_command (w.emit .exec_server).trace hnd st = r at hr ⊢
    have hpb : r.1 = PROCESSING ∨ r.1 = BUSY := hr.symm
    have hc : ¬ (r.1 ≠ PROCESSING ∧ r.1 ≠ BUSY) := by
      intro hcon
      rcases hpb with h | h
      · exact hcon.1 h
      · exact hcon.2 h
    rw [if_neg hc, if_pos hTi, to_uint32_natCast T hT32]
    have hw2t : ((w.emit .exec_server).emit (.check_command hnd r.1 r.2)).trace =
        w.trace ++ [.exec_server, .check_command hnd r.1 r.2] := by simp
    generalize (w.emit .exec_server).emit (.check_command hnd r.1 r.2) = w2 at hw2t ⊢
    have h1 := clock_mono_emit hclk w .exec_server
    have h2 := clock_mono_emit hclk (w.emit .exec_server) (.check_command hnd r.1 r.2)
    have h3 := clock_step_emit hclk w .exec_server
    have h4 := clock_step_emit hclk (w.emit .exec_server) (.check_command hnd r.1 r.2)
    have hw2e : ((w.emit .exec_server).emit (.check_command hnd r.1 r.2)).trace = w2.trace := by
      rw [hw2t]; simp
    rw [hw2e] at h2 h4
    have hel : elapsed (read_timer s w2) (tb % 2 ^ 64) = s.timer_ms w2.trace - tb := by
      unfold read_timer
      exact elapsed_eq _ _ (by omega) (by omega)
    by_cases hto : T ≤ elapsed (read_timer s w2) (tb % 2 ^ 64)
    · rw [if_pos hto]
      obtain ⟨⟨rva, w5⟩, ha⟩ := cdrom_abort_cmd_terminates s fuelA T
        ((w2.emit (.timer_ms_gettime64 (read_timer s w2))).emit .mutex_unlock) hclk hT hT32 hA
      obtain ⟨evs, ht, _⟩ := cdrom_abort_cmd_sends s _ _ _ _ _ ha
      rw [ha]
      refine ⟨r.1, r.2, w5, [.exec_server, .check_command hnd r.1 r.2],
        .mutex_unlock :: evs, rfl, hpb, ?_, ?_⟩
      · rw [ht, ← hw2t]
        simp [read_timer]
      · rw [← hw2t]
        rw [hel] at hto
        omega
    · rw [if_neg hto]
      rw [hel] at hto
      have h5 := clock_mono_emit hclk w2 (.timer_ms_gettime64 (read_timer s w2))
      have h6 := clock_step_emit hclk w2 (.timer_ms_gettime64 (read_timer s w2))
      have h7 := clock_pass_emit hclk (w2.emit (.timer_ms_gettime64 (read_timer s w2)))
      have h8 := clock_step_emit hclk (w2.emit (.timer_ms_gettime64 (read_timer s w2)))
        .thd_pass
      obtain ⟨n, st', w', mid, rest, he, hn, htr, htm⟩ := ih r.2
        ((w2.emit (.timer_ms_gettime64 (read_timer s w2))).emit .thd_pass)
        (by omega) (by omega) (by omega)
      have hm : ((w2.emit (.timer_ms_gettime64 (read_timer s w2))).emit .thd_pass).trace ++ mid
          = w.trace ++ ([.exec_server, .check_command hnd r.1 r.2,
              .timer_ms_gettime64 (read_timer s w2), .thd_pass] ++ mid) := by
        simp [hw2t]
      rw [hm] at htr htm
      exact ⟨n, st', w', _, rest, he, hn, htr, htm⟩

theorem exec_result_ok (n : Int) (st : Status) :
    exec_result ERR_OK n st = exec_code n st.err1 := by
  simp [exec_result, exec_code]

theorem exec_code_ne_timeout (n e : Int) : exec_code n e ≠ ERR_TIMEOUT := by
  unfold exec_code
  split_ifs <;> decide

/-! ### Table of contents -/

/-- The loop of `cdrom_locate_data_track`, started at `i`, finds the largest
qualifying track at or below `i` without leaving the 99-entry array. -/
theorem locate_loop_eq (toc : CDROM_TOC) (first : Nat) (hlen : toc.entry.length = 99)
    (hfirst : 1 ≤ first) (i : Nat) (hi : i ≤ 99) :
    locate_loop toc first i = some
      (if Nat.findGreatest
          (fun k => first ≤ k ∧ TOC_CTRL (toc.entry.getD (k - 1) 0) = 4) i = 0 then 0
       else TOC_LBA (toc.entry.getD
        (Nat.findGreatest
          (fun k => first ≤ k ∧ TOC_CTRL (toc.entry.getD (k - 1) 0) = 4) i - 1) 0)) := by
  induction i with
  | zero =>
    have h0 : ¬ first ≤ 0 := by omega
    simp [locate_loop, h0]
  | succ i ih =>
    unfold locate_loop
    by_cases hf : first ≤ i + 1
    · have hlt : i < toc.entry.length := by omega
      have hget : toc.entry[i]? = some (toc.entry.getD i 0) := by
        simp [List.getD, List.getElem?_eq_getElem hlt]
      rw [if_pos hf, hget]
      by_cases hc : TOC_CTRL (toc.entry.getD i 0) = 4
      · have hP : (fun k => first ≤ k ∧ TOC_CTRL (toc.entry.getD (k - 1) 0) = 4) (i + 1) := by
          exact ⟨hf, by simpa using hc⟩
        rw [Nat.findGreatest_eq hP]
        simp only [hc, if_true, Nat.add_sub_cancel, Nat.add_one_ne_zero, if_false]
      · have hP : ¬ (fun k => first ≤ k ∧ TOC_CTRL (toc.entry.getD (k - 1) 0) = 4) (i + 1) := by
          intro h
          exact hc (by simpa using h.2)
        rw [Nat.findGreatest_of_not hP]
        simp only [hc, if_false]
        exact ih (by omega)
    · rw [if_neg hf]
      have hz : Nat.findGreatest
          (fun k => first ≤ k ∧ TOC_CTRL (toc.entry.getD (k - 1) 0) = 4) (i + 1) = 0 := by
        rw [Nat.findGreatest_eq_zero_iff]
        intro k _ hk h
        exact hf (le_trans h.1 hk)
      rw [hz]
      simp

/-- C1: on every 99-entry TOC `cdrom_locate_data_track` returns (never reading
outside `entry[0..98]`) exactly the reference value: 0 on an invalid track
range, else the LBA of the highest track in `first..last` whose control is 4,
else 0.  In particular a TOC of range [1,5] whose only control-4 entry is
track 3 yields the LBA of `entry[2]`. -/
theorem cdrom_locate_data_track_eq_ref (toc : CDROM_TOC) (hlen : toc.entry.length = 99) :
    cdrom_locate_data_track toc = some (locate_data_track_ref toc) ∧
    (TOC_TRACK toc.first = 1 → TOC_TRACK toc.last = 5 →
      TOC_CTRL (toc.entry.getD 2 0) = 4 →
      (∀ i, i < 5 → i ≠ 2 → TOC_CTRL (toc.entry.getD i 0) ≠ 4) →
      cdrom_locate_data_track toc = some (TOC_LBA (toc.entry.getD 2 0))) := by
  have hmain : cdrom_locate_data_track toc = some (locate_data_track_ref toc) := by
    unfold cdrom_locate_data_track locate_data_track_ref
    by_cases hbad : TOC_TRACK toc.first < 1 ∨ TOC_TRACK toc.last > 99 ∨
        TOC_TRACK toc.first > TOC_TRACK toc.last
    · simp only [hbad, if_true]
    · simp only [hbad, if_false]
      exact locate_loop_eq toc _ hlen (by omega) _ (by omega)
  refine ⟨hmain, ?_⟩
  intro h1 h5 h3 hothers
  rw [hmain]
  unfold locate_data_track_ref
  have hbad : ¬ (TOC_TRACK toc.first < 1 ∨ TOC_TRACK toc.last > 99 ∨
      TOC_TRACK toc.first > TOC_TRACK toc.last) := by omega
  simp only [hbad, if_false]
  have hg : Nat.findGreatest
      (fun k => TOC_TRACK toc.first ≤ k ∧ TOC_CTRL (toc.entry.getD (k - 1) 0) = 4)
      (TOC_TRACK toc.last) = 3 := by
    rw [Nat.findGreatest_eq_iff]
    refine ⟨by omega, fun _ => ⟨by omega, by simpa using h3⟩, ?_⟩
    intro n hn hn5 hP
    have hne : n - 1 ≠ 2 := by omega
    exact hothers (n - 1) (by omega) hne hP.2
  rw [hg]
  simp

/-- Witness for C1: a 99-entry TOC of range [1,5] whose only control-4 entry is
track 3 (LBA 0x1234). -/
theorem cdrom_locate_data_track_eq_ref_witness :
    (CDROM_TOC.mk ([0x01000000, 0x01000100, 0x41001234, 0x01000300, 0x01000400] ++
        List.replicate 94 0) 0x00010000 0x00050000).entry.length = 99 ∧
    cdrom_locate_data_track
      (CDROM_TOC.mk ([0x01000000, 0x01000100, 0x41001234, 0x01000300, 0x01000400] ++
        List.replicate 94 0) 0x00010000 0x00050000) = some 0x1234 :=
  ⟨by decide,
   ((cdrom_locate_data_track_eq_ref
      (CDROM_TOC.mk ([0x01000000, 0x01000100, 0x41001234, 0x01000300, 0x01000400] ++
        List.replicate 94 0) 0x00010000 0x00050000) (by decide)).1).trans (by decide)⟩

/-! ### Sector transfer -/

/-- C2: alignment rejection in `cdrom_read_sectors_ex`.  A DMA read into a
buffer whose address is not a multiple of 32, and a PIO read into a buffer at an
odd address, return `ERR_SYS` at once: the world after the call is the world
before it, so no event (lock, submission, server tick, cache operation) has been
added to the trace and no driver variable has changed. -/
theorem cdrom_read_sectors_ex_unaligned (s : Stub) (fuel buffer : Nat) (sector cnt : Int)
    (w : World) :
    (buffer % 32 ≠ 0 →
      cdrom_read_sectors_ex s fuel buffer sector cnt CDROM_READ_DMA w = some (ERR_SYS, w)) ∧
    (buffer % 2 ≠ 0 →
      cdrom_read_sectors_ex s fuel buffer sector cnt CDROM_READ_PIO w = some (ERR_SYS, w)) := by
  constructor
  · intro h
    have h1 : buffer &&& 0x1f ≠ 0 := by rw [and_0x1f]; exact h
    simp only [cdrom_read_sectors_ex, if_true, h1, ne_eq, not_false_eq_true]
  · intro h
    have h1 : buffer &&& 0x01 ≠ 0 := by rw [Nat.and_one_is_mod]; exact h
    have hm : CDROM_READ_PIO ≠ CDROM_READ_DMA := by decide
    simp only [cdrom_read_sectors_ex, if_true, h1, hm, if_false, ne_eq, not_false_eq_true]

/-- Witness for C2: a DMA read into address `0x8c000010` and a PIO read into
address `0x8c000001` at boot. -/
theorem cdrom_read_sectors_ex_unaligned_witness :
    cdrom_read_sectors_ex Stub.prompt 5 0x8c000010 150 1 CDROM_READ_DMA World.boot
      = some (ERR_SYS, World.boot) ∧
    cdrom_read_sectors_ex Stub.prompt 5 0x8c000001 150 1 CDROM_READ_PIO World.boot
      = some (ERR_SYS, World.boot) :=
  ⟨(cdrom_read_sectors_ex_unaligned Stub.prompt 5 0x8c000010 150 1 World.boot).1 (by decide),
   (cdrom_read_sectors_ex_unaligned Stub.prompt 5 0x8c000001 150 1 World.boot).2 (by decide)⟩

/-! ### Command execution -/

/-- The last poll of the polling loop of `cdrom_exec_cmd_timed`: either it is
terminal and is the last event of the loop, or the loop timed out on it: it is
then followed by the clock reading, the unlock and the nested
`cdrom_abort_cmd`. -/
theorem exec_poll_last (s : Stub) (fuelA : Nat) (hnd T : Int) (b : Nat) :
    ∀ (fuel : Nat) (st : Status) (w : World) (n rv : Int) (st' : Status) (w' : World),
    exec_poll s fuelA hnd T b fuel st w = some (n, rv, st', w') →
    (rv = ERR_OK ∧ n ≠ PROCESSING ∧ n ≠ BUSY ∧ w'.drv = w.drv ∧
        ∃ pre, w'.trace = w.trace ++ pre ++ [.check_command hnd n st']) ∨
    (rv = ERR_TIMEOUT ∧ T ≠ 0 ∧ (n = PROCESSING ∨ n = BUSY) ∧
        ∃ (pre : List Event) (t : Nat) (wa : World) (ra : Int), wa.drv = w.drv ∧
          wa.trace = w.trace ++ pre ++
            [.check_command hnd n st', .timer_ms_gettime64 t, .mutex_unlock] ∧
          cdrom_abort_cmd s fuelA (to_uint32 T) wa = some (ra, w')) := by
  intro fuel
  induction fuel with
  | zero => intro st w n rv st' w' h; simp [exec_poll] at h
  | succ fuel ih =>
    intro st w n rv st' w' h
    simp only [exec_poll] at h
    generalize s.check_command (w.emit .exec_server).trace hnd st = r at h
    split_ifs at h with h1 h2 h3
    · simp only [Option.some.injEq, Prod.mk.injEq] at h
      obtain ⟨hn, hrv, hst, hw⟩ := h
      subst hn hrv hst hw
      exact Or.inl ⟨rfl, h1.1, h1.2, rfl, [.exec_server], by simp⟩
    · have hpb : r.1 = PROCESSING ∨ r.1 = BUSY := by
        by_contra hcon
        exact h1 ⟨fun h => hcon (Or.inl h), fun h => hcon (Or.inr h)⟩
      split at h
      · exact absurd h (by simp)
      · rename_i rv0 w5 ha
        simp only [Option.some.injEq, Prod.mk.injEq] at h
        obtain ⟨hn, hrv, hst, hw⟩ := h
        subst hn hrv hst hw
        exact Or.inr ⟨rfl, h2, hpb, [.exec_server],
          read_timer s ((w.emit .exec_server).emit (.check_command hnd r.1 r.2)), _, rv0,
          by simp, by simp, ha⟩
    · rcases ih _ _ _ _ _ _ h with ⟨c1, c2, c3, c4, pre, c5⟩ | ⟨c1, c2, c3, pre, t, wa, ra, d1, d2, d3⟩
      · exact Or.inl ⟨c1, c2, c3, by simpa using c4, [.exec_server, .check_command hnd r.1 r.2,
          .timer_ms_gettime64 (read_timer s
            ((w.emit .exec_server).emit (.check_command hnd r.1 r.2))),
          .thd_pass] ++ pre, by simp [c5]⟩
      · exact Or.inr ⟨c1, c2, c3, [.exec_server, .check_command hnd r.1 r.2,
          .timer_ms_gettime64 (read_timer s
            ((w.emit .exec_server).emit (.check_command hnd r.1 r.2))),
          .thd_pass] ++ pre, t, wa, ra, by simpa using d1, by simp [d2], d3⟩
    · rcases ih _ _ _ _ _ _ h with ⟨c1, c2, c3, c4, pre, c5⟩ | ⟨c1, c2, c3, pre, t, wa, ra, d1, d2, d3⟩
      · exact Or.inl ⟨c1, c2, c3, by simpa using c4,
          [.exec_server, .check_command hnd r.1 r.2, .thd_pass] ++ pre, by simp [c5]⟩
      · exact Or.inr ⟨c1, c2, c3, [.exec_server, .check_command hnd r.1 r.2, .thd_pass] ++ pre,
          t, wa, ra, by simpa using d1, by simp [d2], d3⟩

/-- Every returning run of `cdrom_exec_cmd_timed` that obtained a handle, told
by the last poll `(n, status)` of its polling loop. -/
theorem cdrom_exec_cmd_timed_last_poll (s : Stub) (fuel : Nat) (cmd : Int)
    (param : List Int) (T : Int) (w : World) (rv : Int) (w' : World)
    (hhnd : 0 < (submit_loop s cmd param 10 0 (w.emit .mutex_lock)).1)
    (hret : cdrom_exec_cmd_timed s fuel cmd param T w = some (rv, w')) :
    ∃ (pre : List Event) (n : Int) (st : Status),
      (n ≠ BUSY ∧ n ≠ PROCESSING ∧
        w'.trace = pre ++ [.check_command
          (submit_loop s cmd param 10 0 (w.emit .mutex_lock)).1 n st, .mutex_unlock] ∧
        rv = exec_result ERR_OK n st ∧
        w'.drv.cmd_hnd = (if n = STREAMING then
          (submit_loop s cmd param 10 0 (w.emit .mutex_lock)).1 else 0)) ∨
      ((n = BUSY ∨ n = PROCESSING) ∧ T ≠ 0 ∧ rv = ERR_TIMEOUT ∧ w'.drv.cmd_hnd = 0 ∧
        ∃ (t : Nat) (ra : Int) (wb : World),
          cdrom_abort_cmd s fuel (to_uint32 T) ⟨w.drv, pre ++ [.check_command
            (submit_loop s cmd param 10 0 (w.emit .mutex_lock)).1 n st,
            .timer_ms_gettime64 t, .mutex_unlock]⟩ = some (ra, wb) ∧
          w'.trace = wb.trace) := by
  have hsub := (submit_loop_spec s cmd param 10 0 (w.emit .mutex_lock)).1
  unfold cdrom_exec_cmd_timed at hret
  by_cases hcmd : 0 < cmd ∧ cmd < CMD_MAX
  · rw [if_pos hcmd] at hret
    generalize submit_loop s cmd param 10 0 (w.emit .mutex_lock) = sub at hret hhnd hsub ⊢
    have hh : ¬ sub.1 ≤ 0 := not_le.mpr hhnd
    simp only [hh, if_false] at hret
    generalize hp : exec_poll s fuel sub.1 T (if T ≠ 0 then read_timer s sub.2 else 0) fuel
      Status.zero (if T ≠ 0 then sub.2.emit (.timer_ms_gettime64 (read_timer s sub.2))
        else sub.2) = res at hret
    cases res with
    | none => exact absurd hret (by simp)
    | some q =>
      obtain ⟨n, rv0, st, w3⟩ := q
      simp only [Option.some.injEq, Prod.mk.injEq] at hret
      obtain ⟨hrv, hw'⟩ := hret
      have hdrv0 : (if T ≠ 0 then sub.2.emit (.timer_ms_gettime64 (read_timer s sub.2))
          else sub.2).drv = w.drv := by
        split_ifs <;> simpa using hsub
      generalize (if T ≠ 0 then sub.2.emit (.timer_ms_gettime64 (read_timer s sub.2))
          else sub.2) = w2 at hp hdrv0
      rcases exec_poll_last s _ _ _ _ _ _ _ _ _ _ _ hp with
        ⟨c1, c2, c3, c4, pre, c5⟩ | ⟨c1, c2, c3, pre, t, wa, ra, d1, d2, d3⟩
      · subst c1
        have hne : ERR_OK ≠ ERR_TIMEOUT := by decide
        rw [if_pos hne] at hw'
        refine ⟨w2.trace ++ pre, n, st, Or.inl ⟨c3, c2, ?_, hrv.symm, ?_⟩⟩
        · rw [← hw']
          simp [c5]
        · rw [← hw']
          split_ifs <;> rfl
      · subst c1
        have hs : n ≠ STREAMING := by
          rcases c3 with h | h <;> (rw [h]; decide)
        rw [if_neg (not_not.mpr rfl), if_neg hs] at hw'
        refine ⟨w2.trace ++ pre, n, st, Or.inr ⟨c3.symm, c2, ?_, ?_, t, ra, w3, ?_, ?_⟩⟩
        · rw [← hrv]
          simp [exec_result, ERR_TIMEOUT, ERR_OK]
        · rw [← hw']
          rfl
        · have hwa : wa = ⟨w.drv, w2.trace ++ pre ++ [.check_command sub.1 n st,
              .timer_ms_gettime64 t, .mutex_unlock]⟩ := by
            cases wa
            simp only [World.mk.injEq]
            exact ⟨by rw [← hdrv0]; exact d1, d2⟩
          rw [← hwa]
          exact d3
        · rw [← hw']
          rfl
  · rw [if_neg hcmd] at hret
    exact absurd hret (by simp)

/-- C3: result translation.  Every returning run of `cdrom_exec_cmd_timed` that
obtained a handle `hnd` has a last poll `(n, status)` of `hnd` in its polling
loop, and the result is told by that poll.  If `n` is neither `BUSY` nor
`PROCESSING`, the poll is the last event before the final `mutex_unlock` and the
result is `exec_code n status[0]`: `ERR_OK` for `COMPLETED`/`STREAMING`,
`ERR_NO_ACTIVE` for `NO_ACTIVE`, otherwise `ERR_NO_DISC` / `ERR_DISC_CHG` /
`ERR_SYS` as `status[0]` is 2 / 6 / anything else; the second status word plays
no part.  The result is `ERR_TIMEOUT` only if `n` is `BUSY` or `PROCESSING`, a
timeout was given, and the poll is followed by the clock reading, the unlock
and the run of `cdrom_abort_cmd`, which ends the trace. -/
theorem cdrom_exec_cmd_timed_translation (s : Stub) (fuel : Nat) (cmd : Int)
    (param : List Int) (T : Int) (w : World) (rv : Int) (w' : World)
    (hhnd : 0 < (submit_loop s cmd param 10 0 (w.emit .mutex_lock)).1)
    (hret : cdrom_exec_cmd_timed s fuel cmd param T w = some (rv, w')) :
    ∃ (pre : List Event) (n : Int) (st : Status),
      (n ≠ BUSY ∧ n ≠ PROCESSING ∧
        w'.trace = pre ++ [.check_command
          (submit_loop s cmd param 10 0 (w.emit .mutex_lock)).1 n st, .mutex_unlock] ∧
        rv ≠ ERR_TIMEOUT ∧ rv = exec_code n st.err1 ∧
        ∀ e2 : Int, exec_result ERR_OK n { st with err2 := e2 } = rv) ∨
      ((n = BUSY ∨ n = PROCESSING) ∧ T ≠ 0 ∧ rv = ERR_TIMEOUT ∧
        ∃ (t : Nat) (ra : Int) (wb : World),
          cdrom_abort_cmd s fuel (to_uint32 T) ⟨w.drv, pre ++ [.check_command
            (submit_loop s cmd param 10 0 (w.emit .mutex_lock)).1 n st,
            .timer_ms_gettime64 t, .mutex_unlock]⟩ = some (ra, wb) ∧
          w'.trace = wb.trace) := by
  obtain ⟨pre, n, st, h⟩ := cdrom_exec_cmd_timed_last_poll s fuel cmd param T w rv w' hhnd hret
  refine ⟨pre, n, st, ?_⟩
  rcases h with ⟨a1, a2, a3, a4, _⟩ | ⟨b1, b2, b3, _, b5⟩
  · left
    rw [exec_result_ok] at a4
    refine ⟨a1, a2, a3, ?_, a4, ?_⟩
    · rw [a4]; exact exec_code_ne_timeout _ _
    · intro e2
      rw [exec_result_ok, a4]
  · exact Or.inr ⟨b1, b2, b3, b5⟩

/-- Witness for C3: two timed calls (10 ms) of command 24.  The drive reports
failure with status words (6, 99) at the first poll: the result is
`ERR_DISC_CHG`.  The drive never leaves `PROCESSING`: the result is
`ERR_TIMEOUT`. -/
theorem cdrom_exec_cmd_timed_translation_witness :
    0 < (submit_loop Stub.disc_changed 24 [] 10 0 (World.boot.emit .mutex_lock)).1 ∧
    cdrom_exec_cmd_timed Stub.disc_changed 1 24 [] 10 World.boot =
      some (ERR_DISC_CHG, World.after_disc_changed) ∧
    (∃ (pre : List Event) (n : Int) (st : Status),
      (n ≠ BUSY ∧ n ≠ PROCESSING ∧
        World.after_disc_changed.trace = pre ++ [.check_command
          (submit_loop Stub.disc_changed 24 [] 10 0 (World.boot.emit .mutex_lock)).1 n st,
          .mutex_unlock] ∧
        ERR_DISC_CHG ≠ ERR_TIMEOUT ∧ ERR_DISC_CHG = exec_code n st.err1 ∧
        ∀ e2 : Int, exec_result ERR_OK n { st with err2 := e2 } = ERR_DISC_CHG) ∨
      ((n = BUSY ∨ n = PROCESSING) ∧ (10 : Int) ≠ 0 ∧ ERR_DISC_CHG = ERR_TIMEOUT ∧
        ∃ (t : Nat) (ra : Int) (wb : World),
          cdrom_abort_cmd Stub.disc_changed 1 (to_uint32 10) ⟨World.boot.drv,
            pre ++ [.check_command
              (submit_loop Stub.disc_changed 24 [] 10 0 (World.boot.emit .mutex_lock)).1 n st,
            .timer_ms_gettime64 t, .mutex_unlock]⟩ = some (ra, wb) ∧
          World.after_disc_changed.trace = wb.trace)) ∧
    0 < (submit_loop Stub.stuck 24 [] 10 0 (World.boot.emit .mutex_lock)).1 ∧
    cdrom_exec_cmd_timed Stub.stuck 11 24 [] 10 World.boot =
      some (ERR_TIMEOUT, World.after_stuck) ∧
    (∃ (pre : List Event) (n : Int) (st : Status),
      (n ≠ BUSY ∧ n ≠ PROCESSING ∧
        World.after_stuck.trace = pre ++ [.check_command
          (submit_loop Stub.stuck 24 [] 10 0 (World.boot.emit .mutex_lock)).1 n st,
          .mutex_unlock] ∧
        ERR_TIMEOUT ≠ ERR_TIMEOUT ∧ ERR_TIMEOUT = exec_code n st.err1 ∧
        ∀ e2 : Int, exec_result ERR_OK n { st with err2 := e2 } = ERR_TIMEOUT) ∨
      ((n = BUSY ∨ n = PROCESSING) ∧ (10 : Int) ≠ 0 ∧ ERR_TIMEOUT = ERR_TIMEOUT ∧
        ∃ (t : Nat) (ra : Int) (wb : World),
          cdrom_abort_cmd Stub.stuck 11 (to_uint32 10) ⟨World.boot.drv,
            pre ++ [.check_command
              (submit_loop Stub.stuck 24 [] 10 0 (World.boot.emit .mutex_lock)).1 n st,
            .timer_ms_gettime64 t, .mutex_unlock]⟩ = some (ra, wb) ∧
          World.after_stuck.trace = wb.trace)) :=
  ⟨by decide, by decide,
   cdrom_exec_cmd_timed_translation Stub.disc_changed 1 24 [] 10 World.boot ERR_DISC_CHG
    World.after_disc_changed (by decide) (by decide),
   by decide, by decide,
   cdrom_exec_cmd_timed_translation Stub.stuck 11 24 [] 10 World.boot ERR_TIMEOUT
    World.after_stuck (by decide) (by decide)⟩

/-- C4: handle retention.  Every returning run of `cdrom_exec_cmd_timed` that
obtained a handle `hnd` has a last poll `(n, status)` of `hnd` in its polling
loop: either `n` is neither `BUSY` nor `PROCESSING` and the poll is the last
event before the final `mutex_unlock`, or the call timed out on it (`n` is
`BUSY` or `PROCESSING`, the result is `ERR_TIMEOUT`, and the poll is followed by
the clock reading, the unlock and the run of `cdrom_abort_cmd`).  On return
`cmd_hnd = hnd` exactly when `n = STREAMING`, and `cmd_hnd = 0` for every other
`n`, the timeout included; so `cmd_hnd` is `hnd` or 0. -/
theorem cdrom_exec_cmd_timed_handle (s : Stub) (fuel : Nat) (cmd : Int)
    (param : List Int) (T : Int) (w : World) (rv : Int) (w' : World)
    (hhnd : 0 < (submit_loop s cmd param 10 0 (w.emit .mutex_lock)).1)
    (hret : cdrom_exec_cmd_timed s fuel cmd param T w = some (rv, w')) :
    (w'.drv.cmd_hnd = (submit_loop s cmd param 10 0 (w.emit .mutex_lock)).1 ∨
      w'.drv.cmd_hnd = 0) ∧
    ∃ (pre : List Event) (n : Int) (st : Status),
      ((n ≠ BUSY ∧ n ≠ PROCESSING ∧ rv ≠ ERR_TIMEOUT ∧
        w'.trace = pre ++ [.check_command
          (submit_loop s cmd param 10 0 (w.emit .mutex_lock)).1 n st, .mutex_unlock]) ∨
       ((n = BUSY ∨ n = PROCESSING) ∧ T ≠ 0 ∧ rv = ERR_TIMEOUT ∧
        ∃ (t : Nat) (ra : Int) (wb : World),
          cdrom_abort_cmd s fuel (to_uint32 T) ⟨w.drv, pre ++ [.check_command
            (submit_loop s cmd param 10 0 (w.emit .mutex_lock)).1 n st,
            .timer_ms_gettime64 t, .mutex_unlock]⟩ = some (ra, wb) ∧
          w'.trace = wb.trace)) ∧
      (w'.drv.cmd_hnd = (submit_loop s cmd param 10 0 (w.emit .mutex_lock)).1 ↔
        n = STREAMING) ∧
      (n ≠ STREAMING → w'.drv.cmd_hnd = 0) := by
  obtain ⟨pre, n, st, h⟩ := cdrom_exec_cmd_timed_last_poll s fuel cmd param T w rv w' hhnd hret
  generalize submit_loop s cmd param 10 0 (w.emit .mutex_lock) = sub at *
  have hh : w'.drv.cmd_hnd = if n = STREAMING then sub.1 else 0 := by
    rcases h with ⟨_, _, _, _, a5⟩ | ⟨b1, _, _, b4, _⟩
    · exact a5
    · have hs : n ≠ STREAMING := by
        rcases b1 with h | h <;> (rw [h]; decide)
      rw [if_neg hs]
      exact b4
  have hiff : (w'.drv.cmd_hnd = sub.1 ↔ n = STREAMING) ∧ (n ≠ STREAMING → w'.drv.cmd_hnd = 0) := by
    rw [hh]
    by_cases hs : n = STREAMING
    · rw [if_pos hs]
      exact ⟨⟨fun _ => hs, fun _ => rfl⟩, fun h => absurd hs h⟩
    · rw [if_neg hs]
      exact ⟨⟨fun h => by omega, fun h => absurd h hs⟩, fun _ => rfl⟩
  refine ⟨?_, pre, n, st, ?_, hiff⟩
  · rw [hh]
    split_ifs
    · exact Or.inl rfl
    · exact Or.inr rfl
  · rcases h with ⟨a1, a2, a3, a4, _⟩ | ⟨b1, b2, b3, _, b5⟩
    · left
      refine ⟨a1, a2, ?_, a3⟩
      rw [a4, exec_result_ok]
      exact exec_code_ne_timeout _ _
    · exact Or.inr ⟨b1, b2, b3, b5⟩

/-- Witness for C4: two timed calls (10 ms).  A run that ends on `STREAMING`
retains handle 7; a run that times out leaves `cmd_hnd = 0`. -/
theorem cdrom_exec_cmd_timed_handle_witness :
    0 < (submit_loop Stub.streaming 28 [0, 4] 10 0 (World.boot.emit .mutex_lock)).1 ∧
    cdrom_exec_cmd_timed Stub.streaming 1 28 [0, 4] 10 World.boot =
      some (ERR_OK, World.after_streaming) ∧
    (World.after_streaming.drv.cmd_hnd =
        (submit_loop Stub.streaming 28 [0, 4] 10 0 (World.boot.emit .mutex_lock)).1 ∨
      World.after_streaming.drv.cmd_hnd = 0) ∧
    0 < (submit_loop Stub.stuck 24 [] 10 0 (World.boot.emit .mutex_lock)).1 ∧
    cdrom_exec_cmd_timed Stub.stuck 11 24 [] 10 World.boot =
      some (ERR_TIMEOUT, World.after_stuck) ∧
    (World.after_stuck.drv.cmd_hnd =
        (submit_loop Stub.stuck 24 [] 10 0 (World.boot.emit .mutex_lock)).1 ∨
      World.after_stuck.drv.cmd_hnd = 0) ∧
    World.after_streaming.drv.cmd_hnd = 7 ∧ World.after_stuck.drv.cmd_hnd = 0 :=
  ⟨by decide, by decide,
   (cdrom_exec_cmd_timed_handle Stub.streaming 1 28 [0, 4] 10 World.boot ERR_OK
    World.after_streaming (by decide) (by decide)).1,
   by decide, by decide,
   (cdrom_exec_cmd_timed_handle Stub.stuck 11 24 [] 10 World.boot ERR_TIMEOUT
    World.after_stuck (by decide) (by decide)).1,
   by decide, by decide⟩

/-- C5: bounded submission.  The submission phase of `cdrom_exec_cmd_timed`
consists of `j <= 10` refused attempts, each followed by a command-server tick
and a yield, and then either nothing (`j = 10`, no handle) or one accepted
attempt (`j < 10`): at most 10 `send_command` calls, and no poll.  When no
handle is obtained the call returns `ERR_SYS` for every iteration bound, its
events being the lock, the submission phase and the unlock, with the driver
variables unchanged.  In every returning run the events after the submission
phase contain no further `send_command`. -/
theorem cdrom_exec_cmd_timed_submission (s : Stub) (fuel : Nat) (cmd : Int)
    (param : List Int) (T : Int) (w : World) (hcmd : 0 < cmd ∧ cmd < CMD_MAX) :
    ∃ (j : Nat) (tail : List Event), j ≤ 10 ∧
      ((tail = [] ∧ j = 10 ∧ (submit_loop s cmd param 10 0 (w.emit .mutex_lock)).1 = 0) ∨
       (tail = [.send_command cmd param (submit_loop s cmd param 10 0 (w.emit .mutex_lock)).1] ∧
          (submit_loop s cmd param 10 0 (w.emit .mutex_lock)).1 ≠ 0 ∧ j < 10)) ∧
      sends (failed_attempts cmd param j ++ tail) ≤ 10 ∧
      polled (failed_attempts cmd param j ++ tail) = [] ∧
      ((submit_loop s cmd param 10 0 (w.emit .mutex_lock)).1 ≤ 0 →
        cdrom_exec_cmd_timed s fuel cmd param T w = some (ERR_SYS,
          ⟨w.drv, w.trace ++ Event.mutex_lock :: (failed_attempts cmd param j ++ tail) ++
            [Event.mutex_unlock]⟩)) ∧
      (∀ (rv : Int) (w' : World), cdrom_exec_cmd_timed s fuel cmd param T w = some (rv, w') →
        ∃ rest, w'.trace = w.trace ++ Event.mutex_lock ::
          (failed_attempts cmd param j ++ tail) ++ rest ∧ sends rest = 0) := by
  obtain ⟨hd, j, tail, hj, ht, hcase⟩ := submit_loop_spec s cmd param 10 0 (w.emit .mutex_lock)
  have ht' : (submit_loop s cmd param 10 0 (w.emit .mutex_lock)).2.trace =
      w.trace ++ Event.mutex_lock :: (failed_attempts cmd param j ++ tail) := by
    rw [ht]; simp
  refine ⟨j, tail, hj, ?_, ?_, ?_, ?_, ?_⟩
  · rcases hcase with ⟨h1, h2, h3⟩ | h
    · left
      refine ⟨h1, h2, ?_⟩
      rcases h3 with h3 | h3 <;> exact h3
    · exact Or.inr h
  · rw [sends_append, sends_failed_attempts]
    rcases hcase with ⟨h1, _, _⟩ | ⟨h1, _, h3⟩
    · rw [h1]; simp [sends]; exact hj
    · rw [h1]; simp [sends]; omega
  · rw [polled_append, polled_failed_attempts]
    rcases hcase with ⟨h1, _, _⟩ | ⟨h1, _, _⟩ <;> (rw [h1]; simp [polled])
  · intro h0
    unfold cdrom_exec_cmd_timed
    rw [if_pos hcmd]
    simp only [h0, if_true]
    have hw : (submit_loop s cmd param 10 0 (w.emit .mutex_lock)).2.emit .mutex_unlock =
        ⟨(submit_loop s cmd param 10 0 (w.emit .mutex_lock)).2.drv,
         (submit_loop s cmd param 10 0 (w.emit .mutex_lock)).2.trace ++ [.mutex_unlock]⟩ := rfl
    rw [hw, hd, ht']
    rfl
  · intro rv w' hret
    obtain ⟨_, hrun⟩ := cdrom_exec_cmd_timed_run s fuel cmd param T w rv w' hret
    rcases hrun with ⟨_, _, hw'⟩ | ⟨_, n, rv0, st, w3, evs, hw3, hs, _, hw', _⟩
    · exact ⟨[.mutex_unlock], by rw [hw']; simp [ht], by simp [sends]⟩
    · by_cases hto : rv0 ≠ ERR_TIMEOUT
      · rw [if_pos hto] at hw'
        refine ⟨evs ++ [.mutex_unlock], by rw [hw']; simp [hw3, ht], ?_⟩
        rw [sends_append, hs]
        simp [sends]
      · rw [if_neg hto] at hw'
        exact ⟨evs, by rw [hw']; simp [hw3, ht], hs⟩

/-- Witness for C5: the drive refuses all ten submissions of command 24. -/
theorem cdrom_exec_cmd_timed_submission_witness :
    ((0 : Int) < 24 ∧ (24 : Int) < CMD_MAX) ∧
    cdrom_exec_cmd_timed Stub.refusing 0 24 [] 50 World.boot = some (ERR_SYS,
      ⟨Driver.initial, Event.mutex_lock :: (failed_attempts 24 [] 10 ++ [Event.mutex_unlock])⟩) ∧
    ∃ (j : Nat) (tail : List Event), j ≤ 10 ∧
      ((tail = [] ∧ j = 10 ∧
          (submit_loop Stub.refusing 24 [] 10 0 (World.boot.emit .mutex_lock)).1 = 0) ∨
       (tail = [.send_command 24 []
            (submit_loop Stub.refusing 24 [] 10 0 (World.boot.emit .mutex_lock)).1] ∧
          (submit_loop Stub.refusing 24 [] 10 0 (World.boot.emit .mutex_lock)).1 ≠ 0 ∧ j < 10)) ∧
      sends (failed_attempts 24 [] j ++ tail) ≤ 10 ∧
      polled (failed_attempts 24 [] j ++ tail) = [] ∧
      ((submit_loop Stub.refusing 24 [] 10 0 (World.boot.emit .mutex_lock)).1 ≤ 0 →
        cdrom_exec_cmd_timed Stub.refusing 0 24 [] 50 World.boot = some (ERR_SYS,
          ⟨World.boot.drv, World.boot.trace ++ Event.mutex_lock ::
            (failed_attempts 24 [] j ++ tail) ++ [Event.mutex_unlock]⟩)) ∧
      (∀ (rv : Int) (w' : World),
        cdrom_exec_cmd_timed Stub.refusing 0 24 [] 50 World.boot = some (rv, w') →
        ∃ rest, w'.trace = World.boot.trace ++ Event.mutex_lock ::
          (failed_attempts 24 [] j ++ tail) ++ rest ∧ sends rest = 0) :=
  ⟨by decide, by decide,
   cdrom_exec_cmd_timed_submission Stub.refusing 0 24 [] 50 World.boot (by decide)⟩

/-- C6: timeout.  If a handle is obtained, the polled state never leaves
`BUSY`/`PROCESSING` and the clock advances, then `cdrom_exec_cmd_timed` with
timeout `0 < T < 2^31` returns `ERR_TIMEOUT` within `T + 1` polling rounds;
`cmd_hnd` is 0 on return; and the trace holds the clock reading taken when
polling began and a later reading taken when the clock stood at least `T` ms
further on. -/
theorem cdrom_exec_cmd_timed_timeout (s : Stub) (fuel : Nat) (cmd : Int)
    (param : List Int) (T : Nat) (w : World) (hcmd : 0 < cmd ∧ cmd < CMD_MAX)
    (hT : 0 < T) (hT31 : T < 2 ^ 31) (hclk : ClockAdvances s)
    (hstuck : ∀ h hd st, (s.check_command h hd st).1 = BUSY ∨
      (s.check_command h hd st).1 = PROCESSING)
    (hhnd : 0 < (submit_loop s cmd param 10 0 (w.emit .mutex_lock)).1)
    (hfuel : T + 1 ≤ fuel) :
    ∃ (w' : World) (mid rest : List Event),
      cdrom_exec_cmd_timed s fuel cmd param (T : Int) w = some (ERR_TIMEOUT, w') ∧
      w'.drv.cmd_hnd = 0 ∧
      w'.trace =
        ((submit_loop s cmd param 10 0 (w.emit .mutex_lock)).2.trace ++
          Event.timer_ms_gettime64
            (s.timer_ms (submit_loop s cmd param 10 0 (w.emit .mutex_lock)).2.trace % 2 ^ 64)
            :: mid) ++
        Event.timer_ms_gettime64
          (s.timer_ms ((submit_loop s cmd param 10 0 (w.emit .mutex_lock)).2.trace ++
            Event.timer_ms_gettime64
              (s.timer_ms (submit_loop s cmd param 10 0 (w.emit .mutex_lock)).2.trace % 2 ^ 64)
              :: mid) % 2 ^ 64) :: rest ∧
      s.timer_ms (submit_loop s cmd param 10 0 (w.emit .mutex_lock)).2.trace + T ≤
        s.timer_ms ((submit_loop s cmd param 10 0 (w.emit .mutex_lock)).2.trace ++
          Event.timer_ms_gettime64
            (s.timer_ms (submit_loop s cmd param 10 0 (w.emit .mutex_lock)).2.trace % 2 ^ 64)
            :: mid) := by
  have hTi : (T : Int) ≠ 0 := by omega
  unfold cdrom_exec_cmd_timed
  rw [if_pos hcmd]
  generalize submit_loop s cmd param 10 0 (w.emit .mutex_lock) = sub at hhnd ⊢
  have hh : ¬ sub.1 ≤ 0 := not_le.mpr hhnd
  simp only [hh, if_false, hTi, ne_eq, not_false_eq_true, if_true]
  have h1 := clock_mono_emit hclk sub.2 (.timer_ms_gettime64 (read_timer s sub.2))
  have h2 := clock_step_emit hclk sub.2 (.timer_ms_gettime64 (read_timer s sub.2))
  obtain ⟨n, st', w3, mid, rest, he, hn, htr, htm⟩ :=
    exec_poll_times_out s fuel sub.1 T (s.timer_ms sub.2.trace) hclk hT (by omega) hstuck hfuel
      fuel Status.zero (sub.2.emit (.timer_ms_gettime64 (read_timer s sub.2)))
      h1 (by omega) (by omega)
  have hm : (sub.2.emit (.timer_ms_gettime64 (read_timer s sub.2))).trace ++ mid =
      sub.2.trace ++ Event.timer_ms_gettime64 (s.timer_ms sub.2.trace % 2 ^ 64) :: mid := by
    simp [read_timer]
  rw [hm] at htr htm
  have hs : n ≠ STREAMING := by
    rcases hn with h | h <;> (rw [h]; decide)
  unfold read_timer at he ⊢
  rw [he]
  refine ⟨w3.set_cmd_hnd 0, mid, rest, ?_, rfl, htr, htm⟩
  simp [exec_result, ERR_TIMEOUT, ERR_OK, hs]

/-- Witness for C6: the drive accepts command 24 with handle 7 and never leaves
`PROCESSING`; the timeout is 10 ms. -/
theorem cdrom_exec_cmd_timed_timeout_witness :
    ClockAdvances Stub.stuck ∧
    0 < (submit_loop Stub.stuck 24 [] 10 0 (World.boot.emit .mutex_lock)).1 ∧
    ∃ w', cdrom_exec_cmd_timed Stub.stuck 11 24 [] ((10 : Nat) : Int) World.boot =
        some (ERR_TIMEOUT, w') ∧ w'.drv.cmd_hnd = 0 :=
  ⟨clock_advances_length _ (fun _ => rfl), by decide,
   (cdrom_exec_cmd_timed_timeout Stub.stuck 11 24 [] 10 World.boot (by decide) (by decide)
      (by decide) (clock_advances_length _ (fun _ => rfl)) (fun _ _ _ => Or.inr rfl)
      (by decide) (by decide)).elim
    fun w' h => h.elim fun _ h => h.elim fun _ h => ⟨w', h.1, h.2.1⟩⟩

/-- C7 (the code at the failing input): command 24 is accepted with handle 7,
never leaves `PROCESSING`, and the call times out after 10 ms.  Started with no
retained handle, the run returns `ERR_TIMEOUT` without a single
`syscall_gdrom_abort_command`: the nested `cdrom_abort_cmd` sees `cmd_hnd = 0`
and returns at once.  Started with the stale handle 5 retained, the only abort
request is for handle 5, not for the handle 7 being polled. -/
theorem cdrom_exec_cmd_timed_timeout_abort_missing :
    cdrom_exec_cmd_timed Stub.stuck 11 24 [] 10 World.boot =
      some (ERR_TIMEOUT, ⟨Driver.initial,
        [.mutex_lock, .send_command 24 [] 7, .timer_ms_gettime64 2,
         .exec_server, .check_command 7 PROCESSING Status.zero, .timer_ms_gettime64 5,
         .thd_pass,
         .exec_server, .check_command 7 PROCESSING Status.zero, .timer_ms_gettime64 9,
         .thd_pass,
         .exec_server, .check_command 7 PROCESSING Status.zero, .timer_ms_gettime64 13,
         .mutex_unlock]⟩) ∧
    (cdrom_exec_cmd_timed Stub.stuck 11 24 [] 10 World.boot).map
      (fun r => (r.1, abort_requests r.2.trace)) = some (ERR_TIMEOUT, []) ∧
    (cdrom_exec_cmd_timed Stub.stuck 11 24 [] 10 (World.boot.set_cmd_hnd 5)).map
      (fun r => (r.1, abort_requests r.2.trace)) = some (ERR_TIMEOUT, [5]) := by
  refine ⟨by decide, by decide, by decide⟩

/-! ### Abort and recovery -/

/-- C8: `cdrom_abort_cmd` with no active handle (`cmd_hnd <= 0`) returns
`ERR_NO_ACTIVE` for every timeout and every iteration bound, and the world after
the call is the world before it: no hardware call, no lock operation, no change
of a driver variable.  Calling it a second time therefore gives the same result
and the same world. -/
theorem cdrom_abort_cmd_no_active (s : Stub) (fuel timeout : Nat) (w : World)
    (h : w.drv.cmd_hnd ≤ 0) :
    cdrom_abort_cmd s fuel timeout w = some (ERR_NO_ACTIVE, w) ∧
    (cdrom_abort_cmd s fuel timeout w).bind (fun r => cdrom_abort_cmd s fuel timeout r.2)
      = cdrom_abort_cmd s fuel timeout w := by
  have h1 : cdrom_abort_cmd s fuel timeout w = some (ERR_NO_ACTIVE, w) := by
    simp only [cdrom_abort_cmd, h, if_true]
  refine ⟨h1, ?_⟩
  rw [h1]
  simp only [Option.some_bind]
  exact h1

/-- Witness for C8: aborting twice at boot, where no handle is active. -/
theorem cdrom_abort_cmd_no_active_witness :
    World.boot.drv.cmd_hnd ≤ 0 ∧
    cdrom_abort_cmd Stub.stuck 0 1000 World.boot = some (ERR_NO_ACTIVE, World.boot) :=
  ⟨by decide, (cdrom_abort_cmd_no_active Stub.stuck 0 1000 World.boot (by decide)).1⟩

/-- C9: every call of `cdrom_abort_cmd` that starts with an active handle and
returns leaves `cmd_hnd = 0`; the events it adds are one `mutex_lock`, then
events that contain no lock operation, then one `mutex_unlock`; and the result
is `ERR_OK` exactly when a poll reported `NO_ACTIVE` or `COMPLETED` (otherwise
it is `ERR_TIMEOUT`). -/
theorem cdrom_abort_cmd_clears_and_unlocks (s : Stub) (fuel T : Nat) (w : World) (rv : Int)
    (w' : World) (hact : 0 < w.drv.cmd_hnd)
    (hret : cdrom_abort_cmd s fuel T w = some (rv, w')) :
    w'.drv.cmd_hnd = 0 ∧ ∃ evs,
      w'.trace = w.trace ++ Event.mutex_lock :: evs ++ [Event.mutex_unlock] ∧
      locks evs = 0 ∧ unlocks evs = 0 ∧
      (rv = ERR_OK ↔ ∃ n ∈ polled evs, n = NO_ACTIVE ∨ n = COMPLETED) ∧
      (rv ≠ ERR_OK → rv = ERR_TIMEOUT) := by
  obtain ⟨h0, evs, ht, hl, hu, hcase⟩ := cdrom_abort_cmd_spec s fuel T w rv w' hact hret
  refine ⟨h0, evs, ht, hl, hu, ?_⟩
  rcases hcase with ⟨h1, _, h3⟩ | ⟨h1, _, _, h4⟩
  · exact ⟨⟨fun _ => h3, fun _ => h1⟩, fun h => absurd h1 h⟩
  · refine ⟨⟨fun h => ?_, fun h => ?_⟩, fun _ => h1⟩
    · rw [h1] at h; exact absurd h (by decide)
    · obtain ⟨n, hn, hn'⟩ := h
      have := h4 n hn
      rcases hn' with hn' | hn'
      · exact absurd hn' this.1
      · exact absurd hn' this.2

/-- Witness for C9: with handle 5 active, an abort that is confirmed at once
(no timeout given) and an abort that times out after 3 ms. -/
theorem cdrom_abort_cmd_clears_and_unlocks_witness :
    (0 < (World.boot.set_cmd_hnd 5).drv.cmd_hnd ∧
     cdrom_abort_cmd Stub.prompt 1 0 (World.boot.set_cmd_hnd 5) =
      some (ERR_OK, ⟨Driver.initial,
        [.mutex_lock, .abort_command 5, .exec_server,
         .check_command 5 COMPLETED Status.zero, .mutex_unlock]⟩)) ∧
    (cdrom_abort_cmd Stub.stuck 1 3 (World.boot.set_cmd_hnd 5) =
      some (ERR_TIMEOUT, ⟨Driver.initial,
        [.mutex_lock, .abort_command 5, .timer_ms_gettime64 2, .exec_server,
         .check_command 5 PROCESSING Status.zero, .timer_ms_gettime64 5,
         .reset, .init, .mutex_unlock]⟩)) ∧
    (∃ evs, [Event.mutex_lock, .abort_command 5, .timer_ms_gettime64 2, .exec_server,
         .check_command 5 PROCESSING Status.zero, .timer_ms_gettime64 5,
         .reset, .init, .mutex_unlock] =
        (World.boot.set_cmd_hnd 5).trace ++ Event.mutex_lock :: evs ++ [Event.mutex_unlock] ∧
      locks evs = 0 ∧ unlocks evs = 0 ∧
      (ERR_TIMEOUT = ERR_OK ↔ ∃ n ∈ polled evs, n = NO_ACTIVE ∨ n = COMPLETED) ∧
      (ERR_TIMEOUT ≠ ERR_OK → ERR_TIMEOUT = ERR_TIMEOUT)) :=
  ⟨⟨by decide, by decide⟩, by decide,
   (cdrom_abort_cmd_clears_and_unlocks Stub.stuck 1 3 (World.boot.set_cmd_hnd 5) ERR_TIMEOUT
      ⟨Driver.initial,
        [.mutex_lock, .abort_command 5, .timer_ms_gettime64 2, .exec_server,
         .check_command 5 PROCESSING Status.zero, .timer_ms_gettime64 5,
         .reset, .init, .mutex_unlock]⟩ (by decide) (by decide)).2⟩

/-- C10: abort recovery.  With an active handle, a timeout `0 < T < 2^32` and a
clock that advances, `cdrom_abort_cmd` returns within `T + 1` polling rounds,
with `ERR_OK` or `ERR_TIMEOUT` and nothing else.  If no poll of the run reports
`NO_ACTIVE` or `COMPLETED`, the result is `ERR_TIMEOUT` and the run issues
exactly one `syscall_gdrom_reset` followed by exactly one `syscall_gdrom_init`;
if a poll confirms the cancellation, the result is `ERR_OK` and neither call is
issued. -/
theorem cdrom_abort_cmd_recovery (s : Stub) (fuel T : Nat) (w : World)
    (hclk : ClockAdvances s) (hT : 0 < T) (hT32 : T < 2 ^ 32)
    (hact : 0 < w.drv.cmd_hnd) (hfuel : T + 1 ≤ fuel) :
    ∃ rv w' evs, cdrom_abort_cmd s fuel T w = some (rv, w') ∧
      w'.trace = w.trace ++ evs ∧
      (rv = ERR_OK ∨ rv = ERR_TIMEOUT) ∧
      ((∀ n ∈ polled evs, n ≠ NO_ACTIVE ∧ n ≠ COMPLETED) →
        rv = ERR_TIMEOUT ∧ resets evs = [.reset, .init]) ∧
      ((∃ n ∈ polled evs, n = NO_ACTIVE ∨ n = COMPLETED) →
        rv = ERR_OK ∧ resets evs = []) := by
  obtain ⟨⟨rv, w'⟩, hr⟩ := cdrom_abort_cmd_terminates s fuel T w hclk hT hT32 hfuel
  obtain ⟨_, evs, ht, _, _, hcase⟩ := cdrom_abort_cmd_spec s fuel T w rv w' hact hr
  refine ⟨rv, w', Event.mutex_lock :: evs ++ [Event.mutex_unlock], hr, by simp [ht], ?_⟩
  have hpol : polled (Event.mutex_lock :: evs ++ [Event.mutex_unlock]) = polled evs := by
    simp [polled]
  have hres : resets (Event.mutex_lock :: evs ++ [Event.mutex_unlock]) = resets evs := by
    simp [resets]
  rw [hpol, hres]
  rcases hcase with ⟨h1, h2, n, hn, hn'⟩ | ⟨h1, _, h3, h4⟩
  · refine ⟨Or.inl h1, fun hall => ?_, fun _ => ⟨h1, h2⟩⟩
    have := hall n hn
    rcases hn' with hn' | hn'
    · exact absurd hn' this.1
    · exact absurd hn' this.2
  · refine ⟨Or.inr h1, fun _ => ⟨h1, h3⟩, fun hex => ?_⟩
    obtain ⟨n, hn, hn'⟩ := hex
    have := h4 n hn
    rcases hn' with hn' | hn'
    · exact absurd hn' this.1
    · exact absurd hn' this.2

/-- Witness for C10: handle 5 active, the drive never confirms, timeout 3 ms. -/
theorem cdrom_abort_cmd_recovery_witness :
    ClockAdvances Stub.stuck ∧ 0 < (World.boot.set_cmd_hnd 5).drv.cmd_hnd ∧
    ∃ rv w' evs, cdrom_abort_cmd Stub.stuck 4 3 (World.boot.set_cmd_hnd 5) = some (rv, w') ∧
      w'.trace = (World.boot.set_cmd_hnd 5).trace ++ evs ∧
      (rv = ERR_OK ∨ rv = ERR_TIMEOUT) ∧
      ((∀ n ∈ polled evs, n ≠ NO_ACTIVE ∧ n ≠ COMPLETED) →
        rv = ERR_TIMEOUT ∧ resets evs = [.reset, .init]) ∧
      ((∃ n ∈ polled evs, n = NO_ACTIVE ∨ n = COMPLETED) →
        rv = ERR_OK ∧ resets evs = []) :=
  ⟨clock_advances_length _ (fun _ => rfl), by decide,
   cdrom_abort_cmd_recovery Stub.stuck 4 3 (World.boot.set_cmd_hnd 5)
    (clock_advances_length _ (fun _ => rfl)) (by decide) (by decide) (by decide) (by decide)⟩

/-! ### Interrupt handler, status query and progress probe -/

@[simp] theorem World.set_drv_trace (w : World) (d : Driver) : (w.set_drv d).trace = w.trace := rfl

@[simp] theorem World.set_drv_drv (w : World) (d : Driver) : (w.set_drv d).drv = d := rfl

@[simp] theorem World.sem_signal_trace (w : World) :
    w.sem_signal.trace = w.trace ++ [Event.sem_signal] := rfl

/-- C19: the DMA completion handler `g1_dma_irq_hnd`.  With the in-progress
flag clear it leaves the world as it is.  With the flag set it acknowledges the
completion once (`syscall_gdrom_dma_callback`) and clears the flag; if the
blocking flag is clear that is all; if the blocking flag is set it clears it and
then, in this order, releases the lock on behalf of the recorded thread, signals
the semaphore once and requests a scheduler pass.  In every case the command
handle and the stream mode are unchanged and the events added contain no
`mutex_lock` and no `mutex_trylock`. -/
theorem g1_dma_irq_hnd_spec (w : World) :
    (w.drv.dma_in_progress = 0 → g1_dma_irq_hnd w = w) ∧
    (w.drv.dma_in_progress ≠ 0 → w.drv.dma_blocking = 0 →
      g1_dma_irq_hnd w =
        ⟨{ w.drv with dma_in_progress := 0 }, w.trace ++ [.dma_callback]⟩) ∧
    (w.drv.dma_in_progress ≠ 0 → w.drv.dma_blocking ≠ 0 →
      g1_dma_irq_hnd w =
        ⟨{ w.drv with dma_in_progress := 0, dma_blocking := 0,
                      dma_done := w.drv.dma_done + 1 },
         w.trace ++ [.dma_callback, .mutex_unlock_as_thread w.drv.dma_thd, .sem_signal,
           .thd_schedule]⟩) ∧
    (g1_dma_irq_hnd w).drv.cmd_hnd = w.drv.cmd_hnd ∧
    (g1_dma_irq_hnd w).drv.stream_mode = w.drv.stream_mode ∧
    ∃ evs, (g1_dma_irq_hnd w).trace = w.trace ++ evs ∧ locks evs = 0 ∧ trylocks evs = [] := by
  by_cases hp : w.drv.dma_in_progress = 0
  · have h0 : g1_dma_irq_hnd w = w := by simp [g1_dma_irq_hnd, hp]
    refine ⟨fun _ => h0, fun h => absurd hp h, fun h => absurd hp h, ?_, ?_, ?_⟩
    · rw [h0]
    · rw [h0]
    · exact ⟨[], by rw [h0]; simp, by simp [locks], by simp [trylocks]⟩
  · by_cases hb : w.drv.dma_blocking = 0
    · have h0 : g1_dma_irq_hnd w =
          ⟨{ w.drv with dma_in_progress := 0 }, w.trace ++ [.dma_callback]⟩ := by
        simp [g1_dma_irq_hnd, hp, hb, World.set_drv, World.emit]
      refine ⟨fun h => absurd h hp, fun _ _ => h0, fun _ h => absurd hb h, ?_, ?_, ?_⟩
      · rw [h0]
      · rw [h0]
      · exact ⟨[.dma_callback], by rw [h0], by simp [locks], by simp [trylocks]⟩
    · have h0 : g1_dma_irq_hnd w =
          ⟨{ w.drv with dma_in_progress := 0, dma_blocking := 0,
                        dma_done := w.drv.dma_done + 1 },
           w.trace ++ [.dma_callback, .mutex_unlock_as_thread w.drv.dma_thd, .sem_signal,
             .thd_schedule]⟩ := by
        simp [g1_dma_irq_hnd, hp, hb, World.set_drv, World.emit, World.sem_signal]
      refine ⟨fun h => absurd h hp, fun _ h => absurd h hb, fun _ _ => h0, ?_, ?_, ?_⟩
      · rw [h0]
      · rw [h0]
      · exact ⟨_, by rw [h0], by simp [locks], by simp [trylocks]⟩

/-- Witness for C19: a blocking DMA request of thread 1 is in flight. -/
theorem g1_dma_irq_hnd_spec_witness :
    g1_dma_irq_hnd (World.boot.set_drv
      { Driver.initial with cmd_hnd := 7, dma_in_progress := 1, dma_blocking := 1,
                            dma_thd := 1 }) =
      ⟨{ Driver.initial with cmd_hnd := 7, dma_thd := 1, dma_done := 1 },
       [.dma_callback, .mutex_unlock_as_thread 1, .sem_signal, .thd_schedule]⟩ :=
  ((g1_dma_irq_hnd_spec (World.boot.set_drv
      { Driver.initial with cmd_hnd := 7, dma_in_progress := 1, dma_blocking := 1,
                            dma_thd := 1 })).2.2.1 (by decide) (by decide)).trans (by decide)

/-- C13 (the code at the failing input): called inside an interrupt with the
lock unavailable, `cdrom_get_status` returns -1 after the failed
`mutex_trylock` alone, storing nothing, for every stub.  A call that does
acquire the lock and whose drive query fails with -1 returns the same value -1:
the caller cannot tell "busy, try later" from a failed query. -/
theorem cdrom_get_status_busy_not_distinct :
    (∀ (s : Stub) (fuel : Nat) (w : World),
      s.irq_inside_int w.trace ≠ 0 → s.mutex_trylock w.trace ≠ 0 →
      cdrom_get_status s fuel w =
        some (-1, none, w.emit (.mutex_trylock (s.mutex_trylock w.trace)))) ∧
    cdrom_get_status Stub.irq_busy 1 World.boot =
      some (-1, none, ⟨Driver.initial, [.mutex_trylock (-1)]⟩) ∧
    cdrom_get_status Stub.drive_fails 1 World.boot =
      some (-1, some (-1, -1), ⟨Driver.initial,
        [.mutex_lock, .check_drive (-1) 0 0, .mutex_unlock]⟩) := by
  refine ⟨?_, by decide, by decide⟩
  intro s fuel w h1 h2
  simp only [cdrom_get_status, h1, h2, ne_eq, not_false_eq_true, if_true]

/-- C14 (the code at the failing input): a DMA read of 4 sectors into the
32-byte-aligned P1 address `0x8c010000` submits the read with no
`dcache_inval_range` at all, the test `(buf_addr >> 24) == 0x0c` being made on
the unmasked address; the same buffer handed to `cdrom_stream_request`, which
tests the masked address, is invalidated before the transfer. -/
theorem cdrom_read_sectors_ex_p1_not_invalidated :
    cdrom_read_sectors_ex Stub.prompt 1 0x8c010000 150 4 CDROM_READ_DMA World.boot =
      some (ERR_OK, ⟨Driver.initial,
        [.mutex_lock, .send_command CMD_DMAREAD [150, 4, 0x0c010000, 0] 7, .exec_server,
         .check_command 7 COMPLETED Status.zero, .mutex_unlock]⟩) ∧
    (cdrom_read_sectors_ex Stub.prompt 1 0x8c010000 150 4 CDROM_READ_DMA World.boot).map
      (fun r => cache_invals r.2.trace) = some [] ∧
    (cdrom_read_sectors_ex Stub.prompt 1 0x0c010000 150 4 CDROM_READ_DMA World.boot).map
      (fun r => cache_invals r.2.trace) = some [(0x0c010000, 8192)] ∧
    (cdrom_stream_request Stub.streaming 1 0x8c010000 8192 0 World.streaming_dma).map
      (fun r => cache_invals r.2.trace) = some [(0x8c010000, 8192)] := by
  refine ⟨by decide, by decide, by decide, by decide⟩

/-- The shape of `cdrom_stream_progress` with an active handle: a blocking
`mutex_lock`, hardware calls, `mutex_unlock`; the driver variables are left as
they are; and when the probe reports a request in flight (a non-zero result)
the only call under the lock is the probe itself. -/
theorem cdrom_stream_progress_shape (s : Stub) (w : World) (hact : 0 < w.drv.cmd_hnd) :
    (cdrom_stream_progress s w).2.2.drv = w.drv ∧
    (∃ mid, (cdrom_stream_progress s w).2.2.trace =
        w.trace ++ Event.mutex_lock :: mid ++ [Event.mutex_unlock] ∧
      mid ≠ [] ∧ (∀ e ∈ mid, e.is_hw = true) ∧
      locks mid = 0 ∧ unlocks mid = 0 ∧ trylocks mid = [] ∧ transfers mid = [] ∧
      (∀ e ∈ mid, e.is_poll_step = true) ∧ polled mid = [] ∧
      ((cdrom_stream_progress s w).1 ≠ 0 →
        mid = [.dma_check w.drv.cmd_hnd (cdrom_stream_progress s w).1
                (cdrom_stream_progress s w).2.1] ∨
        mid = [.pio_check w.drv.cmd_hnd (cdrom_stream_progress s w).1
                (cdrom_stream_progress s w).2.1])) := by
  have hna : ¬ w.drv.cmd_hnd ≤ 0 := not_le.mpr hact
  unfold cdrom_stream_progress
  rw [if_neg hna]
  by_cases hd : w.drv.stream_mode = CDROM_READ_DMA
  · simp only [hd, if_true]
    generalize s.dma_check (w.emit .mutex_lock).trace w.drv.cmd_hnd 0 = r
    by_cases hr : r.1 = 0
    · simp only [hr, if_true]
      refine ⟨rfl, [.dma_check w.drv.cmd_hnd 0 r.2, .exec_server], by simp, by simp,
        by simp [Event.is_hw], by simp [locks], by simp [unlocks], by simp [trylocks],
        by simp [transfers], by simp [Event.is_poll_step], by simp [polled],
        fun h => absurd rfl h⟩
    · simp only [hr, if_false]
      refine ⟨rfl, [.dma_check w.drv.cmd_hnd r.1 r.2], by simp, by simp,
        by simp [Event.is_hw], by simp [locks], by simp [unlocks], by simp [trylocks],
        by simp [transfers], by simp [Event.is_poll_step], by simp [polled],
        fun _ => Or.inl rfl⟩
  · rw [if_neg hd]
    by_cases hp : w.drv.stream_mode = CDROM_READ_PIO
    · simp only [hp, if_true]
      generalize s.pio_check (w.emit .mutex_lock).trace w.drv.cmd_hnd 0 = r
      by_cases hr : r.1 = 0
      · simp only [hr, if_true]
        refine ⟨rfl, [.pio_check w.drv.cmd_hnd 0 r.2, .exec_server], by simp, by simp,
          by simp [Event.is_hw], by simp [locks], by simp [unlocks], by simp [trylocks],
          by simp [transfers], by simp [Event.is_poll_step], by simp [polled],
        fun h => absurd rfl h⟩
      · simp only [hr, if_false]
        refine ⟨rfl, [.pio_check w.drv.cmd_hnd r.1 r.2], by simp, by simp,
          by simp [Event.is_hw], by simp [locks], by simp [unlocks], by simp [trylocks],
          by simp [transfers], by simp [Event.is_poll_step], by simp [polled],
        fun _ => Or.inr rfl⟩
    · rw [if_neg hp]
      refine ⟨rfl, [.exec_server], by simp, by simp,
        by simp [Event.is_hw], by simp [locks], by simp [unlocks], by simp [trylocks],
        by simp [transfers], by simp [Event.is_poll_step], by simp [polled],
        fun h => absurd rfl h⟩

/-- C15: preconditions of `cdrom_stream_request`.  With no active handle the
call returns `ERR_NO_ACTIVE` and the world is untouched.  With an active handle
and a progress probe that reports a request in flight, the call returns
`ERR_SYS`; its events are the probe's `mutex_lock`, the one
`syscall_gdrom_dma_check` / `syscall_gdrom_pio_check` and `mutex_unlock` - no
transfer is dispatched - and every driver variable (in-progress flag, blocking
flag, handle included) is unchanged. -/
theorem cdrom_stream_request_preconditions (s : Stub) (fuel buffer size : Nat) (block : Int)
    (w : World) :
    (w.drv.cmd_hnd ≤ 0 →
      cdrom_stream_request s fuel buffer size block w = some (ERR_NO_ACTIVE, w)) ∧
    (0 < w.drv.cmd_hnd → (cdrom_stream_progress s w).1 ≠ 0 →
      ∃ probe,
        cdrom_stream_request s fuel buffer size block w =
          some (ERR_SYS, ⟨w.drv, w.trace ++ [.mutex_lock, probe, .mutex_unlock]⟩) ∧
        (probe = .dma_check w.drv.cmd_hnd (cdrom_stream_progress s w).1
                  (cdrom_stream_progress s w).2.1 ∨
         probe = .pio_check w.drv.cmd_hnd (cdrom_stream_progress s w).1
                  (cdrom_stream_progress s w).2.1) ∧
        transfers [.mutex_lock, probe, .mutex_unlock] = []) := by
  constructor
  · intro h
    simp only [cdrom_stream_request, h, if_true]
  · intro hact hbusy
    have hna : ¬ w.drv.cmd_hnd ≤ 0 := not_le.mpr hact
    obtain ⟨hd, mid, ht, _, _, _, _, _, _, _, _, hmid⟩ := cdrom_stream_progress_shape s w hact
    have hreq : cdrom_stream_request s fuel buffer size block w =
        some (ERR_SYS, (cdrom_stream_progress s w).2.2) := by
      simp only [cdrom_stream_request, hna, if_false, hbusy, ne_eq, not_false_eq_true, if_true]
    have hw : (cdrom_stream_progress s w).2.2 =
        ⟨(cdrom_stream_progress s w).2.2.drv, (cdrom_stream_progress s w).2.2.trace⟩ := rfl
    rcases hmid hbusy with hm | hm
    · refine ⟨_, ?_, Or.inl rfl, by simp [transfers]⟩
      rw [hreq, hw, hd, ht, hm]
      simp
    · refine ⟨_, ?_, Or.inr rfl, by simp [transfers]⟩
      rw [hreq, hw, hd, ht, hm]
      simp

/-- Witness for C15: handle 7 retained in DMA mode while the probe reports a
request in flight. -/
theorem cdrom_stream_request_preconditions_witness :
    cdrom_stream_request Stub.in_flight 1 0x8c010000 2048 1 World.boot =
      some (ERR_NO_ACTIVE, World.boot) ∧
    0 < World.streaming_dma.drv.cmd_hnd ∧
    (cdrom_stream_progress Stub.in_flight World.streaming_dma).1 ≠ 0 ∧
    cdrom_stream_request Stub.in_flight 1 0x8c010000 2048 1 World.streaming_dma =
      some (ERR_SYS, ⟨World.streaming_dma.drv,
        [.mutex_lock, .dma_check 7 1 512, .mutex_unlock]⟩) :=
  ⟨(cdrom_stream_request_preconditions Stub.in_flight 1 0x8c010000 2048 1 World.boot).1
      (by decide),
   by decide, by decide, by decide⟩

/-- C17 (the code at the failing input): in interrupt context with the lock
unavailable (`irq_inside_int()` non-zero, `mutex_trylock` failing) and handle 7
active in DMA mode, `cdrom_stream_progress` calls the blocking `mutex_lock`,
makes the hardware call `syscall_gdrom_dma_check` and never calls
`mutex_trylock`.  In the same situation `cdrom_get_status` tries the lock,
fails, and returns -1 without a hardware call. -/
theorem cdrom_stream_progress_no_trylock :
    Stub.irq_busy.irq_inside_int World.streaming_dma.trace ≠ 0 ∧
    Stub.irq_busy.mutex_trylock World.streaming_dma.trace ≠ 0 ∧
    0 < World.streaming_dma.drv.cmd_hnd ∧
    cdrom_stream_progress Stub.irq_busy World.streaming_dma =
      (1, 512, ⟨World.streaming_dma.drv,
        [.mutex_lock, .dma_check 7 1 512, .mutex_unlock]⟩) ∧
    locks [Event.mutex_lock, .dma_check 7 1 512, .mutex_unlock] = 1 ∧
    trylocks [Event.mutex_lock, .dma_check 7 1 512, .mutex_unlock] = [] ∧
    (Event.dma_check 7 1 512).is_hw = true ∧
    cdrom_get_status Stub.irq_busy 1 World.streaming_dma =
      some (-1, none, ⟨World.streaming_dma.drv, [.mutex_trylock (-1)]⟩) ∧
    (Event.mutex_trylock (-1)).is_hw = false := by
  refine ⟨by decide, by decide, by decide, by decide, by decide, by decide, by decide,
    by decide, by decide⟩

/-- What `cdrom_stream_progress` does with an active handle, whatever the
context: it takes the lock with the blocking `mutex_lock`, makes its hardware
calls (the progress check of the stream mode, and a server tick when idle) under
it and releases it with `mutex_unlock`; it never calls `mutex_trylock`, and
neither `irq_inside_int()` nor the availability of the lock has any influence on
what it does. -/
theorem cdrom_stream_progress_blocking (s : Stub) (w : World) (hact : 0 < w.drv.cmd_hnd) :
    (∃ mid, (cdrom_stream_progress s w).2.2.trace =
        w.trace ++ Event.mutex_lock :: mid ++ [Event.mutex_unlock] ∧
      mid ≠ [] ∧ (∀ e ∈ mid, e.is_hw = true) ∧
      locks mid = 0 ∧ unlocks mid = 0 ∧ trylocks mid = []) ∧
    (∀ (f g : List Event → Int),
      cdrom_stream_progress { s with irq_inside_int := f, mutex_trylock := g } w =
        cdrom_stream_progress s w) := by
  obtain ⟨_, mid, ht, h1, h2, h3, h4, h5, _, _, _, _⟩ := cdrom_stream_progress_shape s w hact
  exact ⟨⟨mid, ht, h1, h2, h3, h4, h5⟩, fun _ _ => rfl⟩

/-- An instance of `cdrom_stream_progress_blocking`: handle 7 active in DMA
mode, seen from interrupt context with the lock unavailable. -/
theorem cdrom_stream_progress_blocking_witness :
    0 < World.streaming_dma.drv.cmd_hnd ∧
    ∃ mid, (cdrom_stream_progress Stub.irq_busy World.streaming_dma).2.2.trace =
        World.streaming_dma.trace ++ Event.mutex_lock :: mid ++ [Event.mutex_unlock] ∧
      mid ≠ [] ∧ (∀ e ∈ mid, e.is_hw = true) ∧
      locks mid = 0 ∧ unlocks mid = 0 ∧ trylocks mid = [] :=
  ⟨by decide,
   (cdrom_stream_progress_blocking Stub.irq_busy World.streaming_dma (by decide)).1⟩

/-! ### Frame facts: what the command channel and the abort leave behind -/

theorem held_after_append (b : Bool) (x y : List Event) :
    held_after b (x ++ y) = held_after (held_after b x) y := by
  induction x generalizing b with
  | nil => rfl
  | cons e t ih => simp [held_after, ih]

theorem unguarded_append (b : Bool) (x y : List Event) :
    unguarded b (x ++ y) = unguarded b x ++ unguarded (held_after b x) y := by
  induction x generalizing b with
  | nil => rfl
  | cons e t ih => simp [held_after, unguarded, ih]

theorem Guard.append_guard {b b1 b2 : Bool} {x y : List Event} (hx : Guard b x b1)
    (hy : Guard b1 y b2) : Guard b (x ++ y) b2 := by
  unfold Guard at *
  rw [unguarded_append, held_after_append, hx.1, hx.2, hy.1, hy.2]
  exact ⟨rfl, rfl⟩

theorem Guard.nil_guard (b : Bool) : Guard b [] b := ⟨rfl, rfl⟩

theorem Quiet.nil_quiet : Quiet [] := by
  simp [Quiet, sent_cmds, signals, sector_modes, transfers, cache_invals]

theorem Quiet.append_quiet {x y : List Event} (hx : Quiet x) (hy : Quiet y) : Quiet (x ++ y) := by
  unfold Quiet sent_cmds signals sector_modes transfers cache_invals at *
  obtain ⟨a1, a2, a3, a4, a5⟩ := hx
  obtain ⟨b1, b2, b3, b4, b5⟩ := hy
  simp [List.filterMap_append, List.count_append, List.filter_append, a1, a2, a3, a4, a5,
    b1, b2, b3, b4, b5]

theorem poll_steps_quiet (evs : List Event) (h : ∀ e ∈ evs, e.is_poll_step = true) :
    Quiet evs := by
  induction evs with
  | nil => exact Quiet.nil_quiet
  | cons e t ih =>
    have ht := ih (fun x hx => h x (List.mem_cons_of_mem _ hx))
    have he := h e (List.mem_cons_self _ _)
    have : Quiet [e] := by
      cases e <;> simp [Event.is_poll_step] at he <;>
        simp [Quiet, sent_cmds, signals, sector_modes, transfers, cache_invals]
    exact Quiet.append_quiet this ht

theorem poll_steps_guard (b : Bool) (evs : List Event)
    (h : ∀ e ∈ evs, e.is_poll_step = true) :
    held_after b evs = b ∧ unguarded true evs = [] ∧ locks evs = 0 ∧ unlocks evs = 0 ∧
    abort_requests evs = [] := by
  induction evs with
  | nil => simp [held_after, unguarded, locks, unlocks, abort_requests]
  | cons e t ih =>
    have ht := ih (fun x hx => h x (List.mem_cons_of_mem _ hx))
    have he := h e (List.mem_cons_self _ _)
    obtain ⟨h1, h2, h3, h4, h5⟩ := ht
    unfold locks at h3 ⊢
    unfold unlocks at h4 ⊢
    unfold abort_requests at h5 ⊢
    cases e <;> simp [Event.is_poll_step] at he <;>
      simp [held_after, unguarded, Event.lock_after, Event.is_hw, h1, h2, h3, h4, h5]

theorem Driver.same_but_hnd.refl (d : Driver) : d.same_but_hnd d := by
  unfold Driver.same_but_hnd
  rfl

theorem Driver.same_but_hnd.trans {a b c : Driver} (h1 : a.same_but_hnd b)
    (h2 : b.same_but_hnd c) : a.same_but_hnd c := by
  unfold Driver.same_but_hnd at *
  rw [h2, h1]

theorem Driver.same_but_hnd.set (d : Driver) (h : Int) :
    d.same_but_hnd { d with cmd_hnd := h } := by
  unfold Driver.same_but_hnd
  rfl

theorem abort_poll_steps (s : Stub) (T b : Nat) :
    ∀ (fuel : Nat) (st : Status) (w : World) (rv : Int) (w' : World),
    abort_poll s T b fuel st w = some (rv, w') →
    w'.drv = w.drv ∧ ∃ evs, w'.trace = w.trace ++ evs ∧ ∀ e ∈ evs, e.is_poll_step = true := by
  intro fuel
  induction fuel with
  | zero => intro st w rv w' h; simp [abort_poll] at h
  | succ fuel ih =>
    intro st w rv w' h
    simp only [abort_poll] at h
    generalize s.check_command (w.emit .exec_server).trace (w.emit .exec_server).drv.cmd_hnd st
      = r at h
    split_ifs at h with h1 h2 h3
    · simp only [Option.some.injEq, Prod.mk.injEq] at h
      obtain ⟨_, h⟩ := h
      subst h
      exact ⟨rfl, [.exec_server, .check_command w.drv.cmd_hnd r.1 r.2], by simp,
        by simp [Event.is_poll_step]⟩
    · simp only [Option.some.injEq, Prod.mk.injEq] at h
      obtain ⟨_, h⟩ := h
      subst h
      exact ⟨rfl, [.exec_server, .check_command w.drv.cmd_hnd r.1 r.2,
        .timer_ms_gettime64 (read_timer s
          ((w.emit .exec_server).emit (.check_command w.drv.cmd_hnd r.1 r.2))),
        .reset, .init], by simp, by simp [Event.is_poll_step]⟩
    · obtain ⟨hd, evs, ht, hs⟩ := ih _ _ _ _ h
      refine ⟨hd, [.exec_server, .check_command w.drv.cmd_hnd r.1 r.2,
        .timer_ms_gettime64 (read_timer s
          ((w.emit .exec_server).emit (.check_command w.drv.cmd_hnd r.1 r.2))),
        .thd_pass] ++ evs, by simp [ht], ?_⟩
      intro e he
      simp only [List.mem_append, List.mem_cons, List.mem_singleton, List.not_mem_nil,
        or_false] at he
      rcases he with (he | he | he | he) | he
      · subst he; rfl
      · subst he; rfl
      · subst he; rfl
      · subst he; rfl
      · exact hs e he
    · obtain ⟨hd, evs, ht, hs⟩ := ih _ _ _ _ h
      refine ⟨hd, [.exec_server, .check_command w.drv.cmd_hnd r.1 r.2, .thd_pass] ++ evs,
        by simp [ht], ?_⟩
      intro e he
      simp only [List.mem_append, List.mem_cons, List.mem_singleton, List.not_mem_nil,
        or_false] at he
      rcases he with (he | he | he) | he
      · subst he; rfl
      · subst he; rfl
      · subst he; rfl
      · exact hs e he

/-- The shape of a returning `cdrom_abort_cmd` that starts with an active
handle. -/
theorem cdrom_abort_cmd_shape (s : Stub) (fuel T : Nat) (w : World) (rv : Int) (w' : World)
    (hact : 0 < w.drv.cmd_hnd) (hret : cdrom_abort_cmd s fuel T w = some (rv, w')) :
    w'.drv = { w.drv with cmd_hnd := 0 } ∧
    ∃ mid, w'.trace = w.trace ++ Event.mutex_lock :: Event.abort_command w.drv.cmd_hnd ::
        (mid ++ [Event.mutex_unlock]) ∧
      ∀ e ∈ mid, e.is_poll_step = true := by
  have hna : ¬ w.drv.cmd_hnd ≤ 0 := not_le.mpr hact
  simp only [cdrom_abort_cmd, hna, if_false] at hret
  split at hret
  · exact absurd hret (by simp)
  · rename_i rv0 w3 hp
    simp only [Option.some.injEq, Prod.mk.injEq] at hret
    obtain ⟨_, h2⟩ := hret
    subst h2
    obtain ⟨hd, evs, ht, hs⟩ := abort_poll_steps s _ _ _ _ _ _ _ hp
    constructor
    · show ({ w3.drv with cmd_hnd := 0 } : Driver) = _
      rw [hd]
      split_ifs <;> rfl
    · by_cases hT : T = 0
      · have hT' : ¬ (T ≠ 0) := fun h0 => h0 hT
        rw [if_neg hT'] at ht
        exact ⟨evs, by simp [ht], hs⟩
      · rw [if_pos hT] at ht
        refine ⟨Event.timer_ms_gettime64 (read_timer s
          ((w.emit .mutex_lock).emit (.abort_command w.drv.cmd_hnd))) :: evs,
          by simp [ht], ?_⟩
        intro e he
        rcases List.mem_cons.mp he with he | he
        · subst he; rfl
        · exact hs e he

/-- What every returning `cdrom_abort_cmd` leaves behind, whether or not a
handle was active. -/
theorem cdrom_abort_cmd_frame (s : Stub) (fuel T : Nat) (w : World) (rv : Int) (w' : World)
    (hret : cdrom_abort_cmd s fuel T w = some (rv, w')) :
    w.drv.same_but_hnd w'.drv ∧
    ∃ evs, w'.trace = w.trace ++ evs ∧ Quiet evs ∧ Guard false evs false := by
  by_cases hact : 0 < w.drv.cmd_hnd
  · obtain ⟨hd, mid, ht, hs⟩ := cdrom_abort_cmd_shape s fuel T w rv w' hact hret
    refine ⟨by rw [hd]; exact Driver.same_but_hnd.set _ _, _, ht, ?_, ?_⟩
    · have hq := poll_steps_quiet mid hs
      have h1 : Quiet [Event.mutex_lock, Event.abort_command w.drv.cmd_hnd] := by
        simp [Quiet, sent_cmds, signals, sector_modes, transfers, cache_invals]
      have h2 : Quiet [Event.mutex_unlock] := by
        simp [Quiet, sent_cmds, signals, sector_modes, transfers, cache_invals]
      show Quiet ([Event.mutex_lock, Event.abort_command w.drv.cmd_hnd] ++
        (mid ++ [Event.mutex_unlock]))
      exact Quiet.append_quiet h1 (Quiet.append_quiet hq h2)
    · obtain ⟨g1, g2, _⟩ := poll_steps_guard true mid hs
      have h1 : Guard false [Event.mutex_lock, Event.abort_command w.drv.cmd_hnd] true := by
        simp [Guard, unguarded, held_after, Event.is_hw, Event.lock_after]
      have h2 : Guard true mid true := ⟨g2, g1⟩
      have h3 : Guard true [Event.mutex_unlock] false := by
        simp [Guard, unguarded, held_after, Event.is_hw, Event.lock_after]
      show Guard false ([Event.mutex_lock, Event.abort_command w.drv.cmd_hnd] ++
        (mid ++ [Event.mutex_unlock])) false
      exact Guard.append_guard h1 (Guard.append_guard h2 h3)
  · have hna : w.drv.cmd_hnd ≤ 0 := not_lt.mp hact
    simp only [cdrom_abort_cmd, hna, if_true, Option.some.injEq, Prod.mk.injEq] at hret
    obtain ⟨_, h⟩ := hret
    subst h
    exact ⟨Driver.same_but_hnd.refl _, [], by simp, Quiet.nil_quiet, Guard.nil_guard _⟩

theorem Quiet.sends_only {evs : List Event} (h : Quiet evs) (cmd : Int) : SendsOnly cmd evs := by
  obtain ⟨h1, h2, h3, h4, h5⟩ := h
  refine ⟨?_, h2, h3, h4, h5⟩
  rw [h1]
  intro c hc
  exact absurd hc (List.not_mem_nil _)

theorem SendsOnly.append_sends {cmd : Int} {x y : List Event} (hx : SendsOnly cmd x)
    (hy : SendsOnly cmd y) : SendsOnly cmd (x ++ y) := by
  unfold SendsOnly sent_cmds signals sector_modes transfers cache_invals at *
  obtain ⟨a1, a2, a3, a4, a5⟩ := hx
  obtain ⟨b1, b2, b3, b4, b5⟩ := hy
  refine ⟨?_, ?_, ?_, ?_, ?_⟩
  · intro c hc
    rw [List.filterMap_append, List.mem_append] at hc
    rcases hc with hc | hc
    · exact a1 c hc
    · exact b1 c hc
  · simp [List.count_append, a2, b2]
  · simp [List.filterMap_append, a3, b3]
  · simp [List.filter_append, a4, b4]
  · simp [List.filterMap_append, a5, b5]

theorem failed_attempts_frame (cmd : Int) (param : List Int) (j : Nat) :
    SendsOnly cmd (failed_attempts cmd param j) ∧
    Guard true (failed_attempts cmd param j) true := by
  induction j with
  | zero => exact ⟨Quiet.nil_quiet.sends_only cmd, Guard.nil_guard _⟩
  | succ j ih =>
    have h1 : SendsOnly cmd [Event.send_command cmd param 0, .exec_server, .thd_pass] := by
      simp [SendsOnly, sent_cmds, signals, sector_modes, transfers, cache_invals]
    have h2 : Guard true [Event.send_command cmd param 0, .exec_server, .thd_pass] true := by
      simp [Guard, unguarded, held_after, Event.is_hw, Event.lock_after]
    exact ⟨SendsOnly.append_sends h1 ih.1, Guard.append_guard h2 ih.2⟩

theorem submit_loop_frame (s : Stub) (cmd : Int) (param : List Int) (k : Nat) (hnd0 : Int)
    (w : World) :
    (submit_loop s cmd param k hnd0 w).2.drv = w.drv ∧
    ∃ evs, (submit_loop s cmd param k hnd0 w).2.trace = w.trace ++ evs ∧
      SendsOnly cmd evs ∧ Guard true evs true := by
  obtain ⟨hd, j, tail, _, ht, hcase⟩ := submit_loop_spec s cmd param k hnd0 w
  refine ⟨hd, _, ht, ?_, ?_⟩
  · refine SendsOnly.append_sends (failed_attempts_frame cmd param j).1 ?_
    rcases hcase with ⟨h1, _, _⟩ | ⟨h1, _, _⟩
    · rw [h1]; exact Quiet.nil_quiet.sends_only cmd
    · rw [h1]
      simp [SendsOnly, sent_cmds, signals, sector_modes, transfers, cache_invals]
  · refine Guard.append_guard (failed_attempts_frame cmd param j).2 ?_
    rcases hcase with ⟨h1, _, _⟩ | ⟨h1, _, _⟩
    · rw [h1]; exact Guard.nil_guard _
    · rw [h1]
      simp [Guard, unguarded, held_after, Event.is_hw, Event.lock_after]

theorem exec_poll_frame (s : Stub) (fuelA : Nat) (hnd T : Int) (b : Nat) :
    ∀ (fuel : Nat) (st : Status) (w : World) (n rv : Int) (st' : Status) (w' : World),
    exec_poll s fuelA hnd T b fuel st w = some (n, rv, st', w') →
    w.drv.same_but_hnd w'.drv ∧
    ∃ evs, w'.trace = w.trace ++ evs ∧ Quiet evs ∧
      ((rv = ERR_OK ∧ Guard true evs true) ∨ (rv = ERR_TIMEOUT ∧ Guard true evs false)) := by
  intro fuel
  induction fuel with
  | zero => intro st w n rv st' w' h; simp [exec_poll] at h
  | succ fuel ih =>
    intro st w n rv st' w' h
    simp only [exec_poll] at h
    generalize s.check_command (w.emit .exec_server).trace hnd st = r at h
    have hq2 : Quiet [Event.exec_server, .check_command hnd r.1 r.2] := by
      simp [Quiet, sent_cmds, signals, sector_modes, transfers, cache_invals]
    have hg2 : Guard true [Event.exec_server, .check_command hnd r.1 r.2] true := by
      simp [Guard, unguarded, held_after, Event.is_hw, Event.lock_after]
    split_ifs at h with h1 h2 h3
    · simp only [Option.some.injEq, Prod.mk.injEq] at h
      obtain ⟨hn, hrv, hst, hw⟩ := h
      subst hn hrv hst hw
      exact ⟨Driver.same_but_hnd.refl _, [.exec_server, .check_command hnd r.1 r.2],
        by simp, hq2, Or.inl ⟨rfl, hg2⟩⟩
    · split at h
      · exact absurd h (by simp)
      · rename_i rv0 w5 ha
        simp only [Option.some.injEq, Prod.mk.injEq] at h
        obtain ⟨hn, hrv, hst, hw⟩ := h
        subst hn hrv hst hw
        obtain ⟨hd, evs, ht, hq, hg⟩ := cdrom_abort_cmd_frame s _ _ _ _ _ ha
        refine ⟨hd, [.exec_server, .check_command hnd r.1 r.2,
          .timer_ms_gettime64 (read_timer s
            ((w.emit .exec_server).emit (.check_command hnd r.1 r.2))),
          .mutex_unlock] ++ evs, by simp [ht], ?_, Or.inr ⟨rfl, ?_⟩⟩
        · refine Quiet.append_quiet ?_ hq
          simp [Quiet, sent_cmds, signals, sector_modes, transfers, cache_invals]
        · refine Guard.append_guard ?_ hg
          simp [Guard, unguarded, held_after, Event.is_hw, Event.lock_after]
    · obtain ⟨hd, evs, ht, hq, hcase⟩ := ih _ _ _ _ _ _ h
      have hq4 : Quiet [Event.exec_server, .check_command hnd r.1 r.2,
          .timer_ms_gettime64 (read_timer s
            ((w.emit .exec_server).emit (.check_command hnd r.1 r.2))), .thd_pass] := by
        simp [Quiet, sent_cmds, signals, sector_modes, transfers, cache_invals]
      have hg4 : Guard true [Event.exec_server, .check_command hnd r.1 r.2,
          .timer_ms_gettime64 (read_timer s
            ((w.emit .exec_server).emit (.check_command hnd r.1 r.2))), .thd_pass] true := by
        simp [Guard, unguarded, held_after, Event.is_hw, Event.lock_after]
      refine ⟨hd, _ ++ evs, by simp [ht], Quiet.append_quiet hq4 hq, ?_⟩
      rcases hcase with ⟨c1, c2⟩ | ⟨c1, c2⟩
      · exact Or.inl ⟨c1, Guard.append_guard hg4 c2⟩
      · exact Or.inr ⟨c1, Guard.append_guard hg4 c2⟩
    · obtain ⟨hd, evs, ht, hq, hcase⟩ := ih _ _ _ _ _ _ h
      have hq4 : Quiet [Event.exec_server, .check_command hnd r.1 r.2, .thd_pass] := by
        simp [Quiet, sent_cmds, signals, sector_modes, transfers, cache_invals]
      have hg4 : Guard true [Event.exec_server, .check_command hnd r.1 r.2, .thd_pass] true := by
        simp [Guard, unguarded, held_after, Event.is_hw, Event.lock_after]
      refine ⟨hd, _ ++ evs, by simp [ht], Quiet.append_quiet hq4 hq, ?_⟩
      rcases hcase with ⟨c1, c2⟩ | ⟨c1, c2⟩
      · exact Or.inl ⟨c1, Guard.append_guard hg4 c2⟩
      · exact Or.inr ⟨c1, Guard.append_guard hg4 c2⟩

/-- What every returning `cdrom_exec_cmd_timed` leaves behind. -/
theorem cdrom_exec_cmd_timed_frame (s : Stub) (fuel : Nat) (cmd : Int) (param : List Int)
    (T : Int) (w : World) (rv : Int) (w' : World)
    (hret : cdrom_exec_cmd_timed s fuel cmd param T w = some (rv, w')) :
    w.drv.same_but_hnd w'.drv ∧
    ∃ evs, w'.trace = w.trace ++ evs ∧ SendsOnly cmd evs ∧ Guard false evs false := by
  unfold cdrom_exec_cmd_timed at hret
  by_cases hcmd : 0 < cmd ∧ cmd < CMD_MAX
  · rw [if_pos hcmd] at hret
    obtain ⟨hsd, sevs, hst, hss, hsg⟩ := submit_loop_frame s cmd param 10 0 (w.emit .mutex_lock)
    generalize submit_loop s cmd param 10 0 (w.emit .mutex_lock) = sub at hret hsd hst
    have hlq : SendsOnly cmd [Event.mutex_lock] := by
      simp [SendsOnly, sent_cmds, signals, sector_modes, transfers, cache_invals]
    have hlg : Guard false [Event.mutex_lock] true := by
      simp [Guard, unguarded, held_after, Event.is_hw, Event.lock_after]
    have huq : SendsOnly cmd [Event.mutex_unlock] := by
      simp [SendsOnly, sent_cmds, signals, sector_modes, transfers, cache_invals]
    have hug : Guard true [Event.mutex_unlock] false := by
      simp [Guard, unguarded, held_after, Event.is_hw, Event.lock_after]
    by_cases hh : sub.1 ≤ 0
    · simp only [hh, if_true, Option.some.injEq, Prod.mk.injEq] at hret
      obtain ⟨_, hw⟩ := hret
      subst hw
      refine ⟨by simp [hsd]; exact Driver.same_but_hnd.refl _,
        [.mutex_lock] ++ (sevs ++ [.mutex_unlock]), by simp [hst],
        SendsOnly.append_sends hlq (SendsOnly.append_sends hss huq),
        Guard.append_guard hlg (Guard.append_guard hsg hug)⟩
    · simp only [hh, if_false] at hret
      generalize hp : exec_poll s fuel sub.1 T (if T ≠ 0 then read_timer s sub.2 else 0) fuel
        Status.zero (if T ≠ 0 then sub.2.emit (.timer_ms_gettime64 (read_timer s sub.2))
          else sub.2) = res at hret
      cases res with
      | none => exact absurd hret (by simp)
      | some q =>
        obtain ⟨n, rv0, st, w3⟩ := q
        simp only [Option.some.injEq, Prod.mk.injEq] at hret
        obtain ⟨_, hw⟩ := hret
        obtain ⟨hd, evs, ht, hq, hcase⟩ := exec_poll_frame s _ _ _ _ _ _ _ _ _ _ _ hp
        have hgq : SendsOnly cmd (if T ≠ 0 then
            [Event.timer_ms_gettime64 (read_timer s sub.2)] else []) := by
          split_ifs <;>
            simp [SendsOnly, sent_cmds, signals, sector_modes, transfers, cache_invals]
        have hgg : Guard true (if T ≠ 0 then
            [Event.timer_ms_gettime64 (read_timer s sub.2)] else []) true := by
          split_ifs <;> simp [Guard, unguarded, held_after, Event.is_hw, Event.lock_after]
        have ht3 : w3.trace = w.trace ++ ([.mutex_lock] ++ (sevs ++ ((if T ≠ 0 then
            [Event.timer_ms_gettime64 (read_timer s sub.2)] else []) ++ evs))) := by
          rw [ht]
          split_ifs <;> simp [hst]
        have hd3 : w.drv.same_but_hnd w3.drv := by
          have : (if T ≠ 0 then sub.2.emit (.timer_ms_gettime64 (read_timer s sub.2))
              else sub.2).drv = w.drv := by
            split_ifs <;> simp [hsd]
          rw [this] at hd
          exact hd
        rcases hcase with ⟨c1, c2⟩ | ⟨c1, c2⟩
        · subst c1
          have hne : ERR_OK ≠ ERR_TIMEOUT := by decide
          rw [if_pos hne] at hw
          subst hw
          refine ⟨Driver.same_but_hnd.trans hd3 (Driver.same_but_hnd.set _ _),
            [.mutex_lock] ++ (sevs ++ ((if T ≠ 0 then
              [Event.timer_ms_gettime64 (read_timer s sub.2)] else []) ++
              (evs ++ [.mutex_unlock]))), by simp [ht3],
            SendsOnly.append_sends hlq (SendsOnly.append_sends hss (SendsOnly.append_sends hgq
              (SendsOnly.append_sends (hq.sends_only cmd) huq))),
            Guard.append_guard hlg (Guard.append_guard hsg (Guard.append_guard hgg (Guard.append_guard c2 hug)))⟩
        · subst c1
          have hne : ¬ (ERR_TIMEOUT ≠ ERR_TIMEOUT) := fun h => h rfl
          rw [if_neg hne] at hw
          subst hw
          refine ⟨Driver.same_but_hnd.trans hd3 (Driver.same_but_hnd.set _ _),
            _, ht3,
            SendsOnly.append_sends hlq (SendsOnly.append_sends hss (SendsOnly.append_sends hgq
              (hq.sends_only cmd))),
            Guard.append_guard hlg (Guard.append_guard hsg (Guard.append_guard hgg c2))⟩
  · rw [if_neg hcmd] at hret
    exact absurd hret (by simp)

/-! ### Stream start -/

theorem Driver.same_but_hnd.stream_mode {d d' : Driver} (h : d.same_but_hnd d') :
    d'.stream_mode = d.stream_mode := by
  unfold Driver.same_but_hnd at h
  rw [h]

theorem Driver.same_but_hnd.flags {d d' : Driver} (h : d.same_but_hnd d') :
    d'.dma_in_progress = d.dma_in_progress ∧ d'.dma_blocking = d.dma_blocking ∧
    d'.dma_done = d.dma_done ∧ d'.dma_thd = d.dma_thd ∧
    d'.cur_sector_size = d.cur_sector_size := by
  unfold Driver.same_but_hnd at h
  rw [h]
  exact ⟨rfl, rfl, rfl, rfl, rfl⟩

theorem signals_append (a b : List Event) : signals (a ++ b) = signals a + signals b := by
  simp [signals, List.count_append]

theorem abort_requests_append (a b : List Event) :
    abort_requests (a ++ b) = abort_requests a ++ abort_requests b := by
  simp [abort_requests, List.filterMap_append]

/-- The shape of a returning polling loop of `cdrom_stream_stop`: polling rounds
that see neither a negative nor a terminal state, then the deciding poll `rs`,
then - for `STREAMING` only - the unlock and a complete abort. -/
theorem stop_poll_spec (s : Stub) (fuelA : Nat) :
    ∀ (fuel : Nat) (st : Status) (w : World) (rs rv : Int) (w' : World),
    0 < w.drv.cmd_hnd →
    stop_poll s fuelA fuel st w = some (rs, rv, w') →
    w.drv.same_but_hnd w'.drv ∧
    ∃ (pre : List Event) (st' : Status) (post : List Event),
      w'.trace = w.trace ++ pre ++ Event.check_command w.drv.cmd_hnd rs st' :: post ∧
      (∀ e ∈ pre, e.is_poll_step = true) ∧
      (∀ n ∈ polled pre, ¬ n < 0 ∧ n ≠ COMPLETED ∧ n ≠ NO_ACTIVE ∧ n ≠ STREAMING) ∧
      ((rs < 0 ∧ rv = ERR_SYS ∧ post = []) ∨
       ((rs = COMPLETED ∨ rs = NO_ACTIVE) ∧ rv = ERR_OK ∧ post = []) ∨
       (rs = STREAMING ∧ rv = ERR_OK ∧ ∃ mid,
          post = Event.mutex_unlock :: Event.mutex_lock ::
            Event.abort_command w.drv.cmd_hnd :: (mid ++ [Event.mutex_unlock]) ∧
          ∀ e ∈ mid, e.is_poll_step = true)) := by
  intro fuel
  induction fuel with
  | zero => intro st w rs rv w' _ h; simp [stop_poll] at h
  | succ fuel ih =>
    intro st w rs rv w' hact h
    simp only [stop_poll] at h
    generalize s.check_command (w.emit .exec_server).trace (w.emit .exec_server).drv.cmd_hnd st
      = r at h
    simp only [World.emit_drv] at h
    by_cases h1 : r.1 < 0
    · simp only [h1, if_true, Option.some.injEq, Prod.mk.injEq] at h
      obtain ⟨e1, e2, e3⟩ := h
      subst e1 e2 e3
      exact ⟨Driver.same_but_hnd.refl _, [.exec_server], r.2, [], by simp,
        by simp [Event.is_poll_step], by simp [polled], Or.inl ⟨h1, rfl, rfl⟩⟩
    · simp only [h1, if_false] at h
      by_cases h2 : r.1 = COMPLETED ∨ r.1 = NO_ACTIVE
      · simp only [h2, if_true, Option.some.injEq, Prod.mk.injEq] at h
        obtain ⟨e1, e2, e3⟩ := h
        subst e1 e2 e3
        exact ⟨Driver.same_but_hnd.refl _, [.exec_server], r.2, [], by simp,
          by simp [Event.is_poll_step], by simp [polled], Or.inr (Or.inl ⟨h2, rfl, rfl⟩)⟩
      · simp only [h2, if_false] at h
        by_cases h3 : r.1 = STREAMING
        · simp only [h3, if_true] at h
          cases ha : cdrom_abort_cmd s fuelA 1000
              (((w.emit .exec_server).emit (.check_command w.drv.cmd_hnd r.1 r.2)).emit
                .mutex_unlock) with
          | none =>
            rw [h3] at ha
            rw [ha] at h
            exact absurd h (by simp)
          | some a =>
            rw [h3] at ha
            rw [ha] at h
            simp only [Option.some.injEq, Prod.mk.injEq] at h
            obtain ⟨e1, e2, e3⟩ := h
            subst e1 e2 e3
            obtain ⟨hd, mid, ht, hs⟩ := cdrom_abort_cmd_shape s fuelA 1000 _ a.1 a.2
              (by simpa using hact) ha
            refine ⟨?_, [.exec_server], r.2, _, ?_, by simp [Event.is_poll_step],
              by simp [polled], Or.inr (Or.inr ⟨rfl, rfl, mid, rfl, hs⟩)⟩
            · rw [hd]
              exact Driver.same_but_hnd.set _ _
            · rw [ht]
              simp
        · simp only [h3, if_false] at h
          obtain ⟨hd, pre, st', post, ht, hp, hn, hcase⟩ := ih _ _ _ _ _ (by simpa using hact) h
          refine ⟨hd, [.exec_server, .check_command w.drv.cmd_hnd r.1 r.2, .thd_pass] ++ pre,
            st', post, by simp [ht], ?_, ?_, hcase⟩
          · intro e he
            simp only [List.mem_append, List.mem_cons, List.mem_singleton, List.not_mem_nil,
              or_false] at he
            rcases he with (he | he | he) | he
            · subst he; rfl
            · subst he; rfl
            · subst he; rfl
            · exact hp e he
          · intro n hn'
            simp only [polled, List.filterMap_append, List.mem_append] at hn'
            rcases hn' with hn' | hn'
            · simp at hn'
              subst hn'
              exact ⟨h1, fun h => h2 (Or.inl h), fun h => h2 (Or.inr h), h3⟩
            · exact hn n (by simpa [polled] using hn')

/-- The world in which the polling loop of `cdrom_stream_stop` starts. -/
theorem stop_entry (s : Stub) (w : World) (hact : 0 < w.drv.cmd_hnd) :
    ∃ head,
      (if w.drv.stream_mode ≠ CDROM_READ_DMA then w.emit .mutex_lock
        else if (cdrom_stream_progress s w).1 = 0 then
          (cdrom_stream_progress s w).2.2.emit .mutex_lock
        else (cdrom_stream_progress s w).2.2).trace = w.trace ++ head ∧
      (if w.drv.stream_mode ≠ CDROM_READ_DMA then w.emit .mutex_lock
        else if (cdrom_stream_progress s w).1 = 0 then
          (cdrom_stream_progress s w).2.2.emit .mutex_lock
        else (cdrom_stream_progress s w).2.2).drv = w.drv ∧
      signals head = 0 ∧ polled head = [] ∧ abort_requests head = [] := by
  obtain ⟨hd, mid, ht, _, _, _, _, _, _, hs, hp, _⟩ := cdrom_stream_progress_shape s w hact
  have hsig : signals mid = 0 := (poll_steps_quiet mid hs).2.1
  have habr : abort_requests mid = [] := (poll_steps_guard true mid hs).2.2.2.2
  have hm : signals (Event.mutex_lock :: mid ++ [Event.mutex_unlock]) = 0 ∧
      polled (Event.mutex_lock :: mid ++ [Event.mutex_unlock]) = [] ∧
      abort_requests (Event.mutex_lock :: mid ++ [Event.mutex_unlock]) = [] := by
    unfold signals at hsig ⊢
    unfold polled at hp ⊢
    unfold abort_requests at habr ⊢
    simp [List.count_append, List.filterMap_append, hsig, hp, habr]
  by_cases h1 : w.drv.stream_mode ≠ CDROM_READ_DMA
  · rw [if_pos h1]
    exact ⟨[.mutex_lock], rfl, rfl, by simp [signals], by simp [polled],
      by simp [abort_requests]⟩
  · rw [if_neg h1]
    by_cases h2 : (cdrom_stream_progress s w).1 = 0
    · rw [if_pos h2]
      refine ⟨(Event.mutex_lock :: mid ++ [Event.mutex_unlock]) ++ [.mutex_lock],
        by simp [ht], by simp [hd], ?_, ?_, ?_⟩
      · rw [signals_append, hm.1]; simp [signals]
      · rw [polled_append, hm.2.1]; simp [polled]
      · rw [abort_requests_append, hm.2.2]; simp [abort_requests]
    · rw [if_neg h2]
      exact ⟨Event.mutex_lock :: mid ++ [Event.mutex_unlock], by simp [ht], hd,
        hm.1, hm.2.1, hm.2.2⟩

/-- The end of `cdrom_stream_stop`. -/
theorem stop_clear_dma_spec (x : World) :
    (stop_clear_dma x).drv.cmd_hnd = x.drv.cmd_hnd ∧
    (stop_clear_dma x).drv.dma_in_progress = 0 ∧
    (stop_clear_dma x).drv.dma_blocking =
      (if x.drv.dma_in_progress ≠ 0 then 0 else x.drv.dma_blocking) ∧
    ∃ tl, (stop_clear_dma x).trace = x.trace ++ tl ∧
      signals tl = (if x.drv.dma_in_progress ≠ 0 ∧ x.drv.dma_blocking ≠ 0 then 1 else 0) ∧
      polled tl = [] ∧ abort_requests tl = [] := by
  by_cases hp : x.drv.dma_in_progress ≠ 0
  · by_cases hb : x.drv.dma_blocking ≠ 0
    · have h0 : stop_clear_dma x =
          (x.set_drv { x.drv with dma_in_progress := 0, dma_blocking := 0 }).sem_signal := by
        unfold stop_clear_dma
        rw [if_pos hp, if_pos hb]
      rw [h0, if_pos hp, if_pos (And.intro hp hb)]
      exact ⟨rfl, rfl, rfl, [.sem_signal], rfl, by simp [signals], by simp [polled],
        by simp [abort_requests]⟩
    · have hnb : ¬ (x.drv.dma_in_progress ≠ 0 ∧ x.drv.dma_blocking ≠ 0) := fun h => hb h.2
      have h0 : stop_clear_dma x = x.set_drv { x.drv with dma_in_progress := 0 } := by
        unfold stop_clear_dma
        rw [if_pos hp, if_neg hb]
      rw [h0, if_pos hp, if_neg hnb]
      exact ⟨rfl, rfl, not_not.mp hb, [], by simp, by simp [signals], by simp [polled],
        by simp [abort_requests]⟩
  · have hnb : ¬ (x.drv.dma_in_progress ≠ 0 ∧ x.drv.dma_blocking ≠ 0) := fun h => hp h.1
    have h0 : stop_clear_dma x = x := by
      unfold stop_clear_dma
      rw [if_neg hp]
    rw [h0, if_neg hp, if_neg hnb]
    exact ⟨rfl, not_not.mp hp, rfl, [], by simp, by simp [signals], by simp [polled],
      by simp [abort_requests]⟩

/-- Every returning `cdrom_stream_stop` that started with an active handle:
`cmd_hnd` is 0, the in-progress flag is 0, and the blocking flag is 0 if the
in-progress flag was set and unchanged otherwise.  The events of the run are
polling rounds that see no deciding state, the deciding poll `rs` (negative,
`COMPLETED`, `NO_ACTIVE` or `STREAMING`) and what follows it; the semaphore is
signalled once if both flags were set and not at all otherwise; the result is
`ERR_SYS` exactly when `rs` is negative and `ERR_OK` otherwise; and if `rs` is
`STREAMING` the events after the poll contain exactly one
`syscall_gdrom_abort_command`, for the handle that was active. -/
theorem cdrom_stream_stop_run (s : Stub) (fuel : Nat) (w : World) (rv : Int) (w' : World)
    (hact : 0 < w.drv.cmd_hnd) (hret : cdrom_stream_stop s fuel w = some (rv, w')) :
    w'.drv.cmd_hnd = 0 ∧ w'.drv.dma_in_progress = 0 ∧
    w'.drv.dma_blocking =
      (if w.drv.dma_in_progress ≠ 0 then 0 else w.drv.dma_blocking) ∧
    ∃ (pre : List Event) (rs : Int) (st : Status) (post : List Event),
      w'.trace = w.trace ++ (pre ++ Event.check_command w.drv.cmd_hnd rs st :: post) ∧
      signals (pre ++ Event.check_command w.drv.cmd_hnd rs st :: post) =
        (if w.drv.dma_in_progress ≠ 0 ∧ w.drv.dma_blocking ≠ 0 then 1 else 0) ∧
      (∀ n ∈ polled pre, ¬ n < 0 ∧ n ≠ COMPLETED ∧ n ≠ NO_ACTIVE ∧ n ≠ STREAMING) ∧
      (rs < 0 ∨ rs = COMPLETED ∨ rs = NO_ACTIVE ∨ rs = STREAMING) ∧
      (rv = ERR_SYS ↔ rs < 0) ∧ (rv = ERR_OK ∨ rv = ERR_SYS) ∧
      (rs = STREAMING → abort_requests post = [w.drv.cmd_hnd]) := by
  have hna : ¬ w.drv.cmd_hnd ≤ 0 := not_le.mpr hact
  obtain ⟨head, hht, hhd, hhs, hhp, _⟩ := stop_entry s w hact
  simp only [cdrom_stream_stop, hna, if_false] at hret
  generalize (if w.drv.stream_mode ≠ CDROM_READ_DMA then w.emit .mutex_lock
        else if (cdrom_stream_progress s w).1 = 0 then
          (cdrom_stream_progress s w).2.2.emit .mutex_lock
        else (cdrom_stream_progress s w).2.2) = W1 at hret hht hhd
  cases hp : stop_poll s fuel fuel Status.zero W1 with
  | none =>
    rw [hp] at hret
    exact absurd hret (by simp)
  | some r =>
    obtain ⟨rs, rv0, w2⟩ := r
    rw [hp] at hret
    simp only [Option.some.injEq, Prod.mk.injEq] at hret
    obtain ⟨e1, e2⟩ := hret
    subst e1
    obtain ⟨hsb, pre, st', post, ht, hps, hpn, hcase⟩ :=
      stop_poll_spec s fuel fuel Status.zero W1 rs rv0 w2 (by rw [hhd]; exact hact) hp
    rw [hhd] at hsb ht hcase
    obtain ⟨f1, f2, _, _, _⟩ := hsb.flags
    generalize hx : (if rs ≠ STREAMING then (w2.set_cmd_hnd 0).emit .mutex_unlock
        else w2.set_cmd_hnd 0) = X at e2
    have hxd : X.drv = { w2.drv with cmd_hnd := 0 } := by
      rw [← hx]; split_ifs <;> rfl
    have hxt : X.trace = w2.trace ++ (if rs ≠ STREAMING then [Event.mutex_unlock] else []) := by
      rw [← hx]; split_ifs <;> simp
    obtain ⟨c1, c2, c3, tl, c4, c5, c6, c7⟩ := stop_clear_dma_spec X
    rw [e2] at c1 c2 c3 c4
    have hxp : X.drv.dma_in_progress = w.drv.dma_in_progress := by rw [hxd]; exact f1
    have hxb : X.drv.dma_blocking = w.drv.dma_blocking := by rw [hxd]; exact f2
    rw [hxp, hxb] at c3 c5
    refine ⟨by rw [c1, hxd], c2, c3, head ++ pre, rs, st',
      post ++ ((if rs ≠ STREAMING then [Event.mutex_unlock] else []) ++ tl), ?_, ?_, ?_, ?_, ?_,
      ?_, ?_⟩
    · rw [c4, hxt, ht, hht]
      simp
    · have hpre : signals pre = 0 := (poll_steps_quiet pre hps).2.1
      have hul : signals (if rs ≠ STREAMING then [Event.mutex_unlock] else []) = 0 := by
        split_ifs <;> simp [signals]
      have hpost : signals post = 0 := by
        rcases hcase with ⟨_, _, h⟩ | ⟨_, _, h⟩ | ⟨_, _, mid, h, hm⟩
        · rw [h]; simp [signals]
        · rw [h]; simp [signals]
        · have := (poll_steps_quiet mid hm).2.1
          rw [h]
          unfold signals at this ⊢
          simp [List.count_append, this]
      have hck : signals [Event.check_command w.drv.cmd_hnd rs st'] = 0 := by simp [signals]
      have : head ++ pre ++ Event.check_command w.drv.cmd_hnd rs st' ::
          (post ++ ((if rs ≠ STREAMING then [Event.mutex_unlock] else []) ++ tl)) =
          head ++ (pre ++ ([Event.check_command w.drv.cmd_hnd rs st'] ++
          (post ++ ((if rs ≠ STREAMING then [Event.mutex_unlock] else []) ++ tl)))) := by simp
      rw [this]
      simp only [signals_append, hhs, hpre, hck, hpost, hul, c5]
      simp
    · intro n hn
      rw [polled_append, hhp] at hn
      exact hpn n (by simpa using hn)
    · rcases hcase with ⟨h, _, _⟩ | ⟨h, _, _⟩ | ⟨h, _, _⟩
      · exact Or.inl h
      · rcases h with h | h
        · exact Or.inr (Or.inl h)
        · exact Or.inr (Or.inr (Or.inl h))
      · exact Or.inr (Or.inr (Or.inr h))
    · rcases hcase with ⟨h, hr, _⟩ | ⟨h, hr, _⟩ | ⟨h, hr, _⟩
      · exact ⟨fun _ => h, fun _ => hr⟩
      · refine ⟨fun hs => ?_, fun hn => ?_⟩
        · rw [hr] at hs; exact absurd hs (by decide)
        · rcases h with h | h <;> (rw [h] at hn; exact absurd hn (by decide))
      · refine ⟨fun hs => ?_, fun hn => ?_⟩
        · rw [hr] at hs; exact absurd hs (by decide)
        · rw [h] at hn; exact absurd hn (by decide)
    · rcases hcase with ⟨_, hr, _⟩ | ⟨_, hr, _⟩ | ⟨_, hr, _⟩
      · exact Or.inr hr
      · exact Or.inl hr
      · exact Or.inl hr
    · intro hs
      rcases hcase with ⟨h, _, _⟩ | ⟨h, _, _⟩ | ⟨_, _, mid, h, hm⟩
      · rw [hs] at h; exact absurd h (by decide)
      · rcases h with h | h <;> (rw [hs] at h; exact absurd h (by decide))
      · have hne : ¬ (rs ≠ STREAMING) := fun h => h hs
        have hmid : abort_requests mid = [] := (poll_steps_guard true mid hm).2.2.2.2
        rw [if_neg hne, h]
        simp only [List.nil_append]
        rw [abort_requests_append, c7]
        unfold abort_requests at hmid ⊢
        simp [List.filterMap_append, hmid]

/-! ### Re-initialisation and data type -/

theorem sent_cmds_append (a b : List Event) : sent_cmds (a ++ b) = sent_cmds a ++ sent_cmds b := by
  simp [sent_cmds, List.filterMap_append]

theorem sector_modes_append (a b : List Event) :
    sector_modes (a ++ b) = sector_modes a ++ sector_modes b := by
  simp [sector_modes, List.filterMap_append]

/-- The events of `datatype_finish`. -/
theorem datatype_finish_spec (s : Stub) (a b c : Int) (w : World) :
    (datatype_finish s a b c w).2.trace = w.trace ++
      [.sector_mode [0, to_uint32 a, to_uint32 b, to_uint32 c] (datatype_finish s a b c w).1,
       .mutex_unlock] := by
  simp [datatype_finish]

theorem datatype_finish_chg (s : Stub) (a b c : Int) (W w : World) (pre : List Event)
    (hW : W.trace = w.trace ++ pre) (h1 : sector_modes pre = []) (h2 : sent_cmds pre = [])
    (h3 : pre.head? = some Event.mutex_lock) (h4 : pre ≠ []) :
    ∃ chg p, (datatype_finish s a b c W).2.trace = w.trace ++ chg ∧
      sector_modes chg = [(p, (datatype_finish s a b c W).1)] ∧
      sent_cmds chg = [] ∧
      chg.head? = some Event.mutex_lock ∧ chg.getLast? = some Event.mutex_unlock := by
  refine ⟨pre ++ [.sector_mode [0, to_uint32 a, to_uint32 b, to_uint32 c]
      (datatype_finish s a b c W).1, .mutex_unlock],
    [0, to_uint32 a, to_uint32 b, to_uint32 c], ?_, ?_, ?_, ?_, ?_⟩
  · rw [datatype_finish_spec, hW]
    simp
  · rw [sector_modes_append, h1]
    simp [sector_modes]
  · rw [sent_cmds_append, h2]
    simp [sent_cmds]
  · cases pre with
    | nil => exact absurd rfl h4
    | cons e t => simpa using h3
  · simp

/-- The events of `cdrom_change_datatype`: the lock, at most one drive query,
one sector-mode call whose result is the value returned, the unlock. -/
theorem cdrom_change_datatype_spec (s : Stub) (sp cx ss : Int) (w : World) :
    ∃ chg p, (cdrom_change_datatype s sp cx ss w).2.trace = w.trace ++ chg ∧
      sector_modes chg = [(p, (cdrom_change_datatype s sp cx ss w).1)] ∧
      sent_cmds chg = [] ∧
      chg.head? = some Event.mutex_lock ∧ chg.getLast? = some Event.mutex_unlock := by
  unfold cdrom_change_datatype
  simp only []
  by_cases h1 : ss = 2352
  · rw [if_pos h1]
    exact datatype_finish_chg s _ _ _ _ w [.mutex_lock] rfl (by simp [sector_modes])
      (by simp [sent_cmds]) rfl (by simp)
  · rw [if_neg h1]
    by_cases h2 : cx = -1
    · simp only [h2, if_true]
      exact datatype_finish_chg s _ _ _ _ w
        [.mutex_lock, .check_drive (s.check_drive (w.emit .mutex_lock).trace).1
          (s.check_drive (w.emit .mutex_lock).trace).2.1
          (s.check_drive (w.emit .mutex_lock).trace).2.2] (by simp)
        (by simp [sector_modes]) (by simp [sent_cmds]) rfl (by simp)
    · simp only [h2, if_false]
      exact datatype_finish_chg s _ _ _ _ w [.mutex_lock] rfl (by simp [sector_modes])
        (by simp [sent_cmds]) rfl (by simp)

/-- What the Init loop of `cdrom_reinit_ex` leaves behind. -/
theorem reinit_loop_spec (s : Stub) (fuelE : Nat) :
    ∀ (fuel : Nat) (w : World) (r : Int × World),
    reinit_loop s fuelE fuel w = some r →
    r.1 ≠ ERR_DISC_CHG ∧ w.drv.same_but_hnd r.2.drv ∧
    ∃ ini, r.2.trace = w.trace ++ ini ∧ SendsOnly CMD_INIT ini ∧ Guard false ini false := by
  intro fuel
  induction fuel with
  | zero => intro w r h; simp [reinit_loop] at h
  | succ fuel ih =>
    intro w r h
    simp only [reinit_loop] at h
    cases he : cdrom_exec_cmd_timed s fuelE CMD_INIT [] 10000 w with
    | none =>
      rw [he] at h
      exact absurd h (by simp)
    | some q =>
      rw [he] at h
      simp only at h
      obtain ⟨hd, evs, ht, hs, hg⟩ := cdrom_exec_cmd_timed_frame s fuelE _ _ _ w q.1 q.2 he
      by_cases hc : q.1 = ERR_DISC_CHG
      · rw [if_pos hc] at h
        obtain ⟨h1, h2, ini, h3, h4, h5⟩ := ih _ _ h
        exact ⟨h1, Driver.same_but_hnd.trans hd h2, evs ++ ini, by simp [h3, ht],
          SendsOnly.append_sends hs h4, Guard.append_guard hg h5⟩
      · rw [if_neg hc] at h
        simp only [Option.some.injEq] at h
        subst h
        exact ⟨hc, hd, evs, ht, hs, hg⟩

/-- C12 (counterexample): the Init command completes and the sector-mode call
returns 2; `cdrom_reinit_ex` returns that 2, which is the value of
`ERR_DISC_CHG`. -/
theorem cdrom_reinit_ex_returns_raw_mode_result :
    cdrom_reinit_ex Stub.mode_two 1 (-1) (-1) (-1) World.boot =
      some (ERR_DISC_CHG, ⟨Driver.initial,
        [.mutex_lock, .send_command CMD_INIT [] 7, .timer_ms_gettime64 2, .exec_server,
         .check_command 7 COMPLETED Status.zero, .mutex_unlock,
         .mutex_lock, .check_drive 0 2 32, .sector_mode [0, 0x2000, 2048, 2048] 2,
         .mutex_unlock]⟩) := by
  decide

/-- C12 (amended): in every returning run of `cdrom_reinit_ex` the Init loop
ends with a code `r` other than `ERR_DISC_CHG`, having made no sector-mode call.
If `r` is `ERR_NO_DISC`, `ERR_SYS` or `ERR_TIMEOUT`, that code is returned and
the run ends there: no sector-mode call is issued.  Otherwise exactly one
sector-mode call follows and the value returned is the result of that call,
untranslated.  `cdrom_reinit` and `cdrom_set_sector_size` are
`cdrom_reinit_ex` with the parameters `(-1, -1, -1)` and `(-1, -1, size)`. -/
theorem cdrom_reinit_ex_result (s : Stub) (fuel : Nat) (sp cx ss : Int) (w : World)
    (rv : Int) (w' : World) (hret : cdrom_reinit_ex s fuel sp cx ss w = some (rv, w')) :
    (∃ (r : Int) (w1 : World) (ini : List Event),
      reinit_loop s fuel fuel w = some (r, w1) ∧ r ≠ ERR_DISC_CHG ∧
      w1.trace = w.trace ++ ini ∧ sector_modes ini = [] ∧
      ((r = ERR_NO_DISC ∨ r = ERR_SYS ∨ r = ERR_TIMEOUT) → rv = r ∧ w' = w1) ∧
      (¬ (r = ERR_NO_DISC ∨ r = ERR_SYS ∨ r = ERR_TIMEOUT) →
        ∃ chg p, w'.trace = w1.trace ++ chg ∧ sector_modes chg = [(p, rv)])) ∧
    (∀ size, cdrom_set_sector_size s fuel size w = cdrom_reinit_ex s fuel (-1) (-1) size w) ∧
    cdrom_reinit s fuel w = cdrom_reinit_ex s fuel (-1) (-1) (-1) w := by
  refine ⟨?_, fun _ => rfl, rfl⟩
  unfold cdrom_reinit_ex at hret
  cases hl : reinit_loop s fuel fuel w with
  | none =>
    rw [hl] at hret
    exact absurd hret (by simp)
  | some r =>
    rw [hl] at hret
    simp only at hret
    obtain ⟨h1, _, ini, h3, h4, _⟩ := reinit_loop_spec s fuel fuel w r hl
    refine ⟨r.1, r.2, ini, rfl, h1, h3, h4.2.2.1, ?_, ?_⟩
    · intro hc
      rw [if_pos hc] at hret
      simp only [Option.some.injEq] at hret
      rw [hret]
      exact ⟨rfl, rfl⟩
    · intro hc
      rw [if_neg hc] at hret
      simp only [Option.some.injEq] at hret
      obtain ⟨chg, p, c1, c2, _⟩ := cdrom_change_datatype_spec s sp cx ss r.2
      rw [hret] at c1 c2
      exact ⟨chg, p, c1, c2⟩

/-- Witness for C12 (amended): the run of the counterexample. -/
theorem cdrom_reinit_ex_result_witness :
    cdrom_reinit_ex Stub.mode_two 1 (-1) (-1) (-1) World.boot =
      some (2, ⟨Driver.initial,
        [.mutex_lock, .send_command CMD_INIT [] 7, .timer_ms_gettime64 2, .exec_server,
         .check_command 7 COMPLETED Status.zero, .mutex_unlock,
         .mutex_lock, .check_drive 0 2 32, .sector_mode [0, 0x2000, 2048, 2048] 2,
         .mutex_unlock]⟩) ∧
    cdrom_reinit Stub.mode_two 1 World.boot =
      cdrom_reinit_ex Stub.mode_two 1 (-1) (-1) (-1) World.boot :=
  ⟨by decide,
   (cdrom_reinit_ex_result Stub.mode_two 1 (-1) (-1) (-1) World.boot 2
      ⟨Driver.initial,
        [.mutex_lock, .send_command CMD_INIT [] 7, .timer_ms_gettime64 2, .exec_server,
         .check_command 7 COMPLETED Status.zero, .mutex_unlock,
         .mutex_lock, .check_drive 0 2 32, .sector_mode [0, 0x2000, 2048, 2048] 2,
         .mutex_unlock]⟩ (by decide)).2.2⟩

/-- One `cdrom_exec_cmd_timed(CMD_INIT, NULL, 10000)` against a stub that accepts
the submission and whose next poll ends the command with code `c`. -/
theorem init_once (s : Stub) (fuelE : Nat) (w : World) (c : Int) (hacc : Accepts s)
    (hf : 1 ≤ fuelE)
    (hpoll : ∀ h hnd st, (polled h).length = (polled w.trace).length →
      (s.check_command h hnd st).1 ≠ PROCESSING ∧ (s.check_command h hnd st).1 ≠ BUSY ∧
      exec_code (s.check_command h hnd st).1 (s.check_command h hnd st).2.err1 = c) :
    ∃ w1 evs, cdrom_exec_cmd_timed s fuelE CMD_INIT [] 10000 w = some (c, w1) ∧
      w1.trace = w.trace ++ evs ∧ sent_cmds evs = [CMD_INIT] ∧
      (polled evs).length = 1 ∧ sector_modes evs = [] := by
  obtain ⟨f, rfl⟩ : ∃ f, fuelE = f + 1 := ⟨fuelE - 1, by omega⟩
  have hcmd : 0 < CMD_INIT ∧ CMD_INIT < CMD_MAX := by decide
  have hT : (10000 : Int) ≠ 0 := by decide
  have hh := hacc (w.emit .mutex_lock).trace CMD_INIT []
  generalize hhnd : s.send_command (w.emit .mutex_lock).trace CMD_INIT [] = hnd at hh
  have hsub : submit_loop s CMD_INIT [] 10 0 (w.emit .mutex_lock) =
      (hnd, (w.emit .mutex_lock).emit (.send_command CMD_INIT [] hnd)) := by
    have hne : hnd ≠ 0 := by omega
    simp only [submit_loop, hhnd, hne, ne_eq, not_false_eq_true, if_true]
  have hnle : ¬ hnd ≤ 0 := by omega
  unfold cdrom_exec_cmd_timed
  rw [if_pos hcmd, hsub]
  simp only [hnle, if_false, hT, ne_eq, not_false_eq_true, if_true]
  generalize hW : ((w.emit .mutex_lock).emit (.send_command CMD_INIT [] hnd)).emit
    (.timer_ms_gettime64 (read_timer s
      ((w.emit .mutex_lock).emit (.send_command CMD_INIT [] hnd)))) = W
  have hWt : W.trace = w.trace ++ [.mutex_lock, .send_command CMD_INIT [] hnd,
      .timer_ms_gettime64 (read_timer s
        ((w.emit .mutex_lock).emit (.send_command CMD_INIT [] hnd)))] := by
    rw [← hW]; simp
  have hlen : (polled (W.emit .exec_server).trace).length = (polled w.trace).length := by
    rw [World.emit_trace, hWt]
    simp [polled, List.filterMap_append]
  obtain ⟨p1, p2, p3⟩ := hpoll (W.emit .exec_server).trace hnd Status.zero hlen
  simp only [exec_poll]
  generalize s.check_command (W.emit .exec_server).trace hnd Status.zero = r at p1 p2 p3
  have hc : r.1 ≠ PROCESSING ∧ r.1 ≠ BUSY := ⟨p1, p2⟩
  simp only [hc, ne_eq, not_false_eq_true, and_self, if_true]
  have hne : ¬ ERR_OK = ERR_TIMEOUT := by decide
  rw [if_pos hne]
  refine ⟨(((W.emit .exec_server).emit (.check_command hnd r.1 r.2)).set_cmd_hnd
      (if r.1 = STREAMING then hnd else 0)).emit .mutex_unlock,
      [.mutex_lock, .send_command CMD_INIT [] hnd,
      .timer_ms_gettime64 (read_timer s
        ((w.emit .mutex_lock).emit (.send_command CMD_INIT [] hnd))),
      .exec_server, .check_command hnd r.1 r.2, .mutex_unlock], ?_, ?_, ?_, ?_, ?_⟩
  · rw [exec_result_ok, p3]
  · simp [hWt]
  · simp [sent_cmds]
  · simp [polled]
  · simp [sector_modes]

theorem DiscChangedTimes.shift {s : Stub} {p0 k : Nat} (h : DiscChangedTimes s p0 (k + 1)) :
    DiscChangedTimes s (p0 + 1) k := by
  intro hh hnd st
  obtain ⟨h1, h2⟩ := h hh hnd st
  exact ⟨fun hl => h1 (by omega), fun hl => h2 (by omega)⟩

/-- The Init loop of `cdrom_reinit_ex` against a stub whose Init command ends
in `ERR_DISC_CHG` `k` times and is then completed. -/
theorem reinit_loop_retry (s : Stub) (fuelE : Nat) (hacc : Accepts s) (hf : 1 ≤ fuelE) :
    ∀ (k fuel : Nat) (w : World),
    DiscChangedTimes s (polled w.trace).length k → k + 1 ≤ fuel →
    ∃ w1 ini, reinit_loop s fuelE fuel w = some (ERR_OK, w1) ∧
      w1.trace = w.trace ++ ini ∧ sent_cmds ini = List.replicate (k + 1) CMD_INIT ∧
      sector_modes ini = [] := by
  intro k
  induction k with
  | zero =>
    intro fuel w hdc hfuel
    obtain ⟨f, rfl⟩ : ∃ f, fuel = f + 1 := ⟨fuel - 1, by omega⟩
    obtain ⟨w1, evs, he, ht, h1, _, h3⟩ := init_once s fuelE w ERR_OK hacc hf (by
      intro h hnd st hl
      have := (hdc h hnd st).2 (by omega)
      rw [this]
      exact ⟨by decide, by decide, by simp [exec_code]⟩)
    refine ⟨w1, evs, ?_, ht, h1, h3⟩
    simp only [reinit_loop, he]
    have : ERR_OK ≠ ERR_DISC_CHG := by decide
    simp [this]
  | succ k ih =>
    intro fuel w hdc hfuel
    obtain ⟨f, rfl⟩ : ∃ f, fuel = f + 1 := ⟨fuel - 1, by omega⟩
    obtain ⟨w1, evs, he, ht, h1, h2, h3⟩ := init_once s fuelE w ERR_DISC_CHG hacc hf (by
      intro h hnd st hl
      exact (hdc h hnd st).1 (by omega))
    have hlen : (polled w1.trace).length = (polled w.trace).length + 1 := by
      rw [ht, polled_append, List.length_append, h2]
    have hdc' : DiscChangedTimes s (polled w1.trace).length k := by
      rw [hlen]
      exact hdc.shift
    obtain ⟨w2, ini, hl, ht2, i1, i2⟩ := ih f w1 hdc' (by omega)
    refine ⟨w2, evs ++ ini, ?_, by simp [ht2, ht], ?_, ?_⟩
    · simp only [reinit_loop, he, if_true]
      exact hl
    · rw [sent_cmds_append, h1, i1]
      rfl
    · rw [sector_modes_append, h3, i2]
      rfl

/-- C11: disc-changed retry.  Against a stub that accepts every submission and
whose Init command ends in `ERR_DISC_CHG` exactly `k` times and is then
`COMPLETED`, `cdrom_reinit_ex` returns (given `k + 1` rounds); its events are
those of the Init phase followed by those of the datatype change; the Init
phase submits `CMD_INIT` exactly `k + 1` times and makes no sector-mode call;
the datatype change submits no command and makes exactly one sector-mode call,
whose result is the value returned. -/
theorem cdrom_reinit_ex_retry (s : Stub) (k fuel : Nat) (sp cx ss : Int) (w : World)
    (hacc : Accepts s) (hdc : DiscChangedTimes s (polled w.trace).length k)
    (hfuel : k + 1 ≤ fuel) :
    ∃ (rv : Int) (w' : World) (ini chg : List Event) (p : List Nat),
      cdrom_reinit_ex s fuel sp cx ss w = some (rv, w') ∧
      w'.trace = w.trace ++ ini ++ chg ∧
      sent_cmds ini = List.replicate (k + 1) CMD_INIT ∧ sector_modes ini = [] ∧
      sent_cmds chg = [] ∧ sector_modes chg = [(p, rv)] := by
  obtain ⟨w1, ini, hl, ht, h1, h2⟩ := reinit_loop_retry s fuel hacc (by omega) k fuel w hdc hfuel
  obtain ⟨chg, p, c1, c2, c3, _⟩ := cdrom_change_datatype_spec s sp cx ss w1
  refine ⟨(cdrom_change_datatype s sp cx ss w1).1, (cdrom_change_datatype s sp cx ss w1).2,
    ini, chg, p, ?_, by rw [c1, ht], h1, h2, c3, c2⟩
  unfold cdrom_reinit_ex
  rw [hl]
  have hne : ¬ (ERR_OK = ERR_NO_DISC ∨ ERR_OK = ERR_SYS ∨ ERR_OK = ERR_TIMEOUT) := by decide
  simp only [hne, if_false]

/-- The stubs `Stub.disc_changes k` fail the first `k` polls with the
disc-changed status and complete every later one. -/
theorem disc_changes_spec (k : Nat) :
    Accepts (Stub.disc_changes k) ∧ DiscChangedTimes (Stub.disc_changes k) 0 k := by
  constructor
  · intro h cmd p
    show (0 : Int) < 7
    decide
  · intro h hnd st
    constructor
    · intro hl
      have hl' : (polled h).length < k := by omega
      simp only [Stub.disc_changes, hl', if_true]
      exact ⟨by decide, by decide, by decide⟩
    · intro hl
      have hl' : ¬ (polled h).length < k := by omega
      simp only [Stub.disc_changes, hl', if_false]

/-- Witness for C11: the disc changes twice; three Init submissions precede the
one sector-mode call. -/
theorem cdrom_reinit_ex_retry_witness :
    Accepts (Stub.disc_changes 2) ∧
    DiscChangedTimes (Stub.disc_changes 2) (polled World.boot.trace).length 2 ∧
    cdrom_reinit_ex (Stub.disc_changes 2) 3 (-1) (-1) (-1) World.boot =
      some (0, ⟨Driver.initial,
        [.mutex_lock, .send_command CMD_INIT [] 7, .timer_ms_gettime64 2, .exec_server,
         .check_command 7 (-1) ⟨6, 0, 0, 0⟩, .mutex_unlock,
         .mutex_lock, .send_command CMD_INIT [] 7, .timer_ms_gettime64 8, .exec_server,
         .check_command 7 (-1) ⟨6, 0, 0, 0⟩, .mutex_unlock,
         .mutex_lock, .send_command CMD_INIT [] 7, .timer_ms_gettime64 14, .exec_server,
         .check_command 7 COMPLETED Status.zero, .mutex_unlock,
         .mutex_lock, .check_drive 0 2 32, .sector_mode [0, 0x2000, 2048, 2048] 0,
         .mutex_unlock]⟩) ∧
    ∃ (rv : Int) (w' : World) (ini chg : List Event) (p : List Nat),
      cdrom_reinit_ex (Stub.disc_changes 2) 3 (-1) (-1) (-1) World.boot = some (rv, w') ∧
      w'.trace = World.boot.trace ++ ini ++ chg ∧
      sent_cmds ini = List.replicate (2 + 1) CMD_INIT ∧ sector_modes ini = [] ∧
      sent_cmds chg = [] ∧ sector_modes chg = [(p, rv)] :=
  ⟨(disc_changes_spec 2).1, (disc_changes_spec 2).2, by decide,
   cdrom_reinit_ex_retry (Stub.disc_changes 2) 2 3 (-1) (-1) (-1) World.boot
    (disc_changes_spec 2).1 (disc_changes_spec 2).2 (by decide)⟩

/-! ### Lock discipline -/

theorem Guard.locked_steps {evs : List Event} (h : ∀ e ∈ evs, e.is_poll_step = true) :
    Guard true evs true :=
  ⟨(poll_steps_guard true evs h).2.1, (poll_steps_guard true evs h).1⟩

/-- `cdrom_stream_progress` makes its hardware calls under the lock. -/
theorem cdrom_stream_progress_guard (s : Stub) (w : World) :
    (cdrom_stream_progress s w).2.2.drv = w.drv ∧
    ∃ evs, (cdrom_stream_progress s w).2.2.trace = w.trace ++ evs ∧ Guard false evs false := by
  by_cases hact : 0 < w.drv.cmd_hnd
  · obtain ⟨hd, mid, ht, _, _, _, _, _, _, hs, _, _⟩ := cdrom_stream_progress_shape s w hact
    refine ⟨hd, [Event.mutex_lock] ++ (mid ++ [Event.mutex_unlock]), by simp [ht], ?_⟩
    have h1 : Guard false [Event.mutex_lock] true := by
      simp [Guard, unguarded, held_after, Event.is_hw, Event.lock_after]
    have h3 : Guard true [Event.mutex_unlock] false := by
      simp [Guard, unguarded, held_after, Event.is_hw, Event.lock_after]
    exact Guard.append_guard h1 (Guard.append_guard (Guard.locked_steps hs) h3)
  · have hna : w.drv.cmd_hnd ≤ 0 := not_lt.mp hact
    have h0 : cdrom_stream_progress s w = (0, 0, w) := by
      simp only [cdrom_stream_progress, hna, if_true]
    rw [h0]
    exact ⟨rfl, [], by simp, Guard.nil_guard _⟩

/-- `cdrom_stream_start` makes its hardware calls under the lock. -/
theorem cdrom_stream_start_guard (s : Stub) (fuel : Nat) (sector cnt mode : Int) (w : World)
    (rv : Int) (w' : World)
    (hret : cdrom_stream_start s fuel sector cnt mode w = some (rv, w')) :
    ∃ evs, w'.trace = w.trace ++ evs ∧ Guard false evs false := by
  unfold cdrom_stream_start at hret
  have key : ∀ (w1 : World) (ab : List Event), w1.trace = w.trace ++ ab → Guard false ab false →
      (match (if mode = CDROM_READ_DMA then
            cdrom_exec_cmd s fuel CMD_DMAREAD_STREAM [sector, cnt] w1
          else if mode = CDROM_READ_PIO then
            cdrom_exec_cmd s fuel CMD_PIOREAD_STREAM [sector, cnt] w1
          else some (ERR_SYS, w1)) with
        | none => none
        | some r => some (r.1,
            if r.1 = ERR_OK then r.2.set_drv { r.2.drv with stream_mode := mode } else r.2))
        = some (rv, w') →
      ∃ evs, w'.trace = w.trace ++ evs ∧ Guard false evs false := by
    intro w1 ab hab hg h
    generalize hex : (if mode = CDROM_READ_DMA then
            cdrom_exec_cmd s fuel CMD_DMAREAD_STREAM [sector, cnt] w1
          else if mode = CDROM_READ_PIO then
            cdrom_exec_cmd s fuel CMD_PIOREAD_STREAM [sector, cnt] w1
          else some (ERR_SYS, w1)) = res at h
    cases res with
    | none => exact absurd h (by simp)
    | some r =>
      simp only [Option.some.injEq, Prod.mk.injEq] at h
      obtain ⟨_, hw⟩ := h
      have hr : ∃ ex, r.2.trace = w1.trace ++ ex ∧ Guard false ex false := by
        by_cases hd : mode = CDROM_READ_DMA
        · rw [if_pos hd] at hex
          obtain ⟨_, ex, ht, _, hg'⟩ := cdrom_exec_cmd_timed_frame s fuel _ _ 0 w1 r.1 r.2 hex
          exact ⟨ex, ht, hg'⟩
        · rw [if_neg hd] at hex
          by_cases hp : mode = CDROM_READ_PIO
          · rw [if_pos hp] at hex
            obtain ⟨_, ex, ht, _, hg'⟩ := cdrom_exec_cmd_timed_frame s fuel _ _ 0 w1 r.1 r.2 hex
            exact ⟨ex, ht, hg'⟩
          · rw [if_neg hp] at hex
            simp only [Option.some.injEq] at hex
            subst hex
            exact ⟨[], by simp, Guard.nil_guard _⟩
      obtain ⟨ex, ht, hg'⟩ := hr
      refine ⟨ab ++ ex, ?_, Guard.append_guard hg hg'⟩
      rw [← hw]
      split_ifs <;> simp [ht, hab]
  by_cases hact : 0 < w.drv.cmd_hnd
  · rw [if_pos hact] at hret
    cases ha : cdrom_abort_cmd s fuel 1000 w with
    | none =>
      rw [ha] at hret
      exact absurd hret (by simp)
    | some a =>
      rw [ha] at hret
      simp only [Option.map_some'] at hret
      obtain ⟨_, ab, ht, _, hg⟩ := cdrom_abort_cmd_frame s fuel 1000 w a.1 a.2 ha
      exact key a.2 ab ht hg hret
  · rw [if_neg hact] at hret
    exact key w [] (by simp) (Guard.nil_guard _) hret

/-- The events of the polling loop that ends `cdrom_stream_request`. -/
theorem request_poll_steps (s : Stub) (dma : Bool) :
    ∀ (fuel : Nat) (st : Status) (cs : Nat) (w : World) (r : Int × World),
    request_poll s dma fuel st cs w = some r →
    ∃ evs, r.2.trace = w.trace ++ evs ∧ ∀ e ∈ evs, e.is_poll_step = true := by
  intro fuel
  induction fuel with
  | zero => intro st cs w r h; simp [request_poll] at h
  | succ fuel ih =>
    intro st cs w r h
    simp only [request_poll] at h
    generalize s.check_command (w.emit .exec_server).trace (w.emit .exec_server).drv.cmd_hnd st
      = q at h
    simp only [World.emit_drv] at h
    generalize (if dma = true then
        s.dma_check ((w.emit .exec_server).emit (.check_command w.drv.cmd_hnd q.1 q.2)).trace
          w.drv.cmd_hnd cs
      else s.pio_check ((w.emit .exec_server).emit (.check_command w.drv.cmd_hnd q.1 q.2)).trace
          w.drv.cmd_hnd cs) = c at h
    have hev : ∃ ev : Event, ev.is_poll_step = true ∧
        (if dma = true then Event.dma_check w.drv.cmd_hnd c.1 c.2
          else Event.pio_check w.drv.cmd_hnd c.1 c.2) = ev := by
      cases dma
      · exact ⟨Event.pio_check w.drv.cmd_hnd c.1 c.2, rfl, by simp⟩
      · exact ⟨Event.dma_check w.drv.cmd_hnd c.1 c.2, rfl, by simp⟩
    obtain ⟨ev, hev1, hev2⟩ := hev
    rw [hev2] at h
    split_ifs at h with h1 h2 h3
    · simp only [Option.some.injEq] at h
      subst h
      exact ⟨[.exec_server, .check_command w.drv.cmd_hnd q.1 q.2], by simp,
        by simp [Event.is_poll_step]⟩
    · simp only [Option.some.injEq] at h
      subst h
      exact ⟨[.exec_server, .check_command w.drv.cmd_hnd q.1 q.2], by simp,
        by simp [Event.is_poll_step]⟩
    · simp only [Option.some.injEq] at h
      subst h
      refine ⟨[.exec_server, .check_command w.drv.cmd_hnd q.1 q.2, ev], by simp, ?_⟩
      intro e he
      simp only [List.mem_cons, List.mem_singleton, List.not_mem_nil, or_false] at he
      rcases he with he | he | he
      · subst he; rfl
      · subst he; rfl
      · subst he; exact hev1
    · obtain ⟨evs, ht, hs⟩ := ih _ _ _ _ h
      refine ⟨[.exec_server, .check_command w.drv.cmd_hnd q.1 q.2, ev, .thd_pass] ++ evs,
        by simp [ht], ?_⟩
      intro e he
      simp only [List.mem_append, List.mem_cons, List.mem_singleton, List.not_mem_nil,
        or_false] at he
      rcases he with (he | he | he | he) | he
      · subst he; rfl
      · subst he; rfl
      · subst he; exact hev1
      · subst he; rfl
      · exact hs e he

/-- The PIO branch of `cdrom_stream_request` makes its hardware calls under the
lock and releases it. -/
theorem request_pio_guard (s : Stub) (fuel : Nat) (buffer size : Nat) (w : World)
    (rv : Int) (w' : World) (hret : request_pio s fuel buffer size w = some (rv, w')) :
    ∃ evs, w'.trace = w.trace ++ evs ∧ Guard false evs false := by
  unfold request_pio at hret
  simp only [World.emit_drv] at hret
  generalize s.pio_transfer (w.emit .mutex_lock).trace w.drv.cmd_hnd
    [to_int32 buffer, to_int32 size] = rs at hret
  have h1 : Guard false [Event.mutex_lock,
      Event.pio_transfer w.drv.cmd_hnd [to_int32 buffer, to_int32 size] rs] true := by
    simp [Guard, unguarded, held_after, Event.is_hw, Event.lock_after]
  have h3 : Guard true [Event.mutex_unlock] false := by
    simp [Guard, unguarded, held_after, Event.is_hw, Event.lock_after]
  by_cases hneg : rs < 0
  · rw [if_pos hneg] at hret
    simp only [Option.some.injEq, Prod.mk.injEq] at hret
    obtain ⟨_, hw⟩ := hret
    subst hw
    exact ⟨[Event.mutex_lock,
      Event.pio_transfer w.drv.cmd_hnd [to_int32 buffer, to_int32 size] rs] ++
      [Event.mutex_unlock], by simp, Guard.append_guard h1 h3⟩
  · rw [if_neg hneg] at hret
    cases hp : request_poll s false fuel Status.zero (2 ^ 32 - 1)
        ((w.emit .mutex_lock).emit
          (.pio_transfer w.drv.cmd_hnd [to_int32 buffer, to_int32 size] rs)) with
    | none =>
      rw [hp] at hret
      exact absurd hret (by simp)
    | some r =>
      rw [hp] at hret
      simp only [Option.some.injEq, Prod.mk.injEq] at hret
      obtain ⟨_, hw⟩ := hret
      subst hw
      obtain ⟨evs, ht, hs⟩ := request_poll_steps s false fuel _ _ _ r hp
      exact ⟨[Event.mutex_lock,
        Event.pio_transfer w.drv.cmd_hnd [to_int32 buffer, to_int32 size] rs] ++
        (evs ++ [Event.mutex_unlock]), by simp [ht],
        Guard.append_guard h1 (Guard.append_guard (Guard.locked_steps hs) h3)⟩

/-- The DMA branch of a non-blocking `cdrom_stream_request` makes its transfer
call under the lock. -/
theorem request_dma_guard (s : Stub) (fuel : Nat) (params0 size : Nat) (w : World)
    (rv : Int) (w' : World) (hret : request_dma s fuel params0 size 0 w = some (rv, w')) :
    ∃ evs, w'.trace = w.trace ++ evs ∧ unguarded false evs = [] := by
  unfold request_dma at hret
  simp only [World.emit_drv, World.set_drv_drv, World.set_drv_trace] at hret
  generalize s.dma_transfer (w.emit .mutex_lock).trace w.drv.cmd_hnd
    [(params0 : Int), to_int32 size] = rs at hret
  by_cases hneg : rs < 0
  · rw [if_pos hneg] at hret
    simp only [Option.some.injEq, Prod.mk.injEq] at hret
    obtain ⟨_, hw⟩ := hret
    subst hw
    exact ⟨[Event.mutex_lock,
      Event.dma_transfer w.drv.cmd_hnd [(params0 : Int), to_int32 size] rs,
      Event.mutex_unlock], by simp,
      by simp [unguarded, Event.is_hw, Event.lock_after]⟩
  · rw [if_neg hneg] at hret
    simp only [if_true, Option.some.injEq, Prod.mk.injEq] at hret
    obtain ⟨_, hw⟩ := hret
    subst hw
    exact ⟨[Event.mutex_lock,
      Event.dma_transfer w.drv.cmd_hnd [(params0 : Int), to_int32 size] rs], by simp,
      by simp [unguarded, Event.is_hw, Event.lock_after]⟩

/-- In PIO mode, in a mode that is neither DMA nor PIO, and for a non-blocking
DMA request, `cdrom_stream_request` makes every hardware call under the lock. -/
theorem cdrom_stream_request_guard (s : Stub) (fuel : Nat) (buffer size : Nat) (block : Int)
    (w : World) (rv : Int) (w' : World)
    (hmode : w.drv.stream_mode ≠ CDROM_READ_DMA ∨ block = 0)
    (hret : cdrom_stream_request s fuel buffer size block w = some (rv, w')) :
    ∃ evs, w'.trace = w.trace ++ evs ∧ unguarded false evs = [] := by
  obtain ⟨hd, pe, hpt, hpg⟩ := cdrom_stream_progress_guard s w
  unfold cdrom_stream_request at hret
  by_cases hna : w.drv.cmd_hnd ≤ 0
  · rw [if_pos hna] at hret
    simp only [Option.some.injEq, Prod.mk.injEq] at hret
    obtain ⟨_, hw⟩ := hret
    subst hw
    exact ⟨[], by simp, rfl⟩
  · rw [if_neg hna] at hret
    by_cases hbusy : (cdrom_stream_progress s w).1 ≠ 0
    · rw [if_pos hbusy] at hret
      simp only [Option.some.injEq, Prod.mk.injEq] at hret
      obtain ⟨_, hw⟩ := hret
      subst hw
      exact ⟨pe, hpt, hpg.1⟩
    · rw [if_neg hbusy] at hret
      simp only [hd] at hret
      by_cases hdma : w.drv.stream_mode = CDROM_READ_DMA
      · have hb : block = 0 := hmode.resolve_left (fun h => h hdma)
        subst hb
        rw [if_pos hdma] at hret
        by_cases hal : (buffer &&& MEM_AREA_CACHE_MASK) &&& 0x1f ≠ 0
        · rw [if_pos hal] at hret
          simp only [Option.some.injEq, Prod.mk.injEq] at hret
          obtain ⟨_, hw⟩ := hret
          subst hw
          exact ⟨pe, hpt, hpg.1⟩
        · rw [if_neg hal] at hret
          obtain ⟨evs, ht, hg⟩ := request_dma_guard s fuel _ _ _ rv w' hret
          by_cases hc : (buffer &&& MEM_AREA_CACHE_MASK) >>> 24 = 0x0c
          · rw [if_pos hc] at ht
            refine ⟨pe ++ ([Event.dcache_inval_range buffer size] ++ evs),
              by simp [ht, hpt], ?_⟩
            rw [unguarded_append, hpg.1, hpg.2, unguarded_append]
            simp [unguarded, held_after, Event.is_hw, Event.lock_after, hg]
          · rw [if_neg hc] at ht
            refine ⟨pe ++ evs, by simp [ht, hpt], ?_⟩
            rw [unguarded_append, hpg.1, hpg.2, hg]
            rfl
      · rw [if_neg hdma] at hret
        by_cases hpio : w.drv.stream_mode = CDROM_READ_PIO
        · rw [if_pos hpio] at hret
          by_cases hal : buffer &&& 0x01 ≠ 0
          · rw [if_pos hal] at hret
            simp only [Option.some.injEq, Prod.mk.injEq] at hret
            obtain ⟨_, hw⟩ := hret
            subst hw
            exact ⟨pe, hpt, hpg.1⟩
          · rw [if_neg hal] at hret
            obtain ⟨evs, ht, hg⟩ := request_pio_guard s fuel _ _ _ rv w' hret
            exact ⟨pe ++ evs, by simp [ht, hpt], (Guard.append_guard hpg hg).1⟩
        · rw [if_neg hpio] at hret
          simp only [Option.some.injEq, Prod.mk.injEq] at hret
          obtain ⟨_, hw⟩ := hret
          subst hw
          refine ⟨pe ++ [Event.mutex_lock, Event.mutex_unlock], by simp [hpt], ?_⟩
          rw [unguarded_append, hpg.1, hpg.2]
          simp [unguarded, Event.is_hw, Event.lock_after]

/-- The end of `cdrom_stream_stop` makes no hardware call. -/
theorem stop_clear_dma_guard (x : World) :
    ∃ tl, (stop_clear_dma x).trace = x.trace ++ tl ∧ ∀ b, unguarded b tl = [] := by
  unfold stop_clear_dma
  split_ifs
  · exact ⟨[.sem_signal], rfl, fun b => by simp [unguarded, Event.is_hw]⟩
  · exact ⟨[], by simp, fun b => rfl⟩
  · exact ⟨[], by simp, fun b => rfl⟩

/-- The events of a returning `cdrom_stream_stop` with an active handle, from
the world in which its polling loop starts: polling rounds, the deciding poll,
and a rest in which every hardware call is made under the lock provided the
deciding poll was. -/
theorem cdrom_stream_stop_events (s : Stub) (fuel : Nat) (w : World) (rv : Int) (w' : World)
    (hact : 0 < w.drv.cmd_hnd) (hret : cdrom_stream_stop s fuel w = some (rv, w')) :
    ∃ (pre : List Event) (rs : Int) (st : Status) (rest : List Event),
      w'.trace = (if w.drv.stream_mode ≠ CDROM_READ_DMA then w.emit .mutex_lock
        else if (cdrom_stream_progress s w).1 = 0 then
          (cdrom_stream_progress s w).2.2.emit .mutex_lock
        else (cdrom_stream_progress s w).2.2).trace ++
          (pre ++ Event.check_command w.drv.cmd_hnd rs st :: rest) ∧
      (∀ e ∈ pre, e.is_poll_step = true) ∧ unguarded true rest = [] := by
  have hna : ¬ w.drv.cmd_hnd ≤ 0 := not_le.mpr hact
  obtain ⟨head, hht, hhd, _, _, _⟩ := stop_entry s w hact
  simp only [cdrom_stream_stop, hna, if_false] at hret
  generalize (if w.drv.stream_mode ≠ CDROM_READ_DMA then w.emit .mutex_lock
        else if (cdrom_stream_progress s w).1 = 0 then
          (cdrom_stream_progress s w).2.2.emit .mutex_lock
        else (cdrom_stream_progress s w).2.2) = W1 at hret hht hhd ⊢
  cases hp : stop_poll s fuel fuel Status.zero W1 with
  | none =>
    rw [hp] at hret
    exact absurd hret (by simp)
  | some r =>
    obtain ⟨rs, rv0, w2⟩ := r
    rw [hp] at hret
    simp only [Option.some.injEq, Prod.mk.injEq] at hret
    obtain ⟨_, e2⟩ := hret
    obtain ⟨_, pre, st', post, ht, hps, _, hcase⟩ :=
      stop_poll_spec s fuel fuel Status.zero W1 rs rv0 w2 (by rw [hhd]; exact hact) hp
    rw [hhd] at ht hcase
    generalize hx : (if rs ≠ STREAMING then (w2.set_cmd_hnd 0).emit .mutex_unlock
        else w2.set_cmd_hnd 0) = X at e2
    have hxt : X.trace = w2.trace ++ (if rs ≠ STREAMING then [Event.mutex_unlock] else []) := by
      rw [← hx]; split_ifs <;> simp
    obtain ⟨tl, c4, c5⟩ := stop_clear_dma_guard X
    rw [e2] at c4
    refine ⟨pre, rs, st',
      post ++ ((if rs ≠ STREAMING then [Event.mutex_unlock] else []) ++ tl), ?_, hps, ?_⟩
    · rw [c4, hxt, ht]
      simp
    · have hul : ∀ b, unguarded b
          ((if rs ≠ STREAMING then [Event.mutex_unlock] else []) ++ tl) = [] := by
        intro b
        rw [unguarded_append, c5]
        split_ifs <;> simp [unguarded, Event.is_hw]
      rcases hcase with ⟨_, _, h⟩ | ⟨_, _, h⟩ | ⟨_, _, mid, h, hm⟩
      · rw [h]; exact hul true
      · rw [h]; exact hul true
      · rw [unguarded_append, hul, h]
        have hg : unguarded true mid = [] := (poll_steps_guard true mid hm).2.1
        have : Event.mutex_unlock :: Event.mutex_lock ::
            Event.abort_command w.drv.cmd_hnd :: (mid ++ [Event.mutex_unlock]) =
            [Event.mutex_unlock, Event.mutex_lock, Event.abort_command w.drv.cmd_hnd] ++
              (mid ++ [Event.mutex_unlock]) := rfl
        rw [this, unguarded_append, unguarded_append]
        have hh : held_after true
            [Event.mutex_unlock, Event.mutex_lock, Event.abort_command w.drv.cmd_hnd] = true := by
          simp [held_after, Event.lock_after]
        rw [hh, hg]
        simp [unguarded, Event.is_hw, Event.lock_after]

/-- When `cdrom_stream_stop` takes the lock - the mode is not DMA, or the
progress probe reports no request in flight - every hardware call of the run
is made under it. -/
theorem cdrom_stream_stop_guard (s : Stub) (fuel : Nat) (w : World) (rv : Int) (w' : World)
    (hlock : w.drv.stream_mode ≠ CDROM_READ_DMA ∨ (cdrom_stream_progress s w).1 = 0)
    (hret : cdrom_stream_stop s fuel w = some (rv, w')) :
    ∃ evs, w'.trace = w.trace ++ evs ∧ unguarded false evs = [] := by
  by_cases hact : 0 < w.drv.cmd_hnd
  · obtain ⟨pre, rs, st, rest, ht, hps, hr⟩ := cdrom_stream_stop_events s fuel w rv w' hact hret
    obtain ⟨_, pe, hpt, hpg⟩ := cdrom_stream_progress_guard s w
    have hl : Guard false [Event.mutex_lock] true := by
      simp [Guard, unguarded, held_after, Event.is_hw, Event.lock_after]
    have hbody : unguarded true (pre ++ Event.check_command w.drv.cmd_hnd rs st :: rest) = [] := by
      rw [unguarded_append, (poll_steps_guard true pre hps).2.1,
        (poll_steps_guard true pre hps).1]
      simp [unguarded, Event.is_hw, Event.lock_after, hr]
    by_cases h1 : w.drv.stream_mode ≠ CDROM_READ_DMA
    · rw [if_pos h1] at ht
      refine ⟨[Event.mutex_lock] ++ (pre ++ Event.check_command w.drv.cmd_hnd rs st :: rest),
        by simp [ht], ?_⟩
      rw [unguarded_append, hl.1, hl.2, hbody]
      rfl
    · have h2 : (cdrom_stream_progress s w).1 = 0 := hlock.resolve_left h1
      rw [if_neg h1, if_pos h2] at ht
      refine ⟨(pe ++ [Event.mutex_lock]) ++
        (pre ++ Event.check_command w.drv.cmd_hnd rs st :: rest), by simp [ht, hpt], ?_⟩
      have hg := Guard.append_guard hpg hl
      rw [unguarded_append, hg.1, hg.2, hbody]
      rfl
  · have hna : w.drv.cmd_hnd ≤ 0 := not_lt.mp hact
    simp only [cdrom_stream_stop, hna, if_true, Option.some.injEq, Prod.mk.injEq] at hret
    obtain ⟨_, hw⟩ := hret
    subst hw
    exact ⟨[], by simp, rfl⟩

/-- When a DMA request is in flight `cdrom_stream_stop` does not take the lock,
and the deciding poll of its loop is made without it. -/
theorem cdrom_stream_stop_unlocked (s : Stub) (fuel : Nat) (w : World) (rv : Int) (w' : World)
    (hact : 0 < w.drv.cmd_hnd) (hdma : w.drv.stream_mode = CDROM_READ_DMA)
    (hbusy : (cdrom_stream_progress s w).1 ≠ 0)
    (hret : cdrom_stream_stop s fuel w = some (rv, w')) :
    ∃ evs, w'.trace = w.trace ++ evs ∧
      ∃ rs st, Event.check_command w.drv.cmd_hnd rs st ∈ unguarded false evs := by
  obtain ⟨pre, rs, st, rest, ht, hps, _⟩ := cdrom_stream_stop_events s fuel w rv w' hact hret
  obtain ⟨_, pe, hpt, hpg⟩ := cdrom_stream_progress_guard s w
  have h1 : ¬ (w.drv.stream_mode ≠ CDROM_READ_DMA) := fun h => h hdma
  rw [if_neg h1, if_neg hbusy] at ht
  refine ⟨pe ++ (pre ++ Event.check_command w.drv.cmd_hnd rs st :: rest), by simp [ht, hpt],
    rs, st, ?_⟩
  rw [unguarded_append, hpg.1, hpg.2, unguarded_append, (poll_steps_guard false pre hps).1]
  simp [unguarded, Event.is_hw]

/-- A blocking DMA `cdrom_stream_request` on a 32-byte-aligned buffer, with the
DMA interrupt delivered while the thread waits: the handler releases the lock on
behalf of the thread, and the status poll made after the wake-up runs without
it. -/
theorem cdrom_stream_request_blocking_repoll :
    cdrom_stream_request Stub.prompt 1 0x8c010000 2048 1 World.streaming_dma =
      some (ERR_OK, ⟨{ Driver.initial with stream_mode := CDROM_READ_DMA, dma_thd := 1 },
        [.mutex_lock, .dma_check 7 0 0, .exec_server, .mutex_unlock,
         .dcache_inval_range 0x8c010000 2048, .mutex_lock,
         .dma_transfer 7 [0x0c010000, 2048] 0, .sem_wait, .dma_callback,
         .mutex_unlock_as_thread 1, .sem_signal, .thd_schedule, .exec_server,
         .check_command 7 COMPLETED Status.zero, .mutex_unlock]⟩) ∧
    unguarded false
        [.mutex_lock, .dma_check 7 0 0, .exec_server, .mutex_unlock,
         .dcache_inval_range 0x8c010000 2048, .mutex_lock,
         .dma_transfer 7 [0x0c010000, 2048] 0, .sem_wait, .dma_callback,
         .mutex_unlock_as_thread 1, .sem_signal, .thd_schedule, .exec_server,
         .check_command 7 COMPLETED Status.zero, .mutex_unlock] =
      [.exec_server, .check_command 7 COMPLETED Status.zero] := by
  refine ⟨by decide, by decide⟩

/-- C20 (counterexample): handle 7 streams in DMA mode and the progress probe
reports a request in flight; `cdrom_stream_stop` returns `ERR_OK` without ever
taking the lock, and the server tick and the status poll of its loop are made
while the lock is not held. -/
theorem cdrom_stream_stop_polls_without_lock :
    cdrom_stream_stop Stub.in_flight 1 World.streaming_dma =
      some (ERR_OK, ⟨{ Driver.initial with stream_mode := CDROM_READ_DMA },
        [.mutex_lock, .dma_check 7 1 512, .mutex_unlock, .exec_server,
         .check_command 7 COMPLETED Status.zero, .mutex_unlock]⟩) ∧
    unguarded false
        [.mutex_lock, .dma_check 7 1 512, .mutex_unlock, .exec_server,
         .check_command 7 COMPLETED Status.zero, .mutex_unlock] =
      [.exec_server, .check_command 7 COMPLETED Status.zero] := by
  refine ⟨by decide, by decide⟩

/-- C20 (amended): lock-held invariant.  In every returning run of
`cdrom_exec_cmd_timed`, of `cdrom_abort_cmd`, of `cdrom_stream_start`, in every
run of `cdrom_stream_progress`, in every returning run of
`cdrom_stream_request` whose mode is not DMA or whose `block` flag is 0, and in
every returning run of `cdrom_stream_stop` whose mode is not DMA or whose
progress probe reports no request in flight, each hardware submit, tick, poll,
abort or transfer call is made while the lock is held.  When
`cdrom_stream_stop` starts with an active handle in DMA mode and the probe
reports a request in flight, it does not take the lock and the deciding poll of
its loop is made without it. -/
theorem lock_held_invariant (s : Stub) (fuel : Nat) (w : World) :
    (∀ cmd param T rv w', cdrom_exec_cmd_timed s fuel cmd param T w = some (rv, w') →
      ∃ evs, w'.trace = w.trace ++ evs ∧ unguarded false evs = []) ∧
    (∀ T rv w', cdrom_abort_cmd s fuel T w = some (rv, w') →
      ∃ evs, w'.trace = w.trace ++ evs ∧ unguarded false evs = []) ∧
    (∀ sector cnt mode rv w', cdrom_stream_start s fuel sector cnt mode w = some (rv, w') →
      ∃ evs, w'.trace = w.trace ++ evs ∧ unguarded false evs = []) ∧
    (∃ evs, (cdrom_stream_progress s w).2.2.trace = w.trace ++ evs ∧
      unguarded false evs = []) ∧
    (∀ buffer size block rv w', (w.drv.stream_mode ≠ CDROM_READ_DMA ∨ block = 0) →
      cdrom_stream_request s fuel buffer size block w = some (rv, w') →
      ∃ evs, w'.trace = w.trace ++ evs ∧ unguarded false evs = []) ∧
    (∀ rv w', (w.drv.stream_mode ≠ CDROM_READ_DMA ∨ (cdrom_stream_progress s w).1 = 0) →
      cdrom_stream_stop s fuel w = some (rv, w') →
      ∃ evs, w'.trace = w.trace ++ evs ∧ unguarded false evs = []) ∧
    (∀ rv w', 0 < w.drv.cmd_hnd → w.drv.stream_mode = CDROM_READ_DMA →
      (cdrom_stream_progress s w).1 ≠ 0 →
      cdrom_stream_stop s fuel w = some (rv, w') →
      ∃ evs, w'.trace = w.trace ++ evs ∧
        ∃ rs st, Event.check_command w.drv.cmd_hnd rs st ∈ unguarded false evs) := by
  refine ⟨?_, ?_, ?_, ?_, ?_, ?_, ?_⟩
  · intro cmd param T rv w' h
    obtain ⟨_, evs, ht, _, hg⟩ := cdrom_exec_cmd_timed_frame s fuel cmd param T w rv w' h
    exact ⟨evs, ht, hg.1⟩
  · intro T rv w' h
    obtain ⟨_, evs, ht, _, hg⟩ := cdrom_abort_cmd_frame s fuel T w rv w' h
    exact ⟨evs, ht, hg.1⟩
  · intro sector cnt mode rv w' h
    obtain ⟨evs, ht, hg⟩ := cdrom_stream_start_guard s fuel sector cnt mode w rv w' h
    exact ⟨evs, ht, hg.1⟩
  · obtain ⟨_, evs, ht, hg⟩ := cdrom_stream_progress_guard s w
    exact ⟨evs, ht, hg.1⟩
  · intro buffer size block rv w' hm h
    exact cdrom_stream_request_guard s fuel buffer size block w rv w' hm h
  · intro rv w' hl h
    exact cdrom_stream_stop_guard s fuel w rv w' hl h
  · intro rv w' hact hdma hbusy h
    exact cdrom_stream_stop_unlocked s fuel w rv w' hact hdma hbusy h

/-- Witness for C20 (amended): with handle 7 streaming in DMA mode and no
request in flight, `cdrom_stream_stop` takes the lock after the probe and no
hardware call of the run is made without it. -/
theorem lock_held_invariant_witness :
    cdrom_stream_stop Stub.prompt 1 World.streaming_dma =
      some (ERR_OK, ⟨{ Driver.initial with stream_mode := CDROM_READ_DMA },
        [.mutex_lock, .dma_check 7 0 0, .exec_server, .mutex_unlock, .mutex_lock,
         .exec_server, .check_command 7 COMPLETED Status.zero, .mutex_unlock]⟩) ∧
    (World.streaming_dma.drv.stream_mode ≠ CDROM_READ_DMA ∨
      (cdrom_stream_progress Stub.prompt World.streaming_dma).1 = 0) ∧
    ∃ evs, (⟨{ Driver.initial with stream_mode := CDROM_READ_DMA },
        [.mutex_lock, .dma_check 7 0 0, .exec_server, .mutex_unlock, .mutex_lock,
         .exec_server, .check_command 7 COMPLETED Status.zero, .mutex_unlock]⟩ : World).trace =
        World.streaming_dma.trace ++ evs ∧ unguarded false evs = [] :=
  ⟨by decide, by decide,
    (lock_held_invariant Stub.prompt 1 World.streaming_dma).2.2.2.2.2.1 ERR_OK _
      (by decide) (by decide)⟩

/-! ### Modes, defaults and handles -/

/-- The run of `cdrom_change_datatype` that asks the drive for the CD-XA mode. -/
theorem cdrom_change_datatype_query (s : Stub) (sp ss : Int) (w : World) (h1 : ss ≠ 2352) :
      cdrom_change_datatype s sp (-1) ss w =
        (s.sector_mode
            (w.trace ++ [.mutex_lock,
              .check_drive (s.check_drive (w.trace ++ [.mutex_lock])).1
                (s.check_drive (w.trace ++ [.mutex_lock])).2.1
                (s.check_drive (w.trace ++ [.mutex_lock])).2.2])
            [0, to_uint32 (if sp = -1 then CDROM_READ_DATA_AREA else sp),
              (if (s.check_drive (w.trace ++ [.mutex_lock])).2.2 = 32 then 2048 else 1024),
              to_uint32 (if ss = -1 then 2048 else ss)],
          ⟨{ w.drv with cur_sector_size := if ss = -1 then 2048 else ss },
            w.trace ++ [.mutex_lock,
              .check_drive (s.check_drive (w.trace ++ [.mutex_lock])).1
                (s.check_drive (w.trace ++ [.mutex_lock])).2.1
                (s.check_drive (w.trace ++ [.mutex_lock])).2.2,
              .sector_mode
                [0, to_uint32 (if sp = -1 then CDROM_READ_DATA_AREA else sp),
                  (if (s.check_drive (w.trace ++ [.mutex_lock])).2.2 = 32 then 2048
                    else 1024),
                  to_uint32 (if ss = -1 then 2048 else ss)]
                (s.sector_mode
                  (w.trace ++ [.mutex_lock,
                    .check_drive (s.check_drive (w.trace ++ [.mutex_lock])).1
                      (s.check_drive (w.trace ++ [.mutex_lock])).2.1
                      (s.check_drive (w.trace ++ [.mutex_lock])).2.2])
                  [0, to_uint32 (if sp = -1 then CDROM_READ_DATA_AREA else sp),
                    (if (s.check_drive (w.trace ++ [.mutex_lock])).2.2 = 32 then 2048
                      else 1024),
                    to_uint32 (if ss = -1 then 2048 else ss)]),
              .mutex_unlock]⟩) := by
  by_cases h32 : (s.check_drive (w.trace ++ [.mutex_lock])).2.2 = 32
  · simp [cdrom_change_datatype, datatype_finish, World.emit, World.set_drv, h1, h32,
      to_uint32]
  · simp [cdrom_change_datatype, datatype_finish, World.emit, World.set_drv, h1, h32,
      to_uint32]

/-- C27: datatype defaults.  `cdrom_change_datatype` takes the lock, makes one
`syscall_gdrom_sector_mode` call with the words `[0, part, cdxa, size]`,
releases the lock and returns the result of that call; `cur_sector_size`
becomes `size`.  For `sector_size = 2352`: `part` is `CDROM_READ_WHOLE_SECTOR`
for `sector_part = -1`, `cdxa` is 0 for `cdxa = -1`, `size` is 2352, and the
drive is not queried.  For every other `sector_size`: `part` is
`CDROM_READ_DATA_AREA` for `sector_part = -1`, `size` is 2048 for
`sector_size = -1`, and for `cdxa = -1` the drive is queried once and `cdxa` is
2048 if it reports disc type 32 and 1024 otherwise.  Values other than -1 are
passed as they are (as `uint32_t` words).  With all three parameters -1, as in
`cdrom_reinit`, the words are `[0, CDROM_READ_DATA_AREA, 2048 or 1024, 2048]`. -/
theorem cdrom_change_datatype_defaults (s : Stub) (sp cx ss : Int) (w : World) :
    (ss = 2352 →
      cdrom_change_datatype s sp cx ss w =
        (s.sector_mode (w.trace ++ [.mutex_lock])
            [0, to_uint32 (if sp = -1 then CDROM_READ_WHOLE_SECTOR else sp),
              to_uint32 (if cx = -1 then 0 else cx), 2352],
          ⟨{ w.drv with cur_sector_size := 2352 },
            w.trace ++ [.mutex_lock,
              .sector_mode
                [0, to_uint32 (if sp = -1 then CDROM_READ_WHOLE_SECTOR else sp),
                  to_uint32 (if cx = -1 then 0 else cx), 2352]
                (s.sector_mode (w.trace ++ [.mutex_lock])
                  [0, to_uint32 (if sp = -1 then CDROM_READ_WHOLE_SECTOR else sp),
                    to_uint32 (if cx = -1 then 0 else cx), 2352]),
              .mutex_unlock]⟩)) ∧
    (ss ≠ 2352 → cx ≠ -1 →
      cdrom_change_datatype s sp cx ss w =
        (s.sector_mode (w.trace ++ [.mutex_lock])
            [0, to_uint32 (if sp = -1 then CDROM_READ_DATA_AREA else sp), to_uint32 cx,
              to_uint32 (if ss = -1 then 2048 else ss)],
          ⟨{ w.drv with cur_sector_size := if ss = -1 then 2048 else ss },
            w.trace ++ [.mutex_lock,
              .sector_mode
                [0, to_uint32 (if sp = -1 then CDROM_READ_DATA_AREA else sp), to_uint32 cx,
                  to_uint32 (if ss = -1 then 2048 else ss)]
                (s.sector_mode (w.trace ++ [.mutex_lock])
                  [0, to_uint32 (if sp = -1 then CDROM_READ_DATA_AREA else sp), to_uint32 cx,
                    to_uint32 (if ss = -1 then 2048 else ss)]),
              .mutex_unlock]⟩)) ∧
    (ss ≠ 2352 → cx = -1 →
      cdrom_change_datatype s sp cx ss w =
        (s.sector_mode
            (w.trace ++ [.mutex_lock,
              .check_drive (s.check_drive (w.trace ++ [.mutex_lock])).1
                (s.check_drive (w.trace ++ [.mutex_lock])).2.1
                (s.check_drive (w.trace ++ [.mutex_lock])).2.2])
            [0, to_uint32 (if sp = -1 then CDROM_READ_DATA_AREA else sp),
              (if (s.check_drive (w.trace ++ [.mutex_lock])).2.2 = 32 then 2048 else 1024),
              to_uint32 (if ss = -1 then 2048 else ss)],
          ⟨{ w.drv with cur_sector_size := if ss = -1 then 2048 else ss },
            w.trace ++ [.mutex_lock,
              .check_drive (s.check_drive (w.trace ++ [.mutex_lock])).1
                (s.check_drive (w.trace ++ [.mutex_lock])).2.1
                (s.check_drive (w.trace ++ [.mutex_lock])).2.2,
              .sector_mode
                [0, to_uint32 (if sp = -1 then CDROM_READ_DATA_AREA else sp),
                  (if (s.check_drive (w.trace ++ [.mutex_lock])).2.2 = 32 then 2048
                    else 1024),
                  to_uint32 (if ss = -1 then 2048 else ss)]
                (s.sector_mode
                  (w.trace ++ [.mutex_lock,
                    .check_drive (s.check_drive (w.trace ++ [.mutex_lock])).1
                      (s.check_drive (w.trace ++ [.mutex_lock])).2.1
                      (s.check_drive (w.trace ++ [.mutex_lock])).2.2])
                  [0, to_uint32 (if sp = -1 then CDROM_READ_DATA_AREA else sp),
                    (if (s.check_drive (w.trace ++ [.mutex_lock])).2.2 = 32 then 2048
                      else 1024),
                    to_uint32 (if ss = -1 then 2048 else ss)]),
              .mutex_unlock]⟩)) ∧
    (∃ c lk rv, (c = 2048 ∨ c = 1024) ∧
      (c = 2048 ↔ (s.check_drive (w.trace ++ [.mutex_lock])).2.2 = 32) ∧
      (cdrom_change_datatype s (-1) (-1) (-1) w).1 = rv ∧
      (cdrom_change_datatype s (-1) (-1) (-1) w).2.drv.cur_sector_size = 2048 ∧
      (cdrom_change_datatype s (-1) (-1) (-1) w).2.trace = w.trace ++ lk ∧
      sector_modes lk = [([0, 0x2000, c, 2048], rv)] ∧
      Guard false lk false) ∧
    (∀ (x : Int), 0 ≤ x → x < 2 ^ 32 → (to_uint32 x : Int) = x) := by
  refine ⟨?_, ?_, ?_, ?_, ?_⟩
  · intro h
    subst h
    simp [cdrom_change_datatype, datatype_finish, World.emit, World.set_drv, to_uint32]
  · intro h1 h2
    simp [cdrom_change_datatype, datatype_finish, World.emit, World.set_drv, h1, h2]
  · intro h1 h2
    subst h2
    exact cdrom_change_datatype_query s sp ss w h1
  · have hq := cdrom_change_datatype_query s (-1) (-1) w (by decide)
    rw [hq]
    by_cases h32 : (s.check_drive (w.trace ++ [.mutex_lock])).2.2 = 32
    · refine ⟨2048, _, _, Or.inl rfl, by simp [h32], rfl, rfl, rfl, ?_, ?_⟩
      · simp [sector_modes, h32, to_uint32, CDROM_READ_DATA_AREA]
      · simp [Guard, unguarded, held_after, Event.is_hw, Event.lock_after]
    · refine ⟨1024, _, _, Or.inr rfl, by simp [h32], rfl, rfl, rfl, ?_, ?_⟩
      · simp [sector_modes, h32, to_uint32, CDROM_READ_DATA_AREA]
      · simp [Guard, unguarded, held_after, Event.is_hw, Event.lock_after]
  · intro x h0 h1
    unfold to_uint32
    rw [Int.emod_eq_of_lt h0 h1]
    exact Int.toNat_of_nonneg h0

/-- The first submission of `cdrom_exec_cmd_timed` follows the `mutex_lock`
directly: nothing is looked at, and nothing is aborted, before it. -/
theorem cdrom_exec_cmd_timed_first_events (s : Stub) (fuel : Nat) (cmd : Int)
    (param : List Int) (T : Int) (w : World) (rv : Int) (w' : World)
    (hret : cdrom_exec_cmd_timed s fuel cmd param T w = some (rv, w')) :
    ∃ rest, w'.trace = w.trace ++
      (Event.mutex_lock ::
        Event.send_command cmd param (s.send_command (w.trace ++ [.mutex_lock]) cmd param) ::
        rest) := by
  have hsub : ∃ r1, (submit_loop s cmd param 10 0 (w.emit .mutex_lock)).2.trace =
      w.trace ++ (Event.mutex_lock ::
        Event.send_command cmd param (s.send_command (w.trace ++ [.mutex_lock]) cmd param) ::
        r1) := by
    rw [show (10 : Nat) = 9 + 1 from rfl]
    unfold submit_loop
    simp only [World.emit_trace]
    by_cases h0 : s.send_command (w.trace ++ [.mutex_lock]) cmd param ≠ 0
    · rw [if_pos h0]
      exact ⟨[], by simp⟩
    · rw [if_neg h0]
      obtain ⟨_, evs, ht, _⟩ := submit_loop_frame s cmd param 9
        (s.send_command (w.trace ++ [.mutex_lock]) cmd param)
        ((((w.emit .mutex_lock).emit
          (.send_command cmd param (s.send_command (w.trace ++ [.mutex_lock]) cmd param))).emit
          .exec_server).emit .thd_pass)
      exact ⟨[.exec_server, .thd_pass] ++ evs, by rw [ht]; simp⟩
  obtain ⟨r1, hr1⟩ := hsub
  obtain ⟨_, hcase⟩ := cdrom_exec_cmd_timed_run s fuel cmd param T w rv w' hret
  rcases hcase with ⟨_, _, hw⟩ | ⟨_, n, rv0, st, w3, evs, h3, _, _, hw, _⟩
  · exact ⟨r1 ++ [.mutex_unlock], by rw [hw, World.emit_trace, hr1]; simp⟩
  · by_cases ht : rv0 ≠ ERR_TIMEOUT
    · rw [if_pos ht] at hw
      exact ⟨r1 ++ evs ++ [.mutex_unlock], by
        rw [hw, World.emit_trace, World.set_cmd_hnd_trace, h3, hr1]; simp⟩
    · rw [if_neg ht] at hw
      exact ⟨r1 ++ evs, by rw [hw, World.set_cmd_hnd_trace, h3, hr1]; simp⟩

/-- C21 (the code at the failing input): a DMA stream is started at boot and
handle 7 is retained, streaming.  A PIO sector read is then executed: the code
takes the lock and submits the read at once, obtaining handle 8, without any
`syscall_gdrom_abort_command` and without polling handle 7, which the drive
still reports as streaming; on return `cmd_hnd` is 0, so the driver has
forgotten the live handle 7 and `cdrom_stream_stop` does nothing.  For every
stub and state, the first event of `cdrom_exec_cmd_timed` after `mutex_lock` is
the submission. -/
theorem cdrom_exec_cmd_second_handle :
    cdrom_stream_start Stub.second_handle 1 0 100 CDROM_READ_DMA World.boot =
      some (ERR_OK, ⟨{ Driver.initial with cmd_hnd := 7, stream_mode := CDROM_READ_DMA },
        [.mutex_lock, .send_command CMD_DMAREAD_STREAM [0, 100] 7, .exec_server,
         .check_command 7 STREAMING Status.zero, .mutex_unlock]⟩) ∧
    cdrom_read_sectors_ex Stub.second_handle 1 0x8c010000 150 1 CDROM_READ_PIO
        ⟨{ Driver.initial with cmd_hnd := 7, stream_mode := CDROM_READ_DMA },
          [.mutex_lock, .send_command CMD_DMAREAD_STREAM [0, 100] 7, .exec_server,
           .check_command 7 STREAMING Status.zero, .mutex_unlock]⟩ =
      some (ERR_OK, ⟨{ Driver.initial with cmd_hnd := 0, stream_mode := CDROM_READ_DMA },
        [.mutex_lock, .send_command CMD_DMAREAD_STREAM [0, 100] 7, .exec_server,
         .check_command 7 STREAMING Status.zero, .mutex_unlock,
         .mutex_lock, .send_command CMD_PIOREAD [150, 1, 0x8c010000, 0] 8, .exec_server,
         .check_command 8 COMPLETED Status.zero, .mutex_unlock]⟩) ∧
    (Stub.second_handle.check_command
        [.mutex_lock, .send_command CMD_DMAREAD_STREAM [0, 100] 7, .exec_server,
         .check_command 7 STREAMING Status.zero, .mutex_unlock,
         .mutex_lock, .send_command CMD_PIOREAD [150, 1, 0x8c010000, 0] 8, .exec_server,
         .check_command 8 COMPLETED Status.zero, .mutex_unlock] 7 Status.zero).1 = STREAMING ∧
    abort_requests
        [.mutex_lock, .send_command CMD_DMAREAD_STREAM [0, 100] 7, .exec_server,
         .check_command 7 STREAMING Status.zero, .mutex_unlock,
         .mutex_lock, .send_command CMD_PIOREAD [150, 1, 0x8c010000, 0] 8, .exec_server,
         .check_command 8 COMPLETED Status.zero, .mutex_unlock] = [] ∧
    cdrom_stream_stop Stub.second_handle 1
        ⟨{ Driver.initial with cmd_hnd := 0, stream_mode := CDROM_READ_DMA },
          [.mutex_lock, .send_command CMD_DMAREAD_STREAM [0, 100] 7, .exec_server,
           .check_command 7 STREAMING Status.zero, .mutex_unlock,
           .mutex_lock, .send_command CMD_PIOREAD [150, 1, 0x8c010000, 0] 8, .exec_server,
           .check_command 8 COMPLETED Status.zero, .mutex_unlock]⟩ =
      some (ERR_OK, ⟨{ Driver.initial with cmd_hnd := 0, stream_mode := CDROM_READ_DMA },
          [.mutex_lock, .send_command CMD_DMAREAD_STREAM [0, 100] 7, .exec_server,
           .check_command 7 STREAMING Status.zero, .mutex_unlock,
           .mutex_lock, .send_command CMD_PIOREAD [150, 1, 0x8c010000, 0] 8, .exec_server,
           .check_command 8 COMPLETED Status.zero, .mutex_unlock]⟩) ∧
    (∀ (s : Stub) (fuel : Nat) (cmd : Int) (param : List Int) (T : Int) (w : World) (rv : Int)
        (w' : World),
      cdrom_exec_cmd_timed s fuel cmd param T w = some (rv, w') →
      ∃ rest, w'.trace = w.trace ++
        (Event.mutex_lock ::
          Event.send_command cmd param (s.send_command (w.trace ++ [.mutex_lock]) cmd param) ::
          rest)) := by
  refine ⟨by decide, by decide, by decide, by decide, by decide, ?_⟩
  intro s fuel cmd param T w rv w' h
  exact cdrom_exec_cmd_timed_first_events s fuel cmd param T w rv w' h

/-! ### Streaming round trip and lock balance -/

/-- The polling loop that ends `cdrom_stream_request` changes no driver variable
but the handle and yields `ERR_OK` or `ERR_SYS`. -/
theorem request_poll_same (s : Stub) (dma : Bool) :
    ∀ (fuel : Nat) (st : Status) (cs : Nat) (w : World) (r : Int × World),
    request_poll s dma fuel st cs w = some r →
    w.drv.same_but_hnd r.2.drv ∧ (r.1 = ERR_OK ∨ r.1 = ERR_SYS) := by
  intro fuel
  induction fuel with
  | zero => intro st cs w r h; simp [request_poll] at h
  | succ fuel ih =>
    intro st cs w r h
    simp only [request_poll] at h
    generalize s.check_command (w.emit .exec_server).trace (w.emit .exec_server).drv.cmd_hnd st
      = q at h
    simp only [World.emit_drv] at h
    generalize (if dma = true then
        s.dma_check ((w.emit .exec_server).emit (.check_command w.drv.cmd_hnd q.1 q.2)).trace
          w.drv.cmd_hnd cs
      else s.pio_check ((w.emit .exec_server).emit (.check_command w.drv.cmd_hnd q.1 q.2)).trace
          w.drv.cmd_hnd cs) = c at h
    generalize (if dma = true then Event.dma_check w.drv.cmd_hnd c.1 c.2
          else Event.pio_check w.drv.cmd_hnd c.1 c.2) = ev at h
    split_ifs at h with h1 h2 h3
    · simp only [Option.some.injEq] at h
      subst h
      exact ⟨Driver.same_but_hnd.refl _, Or.inr rfl⟩
    · simp only [Option.some.injEq] at h
      subst h
      exact ⟨Driver.same_but_hnd.set _ _, Or.inl rfl⟩
    · simp only [Option.some.injEq] at h
      subst h
      exact ⟨Driver.same_but_hnd.refl _, Or.inl rfl⟩
    · simpa using ih _ _ _ _ h

/-- A blocking DMA request from its `mutex_lock` on, started with no signal
pending on the semaphore.  Either the dispatch fails, or the thread waits, the
interrupt is delivered, the handler acknowledges, releases the lock for the
recorded thread, signals and asks for a scheduler pass, and the thread then
polls the command and unlocks. -/
theorem request_dma_blocking (s : Stub) (fuel : Nat) (p0 size : Nat) (block : Int) (W : World)
    (rv : Int) (w' : World) (hb : block ≠ 0) (hsem : W.drv.dma_done = 0)
    (hret : request_dma s fuel p0 size block W = some (rv, w')) :
    (s.dma_transfer (W.trace ++ [.mutex_lock]) W.drv.cmd_hnd [(p0 : Int), to_int32 size] < 0 ∧
      rv = ERR_SYS ∧
      w'.trace = W.trace ++ [.mutex_lock,
        .dma_transfer W.drv.cmd_hnd [(p0 : Int), to_int32 size]
          (s.dma_transfer (W.trace ++ [.mutex_lock]) W.drv.cmd_hnd [(p0 : Int), to_int32 size]),
        .mutex_unlock] ∧
      w'.drv.dma_in_progress = 0 ∧ w'.drv.dma_blocking = 0 ∧ w'.drv.dma_done = 0) ∨
    (0 ≤ s.dma_transfer (W.trace ++ [.mutex_lock]) W.drv.cmd_hnd [(p0 : Int), to_int32 size] ∧
      s.dma_irq (W.trace ++ [.mutex_lock,
        .dma_transfer W.drv.cmd_hnd [(p0 : Int), to_int32 size]
          (s.dma_transfer (W.trace ++ [.mutex_lock]) W.drv.cmd_hnd [(p0 : Int), to_int32 size]),
        .sem_wait]) = true ∧
      (rv = ERR_OK ∨ rv = ERR_SYS) ∧
      w'.drv.dma_in_progress = 0 ∧ w'.drv.dma_blocking = 0 ∧ w'.drv.dma_done = 0 ∧
      ∃ mid, (∀ e ∈ mid, e.is_poll_step = true) ∧
        w'.trace = W.trace ++ [.mutex_lock,
          .dma_transfer W.drv.cmd_hnd [(p0 : Int), to_int32 size]
            (s.dma_transfer (W.trace ++ [.mutex_lock]) W.drv.cmd_hnd
              [(p0 : Int), to_int32 size]),
          .sem_wait, .dma_callback,
          .mutex_unlock_as_thread (s.thd_current (W.trace ++ [.mutex_lock])),
          .sem_signal, .thd_schedule] ++ (mid ++ [.mutex_unlock])) := by
  unfold request_dma at hret
  simp only [World.emit_drv, World.set_drv_drv, World.set_drv_trace, World.emit_trace] at hret
  generalize s.dma_transfer (W.trace ++ [.mutex_lock]) W.drv.cmd_hnd
    [(p0 : Int), to_int32 size] = rs at hret ⊢
  by_cases hneg : rs < 0
  · rw [if_pos hneg] at hret
    simp only [Option.some.injEq, Prod.mk.injEq] at hret
    obtain ⟨h1, hw⟩ := hret
    subst hw
    exact Or.inl ⟨hneg, h1.symm, by simp, rfl, rfl, hsem⟩
  · rw [if_neg hneg, if_neg hb] at hret
    right
    generalize hW4 : World.emit _
        (Event.dma_transfer W.drv.cmd_hnd [(p0 : Int), to_int32 size] rs) = W4 at hret
    have h4t : W4.trace = W.trace ++ [.mutex_lock,
        .dma_transfer W.drv.cmd_hnd [(p0 : Int), to_int32 size] rs] := by
      rw [← hW4]; simp
    have h4d : W4.drv = { W.drv with
          dma_in_progress := 1
          dma_blocking := block
          dma_thd := s.thd_current (W.trace ++ [.mutex_lock]) } := by
      rw [← hW4]; rfl
    cases hsw : sem_wait s W4 with
    | none =>
      rw [hsw] at hret
      exact absurd hret (by simp)
    | some w5 =>
      rw [hsw] at hret
      dsimp only at hret
      unfold sem_wait at hsw
      have hd0 : ¬ 0 < (W4.emit .sem_wait).drv.dma_done := by
        simp [h4d, hsem]
      rw [if_neg hd0] at hsw
      by_cases hirq : s.dma_irq (W4.emit .sem_wait).trace = true
      · rw [if_pos hirq] at hsw
        have hh : g1_dma_irq_hnd (W4.emit .sem_wait) =
            ⟨{ W.drv with
                dma_in_progress := 0
                dma_blocking := 0
                dma_thd := s.thd_current (W.trace ++ [.mutex_lock])
                dma_done := 1 },
              W.trace ++ [.mutex_lock,
                .dma_transfer W.drv.cmd_hnd [(p0 : Int), to_int32 size] rs,
                .sem_wait, .dma_callback,
                .mutex_unlock_as_thread (s.thd_current (W.trace ++ [.mutex_lock])),
                .sem_signal, .thd_schedule]⟩ := by
          unfold g1_dma_irq_hnd
          have e1 : (W4.emit .sem_wait).drv.dma_in_progress ≠ 0 := by simp [h4d]
          have e2 : (W4.emit .sem_wait).drv.dma_blocking ≠ 0 := by simp [h4d, hb]
          rw [if_pos e1, if_pos e2]
          simp [World.sem_signal, World.emit, World.set_drv, h4d, h4t, hsem]
        rw [hh] at hsw
        simp only [Nat.lt_one_iff, if_true, Option.some.injEq, zero_lt_one] at hsw
        cases hp : request_poll s true fuel Status.zero (2 ^ 32 - 1) w5 with
        | none =>
          rw [hp] at hret
          exact absurd hret (by simp)
        | some r =>
          rw [hp] at hret
          simp only [Option.some.injEq, Prod.mk.injEq] at hret
          obtain ⟨h1, hw⟩ := hret
          subst hw
          obtain ⟨mid, hmt, hms⟩ := request_poll_steps s true fuel _ _ w5 r hp
          obtain ⟨hsame, hrv⟩ := request_poll_same s true fuel _ _ w5 r hp
          obtain ⟨f1, f2, f3, _, _⟩ := hsame.flags
          simp only [World.emit_trace, h4t, List.append_assoc, List.cons_append,
            List.nil_append] at hirq
          refine ⟨not_lt.mp hneg, hirq, by rw [← h1]; exact hrv, ?_, ?_, ?_,
            mid, hms, ?_⟩
          · rw [World.emit_drv, f1, ← hsw]; rfl
          · rw [World.emit_drv, f2, ← hsw]; rfl
          · rw [World.emit_drv, f3, ← hsw]; rfl
          · rw [World.emit_trace, hmt, ← hsw]
            simp
      · rw [if_neg hirq] at hsw
        exact absurd hsw (by simp)

theorem transfers_append (a b : List Event) :
    transfers (a ++ b) = transfers a ++ transfers b := by
  simp [transfers, List.filter_append]

/-- The progress probe dispatches no transfer and signals nothing. -/
theorem cdrom_stream_progress_quiet (s : Stub) (w : World) :
    (cdrom_stream_progress s w).2.2.drv = w.drv ∧
    ∃ pe, (cdrom_stream_progress s w).2.2.trace = w.trace ++ pe ∧
      transfers pe = [] ∧ signals pe = 0 := by
  by_cases hact : 0 < w.drv.cmd_hnd
  · obtain ⟨hd, mid, ht, _, _, _, _, _, htr, hs, _, _⟩ := cdrom_stream_progress_shape s w hact
    refine ⟨hd, [Event.mutex_lock] ++ (mid ++ [Event.mutex_unlock]), by simp [ht], ?_, ?_⟩
    · rw [transfers_append, transfers_append, htr]
      simp [transfers]
    · rw [signals_append, signals_append, (poll_steps_quiet mid hs).2.1]
      simp [signals]
  · have hna : w.drv.cmd_hnd ≤ 0 := not_lt.mp hact
    have h0 : cdrom_stream_progress s w = (0, 0, w) := by
      simp only [cdrom_stream_progress, hna, if_true]
    rw [h0]
    exact ⟨rfl, [], by simp, by simp [transfers], by simp [signals]⟩

/-- C22: streaming round trip.  A handle is active in DMA mode and no signal is
pending on the semaphore.  Every returning run of a blocking
`cdrom_stream_request` consists of events `pre` that dispatch no transfer and
signal nothing (the progress probe and a cache invalidation), followed by
nothing (the request is rejected with `ERR_SYS`, driver variables untouched), or
by a failed dispatch (`ERR_SYS`), or by a successful dispatch after which the
thread waits, the interrupt is delivered, the handler signals the semaphore and
only then the thread polls and returns; in that case the in-progress flag, the
blocking flag and the semaphore count are 0 on return.  The values returned by
`cdrom_stream_progress` are those of `syscall_gdrom_dma_check`. -/
theorem cdrom_stream_request_round_trip (s : Stub) (fuel buffer size : Nat) (block : Int)
    (w : World) (hact : 0 < w.drv.cmd_hnd) (hmode : w.drv.stream_mode = CDROM_READ_DMA)
    (hb : block ≠ 0) (hsem : w.drv.dma_done = 0) :
    (∀ rv w', cdrom_stream_request s fuel buffer size block w = some (rv, w') →
      ∃ pre, transfers pre = [] ∧ signals pre = 0 ∧
        ((rv = ERR_SYS ∧ w'.trace = w.trace ++ pre ∧ w'.drv = w.drv) ∨
         ∃ p rs,
          (rs < 0 ∧ rv = ERR_SYS ∧
            w'.trace = w.trace ++ pre ++
              [.mutex_lock, .dma_transfer w.drv.cmd_hnd p rs, .mutex_unlock] ∧
            w'.drv.dma_in_progress = 0 ∧ w'.drv.dma_blocking = 0 ∧ w'.drv.dma_done = 0) ∨
          (0 ≤ rs ∧ (rv = ERR_OK ∨ rv = ERR_SYS) ∧
            s.dma_irq (w.trace ++ pre ++
              [.mutex_lock, .dma_transfer w.drv.cmd_hnd p rs, .sem_wait]) = true ∧
            w'.drv.dma_in_progress = 0 ∧ w'.drv.dma_blocking = 0 ∧ w'.drv.dma_done = 0 ∧
            ∃ thd mid, (∀ e ∈ mid, e.is_poll_step = true) ∧
              w'.trace = w.trace ++ pre ++
                [.mutex_lock, .dma_transfer w.drv.cmd_hnd p rs, .sem_wait, .dma_callback,
                 .mutex_unlock_as_thread thd, .sem_signal, .thd_schedule] ++
                (mid ++ [.mutex_unlock])))) ∧
    (cdrom_stream_progress s w).1 =
      (s.dma_check (w.trace ++ [.mutex_lock]) w.drv.cmd_hnd 0).1 ∧
    (cdrom_stream_progress s w).2.1 =
      (s.dma_check (w.trace ++ [.mutex_lock]) w.drv.cmd_hnd 0).2 := by
  have hna : ¬ w.drv.cmd_hnd ≤ 0 := not_le.mpr hact
  refine ⟨?_, ?_, ?_⟩
  · intro rv w' hret
    obtain ⟨hd, pe, hpt, hptr, hpsig⟩ := cdrom_stream_progress_quiet s w
    unfold cdrom_stream_request at hret
    rw [if_neg hna] at hret
    by_cases hbusy : (cdrom_stream_progress s w).1 ≠ 0
    · rw [if_pos hbusy] at hret
      simp only [Option.some.injEq, Prod.mk.injEq] at hret
      obtain ⟨h1, hw⟩ := hret
      subst hw
      exact ⟨pe, hptr, hpsig, Or.inl ⟨h1.symm, hpt, hd⟩⟩
    · rw [if_neg hbusy] at hret
      simp only [hd] at hret
      rw [if_pos hmode] at hret
      by_cases hal : (buffer &&& MEM_AREA_CACHE_MASK) &&& 0x1f ≠ 0
      · rw [if_pos hal] at hret
        simp only [Option.some.injEq, Prod.mk.injEq] at hret
        obtain ⟨h1, hw⟩ := hret
        subst hw
        exact ⟨pe, hptr, hpsig, Or.inl ⟨h1.symm, hpt, hd⟩⟩
      · rw [if_neg hal] at hret
        have key : ∀ (W : World) (pre : List Event), W.trace = w.trace ++ pre →
            W.drv = w.drv → transfers pre = [] → signals pre = 0 →
            request_dma s fuel (buffer &&& MEM_AREA_CACHE_MASK) size block W = some (rv, w') →
            ∃ pre, transfers pre = [] ∧ signals pre = 0 ∧
              ((rv = ERR_SYS ∧ w'.trace = w.trace ++ pre ∧ w'.drv = w.drv) ∨
               ∃ p rs,
                (rs < 0 ∧ rv = ERR_SYS ∧
                  w'.trace = w.trace ++ pre ++
                    [.mutex_lock, .dma_transfer w.drv.cmd_hnd p rs, .mutex_unlock] ∧
                  w'.drv.dma_in_progress = 0 ∧ w'.drv.dma_blocking = 0 ∧
                  w'.drv.dma_done = 0) ∨
                (0 ≤ rs ∧ (rv = ERR_OK ∨ rv = ERR_SYS) ∧
                  s.dma_irq (w.trace ++ pre ++
                    [.mutex_lock, .dma_transfer w.drv.cmd_hnd p rs, .sem_wait]) = true ∧
                  w'.drv.dma_in_progress = 0 ∧ w'.drv.dma_blocking = 0 ∧
                  w'.drv.dma_done = 0 ∧
                  ∃ thd mid, (∀ e ∈ mid, e.is_poll_step = true) ∧
                    w'.trace = w.trace ++ pre ++
                      [.mutex_lock, .dma_transfer w.drv.cmd_hnd p rs, .sem_wait, .dma_callback,
                       .mutex_unlock_as_thread thd, .sem_signal, .thd_schedule] ++
                      (mid ++ [.mutex_unlock]))) := by
          intro W pre hWt hWd h1 h2 hr
          have hs0 : W.drv.dma_done = 0 := by rw [hWd]; exact hsem
          rcases request_dma_blocking s fuel _ size block W rv w' hb hs0 hr with
            ⟨c1, c2, c3, c4, c5, c6⟩ | ⟨c1, c2, c3, c4, c5, c6, mid, c7, c8⟩
          · rw [hWd, hWt] at c3 c1
            exact ⟨pre, h1, h2, Or.inr ⟨_, _, Or.inl ⟨c1, c2, c3, c4, c5, c6⟩⟩⟩
          · rw [hWd, hWt] at c8 c1 c2
            exact ⟨pre, h1, h2, Or.inr ⟨_, _, Or.inr ⟨c1, c3, c2, c4, c5, c6, _, mid, c7, c8⟩⟩⟩
        by_cases hc : (buffer &&& MEM_AREA_CACHE_MASK) >>> 24 = 0x0c
        · rw [if_pos hc] at hret
          refine key ((cdrom_stream_progress s w).2.2.emit (.dcache_inval_range buffer size))
            (pe ++ [Event.dcache_inval_range buffer size]) (by simp [hpt]) hd ?_ ?_ hret
          · rw [transfers_append, hptr]; simp [transfers]
          · rw [signals_append, hpsig]; simp [signals]
        · rw [if_neg hc] at hret
          exact key _ pe hpt hd hptr hpsig hret
  · simp only [cdrom_stream_progress, hna, if_false, hmode, if_true, World.emit_trace]
  · simp only [cdrom_stream_progress, hna, if_false, hmode, if_true, World.emit_trace]

/-- Witness for C22: handle 7 streams in DMA mode, the interrupt is delivered
while the thread waits, and the command is then reported completed. -/
theorem cdrom_stream_request_round_trip_witness :
    cdrom_stream_request Stub.prompt 1 0x8c010000 2048 1 World.streaming_dma =
      some (ERR_OK, ⟨{ Driver.initial with stream_mode := CDROM_READ_DMA, dma_thd := 1 },
        [.mutex_lock, .dma_check 7 0 0, .exec_server, .mutex_unlock,
         .dcache_inval_range 0x8c010000 2048, .mutex_lock,
         .dma_transfer 7 [0x0c010000, 2048] 0, .sem_wait, .dma_callback,
         .mutex_unlock_as_thread 1, .sem_signal, .thd_schedule, .exec_server,
         .check_command 7 COMPLETED Status.zero, .mutex_unlock]⟩) ∧
    (cdrom_stream_progress Stub.prompt World.streaming_dma).1 =
      (Stub.prompt.dma_check (World.streaming_dma.trace ++ [.mutex_lock])
        World.streaming_dma.drv.cmd_hnd 0).1 :=
  ⟨by decide,
    (cdrom_stream_request_round_trip Stub.prompt 1 0x8c010000 2048 1 World.streaming_dma
      (by decide) (by decide) (by decide) (by decide)).2.1⟩

/-- C29 (the code at the failing inputs): lock balance of
`cdrom_stream_request` with handle 7 streaming in DMA mode.  A non-blocking
request returns `ERR_OK` having taken the lock twice (probe and dispatch) and
released it once: the lock is still held on return.  A blocking request returns
`ERR_OK` having taken the lock twice and released it three times (the probe's
unlock, the handler's release on behalf of the thread, and the final
`mutex_unlock`): the final release is made while the lock is not held.  The PIO
request is balanced. -/
theorem cdrom_stream_request_lock_unbalanced :
    (cdrom_stream_request Stub.prompt 1 0x8c010000 2048 0 World.streaming_dma).map
        (fun r => (r.1, r.2.trace)) =
      some (ERR_OK,
        [.mutex_lock, .dma_check 7 0 0, .exec_server, .mutex_unlock,
         .dcache_inval_range 0x8c010000 2048, .mutex_lock,
         .dma_transfer 7 [0x0c010000, 2048] 0]) ∧
    locks [.mutex_lock, .dma_check 7 0 0, .exec_server, .mutex_unlock,
         .dcache_inval_range 0x8c010000 2048, .mutex_lock,
         .dma_transfer 7 [0x0c010000, 2048] 0] = 2 ∧
    unlocks [.mutex_lock, .dma_check 7 0 0, .exec_server, .mutex_unlock,
         .dcache_inval_range 0x8c010000 2048, .mutex_lock,
         .dma_transfer 7 [0x0c010000, 2048] 0] +
      handler_releases [.mutex_lock, .dma_check 7 0 0, .exec_server, .mutex_unlock,
         .dcache_inval_range 0x8c010000 2048, .mutex_lock,
         .dma_transfer 7 [0x0c010000, 2048] 0] = 1 ∧
    held_after false [.mutex_lock, .dma_check 7 0 0, .exec_server, .mutex_unlock,
         .dcache_inval_range 0x8c010000 2048, .mutex_lock,
         .dma_transfer 7 [0x0c010000, 2048] 0] = true ∧
    (cdrom_stream_request Stub.prompt 1 0x8c010000 2048 1 World.streaming_dma).map
        (fun r => (r.1, r.2.trace)) =
      some (ERR_OK,
        [.mutex_lock, .dma_check 7 0 0, .exec_server, .mutex_unlock,
         .dcache_inval_range 0x8c010000 2048, .mutex_lock,
         .dma_transfer 7 [0x0c010000, 2048] 0, .sem_wait, .dma_callback,
         .mutex_unlock_as_thread 1, .sem_signal, .thd_schedule, .exec_server,
         .check_command 7 COMPLETED Status.zero, .mutex_unlock]) ∧
    locks [.mutex_lock, .dma_check 7 0 0, .exec_server, .mutex_unlock,
         .dcache_inval_range 0x8c010000 2048, .mutex_lock,
         .dma_transfer 7 [0x0c010000, 2048] 0, .sem_wait, .dma_callback,
         .mutex_unlock_as_thread 1, .sem_signal, .thd_schedule, .exec_server,
         .check_command 7 COMPLETED Status.zero, .mutex_unlock] = 2 ∧
    unlocks [.mutex_lock, .dma_check 7 0 0, .exec_server, .mutex_unlock,
         .dcache_inval_range 0x8c010000 2048, .mutex_lock,
         .dma_transfer 7 [0x0c010000, 2048] 0, .sem_wait, .dma_callback,
         .mutex_unlock_as_thread 1, .sem_signal, .thd_schedule, .exec_server,
         .check_command 7 COMPLETED Status.zero, .mutex_unlock] +
      handler_releases [.mutex_lock, .dma_check 7 0 0, .exec_server, .mutex_unlock,
         .dcache_inval_range 0x8c010000 2048, .mutex_lock,
         .dma_transfer 7 [0x0c010000, 2048] 0, .sem_wait, .dma_callback,
         .mutex_unlock_as_thread 1, .sem_signal, .thd_schedule, .exec_server,
         .check_command 7 COMPLETED Status.zero, .mutex_unlock] = 3 ∧
    stray_releases false [.mutex_lock, .dma_check 7 0 0, .exec_server, .mutex_unlock,
         .dcache_inval_range 0x8c010000 2048, .mutex_lock,
         .dma_transfer 7 [0x0c010000, 2048] 0, .sem_wait, .dma_callback,
         .mutex_unlock_as_thread 1, .sem_signal, .thd_schedule, .exec_server,
         .check_command 7 COMPLETED Status.zero, .mutex_unlock] = 1 ∧
    (cdrom_stream_request Stub.prompt 1 0x8c010000 2048 0
        (World.boot.set_drv { Driver.initial with cmd_hnd := 7 })).map
        (fun r => (r.1, locks r.2.trace, unlocks r.2.trace + handler_releases r.2.trace,
          held_after false r.2.trace, stray_releases false r.2.trace)) =
      some (ERR_OK, 2, 2, false, 0) := by
  refine ⟨by decide, by decide, by decide, by decide, by decide, by decide, by decide,
    by decide, by decide⟩

/-! ### The DMA flags and the postcondition of `cdrom_stream_stop` -/

theorem Driver.same_but_hnd.flags_consistent {d d' : Driver} (h : d.same_but_hnd d')
    (hc : d.flags_consistent) : d'.flags_consistent := by
  obtain ⟨f1, f2, _⟩ := h.flags
  unfold Driver.flags_consistent at hc ⊢
  rw [f1, f2]
  exact hc

/-- The flags agree at boot, and the interrupt handler keeps them so. -/
theorem g1_dma_irq_hnd_flags (w : World) (hc : w.drv.flags_consistent) :
    Driver.initial.flags_consistent ∧ (g1_dma_irq_hnd w).drv.flags_consistent := by
  refine ⟨fun _ => rfl, ?_⟩
  obtain ⟨s1, s2, s3, _⟩ := g1_dma_irq_hnd_spec w
  by_cases hp : w.drv.dma_in_progress = 0
  · rw [s1 hp]
    exact hc
  · by_cases hb : w.drv.dma_blocking = 0
    · rw [s2 hp hb]
      intro _
      exact hb
    · rw [s3 hp hb]
      intro _
      rfl

/-- The command channel, the abort and the start of a stream leave the flags as
they are. -/
theorem command_channel_flags (s : Stub) (fuel : Nat) (w : World) (hc : w.drv.flags_consistent) :
    (∀ cmd param T rv w', cdrom_exec_cmd_timed s fuel cmd param T w = some (rv, w') →
      w'.drv.flags_consistent) ∧
    (∀ T rv w', cdrom_abort_cmd s fuel T w = some (rv, w') → w'.drv.flags_consistent) ∧
    (cdrom_stream_progress s w).2.2.drv.flags_consistent := by
  refine ⟨fun cmd param T rv w' h => ?_, fun T rv w' h => ?_, ?_⟩
  · exact (cdrom_exec_cmd_timed_frame s fuel cmd param T w rv w' h).1.flags_consistent hc
  · exact (cdrom_abort_cmd_frame s fuel T w rv w' h).1.flags_consistent hc
  · by_cases hact : 0 < w.drv.cmd_hnd
    · rw [(cdrom_stream_progress_shape s w hact).1]
      exact hc
    · have : cdrom_stream_progress s w = (0, 0, w) := by
        unfold cdrom_stream_progress
        rw [if_pos (not_lt.mp hact)]
      rw [this]
      exact hc

/-- Every returning `cdrom_stream_request` keeps the flags in agreement: the
blocking flag is assigned together with `dma_in_progress = 1`, both are cleared
when the dispatch fails, and the interrupt handler clears both. -/
theorem cdrom_stream_request_flags (s : Stub) (fuel : Nat) (buffer size : Nat) (block : Int)
    (w : World) (rv : Int) (w' : World) (hc : w.drv.flags_consistent)
    (hret : cdrom_stream_request s fuel buffer size block w = some (rv, w')) :
    w'.drv.flags_consistent := by
  have hprog := (command_channel_flags s fuel w hc).2.2
  have done : ∀ {c : Int} {x : World}, some (c, x) = some (rv, w') → x.drv.flags_consistent →
      w'.drv.flags_consistent := by
    intro c x h hx
    simp only [Option.some.injEq, Prod.mk.injEq] at h
    rw [← h.2]
    exact hx
  unfold cdrom_stream_request at hret
  by_cases h1 : w.drv.cmd_hnd ≤ 0
  · rw [if_pos h1] at hret
    exact done hret hc
  rw [if_neg h1] at hret
  by_cases h2 : (cdrom_stream_progress s w).1 ≠ 0
  · rw [if_pos h2] at hret
    exact done hret hprog
  rw [if_neg h2] at hret
  simp only [] at hret
  generalize (cdrom_stream_progress s w).2.2 = w0 at hret hprog
  by_cases hm : w0.drv.stream_mode = CDROM_READ_DMA
  · rw [if_pos hm] at hret
    by_cases h3 : (buffer &&& MEM_AREA_CACHE_MASK) &&& 0x1f ≠ 0
    · rw [if_pos h3] at hret
      exact done hret hprog
    rw [if_neg h3] at hret
    have hW : (if (buffer &&& MEM_AREA_CACHE_MASK) >>> 24 = 0x0c then
        w0.emit (.dcache_inval_range buffer size) else w0).drv.flags_consistent := by
      split_ifs
      · exact hprog
      · exact hprog
    generalize (if (buffer &&& MEM_AREA_CACHE_MASK) >>> 24 = 0x0c then
        w0.emit (.dcache_inval_range buffer size) else w0) = W at hret hW
    unfold request_dma at hret
    simp only [] at hret
    by_cases g1 : s.dma_transfer (W.emit .mutex_lock).trace W.drv.cmd_hnd
        [((buffer &&& MEM_AREA_CACHE_MASK : Nat) : Int), to_int32 size] < 0
    · simp only [World.emit_drv, World.set_drv_trace, World.set_drv_drv, g1, if_true] at hret
      exact done hret (fun _ => rfl)
    by_cases g2 : block = 0
    · simp only [World.emit_drv, World.set_drv_trace, World.set_drv_drv, g1, g2, if_true,
        if_false] at hret
      refine done hret (fun h => ?_)
      exact absurd h (by simp [World.emit, World.set_drv])
    simp only [World.emit_drv, World.set_drv_trace, World.set_drv_drv, g1, g2, if_false] at hret
    generalize hW4 : World.emit _ (Event.dma_transfer _ _ _) = W4 at hret
    have hd4 : W4.drv.dma_in_progress = 1 := by
      rw [← hW4]
      simp [World.emit, World.set_drv]
    cases hsw : sem_wait s W4 with
    | none => rw [hsw] at hret; exact absurd hret (by simp)
    | some w5 =>
      rw [hsw] at hret
      dsimp only at hret
      have h5 : w5.drv.flags_consistent := by
        unfold sem_wait at hsw
        simp only [] at hsw
        by_cases k1 : 0 < (W4.emit .sem_wait).drv.dma_done
        · rw [if_pos k1] at hsw
          simp only [Option.some.injEq] at hsw
          rw [← hsw]
          intro h
          have h' : (W4.emit Event.sem_wait).drv.dma_in_progress = 0 := h
          rw [World.emit_drv, hd4] at h'
          exact absurd h' (by decide)
        · rw [if_neg k1] at hsw
          split_ifs at hsw with k2 k3
          simp only [Option.some.injEq] at hsw
          rw [← hsw]
          exact (g1_dma_irq_hnd_flags (W4.emit .sem_wait) (by
            intro h
            rw [World.emit_drv, hd4] at h
            exact absurd h (by decide))).2
      cases hrp : request_poll s true fuel Status.zero (2 ^ 32 - 1) w5 with
      | none => rw [hrp] at hret; exact absurd hret (by simp)
      | some r =>
        rw [hrp] at hret
        dsimp only at hret
        exact done hret ((request_poll_same s true _ _ _ _ _ hrp).1.flags_consistent h5)
  rw [if_neg hm] at hret
  by_cases hq : w0.drv.stream_mode = CDROM_READ_PIO
  · rw [if_pos hq] at hret
    by_cases h4 : buffer &&& 0x01 ≠ 0
    · rw [if_pos h4] at hret
      exact done hret hprog
    rw [if_neg h4] at hret
    unfold request_pio at hret
    simp only [] at hret
    split_ifs at hret with g1
    · exact done hret hprog
    · generalize hW4 : World.emit _ (Event.pio_transfer _ _ _) = W4 at hret
      have hd4 : W4.drv.flags_consistent := by
        rw [← hW4]
        exact hprog
      cases hrp : request_poll s false fuel Status.zero (2 ^ 32 - 1) W4 with
      | none => rw [hrp] at hret; exact absurd hret (by simp)
      | some r =>
        rw [hrp] at hret
        dsimp only at hret
        exact done hret ((request_poll_same s false _ _ _ _ _ hrp).1.flags_consistent hd4)
  · rw [if_neg hq] at hret
    exact done hret hprog

/-- C18: postcondition of `cdrom_stream_stop`.  In a driver state with an
active handle in which the two DMA flags agree (the blocking flag is set only
while the in-progress flag is, as the driver keeps them), after every returning
call `cmd_hnd` is 0, the in-progress flag is 0 and the blocking flag is 0.  The
events of the run are polling rounds that see no deciding state, the deciding
poll `rs` (negative, `COMPLETED`, `NO_ACTIVE` or `STREAMING`) and what follows
it; the semaphore is signalled exactly once if both flags were set and not at
all otherwise; the result is `ERR_SYS` exactly when `rs` is negative and
`ERR_OK` otherwise; and if `rs` is `STREAMING` the events after the poll contain
exactly one `syscall_gdrom_abort_command`, for the handle that was active. -/
theorem cdrom_stream_stop_post (s : Stub) (fuel : Nat) (w : World) (rv : Int) (w' : World)
    (hact : 0 < w.drv.cmd_hnd) (hflags : w.drv.flags_consistent)
    (hret : cdrom_stream_stop s fuel w = some (rv, w')) :
    w'.drv.cmd_hnd = 0 ∧ w'.drv.dma_in_progress = 0 ∧ w'.drv.dma_blocking = 0 ∧
    ∃ (pre : List Event) (rs : Int) (st : Status) (post : List Event),
      w'.trace = w.trace ++ (pre ++ Event.check_command w.drv.cmd_hnd rs st :: post) ∧
      signals (pre ++ Event.check_command w.drv.cmd_hnd rs st :: post) =
        (if w.drv.dma_in_progress ≠ 0 ∧ w.drv.dma_blocking ≠ 0 then 1 else 0) ∧
      (∀ n ∈ polled pre, ¬ n < 0 ∧ n ≠ COMPLETED ∧ n ≠ NO_ACTIVE ∧ n ≠ STREAMING) ∧
      (rs < 0 ∨ rs = COMPLETED ∨ rs = NO_ACTIVE ∨ rs = STREAMING) ∧
      (rv = ERR_SYS ↔ rs < 0) ∧ (rv = ERR_OK ∨ rv = ERR_SYS) ∧
      (rs = STREAMING → abort_requests post = [w.drv.cmd_hnd]) := by
  obtain ⟨h1, h2, h3, h4⟩ := cdrom_stream_stop_run s fuel w rv w' hact hret
  refine ⟨h1, h2, ?_, h4⟩
  rw [h3]
  split_ifs with hp
  · rfl
  · exact hflags (not_not.mp hp)

/-- Witness for C18: handle 7 is streaming with a blocking DMA request pending;
the poll sees `STREAMING`, the abort is confirmed, the waiter is signalled once
and the three variables are cleared. -/
theorem cdrom_stream_stop_post_witness :
    0 < World.blocking_request.drv.cmd_hnd ∧
    World.blocking_request.drv.flags_consistent ∧
    cdrom_stream_stop Stub.abortable 1 World.blocking_request =
      some (ERR_OK, World.after_stop) ∧
    World.after_stop.drv.cmd_hnd = 0 ∧ World.after_stop.drv.dma_in_progress = 0 ∧
    World.after_stop.drv.dma_blocking = 0 ∧
    signals World.after_stop.trace = 1 :=
  ⟨by decide, fun h => absurd h (by decide), by decide,
   (cdrom_stream_stop_post Stub.abortable 1 World.blocking_request ERR_OK World.after_stop
      (by decide) (fun h => absurd h (by decide)) (by decide)).1,
   (cdrom_stream_stop_post Stub.abortable 1 World.blocking_request ERR_OK World.after_stop
      (by decide) (fun h => absurd h (by decide)) (by decide)).2.1,
   (cdrom_stream_stop_post Stub.abortable 1 World.blocking_request ERR_OK World.after_stop
      (by decide) (fun h => absurd h (by decide)) (by decide)).2.2.1,
   by decide⟩

/-- Every returning `cdrom_stream_stop` keeps the flags in agreement. -/
theorem cdrom_stream_stop_flags (s : Stub) (fuel : Nat) (w : World) (rv : Int) (w' : World)
    (hc : w.drv.flags_consistent) (hret : cdrom_stream_stop s fuel w = some (rv, w')) :
    w'.drv.flags_consistent := by
  by_cases hact : 0 < w.drv.cmd_hnd
  · obtain ⟨_, _, h3, _⟩ := cdrom_stream_stop_run s fuel w rv w' hact hret
    intro _
    rw [h3]
    split_ifs with hp
    · rfl
    · exact hc (not_not.mp hp)
  · unfold cdrom_stream_stop at hret
    rw [if_pos (not_lt.mp hact)] at hret
    simp only [Option.some.injEq, Prod.mk.injEq] at hret
    rw [← hret.2]
    exact hc

end Cdrom

namespace VmuFb

/-! ### Bit-field insert and extract -/

theorem GENMASK_testBit (h l i : Nat) (hh : h ≤ 31) :
    (GENMASK h l).testBit i = (decide (l ≤ i) && decide (i ≤ h)) := by
  unfold GENMASK
  have e : (0xffffffff : Nat) = 2 ^ 32 - 1 := by norm_num
  rw [e]
  simp only [Nat.testBit_and, Nat.testBit_mod_two_pow, Nat.testBit_shiftLeft,
    Nat.testBit_shiftRight, Nat.testBit_two_pow_sub_one]
  by_cases h1 : l ≤ i <;> by_cases h2 : i ≤ h <;> simp [h1, h2] <;> omega

theorem and_seven (n : Nat) : n &&& 0x7 = n % 8 := by
  have : (0x7 : Nat) = 2 ^ 3 - 1 := by norm_num
  rw [this, Nat.and_pow_two_sub_one_eq_mod]

theorem bits_ref_succ (data : List Nat) (offt w : Nat) :
    bits_ref data offt (w + 1) = 2 * bits_ref data offt w + (bit_at data (offt + w)).toNat := rfl

theorem bits_ref_lt (data : List Nat) (offt : Nat) : ∀ w, bits_ref data offt w < 2 ^ w := by
  intro w
  induction w with
  | zero => simp [bits_ref]
  | succ w ih =>
    unfold bits_ref
    have hb : (bit_at data (offt + w)).toNat ≤ 1 := Bool.toNat_le _
    rw [pow_succ]
    omega

/-- Splitting a bit field in two. -/
theorem bits_ref_add (data : List Nat) (offt a : Nat) :
    ∀ b, bits_ref data offt (a + b) = bits_ref data offt a * 2 ^ b + bits_ref data (offt + a) b := by
  intro b
  induction b with
  | zero => simp [bits_ref]
  | succ b ih =>
    rw [← Nat.add_assoc, bits_ref_succ, bits_ref_succ, ih, pow_succ, Nat.add_assoc offt a b]
    ring

/-- A bit field is determined by its bits. -/
theorem bits_ref_eq_mod (data : List Nat) (offt : Nat) :
    ∀ (w x : Nat), (∀ k < w, bit_at data (offt + k) = x.testBit (w - 1 - k)) →
      bits_ref data offt w = x % 2 ^ w := by
  intro w
  induction w with
  | zero => intro x _; simp [bits_ref, Nat.mod_one]
  | succ w ih =>
    intro x h
    unfold bits_ref
    have h1 : bits_ref data offt w = (x / 2) % 2 ^ w := by
      apply ih
      intro k hk
      rw [h k (by omega), ← Nat.testBit_succ]
      congr 1
      omega
    have h2 : bit_at data (offt + w) = x.testBit 0 := by
      rw [h w (by omega)]
      congr 1
      omega
    rw [h1, h2, pow_succ', Nat.mod_mul, Nat.toNat_testBit]
    simp
    omega

/-- The bits of a bit field. -/
theorem bits_ref_testBit (data : List Nat) (offt : Nat) :
    ∀ (w k : Nat), k < w → (bits_ref data offt w).testBit (w - 1 - k) = bit_at data (offt + k) := by
  intro w
  induction w with
  | zero => intro k hk; omega
  | succ w ih =>
    intro k hk
    unfold bits_ref
    by_cases hkw : k = w
    · subst hkw
      have : k + 1 - 1 - k = 0 := by omega
      rw [this, Nat.testBit_zero]
      cases bit_at data (offt + k)
      · simp
      · simp
        omega
    · have hlt : k < w := by omega
      have : w + 1 - 1 - k = (w - 1 - k) + 1 := by omega
      rw [this, Nat.testBit_succ]
      have hd : (2 * bits_ref data offt w + (bit_at data (offt + w)).toNat) / 2 =
          bits_ref data offt w := by
        have hb : (bit_at data (offt + w)).toNat ≤ 1 := Bool.toNat_le _
        omega
      rw [hd]
      exact ih k hlt

/-- The bits of one byte that a loop iteration handles: `nb` bits of byte
`offt / 8`, ending `lsb` bits above its least significant bit. -/
theorem bits_ref_chunk (data : List Nat) (offt : Nat) :
    ∀ (nb lsb : Nat), offt % 8 + nb + lsb = 8 →
      bits_ref data offt nb = (data.getD (offt / 8) 0 / 2 ^ lsb) % 2 ^ nb := by
  intro nb
  induction nb with
  | zero => intro lsb _; simp [bits_ref, Nat.mod_one]
  | succ nb ih =>
    intro lsb h
    have hbit : bit_at data (offt + nb) = (data.getD (offt / 8) 0).testBit lsb := by
      unfold bit_at
      have e1 : (offt + nb) / 8 = offt / 8 := by omega
      have e2 : 7 - (offt + nb) % 8 = lsb := by omega
      rw [e1, e2]
    rw [bits_ref_succ, ih (lsb + 1) (by omega), hbit, Nat.toNat_testBit, pow_succ' 2 nb,
      Nat.mod_mul, pow_succ, Nat.div_div_eq_div_mul]
    omega

/-- What the mask and the shift of `extract_bits` leave of a byte. -/
theorem mask_shift (tmp o lsb : Nat) (ho : o + lsb ≤ 7) :
    (tmp &&& GENMASK (7 - o) lsb) >>> lsb = (tmp / 2 ^ lsb) % 2 ^ (8 - o - lsb) := by
  apply Nat.eq_of_testBit_eq
  intro i
  rw [Nat.testBit_shiftRight, Nat.testBit_and, GENMASK_testBit _ _ _ (by omega),
    Nat.testBit_mod_two_pow, ← Nat.shiftRight_eq_div_pow, Nat.testBit_shiftRight]
  by_cases h : i < 8 - o - lsb
  · have h1 : lsb ≤ lsb + i := by omega
    have h2 : lsb + i ≤ 7 - o := by omega
    simp [h, h1, h2]
  · have h2 : ¬ lsb + i ≤ 7 - o := by omega
    simp [h, h2]

/-- The loop of `extract_bits` returns, with the bits read appended to the
accumulator. -/
theorem extract_loop_spec (data : List Nat) :
    ∀ (fuel offt w acc a : Nat), w ≤ fuel → offt + w ≤ 8 * data.length →
      offt + w < 2 ^ 32 → acc < 2 ^ a → a + w ≤ 64 →
      extract_loop data fuel offt w acc = some (acc * 2 ^ w + bits_ref data offt w) := by
  intro fuel
  induction fuel with
  | zero =>
    intro offt w acc a hf _ _ _ _
    have : w = 0 := by omega
    subst this
    simp [extract_loop, bits_ref]
  | succ fuel ih =>
    intro offt w acc a hf hin h32 hacc haw
    unfold extract_loop
    by_cases hw : w = 0
    · subst hw
      simp [bits_ref]
    · rw [if_neg hw]
      have hidx : offt / 8 < data.length := by omega
      rw [List.getElem?_eq_getElem hidx]
      simp only [and_seven]
      generalize hl : (if 8 - offt % 8 > w then 8 - offt % 8 - w else 0) = lsb
      have hlsb : offt % 8 + lsb ≤ 7 ∧ 8 - offt % 8 - lsb ≤ w ∧ 1 ≤ 8 - offt % 8 - lsb := by
        rw [← hl]
        split_ifs <;> omega
      obtain ⟨hl1, hl2, hl3⟩ := hlsb
      generalize hnb : 8 - offt % 8 - lsb = nb at hl2 hl3 ⊢
      have hget : data[offt / 8] = data.getD (offt / 8) 0 := by
        rw [List.getD_eq_getElem?_getD, List.getElem?_eq_getElem hidx]
        rfl
      have hchunk : (data[offt / 8] &&& GENMASK (7 - offt % 8) lsb) >>> lsb =
          bits_ref data offt nb := by
        rw [mask_shift _ _ _ hl1, hnb, hget]
        exact (bits_ref_chunk data offt nb lsb (by omega)).symm
      rw [hchunk]
      have hcl := bits_ref_lt data offt nb
      have hsh : (acc <<< nb) % 2 ^ 64 = 2 ^ nb * acc := by
        rw [Nat.shiftLeft_eq, Nat.mul_comm]
        apply Nat.mod_eq_of_lt
        calc 2 ^ nb * acc < 2 ^ nb * 2 ^ a := by
              exact Nat.mul_lt_mul_of_pos_left hacc (by positivity)
          _ = 2 ^ (nb + a) := by rw [pow_add]
          _ ≤ 2 ^ 64 := Nat.pow_le_pow_right (by norm_num) (by omega)
      rw [hsh, ← Nat.mul_add_lt_is_or hcl, Nat.mod_eq_of_lt (by omega : offt + nb < 2 ^ 32)]
      have hacc' : 2 ^ nb * acc + bits_ref data offt nb < 2 ^ (a + nb) := by
        rw [pow_add]
        have : acc + 1 ≤ 2 ^ a := hacc
        have hp : 0 < 2 ^ nb := by positivity
        nlinarith
      rw [ih (offt + nb) (w - nb) _ (a + nb) (by omega) (by omega) (by omega) hacc' (by omega)]
      congr 1
      have hsplit := bits_ref_add data offt nb (w - nb)
      rw [show nb + (w - nb) = w by omega] at hsplit
      rw [hsplit]
      have hp : (2 : Nat) ^ w = 2 ^ nb * 2 ^ (w - nb) := by
        rw [← pow_add]
        congr 1
        omega
      rw [hp]
      ring

/-- The bits of the byte that `insert_bits` stores. -/
theorem new_byte_testBit (tmp x o lsb p : Nat) (hp : p < 8) :
    ((((tmp &&& (GENMASK (7 - o) lsb ^^^ 0xffffffff)) |||
        (((x <<< lsb) % 2 ^ 64) &&& GENMASK (7 - o) lsb)) % 2 ^ 32) % 2 ^ 8).testBit p =
      if lsb ≤ p ∧ p ≤ 7 - o then x.testBit (p - lsb) else tmp.testBit p := by
  have e : (0xffffffff : Nat) = 2 ^ 32 - 1 := by norm_num
  rw [e]
  simp only [Nat.testBit_mod_two_pow, Nat.testBit_or, Nat.testBit_and, Nat.testBit_xor,
    GENMASK_testBit _ _ _ (by omega : 7 - o ≤ 31), Nat.testBit_two_pow_sub_one,
    Nat.testBit_shiftLeft]
  have h8 : p < 8 := hp
  have h32 : p < 32 := by omega
  have h64 : p < 64 := by omega
  by_cases h1 : lsb ≤ p <;> by_cases h2 : p ≤ 7 - o <;> simp [h1, h2, h8, h32, h64]

theorem bit_at_set (data : List Nat) (i v j : Nat) (hi : i < data.length) :
    bit_at (data.set i v) j = if j / 8 = i then v.testBit (7 - j % 8) else bit_at data j := by
  unfold bit_at
  by_cases h : j / 8 = i
  · rw [if_pos h, h]
    simp [List.getD_eq_getElem?_getD, List.getElem?_set, hi]
  · rw [if_neg h]
    have h' : ¬ i = j / 8 := fun e => h e.symm
    simp [List.getD_eq_getElem?_getD, List.getElem?_set, h']

/-- The loop of `insert_bits` returns; the array keeps its length, the bits of
the field are those of `bits`, most significant first, and every other bit is
what it was. -/
theorem insert_loop_spec (bits : Nat) :
    ∀ (fuel : Nat) (data : List Nat) (offt w : Nat), w ≤ fuel →
      offt + w ≤ 8 * data.length → offt + w < 2 ^ 32 →
      ∃ data', insert_loop bits fuel data offt w = some data' ∧
        data'.length = data.length ∧
        ((∀ b ∈ data, b < 256) → (∀ b ∈ data', b < 256)) ∧
        ∀ j, bit_at data' j =
          if offt ≤ j ∧ j < offt + w then bits.testBit (offt + w - 1 - j) else bit_at data j := by
  intro fuel
  induction fuel with
  | zero =>
    intro data offt w hf _ _
    have : w = 0 := by omega
    subst this
    refine ⟨data, by simp [insert_loop], rfl, fun h => h, ?_⟩
    intro j
    rw [if_neg (by omega)]
  | succ fuel ih =>
    intro data offt w hf hin h32
    unfold insert_loop
    by_cases hw : w = 0
    · subst hw
      refine ⟨data, by simp, rfl, fun h => h, ?_⟩
      intro j
      rw [if_neg (by omega)]
    · rw [if_neg hw]
      have hidx : offt / 8 < data.length := by omega
      rw [List.getElem?_eq_getElem hidx]
      simp only [and_seven]
      generalize hl : (if 8 - offt % 8 > w then 8 - offt % 8 - w else 0) = lsb
      have hlsb : offt % 8 + lsb ≤ 7 ∧ 8 - offt % 8 - lsb ≤ w ∧ 1 ≤ 8 - offt % 8 - lsb := by
        rw [← hl]
        split_ifs <;> omega
      obtain ⟨hl1, hl2, hl3⟩ := hlsb
      generalize hnb : 8 - offt % 8 - lsb = nb at hl2 hl3 ⊢
      generalize hv : ((data[offt / 8] &&& (GENMASK (7 - offt % 8) lsb ^^^ 0xffffffff)) |||
        (((bits >>> (w - nb)) <<< lsb) % 2 ^ 64 &&& GENMASK (7 - offt % 8) lsb)) % 2 ^ 32 %
          2 ^ 8 = v
      have hvb : ∀ p < 8, v.testBit p =
          if lsb ≤ p ∧ p ≤ 7 - offt % 8 then bits.testBit (p - lsb + (w - nb))
          else (data.getD (offt / 8) 0).testBit p := by
        intro p hp
        rw [← hv, new_byte_testBit _ _ _ _ _ hp, Nat.testBit_shiftRight]
        have hget : data[offt / 8] = data.getD (offt / 8) 0 := by
          rw [List.getD_eq_getElem?_getD, List.getElem?_eq_getElem hidx]
          rfl
        rw [hget, Nat.add_comm]
      have hvlt : v < 256 := by
        rw [← hv]
        exact Nat.mod_lt _ (by norm_num)
      rw [Nat.mod_eq_of_lt (by omega : offt + nb < 2 ^ 32)]
      obtain ⟨data', hr, hlen, hbytes, hb⟩ := ih (data.set (offt / 8) v) (offt + nb) (w - nb)
        (by omega) (by rw [List.length_set]; omega) (by omega)
      refine ⟨data', hr, by rw [hlen, List.length_set], ?_, ?_⟩
      · intro hall
        apply hbytes
        intro b hb'
        rcases List.mem_or_eq_of_mem_set hb' with h | h
        · exact hall b h
        · rw [h]; exact hvlt
      · intro j
        rw [hb j, bit_at_set _ _ _ _ hidx]
        by_cases hj1 : offt + nb ≤ j ∧ j < offt + nb + (w - nb)
        · rw [if_pos hj1, if_pos (by omega)]
          congr 1
          omega
        · rw [if_neg hj1]
          by_cases hj2 : j / 8 = offt / 8
          · rw [if_pos hj2, hvb _ (by omega)]
            by_cases hj3 : offt ≤ j ∧ j < offt + w
            · rw [if_pos hj3, if_pos (by omega)]
              congr 1
              omega
            · rw [if_neg hj3, if_neg (by omega)]
              unfold bit_at
              rw [hj2]
          · rw [if_neg hj2, if_neg (by omega)]

/-- C30: bit-field insert/extract.  For a byte array `data`, a bit offset
`offt` and a width `w ≤ 64` with `offt + w` inside the array (and inside the
range of `unsigned int`), both loops finish within `w` iterations.
`extract_bits` returns the `w` bits from bit `offt` on, most significant first,
right-adjusted: a value below `2^w` whose bit `w - 1 - k` is bit `offt + k` of
the array.  After `insert_bits` with the value `bits` the array has the same
length, `extract_bits` returns `bits mod 2^w`, and every bit outside
`[offt, offt + w)` is what it was; bytes stay bytes. -/
theorem insert_extract_bits (data : List Nat) (offt w bits fuel : Nat)
    (hw : w ≤ 64) (hin : offt + w ≤ 8 * data.length) (h32 : offt + w < 2 ^ 32)
    (hfuel : w ≤ fuel) :
    extract_bits fuel data offt w = some (bits_ref data offt w) ∧
    bits_ref data offt w < 2 ^ w ∧
    (∀ k < w, (bits_ref data offt w).testBit (w - 1 - k) = bit_at data (offt + k)) ∧
    ∃ data', insert_bits fuel data offt w bits = some data' ∧
      data'.length = data.length ∧
      extract_bits fuel data' offt w = some (bits % 2 ^ w) ∧
      (∀ j, ¬ (offt ≤ j ∧ j < offt + w) → bit_at data' j = bit_at data j) ∧
      (∀ k < w, bit_at data' (offt + k) = bits.testBit (w - 1 - k)) ∧
      ((∀ b ∈ data, b < 256) → ∀ b ∈ data', b < 256) := by
  have hex : ∀ d : List Nat, d.length = data.length →
      extract_bits fuel d offt w = some (bits_ref d offt w) := by
    intro d hd
    unfold extract_bits
    rw [extract_loop_spec d fuel offt w 0 0 hfuel (by rw [hd]; exact hin) h32 (by norm_num)
      (by omega)]
    simp
  obtain ⟨data', hr, hlen, hbytes, hb⟩ := insert_loop_spec bits fuel data offt w hfuel hin h32
  have hfield : ∀ k < w, bit_at data' (offt + k) = bits.testBit (w - 1 - k) := by
    intro k hk
    rw [hb (offt + k), if_pos (by omega)]
    congr 1
    omega
  refine ⟨hex data rfl, bits_ref_lt data offt w, bits_ref_testBit data offt w, data', hr, hlen,
    ?_, ?_, hfield, hbytes⟩
  · rw [hex data' hlen, bits_ref_eq_mod data' offt w bits hfield]
  · intro j hj
    rw [hb j, if_neg hj]

/-- Witness for C30: 13 bits at bit offset 5 of a 4-byte array. -/
theorem insert_extract_bits_witness :
    extract_bits 13 [0xAB, 0xCD, 0xEF, 0x12] 5 13 = some 0x0F37 ∧
    insert_bits 13 [0xAB, 0xCD, 0xEF, 0x12] 5 13 0xFFFF1234 = some [0xAC, 0x8D, 0x2F, 0x12] ∧
    extract_bits 13 [0xAB, 0xCD, 0xEF, 0x12] 5 13 =
      some (bits_ref [0xAB, 0xCD, 0xEF, 0x12] 5 13) :=
  ⟨by decide, by decide,
    (insert_extract_bits [0xAB, 0xCD, 0xEF, 0x12] 5 13 0xFFFF1234 13 (by decide) (by decide)
      (by decide) (by decide)).1⟩

end VmuFb

namespace VmuPkg

/-! ### Package build and parse -/

theorem write_at_eq (buf : List Nat) (off : Nat) (src : List Nat)
    (h : off + src.length ≤ buf.length) :
    write_at buf off src = some (buf.take off ++ src ++ buf.drop (off + src.length)) := by
  unfold write_at
  rw [if_pos h]

theorem write_at_some (buf : List Nat) (off : Nat) (src b : List Nat)
    (h : write_at buf off src = some b) :
    off + src.length ≤ buf.length ∧ b = buf.take off ++ src ++ buf.drop (off + src.length) ∧
    b.length = buf.length := by
  unfold write_at at h
  by_cases hle : off + src.length ≤ buf.length
  · rw [if_pos hle] at h
    simp only [Option.some.injEq] at h
    refine ⟨hle, h.symm, ?_⟩
    rw [← h]
    simp
    omega
  · rw [if_neg hle] at h
    exact absurd h (by simp)

/-- Storing at an offset the bytes that are there already changes nothing. -/
theorem write_at_same (buf : List Nat) (off : Nat) (src : List Nat)
    (h : off + src.length ≤ buf.length) (hs : (buf.drop off).take src.length = src) :
    write_at buf off src = some buf := by
  rw [write_at_eq buf off src h]
  congr 1
  have h1 : buf.drop (off + src.length) = (buf.drop off).drop src.length := by
    rw [List.drop_drop, Nat.add_comm]
  rw [h1, List.append_assoc]
  nth_rewrite 1 [← hs]
  rw [List.take_append_drop, List.take_append_drop]

/-- Storing twice at the same place: the second store wins. -/
theorem write_at_twice (buf : List Nat) (off : Nat) (s1 s2 b1 : List Nat)
    (h1 : write_at buf off s1 = some b1) (hl : s2.length = s1.length) :
    write_at b1 off s2 = write_at buf off s2 := by
  obtain ⟨hle, hb, hlen⟩ := write_at_some buf off s1 b1 h1
  rw [write_at_eq b1 off s2 (by omega), write_at_eq buf off s2 (by omega)]
  have ht : (buf.take off).length = off := by
    rw [List.length_take]
    omega
  have e1 : b1.take off = buf.take off := by
    rw [hb, List.append_assoc, List.take_append_of_le_length (by omega)]
    rw [List.take_take]
    simp
  have e2 : b1.drop (off + s2.length) = buf.drop (off + s2.length) := by
    rw [hb, hl]
    have : off + s1.length = (buf.take off ++ s1).length := by
      rw [List.length_append, ht]
    rw [this, List.drop_left]
  rw [e1, e2]

theorem getD_lt_of_all (data : List Nat) (h : ∀ b ∈ data, b < 256) (i : Nat) :
    data.getD i 0 < 256 := by
  rw [List.getD_eq_getElem?_getD]
  by_cases hi : i < data.length
  · rw [List.getElem?_eq_getElem hi]
    exact h _ (List.getElem_mem hi)
  · rw [List.getElem?_eq_none (by omega)]
    decide

/-- The two bytes at an offset are the encoding of the 16-bit value read
there. -/
theorem le16_rd16 (data : List Nat) (off : Nat) (h0 : data.getD off 0 < 256)
    (h1 : data.getD (off + 1) 0 < 256) (hl : off + 2 ≤ data.length) :
    (data.drop off).take (le16 (rd16 data off)).length = le16 (rd16 data off) := by
  have e : le16 (rd16 data off) = [data.getD off 0, data.getD (off + 1) 0] := by
    unfold le16 rd16
    congr 1
    · omega
    · congr 1
      omega
  rw [e]
  apply List.ext_getElem
  · simp
    omega
  · intro i hi1 hi2
    simp only [List.length_cons, List.length_nil] at hi2
    rw [List.getElem_take, List.getElem_drop]
    have hi : i = 0 ∨ i = 1 := by omega
    rcases hi with hi | hi
    · subst hi
      simp [List.getD_eq_getElem?_getD, List.getElem?_eq_getElem (by omega : off < data.length)]
    · subst hi
      simp [List.getD_eq_getElem?_getD,
        List.getElem?_eq_getElem (by omega : off + 1 < data.length)]

theorem le16_length (x : Nat) : (le16 x).length = 2 := rfl

/-- The CRC field is restored: zeroing it and storing the saved value again
gives the array back. -/
theorem crc_field_restored (data data1 : List Nat) (h0 : data.getD 70 0 < 256)
    (h71 : data.getD 71 0 < 256) (hl : HDR_SIZE ≤ data.length)
    (h1 : write_at data 70 (le16 0) = some data1) :
    write_at data1 70 (le16 (rd16 data 70)) = some data := by
  have hl' : 128 ≤ data.length := hl
  rw [write_at_twice data 70 (le16 0) (le16 (rd16 data 70)) data1 h1 rfl]
  exact write_at_same data 70 _ (by rw [le16_length]; omega)
    (le16_rd16 data 70 h0 h71 (by omega))

theorem crc_bit_lt (n : Nat) : crc_bit n < 2 ^ 16 := by
  unfold crc_bit
  split_ifs <;> exact Nat.mod_lt _ (by norm_num)

theorem crc_inner_lt (c n : Nat) (h : n < 2 ^ 16) : crc_inner c n < 2 ^ 16 := by
  induction c generalizing n with
  | zero => exact h
  | succ c ih => exact ih _ (crc_bit_lt n)

/-- The CRC loop finishes when the bytes it reads are inside the array, and its
value fits 16 bits. -/
theorem crc_loop_some (buf : List Nat) :
    ∀ (k i n : Nat), i + k ≤ buf.length → n < 2 ^ 16 →
      ∃ c, crc_loop buf k i n = some c ∧ c < 2 ^ 16 := by
  intro k
  induction k with
  | zero => intro i n _ hn; exact ⟨n, rfl, hn⟩
  | succ k ih =>
    intro i n h hn
    unfold crc_loop
    rw [List.getElem?_eq_getElem (by omega : i < buf.length)]
    exact ih (i + 1) _ (by omega) (crc_inner_lt 8 _ (Nat.mod_lt _ (by norm_num)))

theorem vmu_pkg_crc_some (buf : List Nat) (size : Nat) (h : size ≤ buf.length) :
    ∃ c, vmu_pkg_crc buf size = some c ∧ c < 2 ^ 16 := by
  unfold vmu_pkg_crc
  exact crc_loop_some buf size 0 0 (by omega) (by norm_num)

/-- The runs of `vmu_pkg_parse` on an array that holds a header: rejected for
its size, rejected for its CRC, or accepted; the array is restored in each. -/
theorem vmu_pkg_parse_run (data : List Nat) (data_size : Nat) (pkg : vmu_pkg_t)
    (h70 : data.getD 70 0 < 256) (h71 : data.getD 71 0 < 256) (hl : HDR_SIZE ≤ data.length)
    (r : Int × List Nat × vmu_pkg_t) (hret : vmu_pkg_parse data data_size pkg = some r) :
    ((to_int (rd32 data 72 + to_size_t ((HDR_SIZE : Int) + 512 * (rd16 data 64 : Int) +
          vmu_eyecatch_size (rd16 data 68 : Int))) < 0 ∨
        to_size_t (to_int (rd32 data 72 + to_size_t ((HDR_SIZE : Int) +
          512 * (rd16 data 64 : Int) + vmu_eyecatch_size (rd16 data 68 : Int)))) > data_size) ∧
      r = (-1, data, pkg)) ∨
    (¬ (to_int (rd32 data 72 + to_size_t ((HDR_SIZE : Int) + 512 * (rd16 data 64 : Int) +
          vmu_eyecatch_size (rd16 data 68 : Int))) < 0 ∨
        to_size_t (to_int (rd32 data 72 + to_size_t ((HDR_SIZE : Int) +
          512 * (rd16 data 64 : Int) + vmu_eyecatch_size (rd16 data 68 : Int)))) > data_size) ∧
      ∃ data1 crc, write_at data 70 (le16 0) = some data1 ∧
        vmu_pkg_crc data1 (to_size_t (to_int (rd32 data 72 + to_size_t ((HDR_SIZE : Int) +
          512 * (rd16 data 64 : Int) + vmu_eyecatch_size (rd16 data 68 : Int))))) = some crc ∧
        ((rd16 data 70 ≠ crc ∧ r = (-1, data, pkg)) ∨
         (rd16 data 70 = crc ∧ r.1 = 0 ∧ r.2.1 = data ∧
          r.2.2 =
            { icon_cnt := (rd16 data 64 : Int)
              icon_anim_speed := (rd16 data 66 : Int)
              eyecatch_type := (rd16 data 68 : Int)
              data_len := to_int (rd32 data 72)
              icon_pal := (data.drop 96).take 32
              icon_data := data.drop HDR_SIZE
              eyecatch_data := data.drop (HDR_SIZE + (512 * (rd16 data 64 : Int)).toNat)
              data := data.drop ((HDR_SIZE : Int) + 512 * (rd16 data 64 : Int) +
                vmu_eyecatch_size (rd16 data 68 : Int)).toNat
              desc_short := data.take 16 ++ [0] ++ pkg.desc_short.drop 17
              desc_long := (data.drop 16).take 32 ++ [0] ++ pkg.desc_long.drop 33
              app_id := (data.drop 48).take 16 ++ [0] ++ pkg.app_id.drop 17 }))) := by
  unfold vmu_pkg_parse at hret
  rw [if_neg (by omega)] at hret
  simp only [] at hret
  generalize to_int (rd32 data 72 + to_size_t ((HDR_SIZE : Int) + 512 * (rd16 data 64 : Int) +
          vmu_eyecatch_size (rd16 data 68 : Int))) = total at hret ⊢
  by_cases hrej : total < 0 ∨ to_size_t total > data_size
  · rw [if_pos hrej] at hret
    simp only [Option.some.injEq] at hret
    exact Or.inl ⟨hrej, hret.symm⟩
  · rw [if_neg hrej] at hret
    right
    refine ⟨hrej, ?_⟩
    cases h1 : write_at data 70 (le16 0) with
    | none => rw [h1] at hret; exact absurd hret (by simp)
    | some data1 =>
      rw [h1] at hret
      simp only [] at hret
      cases h2 : vmu_pkg_crc data1 (to_size_t total) with
      | none => rw [h2] at hret; exact absurd hret (by simp)
      | some crc =>
        rw [h2] at hret
        simp only [] at hret
        rw [crc_field_restored data data1 h70 h71 hl h1] at hret
        simp only [] at hret
        refine ⟨data1, crc, rfl, h2, ?_⟩
        by_cases hc : rd16 data 70 ≠ crc
        · rw [if_pos hc] at hret
          simp only [Option.some.injEq] at hret
          exact Or.inl ⟨hc, hret.symm⟩
        · rw [if_neg hc] at hret
          simp only [Option.some.injEq] at hret
          rw [← hret]
          exact Or.inr ⟨not_not.mp hc, rfl, rfl, rfl⟩

/-- `vmu_pkg_parse` returns when the array holds the header and the
`data_size` bytes it is said to hold. -/
theorem vmu_pkg_parse_returns (data : List Nat) (data_size : Nat) (pkg : vmu_pkg_t)
    (hl : HDR_SIZE ≤ data.length) (hs : data_size ≤ data.length) :
    ∃ r, vmu_pkg_parse data data_size pkg = some r := by
  have hl' : 128 ≤ data.length := hl
  unfold vmu_pkg_parse
  rw [if_neg (by omega)]
  simp only []
  generalize to_int (rd32 data 72 + to_size_t ((HDR_SIZE : Int) + 512 * (rd16 data 64 : Int) +
          vmu_eyecatch_size (rd16 data 68 : Int))) = total
  by_cases hrej : total < 0 ∨ to_size_t total > data_size
  · rw [if_pos hrej]
    exact ⟨_, rfl⟩
  · rw [if_neg hrej]
    have h1 := write_at_eq data 70 (le16 0) (by rw [le16_length]; omega)
    rw [h1]
    simp only []
    generalize hd1 : data.take 70 ++ le16 0 ++ data.drop (70 + (le16 0).length) = data1
    have hlen1 : data1.length = data.length := by
      have := (write_at_some data 70 (le16 0) data1 (by rw [h1, hd1])).2.2
      exact this
    have hts : to_size_t total ≤ data1.length := by
      rw [hlen1]
      have : ¬ to_size_t total > data_size := fun h => hrej (Or.inr h)
      omega
    obtain ⟨c, hc, _⟩ := vmu_pkg_crc_some data1 (to_size_t total) hts
    rw [hc]
    simp only []
    rw [write_at_eq data1 70 _ (by rw [le16_length, hlen1]; omega)]
    simp only []
    split_ifs <;> exact ⟨_, rfl⟩

theorem rd16_lt (data : List Nat) (h : ∀ b ∈ data, b < 256) (off : Nat) :
    rd16 data off < 65536 := by
  have h0 := getD_lt_of_all data h off
  have h1 := getD_lt_of_all data h (off + 1)
  unfold rd16
  omega

theorem rd32_lt (data : List Nat) (h : ∀ b ∈ data, b < 256) (off : Nat) :
    rd32 data off < 4294967296 := by
  have h0 := getD_lt_of_all data h off
  have h1 := getD_lt_of_all data h (off + 1)
  have h2 := getD_lt_of_all data h (off + 2)
  have h3 := getD_lt_of_all data h (off + 3)
  unfold rd32
  omega

theorem vmu_eyecatch_size_range (t : Int) :
    -1 ≤ vmu_eyecatch_size t ∧ vmu_eyecatch_size t ≤ 8064 := by
  unfold vmu_eyecatch_size
  split_ifs <;> constructor <;> norm_num

/-- The `int` that `vmu_pkg_parse` computes as `total_size` is the sum of the
header size, the icon size, the eyecatch size and the data length read as an
`int`, whenever that sum passes the size test; when it does not, the computed
value does not pass either. -/
theorem total_size_eq (dl cnt ds : Nat) (ec : Int) (hdl : dl < 4294967296) (hcnt : cnt < 65536)
    (hec : -1 ≤ ec ∧ ec ≤ 8064) (hds : ds < 2147483648) :
    (¬ (to_int (dl + to_size_t ((HDR_SIZE : Int) + 512 * (cnt : Int) + ec)) < 0 ∨
        to_size_t (to_int (dl + to_size_t ((HDR_SIZE : Int) + 512 * (cnt : Int) + ec))) > ds) ↔
      (0 ≤ (HDR_SIZE : Int) + 512 * (cnt : Int) + ec + to_int dl ∧
        (HDR_SIZE : Int) + 512 * (cnt : Int) + ec + to_int dl ≤ (ds : Int))) ∧
    ((0 ≤ (HDR_SIZE : Int) + 512 * (cnt : Int) + ec + to_int dl ∧
        (HDR_SIZE : Int) + 512 * (cnt : Int) + ec + to_int dl ≤ (ds : Int)) →
      to_size_t (to_int (dl + to_size_t ((HDR_SIZE : Int) + 512 * (cnt : Int) + ec))) =
        ((HDR_SIZE : Int) + 512 * (cnt : Int) + ec + to_int dl).toNat) := by
  obtain ⟨hec1, hec2⟩ := hec
  have hH : (HDR_SIZE : Int) = 128 := rfl
  rw [hH]
  generalize hh : (128 : Int) + 512 * (cnt : Int) + ec = hdr
  have hh1 : 127 ≤ hdr := by omega
  have hh2 : hdr < 33562560 := by omega
  have e1 : to_size_t hdr = hdr.toNat := by
    unfold to_size_t
    norm_num
    rw [Int.emod_eq_of_lt (by omega) (by omega)]
  rw [e1]
  have e2 : to_int dl = if dl < 2147483648 then (dl : Int) else (dl : Int) - 4294967296 := by
    have hm : (dl : Int) % 4294967296 = dl := by omega
    unfold to_int
    norm_num
    simp only [hm, Nat.mod_eq_of_lt hdl]
  rw [e2]
  have e3 : ∀ n : Nat, to_int n =
      if n % 4294967296 < 2147483648 then ((n % 4294967296 : Nat) : Int)
      else ((n % 4294967296 : Nat) : Int) - 4294967296 := by
    intro n
    unfold to_int
    norm_num
  rw [e3]
  have e4 : ∀ x : Int, to_size_t x = (x % 4294967296).toNat := by
    intro x
    unfold to_size_t
    norm_num
  rw [e4]
  constructor
  · split_ifs <;> omega
  · intro h
    split_ifs at h ⊢ <;> omega

/-- Storing over the middle one of three pieces. -/
theorem write_at_mid (A B C s : List Nat) (off : Nat) (hoff : off = A.length)
    (hlen : s.length = B.length) :
    write_at (A ++ (B ++ C)) off s = some (A ++ (s ++ C)) := by
  subst hoff
  rw [write_at_eq _ _ _ (by simp; omega)]
  congr 1
  rw [List.take_left, List.append_assoc]
  congr 2
  have : A.length + s.length = (A ++ B).length := by simp [hlen]
  rw [← List.append_assoc, this, List.drop_left]

/-- `memcpy` over the middle one of three pieces. -/
theorem memcpy_at_mid (A B C src : List Nat) (off n : Nat) (hoff : off = A.length)
    (hn : n ≤ src.length) (hlen : n = B.length) :
    memcpy_at (A ++ (B ++ C)) off src n = some (A ++ (src.take n ++ C)) := by
  unfold memcpy_at
  rw [if_pos hn]
  exact write_at_mid A B C _ off hoff (by rw [List.length_take]; omega)

/-- The three data areas behind a 128-byte header. -/
theorem build_areas_eq (src : vmu_pkg_t) (ec_size : Int) (H : List Nat) (I E D : Nat)
    (hH : H.length = HDR_SIZE) (hI : to_size_t (512 * src.icon_cnt) = I)
    (hE : to_size_t ec_size = E) (hD : to_size_t src.data_len = D)
    (h1 : I ≤ src.icon_data.length) (h2 : E ≤ src.eyecatch_data.length)
    (h3 : D ≤ src.data.length) :
    build_areas src ec_size
        (H ++ (List.replicate I 0 ++ (List.replicate E 0 ++ List.replicate D 0))) =
      some (H ++ (src.icon_data.take I ++ (src.eyecatch_data.take E ++ src.data.take D))) := by
  unfold build_areas
  rw [hI, hE, hD]
  rw [memcpy_at_mid H (List.replicate I 0) _ src.icon_data HDR_SIZE I hH.symm h1 (by simp)]
  rw [Option.some_bind]
  have e1 : H ++ (src.icon_data.take I ++ (List.replicate E 0 ++ List.replicate D 0)) =
      (H ++ src.icon_data.take I) ++ (List.replicate E 0 ++ List.replicate D 0) := by
    simp only [List.append_assoc]
  rw [e1, memcpy_at_mid (H ++ src.icon_data.take I) (List.replicate E 0) _ src.eyecatch_data
    (HDR_SIZE + I) E (by simp [hH]; omega) h2 (by simp)]
  rw [Option.some_bind]
  have e2 : (H ++ src.icon_data.take I) ++ (src.eyecatch_data.take E ++ List.replicate D 0) =
      (H ++ (src.icon_data.take I ++ src.eyecatch_data.take E)) ++ (List.replicate D 0 ++ []) := by
    simp only [List.append_assoc, List.append_nil]
  rw [e2, memcpy_at_mid _ (List.replicate D 0) [] src.data
    (HDR_SIZE + I + E) D (by simp [hH]; omega) h3 (by simp)]
  simp only [List.append_assoc, List.append_nil]

theorem strlen_lt (s : List Nat) (n : Nat) (h : strlen s = some n) : n < s.length := by
  unfold strlen at h
  split_ifs at h with hlt
  simp only [Option.some.injEq] at h
  omega

theorem replicate_split (a : Nat) (n k : Nat) (h : k ≤ n) :
    List.replicate n a = List.replicate k a ++ List.replicate (n - k) a := by
  rw [List.append_replicate_replicate]
  congr 1
  omega

/-- The description fields and the application identifier, written into a
zeroed header. -/
theorem build_strings_eq (src : vmu_pkg_t) (ls ll la : Nat) (R : List Nat)
    (hs : strlen src.desc_short = some ls) (hl : strlen src.desc_long = some ll)
    (ha : strlen src.app_id = some la) (hs16 : ls ≤ 16) (hl32 : ll ≤ 32) (ha16 : la < 16) :
    build_strings src (List.replicate 64 0 ++ R) =
      some (src.desc_short.take ls ++ (List.replicate (16 - ls) 32 ++
        (src.desc_long.take ll ++ (List.replicate (32 - ll) 32 ++
          (src.app_id.take (la + 1) ++ (List.replicate (15 - la) 0 ++ R)))))) := by
  have hsl := strlen_lt _ _ hs
  have hll := strlen_lt _ _ hl
  have hal := strlen_lt _ _ ha
  unfold build_strings
  rw [hs, hl, ha]
  simp only []
  have z0 : List.replicate 64 0 ++ R =
      [] ++ (List.replicate 16 0 ++ (List.replicate 32 0 ++ (List.replicate 16 0 ++ R))) := by
    rw [replicate_split 0 64 16 (by omega), replicate_split 0 (64 - 16) 32 (by omega)]
    simp only [List.append_assoc, List.nil_append]
  rw [z0, write_at_mid [] (List.replicate 16 0) _ (List.replicate 16 32) 0 rfl (by simp),
    Option.some_bind]
  have z1 : [] ++ (List.replicate 16 32 ++
        (List.replicate 32 0 ++ (List.replicate 16 0 ++ R))) =
      List.replicate 16 32 ++ (List.replicate 32 0 ++ (List.replicate 16 0 ++ R)) := by
    simp only [List.nil_append]
  rw [z1, write_at_mid (List.replicate 16 32) (List.replicate 32 0) _ (List.replicate 32 32) 16
    (by simp) (by simp), Option.some_bind]
  have z2 : List.replicate 16 32 ++ (List.replicate 32 32 ++ (List.replicate 16 0 ++ R)) =
      [] ++ (List.replicate ls 32 ++ (List.replicate (16 - ls) 32 ++
        (List.replicate 32 32 ++ (List.replicate 16 0 ++ R)))) := by
    rw [replicate_split 32 16 ls hs16]
    simp only [List.append_assoc, List.nil_append]
  rw [z2, memcpy_at_mid [] (List.replicate ls 32) _ src.desc_short 0 ls rfl (by omega)
    (by simp), Option.some_bind]
  have z3 : [] ++ (src.desc_short.take ls ++ (List.replicate (16 - ls) 32 ++
        (List.replicate 32 32 ++ (List.replicate 16 0 ++ R)))) =
      (src.desc_short.take ls ++ List.replicate (16 - ls) 32) ++
        (List.replicate ll 32 ++ (List.replicate (32 - ll) 32 ++
          (List.replicate 16 0 ++ R))) := by
    rw [replicate_split 32 32 ll hl32]
    simp only [List.append_assoc, List.nil_append]
  rw [z3, memcpy_at_mid _ (List.replicate ll 32) _ src.desc_long 16 ll
    (by simp [List.length_take]; omega) (by omega) (by simp), Option.some_bind]
  have z4 : (src.desc_short.take ls ++ List.replicate (16 - ls) 32) ++
        (src.desc_long.take ll ++ (List.replicate (32 - ll) 32 ++
          (List.replicate 16 0 ++ R))) =
      (src.desc_short.take ls ++ (List.replicate (16 - ls) 32 ++
        (src.desc_long.take ll ++ List.replicate (32 - ll) 32))) ++
        (List.replicate (la + 1) 0 ++ (List.replicate (15 - la) 0 ++ R)) := by
    rw [replicate_split 0 16 (la + 1) (by omega), show 16 - (la + 1) = 15 - la from by omega]
    simp only [List.append_assoc, List.nil_append]
  rw [z4, memcpy_at_mid _ (List.replicate (la + 1) 0) _ src.app_id 48 (la + 1)
    (by simp [List.length_take]; omega) (by omega) (by simp)]
  simp only [List.append_assoc]

/-- The numeric header fields and the palette, written behind the 64 bytes of
the strings. -/
theorem build_fields_eq (src : vmu_pkg_t) (S R : List Nat) (hS : S.length = 64)
    (hp : 32 ≤ src.icon_pal.length) :
    build_fields src (S ++ (List.replicate 64 0 ++ R)) =
      some (S ++ (le16 (src.icon_cnt % 2 ^ 16).toNat ++
        (le16 (src.icon_anim_speed % 2 ^ 16).toNat ++
          (le16 (src.eyecatch_type % 2 ^ 16).toNat ++ (le16 0 ++
            (le32 (to_size_t src.data_len) ++ (List.replicate 20 0 ++
              (src.icon_pal.take 32 ++ R)))))))) := by
  unfold build_fields
  have z0 : S ++ (List.replicate 64 0 ++ R) =
      S ++ (List.replicate 2 0 ++ (List.replicate 2 0 ++ (List.replicate 2 0 ++
        (List.replicate 2 0 ++ (List.replicate 4 0 ++ (List.replicate 20 0 ++
          (List.replicate 32 0 ++ R))))))) := by
    rfl
  generalize hc : le16 (src.icon_cnt % 2 ^ 16).toNat = c
  generalize hsp : le16 (src.icon_anim_speed % 2 ^ 16).toNat = sp
  generalize het : le16 (src.eyecatch_type % 2 ^ 16).toNat = et
  generalize hdl : le32 (to_size_t src.data_len) = dl
  have lc : c.length = 2 := by rw [← hc]; rfl
  have lsp : sp.length = 2 := by rw [← hsp]; rfl
  have let_ : et.length = 2 := by rw [← het]; rfl
  have ldl : dl.length = 4 := by rw [← hdl]; rfl
  rw [z0, write_at_mid S (List.replicate 2 0) _ c 64 hS.symm (by simp [lc]), Option.some_bind]
  have z1 : ∀ X : List Nat, S ++ (c ++ (List.replicate 2 0 ++ X)) =
      (S ++ c) ++ (List.replicate 2 0 ++ X) := by
    intro X; simp only [List.append_assoc]
  rw [z1, write_at_mid (S ++ c) (List.replicate 2 0) _ sp 66 (by simp [hS, lc])
    (by simp [lsp]), Option.some_bind]
  have z2 : ∀ X : List Nat, (S ++ c) ++ (sp ++ (List.replicate 2 0 ++ X)) =
      (S ++ (c ++ sp)) ++ (List.replicate 2 0 ++ X) := by
    intro X; simp only [List.append_assoc]
  rw [z2, write_at_mid (S ++ (c ++ sp)) (List.replicate 2 0) _ et 68 (by simp [hS, lc, lsp])
    (by simp [let_]), Option.some_bind]
  have z3 : ∀ X : List Nat, (S ++ (c ++ sp)) ++ (et ++ (List.replicate 2 0 ++ X)) =
      (S ++ (c ++ (sp ++ et))) ++ (List.replicate 2 0 ++ X) := by
    intro X; simp only [List.append_assoc]
  rw [z3, write_at_mid (S ++ (c ++ (sp ++ et))) (List.replicate 2 0) _ (le16 0) 70
    (by simp [hS, lc, lsp, let_]) (by simp [le16_length]), Option.some_bind]
  have z4 : ∀ X : List Nat, (S ++ (c ++ (sp ++ et))) ++ (le16 0 ++ (List.replicate 4 0 ++ X)) =
      (S ++ (c ++ (sp ++ (et ++ le16 0)))) ++ (List.replicate 4 0 ++ X) := by
    intro X; simp only [List.append_assoc]
  rw [z4, write_at_mid (S ++ (c ++ (sp ++ (et ++ le16 0)))) (List.replicate 4 0) _ dl 72
    (by simp [hS, lc, lsp, let_, le16_length]) (by simp [ldl]), Option.some_bind]
  have z5 : (S ++ (c ++ (sp ++ (et ++ le16 0)))) ++
        (dl ++ (List.replicate 20 0 ++ (List.replicate 32 0 ++ R))) =
      (S ++ (c ++ (sp ++ (et ++ (le16 0 ++ (dl ++ List.replicate 20 0)))))) ++
        (List.replicate 32 0 ++ R) := by
    simp only [List.append_assoc]
  rw [z5, memcpy_at_mid _ (List.replicate 32 0) _ src.icon_pal 96 32
    (by simp [hS, lc, lsp, let_, ldl, le16_length]) hp (by simp)]
  simp only [List.append_assoc]

theorem getD_append_at (A B : List Nat) (n k : Nat) (h : n = A.length + k) :
    (A ++ B).getD n 0 = B.getD k 0 := by
  subst h
  rw [List.getD_append_right _ _ _ _ (by omega)]
  congr 1
  omega

theorem to_size_t_cast (n : Nat) (h : n < 4294967296) : to_size_t (n : Int) = n := by
  unfold to_size_t
  omega

theorem to_int_small (n : Nat) (h : n < 2147483648) : to_int n = (n : Int) := by
  unfold to_int
  rw [if_pos (by omega)]
  congr 1
  omega

theorem field16_cast (n : Nat) (h : n < 65536) : ((n : Int) % 2 ^ 16).toNat = n := by
  omega

/-- The fields read back from a header that is laid out piece by piece. -/
theorem header_reads (S Z P T : List Nat) (cnt spd et crc dl : Nat)
    (hS : S.length = 64) (hZ : Z.length = 20) (hP : P.length = 32)
    (hcnt : cnt < 65536) (hspd : spd < 65536) (het : et < 65536) (hcrc : crc < 65536)
    (hdl : dl < 4294967296) (buf : List Nat)
    (hb : buf = S ++ (le16 cnt ++ (le16 spd ++ (le16 et ++ (le16 crc ++ (le32 dl ++
      (Z ++ (P ++ T)))))))) :
    rd16 buf 64 = cnt ∧ rd16 buf 66 = spd ∧ rd16 buf 68 = et ∧ rd16 buf 70 = crc ∧
    rd32 buf 72 = dl ∧ (buf.drop 96).take 32 = P ∧ buf.drop 128 = T ∧ buf.take 64 = S ∧
    buf.length = 128 + T.length ∧ buf.getD 70 0 < 256 ∧ buf.getD 71 0 < 256 := by
  subst hb
  have g : ∀ k, (S ++ (le16 cnt ++ (le16 spd ++ (le16 et ++ (le16 crc ++ (le32 dl ++
      (Z ++ (P ++ T)))))))).getD (64 + k) 0 =
      (le16 cnt ++ (le16 spd ++ (le16 et ++ (le16 crc ++ (le32 dl ++
      (Z ++ (P ++ T))))))).getD k 0 := fun k => getD_append_at S _ (64 + k) k (by omega)
  have e96 : S ++ (le16 cnt ++ (le16 spd ++ (le16 et ++ (le16 crc ++ (le32 dl ++
      (Z ++ (P ++ T))))))) =
      (S ++ (le16 cnt ++ (le16 spd ++ (le16 et ++ (le16 crc ++ (le32 dl ++ Z)))))) ++
        (P ++ T) := by
    simp only [List.append_assoc]
  have e128 : S ++ (le16 cnt ++ (le16 spd ++ (le16 et ++ (le16 crc ++ (le32 dl ++
      (Z ++ (P ++ T))))))) =
      (S ++ (le16 cnt ++ (le16 spd ++ (le16 et ++ (le16 crc ++ (le32 dl ++ (Z ++ P))))))) ++
        T := by
    simp only [List.append_assoc]
  refine ⟨?_, ?_, ?_, ?_, ?_, ?_, ?_, ?_, ?_, ?_, ?_⟩
  · unfold rd16
    rw [g 0, g 1]
    simp only [le16, List.cons_append, List.nil_append, List.getD_cons_zero, List.getD_cons_succ]
    omega
  · unfold rd16
    rw [g 2, g 3]
    simp only [le16, List.cons_append, List.nil_append, List.getD_cons_zero, List.getD_cons_succ]
    omega
  · unfold rd16
    rw [g 4, g 5]
    simp only [le16, List.cons_append, List.nil_append, List.getD_cons_zero, List.getD_cons_succ]
    omega
  · unfold rd16
    rw [g 6, g 7]
    simp only [le16, List.cons_append, List.nil_append, List.getD_cons_zero, List.getD_cons_succ]
    omega
  · unfold rd32
    rw [g 8, g 9, g 10, g 11]
    simp only [le16, le32, List.cons_append, List.nil_append, List.getD_cons_zero, List.getD_cons_succ]
    omega
  · rw [e96, List.drop_left' (by simp [hS, hZ, le16, le32]), List.take_left' hP]
  · rw [e128, List.drop_left' (by simp [hS, hZ, hP, le16, le32])]
  · rw [List.take_left' hS]
  · simp [hS, hZ, hP, le16, le32]
    omega
  · rw [g 6]
    simp only [le16, List.cons_append, List.nil_append, List.getD_cons_zero, List.getD_cons_succ]
    omega
  · rw [g 7]
    simp only [le16, List.cons_append, List.nil_append, List.getD_cons_zero, List.getD_cons_succ]
    omega

/-- The buffer of `vmu_pkg_build` before the CRC is stored, piece by piece. -/
theorem build_fill_eq (src : vmu_pkg_t) (ec_size : Int) (ls ll la I E D : Nat)
    (hs : strlen src.desc_short = some ls) (hl : strlen src.desc_long = some ll)
    (ha : strlen src.app_id = some la) (hs16 : ls ≤ 16) (hl32 : ll ≤ 32) (ha16 : la < 16)
    (hp : 32 ≤ src.icon_pal.length) (hI : to_size_t (512 * src.icon_cnt) = I)
    (hE : to_size_t ec_size = E) (hD : to_size_t src.data_len = D)
    (h1 : I ≤ src.icon_data.length) (h2 : E ≤ src.eyecatch_data.length)
    (h3 : D ≤ src.data.length) :
    build_fill src ec_size (List.replicate (128 + I + E + D) 0) =
      some ((src.desc_short.take ls ++ (List.replicate (16 - ls) 32 ++
        (src.desc_long.take ll ++ (List.replicate (32 - ll) 32 ++
          (src.app_id.take (la + 1) ++ List.replicate (15 - la) 0))))) ++
        (le16 (src.icon_cnt % 2 ^ 16).toNat ++
        (le16 (src.icon_anim_speed % 2 ^ 16).toNat ++
          (le16 (src.eyecatch_type % 2 ^ 16).toNat ++ (le16 0 ++
            (le32 (to_size_t src.data_len) ++ (List.replicate 20 0 ++
              (src.icon_pal.take 32 ++
                (src.icon_data.take I ++ (src.eyecatch_data.take E ++
                  src.data.take D)))))))))) := by
  have hsl := strlen_lt _ _ hs
  have hll := strlen_lt _ _ hl
  have hal := strlen_lt _ _ ha
  unfold build_fill
  have z : List.replicate (128 + I + E + D) 0 =
      List.replicate 64 0 ++ (List.replicate 64 0 ++
        (List.replicate I 0 ++ (List.replicate E 0 ++ List.replicate D 0))) := by
    simp only [List.append_replicate_replicate]
    congr 1
    omega
  rw [z, build_strings_eq src ls ll la _ hs hl ha hs16 hl32 ha16, Option.some_bind]
  generalize hS : src.desc_short.take ls ++ (List.replicate (16 - ls) 32 ++
        (src.desc_long.take ll ++ (List.replicate (32 - ll) 32 ++
          (src.app_id.take (la + 1) ++ List.replicate (15 - la) 0)))) = S
  have lS : S.length = 64 := by
    rw [← hS]
    simp only [List.length_append, List.length_take, List.length_replicate]
    omega
  have z1 : ∀ R : List Nat, src.desc_short.take ls ++ (List.replicate (16 - ls) 32 ++
        (src.desc_long.take ll ++ (List.replicate (32 - ll) 32 ++
          (src.app_id.take (la + 1) ++ (List.replicate (15 - la) 0 ++ R))))) = S ++ R := by
    intro R
    rw [← hS]
    simp only [List.append_assoc]
  rw [z1, build_fields_eq src S _ lS hp, Option.some_bind]
  generalize hF : le16 (src.icon_cnt % 2 ^ 16).toNat ++
        (le16 (src.icon_anim_speed % 2 ^ 16).toNat ++
          (le16 (src.eyecatch_type % 2 ^ 16).toNat ++ (le16 0 ++
            (le32 (to_size_t src.data_len) ++ (List.replicate 20 0 ++
              src.icon_pal.take 32))))) = F
  have lF : F.length = 64 := by
    rw [← hF]
    simp only [List.length_append, List.length_take, List.length_replicate, le16, le32,
      List.length_cons, List.length_nil]
    omega
  have z2 : ∀ R : List Nat, S ++ (le16 (src.icon_cnt % 2 ^ 16).toNat ++
        (le16 (src.icon_anim_speed % 2 ^ 16).toNat ++
          (le16 (src.eyecatch_type % 2 ^ 16).toNat ++ (le16 0 ++
            (le32 (to_size_t src.data_len) ++ (List.replicate 20 0 ++
              (src.icon_pal.take 32 ++ R))))))) = (S ++ F) ++ R := by
    intro R
    rw [← hF]
    simp only [List.append_assoc]
  rw [z2, build_areas_eq src ec_size (S ++ F) I E D (by simp [lS, lF, HDR_SIZE]) hI hE hD h1 h2 h3,
    z2]

theorem drop_add_eq (l : List Nat) (a b : Nat) : l.drop (a + b) = (l.drop a).drop b := by
  rw [List.drop_drop]

/-- Storing a value in the CRC field of a file laid out piece by piece. -/
theorem write_at_crc_field (S R : List Nat) (cnt spd et k crc : Nat) (hS : S.length = 64) :
    write_at (S ++ (le16 cnt ++ (le16 spd ++ (le16 et ++ (le16 k ++ R))))) 70 (le16 crc) =
      some (S ++ (le16 cnt ++ (le16 spd ++ (le16 et ++ (le16 crc ++ R))))) := by
  have lA : (S ++ (le16 cnt ++ (le16 spd ++ le16 et))).length = 70 := by
    simp [hS, le16]
  have assoc : ∀ j, S ++ (le16 cnt ++ (le16 spd ++ (le16 et ++ (le16 j ++ R)))) =
      (S ++ (le16 cnt ++ (le16 spd ++ le16 et))) ++ (le16 j ++ R) := by
    intro j
    simp only [List.append_assoc]
  rw [assoc k, assoc crc]
  exact write_at_mid _ _ _ _ 70 lA.symm rfl

/-- The run of `vmu_pkg_parse` on a file laid out piece by piece whose CRC
field holds the CRC of the file with that field zeroed. -/
theorem vmu_pkg_parse_layout (S Z P T : List Nat) (cnt spd et crc dl E : Nat) (pkg : vmu_pkg_t)
    (hS : S.length = 64) (hZ : Z.length = 20) (hP : P.length = 32)
    (hcnt : cnt < 65536) (hspd : spd < 65536) (het : et < 65536) (hcrc : crc < 65536)
    (hE : vmu_eyecatch_size (et : Int) = (E : Int))
    (hT : T.length = 512 * cnt + E + dl) (hN : 128 + 512 * cnt + E + dl < 2147483648)
    (pre out : List Nat)
    (hpre : pre = S ++ (le16 cnt ++ (le16 spd ++ (le16 et ++ (le16 0 ++ (le32 dl ++
      (Z ++ (P ++ T))))))))
    (hout : out = S ++ (le16 cnt ++ (le16 spd ++ (le16 et ++ (le16 crc ++ (le32 dl ++
      (Z ++ (P ++ T))))))))
    (hc : vmu_pkg_crc pre (128 + 512 * cnt + E + dl) = some crc) :
    vmu_pkg_parse out out.length pkg =
      some (0, out,
        { icon_cnt := (cnt : Int)
          icon_anim_speed := (spd : Int)
          eyecatch_type := (et : Int)
          data_len := (dl : Int)
          icon_pal := P
          icon_data := T
          eyecatch_data := T.drop (512 * cnt)
          data := T.drop (512 * cnt + E)
          desc_short := S.take 16 ++ [0] ++ pkg.desc_short.drop 17
          desc_long := (S.drop 16).take 32 ++ [0] ++ pkg.desc_long.drop 33
          app_id := (S.drop 48).take 16 ++ [0] ++ pkg.app_id.drop 17 }) := by
  have hdl : dl < 4294967296 := by omega
  obtain ⟨r64, r66, r68, r70, r72, rP, rT, rS, rlen, -, -⟩ :=
    header_reads S Z P T cnt spd et crc dl hS hZ hP hcnt hspd het hcrc hdl out hout
  have hw1 : write_at out 70 (le16 0) = some pre := by
    rw [hout, hpre]
    exact write_at_crc_field S _ cnt spd et crc 0 hS
  have hw2 : write_at pre 70 (le16 crc) = some out := by
    rw [hout, hpre]
    exact write_at_crc_field S _ cnt spd et 0 crc hS
  have htot : to_int (dl + to_size_t ((HDR_SIZE : Int) + 512 * (cnt : Int) + (E : Int))) =
      ((128 + 512 * cnt + E + dl : Nat) : Int) := by
    have e1 : (HDR_SIZE : Int) + 512 * (cnt : Int) + (E : Int) =
        ((128 + 512 * cnt + E : Nat) : Int) := by
      unfold HDR_SIZE
      push_cast
      ring
    rw [e1, to_size_t_cast _ (by omega), to_int_small _ (by omega)]
    congr 1
    omega
  have hlen : out.length = 128 + 512 * cnt + E + dl := by omega
  have e16 : out.take 16 = S.take 16 := by
    rw [← rS, List.take_take]
    rfl
  have e48 : (out.drop 16).take 32 = (S.drop 16).take 32 := by
    rw [← rS, List.drop_take, List.take_take]
    rfl
  have e64 : (out.drop 48).take 16 = (S.drop 48).take 16 := by
    rw [← rS, List.drop_take, List.take_take]
    rfl
  have d1 : out.drop (HDR_SIZE + (512 * (cnt : Int)).toNat) = T.drop (512 * cnt) := by
    rw [drop_add_eq, show HDR_SIZE = 128 from rfl, rT]
    congr 1
  have d2 : out.drop ((HDR_SIZE : Int) + 512 * (cnt : Int) + (E : Int)).toNat =
      T.drop (512 * cnt + E) := by
    rw [show ((HDR_SIZE : Int) + 512 * (cnt : Int) + (E : Int)).toNat = 128 + (512 * cnt + E) from by
      unfold HDR_SIZE
      omega, drop_add_eq, rT]
  have d0 : out.drop HDR_SIZE = T := rT
  unfold vmu_pkg_parse
  rw [if_neg (by unfold HDR_SIZE; omega)]
  simp only []
  rw [r64, r68, r72, hE, htot, to_size_t_cast _ (by omega), if_neg (by omega), hw1]
  simp only []
  rw [hc]
  simp only []
  rw [r70, hw2]
  simp only []
  rw [if_neg (not_not.mpr rfl), r64, r66, r68, r72, rP, d0, d1, d2, e16, e48, e64,
    to_int_small _ (by omega)]

/-- C26: `vmu_pkg_parse` restores its input.  For an array of bytes that holds
a header, every run that returns - size rejection, CRC rejection or success -
returns with the array as it was before the call, the CRC field included; and
the call does return when the array holds the `data_size` bytes it is said to
hold. -/
theorem vmu_pkg_parse_restores_input (data : List Nat) (data_size : Nat) (pkg : vmu_pkg_t)
    (hb : ∀ b ∈ data, b < 256) (hl : HDR_SIZE ≤ data.length) :
    (∀ r, vmu_pkg_parse data data_size pkg = some r → r.2.1 = data) ∧
    (data_size ≤ data.length →
      ∃ rv pkg', vmu_pkg_parse data data_size pkg = some (rv, data, pkg')) := by
  have h1 : ∀ r, vmu_pkg_parse data data_size pkg = some r → r.2.1 = data := by
    intro r hret
    rcases vmu_pkg_parse_run data data_size pkg (getD_lt_of_all data hb 70)
      (getD_lt_of_all data hb 71) hl r hret with
      ⟨_, hr⟩ | ⟨_, data1, crc, _, _, ⟨_, hr⟩ | ⟨_, _, hr, _⟩⟩
    · rw [hr]
    · rw [hr]
    · exact hr
  refine ⟨h1, ?_⟩
  intro hs
  obtain ⟨r, hr⟩ := vmu_pkg_parse_returns data data_size pkg hl hs
  refine ⟨r.1, r.2.2, ?_⟩
  rw [hr, ← h1 r hr]

/-- Witness for C26: a file of 128 zero bytes is accepted, and a file whose
stored CRC is wrong is rejected; both arrays come back unchanged. -/
theorem vmu_pkg_parse_restores_input_witness :
    (∀ b ∈ List.replicate 128 0, b < 256) ∧ HDR_SIZE ≤ (List.replicate 128 0).length ∧
    (vmu_pkg_parse (List.replicate 128 0) 128 (vmu_pkg_t.blank 5)).map (fun r => (r.1, r.2.1)) =
      some (0, List.replicate 128 0) ∧
    (vmu_pkg_parse (List.replicate 70 0 ++ [1, 0] ++ List.replicate 56 0) 128
        (vmu_pkg_t.blank 5)).map (fun r => (r.1, r.2.1)) =
      some (-1, List.replicate 70 0 ++ [1, 0] ++ List.replicate 56 0) ∧
    ∃ rv pkg', vmu_pkg_parse (List.replicate 128 0) 128 (vmu_pkg_t.blank 5) =
      some (rv, List.replicate 128 0, pkg') :=
  ⟨by decide!, by decide!, by decide!, by decide!,
    (vmu_pkg_parse_restores_input (List.replicate 128 0) 128 (vmu_pkg_t.blank 5) (by decide!)
      (by decide!)).2 (by decide!)⟩

/-- Size and CRC validation in `vmu_pkg_parse`, with the data length read as
an `int`.  The array holds `data_size` bytes (fewer than `2^31`), among them a
header with one of the four known eyecatch types.  With `T` the sum of 128, 512
for each icon, the eyecatch size and the data length read as an `int`, the call
returns 0 or -1, and it returns 0 exactly when `0 ≤ T`, `T ≤ data_size` and the
stored CRC is `vmu_pkg_crc` of the first `T` bytes with the CRC field zeroed;
when it returns -1 the package structure is as it was. -/
theorem vmu_pkg_parse_signed_total (data : List Nat) (data_size : Nat) (pkg : vmu_pkg_t)
    (hb : ∀ b ∈ data, b < 256) (hl : HDR_SIZE ≤ data.length) (hs : data_size ≤ data.length)
    (h31 : data_size < 2 ^ 31)
    (hec : (rd16 data 68 : Int) = VMUPKG_EC_NONE ∨ (rd16 data 68 : Int) = VMUPKG_EC_16BIT ∨
      (rd16 data 68 : Int) = VMUPKG_EC_256COL ∨ (rd16 data 68 : Int) = VMUPKG_EC_16COL) :
    (∃ rv data' pkg', vmu_pkg_parse data data_size pkg = some (rv, data', pkg') ∧
      (rv = 0 ∨ rv = -1) ∧
      (rv = 0 ↔
        (0 ≤ (HDR_SIZE : Int) + 512 * (rd16 data 64 : Int) +
            vmu_eyecatch_size (rd16 data 68 : Int) + to_int (rd32 data 72) ∧
         (HDR_SIZE : Int) + 512 * (rd16 data 64 : Int) +
            vmu_eyecatch_size (rd16 data 68 : Int) + to_int (rd32 data 72) ≤ (data_size : Int) ∧
         ∃ z, write_at data 70 (le16 0) = some z ∧
           vmu_pkg_crc z ((HDR_SIZE : Int) + 512 * (rd16 data 64 : Int) +
             vmu_eyecatch_size (rd16 data 68 : Int) + to_int (rd32 data 72)).toNat =
             some (rd16 data 70))) ∧
      (rv = -1 → pkg' = pkg)) ∧
    0 ≤ vmu_eyecatch_size (rd16 data 68 : Int) ∧
    vmu_pkg_crc [49, 50, 51, 52, 53, 54, 55, 56, 57] 9 = some 0x31c3 := by
  have hec0 : 0 ≤ vmu_eyecatch_size (rd16 data 68 : Int) := by
    rcases hec with h | h | h | h <;> rw [h] <;> decide
  refine ⟨?_, hec0, by decide!⟩
  obtain ⟨r, hr⟩ := vmu_pkg_parse_returns data data_size pkg hl hs
  obtain ⟨hiff, htot⟩ := total_size_eq (rd32 data 72) (rd16 data 64) data_size
    (vmu_eyecatch_size (rd16 data 68 : Int)) (rd32_lt data hb 72) (rd16_lt data hb 64)
    (vmu_eyecatch_size_range _) (by norm_num at h31; exact h31)
  refine ⟨r.1, r.2.1, r.2.2, hr, ?_⟩
  rcases vmu_pkg_parse_run data data_size pkg (getD_lt_of_all data hb 70)
      (getD_lt_of_all data hb 71) hl r hr with
    ⟨hrej, hrr⟩ | ⟨hacc, data1, crc, hw, hcrc, ⟨hne, hrr⟩ | ⟨heq, hr1, _, _⟩⟩
  · rw [hrr]
    refine ⟨Or.inr rfl, ?_, fun _ => rfl⟩
    constructor
    · intro h
      exact absurd h (by show ¬ ((-1 : Int) = 0); decide)
    · rintro ⟨h1, h2, _⟩
      exact absurd (hiff.mpr ⟨h1, h2⟩) (fun h => h hrej)
  · rw [hrr]
    refine ⟨Or.inr rfl, ?_, fun _ => rfl⟩
    constructor
    · intro h
      exact absurd h (by show ¬ ((-1 : Int) = 0); decide)
    · rintro ⟨h1, h2, z, hz, hzc⟩
      rw [hw] at hz
      simp only [Option.some.injEq] at hz
      subst hz
      rw [← htot ⟨h1, h2⟩, hcrc] at hzc
      simp only [Option.some.injEq] at hzc
      exact absurd hzc.symm hne
  · rw [hr1]
    refine ⟨Or.inl rfl, ?_, fun h => absurd h (by decide)⟩
    constructor
    · intro _
      have hT := hiff.mp hacc
      refine ⟨hT.1, hT.2, data1, hw, ?_⟩
      rw [← htot hT, hcrc, heq]
    · intro _
      rfl

theorem testBit_mod_65536 (x i : Nat) :
    (x % 65536).testBit i = (decide (i < 16) && x.testBit i) :=
  Nat.testBit_mod_two_pow x 16 i

theorem crc_bit_testBit (n i : Nat) :
    (crc_bit n).testBit i = (decide (i < 16) &&
      ((decide (1 ≤ i) && n.testBit (i - 1)) ^^ (n.testBit 15 && (0x1021 : Nat).testBit i))) := by
  have h : n &&& 0x8000 = (n.testBit 15).toNat * 2 ^ 15 := Nat.and_two_pow n 15
  unfold crc_bit
  cases hb : n.testBit 15
  · rw [hb] at h
    have h0 : ¬ (n &&& 0x8000 ≠ 0) := by rw [h]; decide
    rw [if_neg h0]
    simp [testBit_mod_65536, Nat.testBit_shiftLeft]
  · rw [hb] at h
    have h0 : n &&& 0x8000 ≠ 0 := by rw [h]; decide
    rw [if_pos h0]
    simp [testBit_mod_65536, Nat.testBit_shiftLeft, Nat.testBit_xor]

theorem crc16_step_testBit (r : Nat) (t : Bool) (i : Nat) :
    (crc16_step r t).testBit i = (decide (i < 16) &&
      ((decide (1 ≤ i) && r.testBit (i - 1)) ^^
        ((r.testBit 15 ^^ t) && (0x1021 : Nat).testBit i))) := by
  have hp : ∀ j, 16 ≤ j → (0x1021 : Nat).testBit j = false := by
    intro j hj
    exact Nat.testBit_lt_two_pow (lt_of_lt_of_le (by norm_num) (Nat.pow_le_pow_right (by norm_num) hj))
  unfold crc16_step
  by_cases hi : i < 16
  · cases hb : (r.testBit 15 != t)
    · have : (r.testBit 15 ^^ t) = false := hb
      simp [testBit_mod_65536, Nat.testBit_shiftLeft, Nat.testBit_xor, hi, this]
    · have : (r.testBit 15 ^^ t) = true := hb
      simp [testBit_mod_65536, Nat.testBit_shiftLeft, Nat.testBit_xor, hi, this]
  · have hp' := hp i (by omega)
    cases hb : (r.testBit 15 != t) <;>
      simp [testBit_mod_65536, Nat.testBit_shiftLeft, Nat.testBit_xor, hi, hp']

/-- One round of the loop of `vmu_pkg_crc` on a register that still holds
pending message bits in its high part is one step of the reference register. -/
theorem crc_bit_pending (r p k : Nat) (hk : k ≤ 15) :
    crc_bit (r ^^^ ((p % 2 ^ (k + 1)) <<< (15 - k))) =
      crc16_step r (p.testBit k) ^^^ ((p % 2 ^ k) <<< (16 - k)) := by
  apply Nat.eq_of_testBit_eq
  intro i
  rw [crc_bit_testBit]
  simp only [Nat.testBit_xor, crc16_step_testBit, Nat.testBit_shiftLeft,
    Nat.testBit_mod_two_pow]
  have e15 : 15 - (15 - k) = k := by omega
  rw [e15]
  have hk1 : decide (15 ≥ 15 - k) = true := by simp
  have hk2 : decide (k < k + 1) = true := by simp
  rw [hk1, hk2]
  simp only [Bool.true_and]
  by_cases hi : i < 16
  · by_cases h0 : i = 0
    · subst h0
      have : ¬ (0 ≥ 16 - k) := by omega
      simp [this]
    · have e1 : i - 1 - (15 - k) = i - (16 - k) := by omega
      rw [e1]
      by_cases hge : 16 - k ≤ i
      · have a1 : i - 1 ≥ 15 - k := by omega
        have a2 : i - (16 - k) < k + 1 := by omega
        have a3 : i - (16 - k) < k := by omega
        have a4 : 1 ≤ i := by omega
        simp only [hi, a1, a2, a3, a4, hge, ge_iff_le, decide_True, Bool.true_and]
        cases r.testBit (i - 1) <;> cases p.testBit (i - (16 - k)) <;>
          cases r.testBit 15 <;> cases p.testBit k <;> cases Nat.testBit 4129 i <;> rfl
      · have a1 : ¬ (i - 1 ≥ 15 - k) := by omega
        have a4 : 1 ≤ i := by omega
        simp only [hi, a1, a4, hge, ge_iff_le, decide_True, decide_False, Bool.true_and,
          Bool.false_and, Bool.xor_false]
  · have a1 : i ≥ 16 - k := by omega
    have a3 : ¬ (i - (16 - k) < k) := by omega
    simp [hi, a1, a3]

theorem crc16_step_lt (r : Nat) (t : Bool) : crc16_step r t < 2 ^ 16 := by
  apply Nat.lt_pow_two_of_testBit
  intro i hi
  rw [crc16_step_testBit]
  have : ¬ i < 16 := by omega
  simp [this]

/-- The inner loop of `vmu_pkg_crc`, run `k` times on a register whose high
part holds the `k` pending message bits, is the reference register fed these
bits, most significant first. -/
theorem crc_inner_pending (p : Nat) :
    ∀ (k : Nat) (r : Nat), k ≤ 16 →
      crc_inner k (r ^^^ ((p % 2 ^ k) <<< (16 - k))) = (bits_msb k p).foldl crc16_step r := by
  intro k
  induction k with
  | zero =>
    intro r _
    simp [crc_inner, bits_msb, Nat.mod_one]
  | succ k ih =>
    intro r hk
    have e : 16 - (k + 1) = 15 - k := by omega
    rw [e]
    simp only [crc_inner, bits_msb, List.foldl_cons]
    rw [crc_bit_pending r p k (by omega)]
    exact ih _ (by omega)

/-- The body of the outer loop of `vmu_pkg_crc` for the byte `b` is the
reference register fed the eight bits of `b`. -/
theorem crc_byte_eq_ref (n b : Nat) (hn : n < 2 ^ 16) :
    crc_inner 8 ((n ^^^ (b <<< 8)) % 2 ^ 16) = (bits_msb 8 b).foldl crc16_step n := by
  rw [← crc_inner_pending b 8 n (by norm_num)]
  congr 1
  apply Nat.eq_of_testBit_eq
  intro i
  simp only [Nat.testBit_mod_two_pow, Nat.testBit_xor, Nat.testBit_shiftLeft]
  by_cases hi : i < 16
  · by_cases h8 : 8 ≤ i
    · have a : i - 8 < 8 := by omega
      simp [hi, h8, a]
    · simp [hi, h8]
  · have hr : n.testBit i = false :=
      Nat.testBit_lt_two_pow (lt_of_lt_of_le hn (Nat.pow_le_pow_right (by norm_num) (by omega)))
    have a : ¬ (i - 8 < 8) := by omega
    simp [hi, hr, a]

theorem crc_loop_eq_ref (buf : List Nat) :
    ∀ (k i n : Nat), i + k ≤ buf.length → n < 2 ^ 16 →
      crc_loop buf k i n = some (((buf.drop i).take k).foldl
        (fun crc byte => (bits_msb 8 byte).foldl crc16_step crc) n) := by
  intro k
  induction k with
  | zero =>
    intro i n _ _
    simp [crc_loop]
  | succ k ih =>
    intro i n hik hn
    have hi : i < buf.length := by omega
    have e : (buf.drop i).take (k + 1) = buf[i] :: (buf.drop (i + 1)).take k := by
      rw [List.drop_eq_getElem_cons hi, List.take_succ_cons]
    simp only [crc_loop, List.getElem?_eq_getElem hi]
    rw [e, List.foldl_cons, crc_byte_eq_ref n buf[i] hn, ih (i + 1) _ (by omega) (by
      have h := crc_inner_lt 8 ((n ^^^ (buf[i] <<< 8)) % 2 ^ 16) (Nat.mod_lt _ (by norm_num))
      rw [crc_byte_eq_ref n buf[i] hn] at h
      exact h)]

/-- `vmu_pkg_crc` computes the reference CRC-16 (polynomial `0x1021`, initial
value 0, most significant bit first) of the first `size` bytes. -/
theorem vmu_pkg_crc_eq_ref (buf : List Nat) (size : Nat) (h : size ≤ buf.length) :
    vmu_pkg_crc buf size = some (crc16_ref (buf.take size)) := by
  unfold vmu_pkg_crc crc16_ref
  rw [crc_loop_eq_ref buf size 0 0 (by omega) (by norm_num)]
  simp

/-- Size and CRC validation in `vmu_pkg_parse` when the sum of the header size
and the data length does not wrap in 32 bits.  The array holds `data_size` bytes
(fewer than `2^31`), among them a header with one of the four known eyecatch
types.  With `T` the total size the header declares - 128, plus 512 for each
icon, plus the eyecatch size, plus the data length - the call returns 0 or -1,
and it returns 0 exactly when `T ≤ data_size` and the stored CRC is the
reference CRC-16 (`crc16_ref`: polynomial `0x1021`, initial value 0, most
significant bit first) of the first `T` bytes with the CRC field zeroed; when it
returns -1 the package structure is as it was. -/
theorem vmu_pkg_parse_validation (data : List Nat) (data_size : Nat) (pkg : vmu_pkg_t)
    (hb : ∀ b ∈ data, b < 256) (hl : HDR_SIZE ≤ data.length) (hs : data_size ≤ data.length)
    (h31 : data_size < 2 ^ 31)
    (hec : (rd16 data 68 : Int) = VMUPKG_EC_NONE ∨ (rd16 data 68 : Int) = VMUPKG_EC_16BIT ∨
      (rd16 data 68 : Int) = VMUPKG_EC_256COL ∨ (rd16 data 68 : Int) = VMUPKG_EC_16COL)
    (hnw : 128 + 512 * rd16 data 64 + (vmu_eyecatch_size (rd16 data 68 : Int)).toNat +
      rd32 data 72 < 2 ^ 32) :
    ∃ rv data' pkg', vmu_pkg_parse data data_size pkg = some (rv, data', pkg') ∧
      (rv = 0 ∨ rv = -1) ∧
      (rv = 0 ↔
        (128 + 512 * rd16 data 64 + (vmu_eyecatch_size (rd16 data 68 : Int)).toNat +
            rd32 data 72 ≤ data_size ∧
         ∃ z, write_at data 70 (le16 0) = some z ∧
           crc16_ref (z.take (128 + 512 * rd16 data 64 +
             (vmu_eyecatch_size (rd16 data 68 : Int)).toNat + rd32 data 72)) =
             rd16 data 70)) ∧
      (rv = -1 → pkg' = pkg) := by
  obtain ⟨⟨rv, data', pkg', hrun, h01, hiff, hpk⟩, hE0, _⟩ :=
    vmu_pkg_parse_signed_total data data_size pkg hb hl hs h31 hec
  refine ⟨rv, data', pkg', hrun, h01, ?_, hpk⟩
  rw [hiff]
  obtain ⟨E, hE⟩ : ∃ E : ℕ, vmu_eyecatch_size (rd16 data 68 : Int) = (E : Int) :=
    ⟨(vmu_eyecatch_size (rd16 data 68 : Int)).toNat, by omega⟩
  rw [hE] at hnw ⊢
  simp only [Int.toNat_ofNat] at hnw ⊢
  have h31' : data_size < 2147483648 := by norm_num at h31; exact h31
  have hnw' : 128 + 512 * rd16 data 64 + E + rd32 data 72 < 4294967296 := by
    norm_num at hnw; exact hnw
  have hH : (HDR_SIZE : Int) = 128 := rfl
  rw [hH]
  by_cases hd : rd32 data 72 < 2147483648
  · rw [to_int_small _ hd]
    have eT : ((128 : Int) + 512 * (rd16 data 64 : Int) + (E : Int) + (rd32 data 72 : Int)).toNat =
        128 + 512 * rd16 data 64 + E + rd32 data 72 := by omega
    rw [eT]
    constructor
    · rintro ⟨_, h2, z, hz, hc⟩
      have h2' : 128 + 512 * rd16 data 64 + E + rd32 data 72 ≤ data_size := by omega
      refine ⟨h2', z, hz, ?_⟩
      have hzl : z.length = data.length := (write_at_some _ _ _ _ hz).2.2
      rw [vmu_pkg_crc_eq_ref z _ (by omega)] at hc
      simpa using hc
    · rintro ⟨h2, z, hz, hc⟩
      have hzl : z.length = data.length := (write_at_some _ _ _ _ hz).2.2
      refine ⟨by omega, by omega, z, hz, ?_⟩
      rw [vmu_pkg_crc_eq_ref z _ (by omega), hc]
  · have hneg : to_int (rd32 data 72) = (rd32 data 72 : Int) - 4294967296 := by
      unfold to_int
      have hlt := rd32_lt data hb 72
      rw [if_neg (by omega)]
      omega
    rw [hneg]
    constructor
    · rintro ⟨h1, _⟩
      omega
    · rintro ⟨h2, _⟩
      omega

/-- An instance of `vmu_pkg_parse_validation`: a file of 128 zero bytes (no
icon, no eyecatch, no payload, stored CRC 0) declares 128 bytes and is
accepted. -/
theorem vmu_pkg_parse_validation_witness :
    (vmu_pkg_parse (List.replicate 128 0) 128 (vmu_pkg_t.blank 5)).map (fun r => r.1) =
      some 0 ∧
    ∃ rv data' pkg', vmu_pkg_parse (List.replicate 128 0) 128 (vmu_pkg_t.blank 5) =
        some (rv, data', pkg') ∧ (rv = 0 ∨ rv = -1) :=
  ⟨by decide!,
    (vmu_pkg_parse_validation (List.replicate 128 0) 128 (vmu_pkg_t.blank 5) (by decide!)
      (by decide!) (by decide!) (by decide!) (Or.inl (by decide!)) (by decide!)).imp
      fun _ h => h.imp fun _ h => h.imp fun _ h => ⟨h.1, h.2.1⟩⟩

/-- C24 (the code at the failing input): the 128-byte file `sample_wrapping_len`
carries a known eyecatch type (none), no icon, and declares `0xffffffff` bytes
of data, so the total size its header declares, 128 + 4294967295, exceeds
`data_size = 128`.  `vmu_pkg_parse` adds the data length to the header size in
32 bits: the sum wraps to 127, passes the size test, the CRC is checked over the
first 127 bytes only (the stored CRC is the reference CRC-16 of these with the
CRC field zeroed), and the call returns 0 with `data_len = -1` in the package.
The same header with a data length of `0x7fffffff` is rejected by the size
test. -/
theorem vmu_pkg_parse_data_len_wraps :
    sample_wrapping_len.length = 128 ∧
    (rd16 sample_wrapping_len 68 : Int) = VMUPKG_EC_NONE ∧
    rd16 sample_wrapping_len 64 = 0 ∧
    rd32 sample_wrapping_len 72 = 4294967295 ∧
    ¬ (128 + 512 * rd16 sample_wrapping_len 64 +
        (vmu_eyecatch_size (rd16 sample_wrapping_len 68 : Int)).toNat +
        rd32 sample_wrapping_len 72 ≤ 128) ∧
    vmu_pkg_parse sample_wrapping_len 128 (vmu_pkg_t.blank 0) =
      some (0, sample_wrapping_len, { vmu_pkg_t.blank 0 with data_len := -1 }) ∧
    crc16_ref ((List.replicate 72 0 ++ [255, 255, 255, 255] ++ List.replicate 52 0).take 127) =
      rd16 sample_wrapping_len 70 ∧
    (vmu_pkg_parse
        (List.replicate 70 0 ++ [0x62, 0xe6] ++ [255, 255, 255, 127] ++ List.replicate 52 0)
        128 (vmu_pkg_t.blank 0)).map (fun r => r.1) = some (-1) := by
  refine ⟨by decide!, by decide!, by decide!, by decide!, by decide!, by decide!, ?_,
    by decide!⟩
  have h1 : vmu_pkg_crc
      (List.replicate 72 0 ++ [255, 255, 255, 255] ++ List.replicate 52 0) 127 =
      some (rd16 sample_wrapping_len 70) := by decide!
  rw [vmu_pkg_crc_eq_ref _ 127 (by decide!)] at h1
  exact Option.some.inj h1

/-- C25 (the code at the failing input): `vmu_pkg_build` returns -1 for every
package whose eyecatch type is not one of the four known ones, whatever
`malloc` does.  `vmu_pkg_parse` does not: the 128-byte file
`sample_unknown_eyecatch` carries the eyecatch type 4 and is accepted - the
eyecatch size -1 is added to the header size, so the CRC is checked over 127
bytes and the payload pointer is set to the last byte of the header - and the
package it yields is refused by `vmu_pkg_build`. -/
theorem vmu_pkg_parse_unknown_eyecatch_accepted :
    (∀ (alloc : Nat → Bool) (src : vmu_pkg_t),
      src.eyecatch_type ≠ VMUPKG_EC_NONE → src.eyecatch_type ≠ VMUPKG_EC_16BIT →
      src.eyecatch_type ≠ VMUPKG_EC_256COL → src.eyecatch_type ≠ VMUPKG_EC_16COL →
      vmu_pkg_build alloc src = some (-1, none)) ∧
    rd16 sample_unknown_eyecatch 68 = 4 ∧
    vmu_eyecatch_size 4 = -1 ∧
    vmu_pkg_parse sample_unknown_eyecatch 128 (vmu_pkg_t.blank 0) =
      some (0, sample_unknown_eyecatch,
        { vmu_pkg_t.blank 0 with eyecatch_type := 4, data := [0] }) ∧
    vmu_pkg_build (fun _ => true) { vmu_pkg_t.blank 0 with eyecatch_type := 4, data := [0] } =
      some (-1, none) := by
  refine ⟨?_, by decide!, by decide, by decide!, by decide⟩
  intro alloc src h0 h1 h2 h3
  have hneg : vmu_eyecatch_size src.eyecatch_type < 0 := by
    unfold vmu_eyecatch_size
    rw [if_neg h0, if_neg h1, if_neg h2, if_neg h3]
    decide
  unfold vmu_pkg_build
  simp only []
  rw [if_pos hneg]

/-- Counterexample for C23: the package `vmu_pkg_t.blank 65536` has a known
eyecatch type and empty descriptions and application identifier; it is built
into 128 bytes and these are parsed with result 0, but the animation speed that
comes back is 0 and not 65536: the header field holds 16 bits.  And when
`malloc` fails, `vmu_pkg_build` returns -1 without an output. -/
theorem vmu_pkg_round_trip_speed_truncated :
    (vmu_pkg_t.blank 65536).eyecatch_type = VMUPKG_EC_NONE ∧
    strlen (vmu_pkg_t.blank 65536).desc_short = some 0 ∧
    strlen (vmu_pkg_t.blank 65536).desc_long = some 0 ∧
    strlen (vmu_pkg_t.blank 65536).app_id = some 0 ∧
    vmu_pkg_build (fun _ => true) (vmu_pkg_t.blank 65536) = some (0, some sample_blank_file) ∧
    sample_blank_file.length = 128 ∧
    (vmu_pkg_parse sample_blank_file 128 (vmu_pkg_t.blank 0)).map
      (fun r => (r.1, r.2.2.icon_anim_speed)) = some (0, 0) ∧
    (vmu_pkg_t.blank 65536).icon_anim_speed = 65536 ∧
    vmu_pkg_build (fun _ => false) (vmu_pkg_t.blank 0) = some (-1, none) :=
  ⟨by decide, by decide, by decide, by decide, by decide!, by decide!, by decide!, by decide,
    by decide!⟩

/-- C23 (amended): for every package whose eyecatch type is one of the four
known types, whose short and long descriptions are at most 16 and 32 characters
and whose application identifier is shorter than 16 characters, whose icon
count and animation speed fit the 16-bit header fields, whose data length is
not negative, whose total size is below 2^31, whose palette holds its 32 bytes
and whose three data areas hold the bytes to be copied: when the allocation
succeeds, `vmu_pkg_build` returns 0 and produces exactly
128 + 512*icon_cnt + eyecatch_size + data_len bytes, and `vmu_pkg_parse` on
those bytes with `data_size` equal to that length returns 0, leaves the bytes
as they are and yields the same icon count, animation speed, eyecatch type,
data length, palette, icon bitmap bytes, eyecatch bytes and payload bytes, with
the two descriptions space-padded to 16 and 32 characters and NUL-terminated,
and the application identifier NUL-padded. -/
theorem vmu_pkg_round_trip (alloc : Nat → Bool) (src pkg0 : vmu_pkg_t) (ls ll la : Nat)
    (hec : src.eyecatch_type = VMUPKG_EC_NONE ∨ src.eyecatch_type = VMUPKG_EC_16BIT ∨
      src.eyecatch_type = VMUPKG_EC_256COL ∨ src.eyecatch_type = VMUPKG_EC_16COL)
    (hs : strlen src.desc_short = some ls) (hs16 : ls ≤ 16)
    (hl : strlen src.desc_long = some ll) (hl32 : ll ≤ 32)
    (ha : strlen src.app_id = some la) (ha16 : la < 16)
    (hcnt : 0 ≤ src.icon_cnt ∧ src.icon_cnt < 65536)
    (hspd : 0 ≤ src.icon_anim_speed ∧ src.icon_anim_speed < 65536)
    (hdl : 0 ≤ src.data_len)
    (hsize : 128 + 512 * src.icon_cnt + vmu_eyecatch_size src.eyecatch_type + src.data_len <
      2 ^ 31)
    (hpal : src.icon_pal.length = 32)
    (hid : (512 * src.icon_cnt).toNat ≤ src.icon_data.length)
    (hed : (vmu_eyecatch_size src.eyecatch_type).toNat ≤ src.eyecatch_data.length)
    (hdd : src.data_len.toNat ≤ src.data.length)
    (hal : alloc (128 + 512 * src.icon_cnt + vmu_eyecatch_size src.eyecatch_type +
      src.data_len).toNat = true) :
    ∃ out pkg', vmu_pkg_build alloc src = some (0, some out) ∧
      (out.length : Int) =
        128 + 512 * src.icon_cnt + vmu_eyecatch_size src.eyecatch_type + src.data_len ∧
      vmu_pkg_parse out out.length pkg0 = some (0, out, pkg') ∧
      pkg'.icon_cnt = src.icon_cnt ∧
      pkg'.icon_anim_speed = src.icon_anim_speed ∧
      pkg'.eyecatch_type = src.eyecatch_type ∧
      pkg'.data_len = src.data_len ∧
      pkg'.icon_pal = src.icon_pal ∧
      pkg'.icon_data.take (512 * src.icon_cnt).toNat =
        src.icon_data.take (512 * src.icon_cnt).toNat ∧
      pkg'.eyecatch_data.take (vmu_eyecatch_size src.eyecatch_type).toNat =
        src.eyecatch_data.take (vmu_eyecatch_size src.eyecatch_type).toNat ∧
      pkg'.data = src.data.take src.data_len.toNat ∧
      pkg'.desc_short.take 17 = src.desc_short.take ls ++ List.replicate (16 - ls) 32 ++ [0] ∧
      pkg'.desc_long.take 33 = src.desc_long.take ll ++ List.replicate (32 - ll) 32 ++ [0] ∧
      pkg'.app_id.take 17 = src.app_id.take (la + 1) ++ List.replicate (15 - la) 0 ++ [0] := by
  obtain ⟨hc0, hc1⟩ := hcnt
  obtain ⟨hs0, hs1⟩ := hspd
  have hsl := strlen_lt _ _ hs
  have hll := strlen_lt _ _ hl
  have hal' := strlen_lt _ _ ha
  have het : 0 ≤ src.eyecatch_type ∧ src.eyecatch_type < 65536 ∧
      0 ≤ vmu_eyecatch_size src.eyecatch_type := by
    rcases hec with h | h | h | h <;> rw [h] <;> decide
  obtain ⟨he0, he1, hE0⟩ := het
  obtain ⟨cnt, hcn⟩ : ∃ cnt : ℕ, src.icon_cnt = (cnt : Int) := ⟨src.icon_cnt.toNat, by omega⟩
  obtain ⟨spd, hsp⟩ : ∃ spd : ℕ, src.icon_anim_speed = (spd : Int) :=
    ⟨src.icon_anim_speed.toNat, by omega⟩
  obtain ⟨et, hty⟩ : ∃ et : ℕ, src.eyecatch_type = (et : Int) :=
    ⟨src.eyecatch_type.toNat, by omega⟩
  obtain ⟨dl, hdn⟩ : ∃ dl : ℕ, src.data_len = (dl : Int) := ⟨src.data_len.toNat, by omega⟩
  obtain ⟨E, hE⟩ : ∃ E : ℕ, vmu_eyecatch_size src.eyecatch_type = (E : Int) :=
    ⟨(vmu_eyecatch_size src.eyecatch_type).toNat, by omega⟩
  rw [hcn, hE, hdn] at hsize hal
  rw [hcn] at hc1 hid
  rw [hsp] at hs1
  rw [hty] at he1
  rw [hE] at hed
  rw [hdn] at hdd
  have hI : to_size_t (512 * src.icon_cnt) = 512 * cnt := by
    rw [hcn, show (512 * (cnt : Int)) = ((512 * cnt : ℕ) : Int) from by push_cast; ring,
      to_size_t_cast _ (by omega)]
  have hEs : to_size_t (vmu_eyecatch_size src.eyecatch_type) = E := by
    rw [hE, to_size_t_cast _ (by omega)]
  have hD : to_size_t src.data_len = dl := by
    rw [hdn, to_size_t_cast _ (by omega)]
  have hsz : to_size_t ((HDR_SIZE : Int) + 512 * src.icon_cnt + src.data_len +
      vmu_eyecatch_size src.eyecatch_type) = 128 + 512 * cnt + E + dl := by
    rw [hcn, hdn, hE, show (HDR_SIZE : Int) + 512 * (cnt : Int) + (dl : Int) + (E : Int) =
      ((128 + 512 * cnt + E + dl : ℕ) : Int) from by unfold HDR_SIZE; push_cast; ring,
      to_size_t_cast _ (by omega)]
  have hal2 : alloc (128 + 512 * cnt + E + dl) = true := by
    rw [show (128 + 512 * (cnt : Int) + (E : Int) + (dl : Int)).toNat = 128 + 512 * cnt + E + dl
      from by omega] at hal
    exact hal
  have hfill := build_fill_eq src (vmu_eyecatch_size src.eyecatch_type) ls ll la (512 * cnt) E dl
    hs hl ha hs16 hl32 ha16 (by omega) hI hEs hD (by omega) (by omega) (by omega)
  rw [hD, List.take_of_length_le (by omega : src.icon_pal.length ≤ 32), hcn, hsp, hty,
    field16_cast _ (by omega), field16_cast _ (by omega), field16_cast _ (by omega)] at hfill
  generalize hSd : src.desc_short.take ls ++ (List.replicate (16 - ls) 32 ++
    (src.desc_long.take ll ++ (List.replicate (32 - ll) 32 ++
      (src.app_id.take (la + 1) ++ List.replicate (15 - la) 0)))) = S at hfill
  generalize hTd : src.icon_data.take (512 * cnt) ++ (src.eyecatch_data.take E ++
    src.data.take dl) = T at hfill
  have lS : S.length = 64 := by
    rw [← hSd]
    simp only [List.length_append, List.length_take, List.length_replicate]
    omega
  have lT : T.length = 512 * cnt + E + dl := by
    rw [← hTd]
    simp only [List.length_append, List.length_take]
    omega
  have lpre : (S ++ (le16 cnt ++ (le16 spd ++ (le16 et ++ (le16 0 ++ (le32 dl ++
      (List.replicate 20 0 ++ (src.icon_pal ++ T)))))))).length = 128 + 512 * cnt + E + dl := by
    simp [lS, lT, hpal, le16, le32]
    omega
  obtain ⟨crc, hcrc, hcrclt⟩ := vmu_pkg_crc_some _ (128 + 512 * cnt + E + dl) (le_of_eq lpre.symm)
  have hpar := vmu_pkg_parse_layout S (List.replicate 20 0) src.icon_pal T cnt spd et crc dl E pkg0
    lS (by simp) hpal (by omega) (by omega) (by omega) hcrclt (by rw [← hty]; exact hE) lT
    (by omega) _ _ rfl rfl hcrc
  refine ⟨_, _, ?_, ?_, hpar, ?_, ?_, ?_, ?_, ?_, ?_, ?_, ?_, ?_, ?_, ?_⟩
  · unfold vmu_pkg_build
    simp only []
    rw [if_neg (by omega), hsz, if_neg (not_not.mpr hal2), hty, hfill]
    simp only []
    rw [hcrc]
    simp only []
    rw [write_at_crc_field S _ cnt spd et 0 crc lS]
  · rw [hcn, hE, hdn]
    simp [lS, lT, hpal, le16, le32]
    omega
  · exact hcn.symm
  · exact hsp.symm
  · exact hty.symm
  · exact hdn.symm
  · rfl
  · show T.take _ = _
    rw [hcn, ← hTd, show (512 * (cnt : Int)).toNat = 512 * cnt from by omega,
      List.take_left' (by rw [List.length_take]; omega)]
  · show (T.drop _).take _ = _
    rw [hE, ← hTd, Int.toNat_ofNat, List.drop_left' (by rw [List.length_take]; omega),
      List.take_left' (by rw [List.length_take]; omega)]
  · show T.drop _ = _
    rw [hdn, ← hTd, Int.toNat_ofNat, ← List.append_assoc,
      List.drop_left' (by simp only [List.length_append, List.length_take]; omega)]
  · show (S.take 16 ++ [0] ++ _).take 17 = _
    have e : S.take 16 = src.desc_short.take ls ++ List.replicate (16 - ls) 32 := by
      rw [← hSd, ← List.append_assoc]
      exact List.take_left' (by
        simp only [List.length_append, List.length_take, List.length_replicate]
        omega)
    rw [e]
    exact List.take_left' (by
      simp only [List.length_append, List.length_take, List.length_replicate,
        List.length_cons, List.length_nil]
      omega)
  · show ((S.drop 16).take 32 ++ [0] ++ _).take 33 = _
    have e : (S.drop 16).take 32 = src.desc_long.take ll ++ List.replicate (32 - ll) 32 := by
      rw [← hSd, ← List.append_assoc, List.drop_left' (by
        simp only [List.length_append, List.length_take, List.length_replicate]
        omega), ← List.append_assoc]
      exact List.take_left' (by
        simp only [List.length_append, List.length_take, List.length_replicate]
        omega)
    rw [e]
    exact List.take_left' (by
      simp only [List.length_append, List.length_take, List.length_replicate,
        List.length_cons, List.length_nil]
      omega)
  · show ((S.drop 48).take 16 ++ [0] ++ _).take 17 = _
    have e : (S.drop 48).take 16 = src.app_id.take (la + 1) ++ List.replicate (15 - la) 0 := by
      have a : src.desc_short.take ls ++ (List.replicate (16 - ls) 32 ++
          (src.desc_long.take ll ++ (List.replicate (32 - ll) 32 ++
            (src.app_id.take (la + 1) ++ List.replicate (15 - la) 0)))) =
          (src.desc_short.take ls ++ (List.replicate (16 - ls) 32 ++
            (src.desc_long.take ll ++ List.replicate (32 - ll) 32))) ++
            (src.app_id.take (la + 1) ++ List.replicate (15 - la) 0) := by
        simp only [List.append_assoc]
      rw [← hSd, a, List.drop_left' (by
        simp only [List.length_append, List.length_take, List.length_replicate]
        omega)]
      exact List.take_of_length_le (by
        simp only [List.length_append, List.length_take, List.length_replicate]
        omega)
    rw [e]
    exact List.take_left' (by
      simp only [List.length_append, List.length_take, List.length_replicate,
        List.length_cons, List.length_nil]
      omega)

/-- Witness for C23: the package `sample_pkg` meets the hypotheses of the round
trip: it is built, the output has the stated length, and parsing the output
gives back its animation speed and its payload. -/
theorem vmu_pkg_round_trip_witness :
    (sample_pkg.eyecatch_type = VMUPKG_EC_NONE ∧ strlen sample_pkg.desc_short = some 2 ∧
      strlen sample_pkg.desc_long = some 4 ∧ strlen sample_pkg.app_id = some 1) ∧
    ∃ out pkg', vmu_pkg_build (fun _ => true) sample_pkg = some (0, some out) ∧
      (out.length : Int) = 128 + 512 * sample_pkg.icon_cnt +
        vmu_eyecatch_size sample_pkg.eyecatch_type + sample_pkg.data_len ∧
      vmu_pkg_parse out out.length (vmu_pkg_t.blank 0) = some (0, out, pkg') ∧
      pkg'.icon_anim_speed = sample_pkg.icon_anim_speed ∧
      pkg'.data = sample_pkg.data.take sample_pkg.data_len.toNat :=
  ⟨⟨by decide, by decide, by decide, by decide⟩,
    (vmu_pkg_round_trip (fun _ => true) sample_pkg (vmu_pkg_t.blank 0) 2 4 1
      (Or.inl (by decide)) (by decide) (by decide) (by decide) (by decide) (by decide)
      (by decide) (by decide) (by decide) (by decide) (by decide) (by decide) (by decide)
      (by decide) (by decide) rfl).imp
      fun _ h => h.imp fun _ h => ⟨h.1, h.2.1, h.2.2.1, h.2.2.2.2.1, h.2.2.2.2.2.2.2.2.2.2.1⟩⟩

end VmuPkg
